import Mathlib

/-! # uvgRTP H.26x payload engine: start-code scanner, NAL partitioner, FU
division, fragment reassembly; ZRTP handshake

A shallow embedding of `src/formats/h26x.cc` and of the role election, key
derivation, MAC validation and retransmission loops of `src/zrtp.cc`.

* Buffers are lists of bytes (`Fin 256`); the byte at an index outside the
  list reads as `0` and a store outside the list is dropped.
* `size_t` values are natural numbers; where the source subtracts two
  `size_t` values the embedding reduces modulo `2 ^ 64`.
* The virtual members of the codec variants (`get_payload_header_size`,
  `get_nal_header_size`, `get_fu_header_size`, `get_start_code_range`,
  `get_fragment_type`, `get_nal_type`, `construct_format_header_divide_fus`) are
  declared or defined in files that are not part of the sources, so what they
  supply is a `Codec` record that every operation receives.
* The clock is an input: every receive call is given the reading `now` (ms).
* The target is little endian (`__BYTE_ORDER == __LITTLE_ENDIAN`, the default
  chosen by the source when the macro is undefined).
* The frame queue and the hash functions are collaborators: the frame queue is
  a record of what its calls return, the hash functions are parameters
  (`crypto_env`), and the messages a ZRTP loop receives are an input sequence.
* Where `zrtp.cc` hands the bytes of a `uint32_t` object to a hash, the byte
  order of the host is a parameter.
-/

namespace H26x

/-- One octet of a buffer. -/
abbrev Byte := Fin 256

/-- The value of `data[i]`. -/
def byteAt (data : List Byte) (i : Nat) : Nat := (data.getD i 0).val

/-- The cast `(uint8_t)n`. -/
def toByte (n : Nat) : Byte := ⟨n % 256, Nat.mod_lt n (by decide)⟩

/-- Modelled from the spec: the result codes of §7 (`util.hh` is not part of
the sources). -/
inductive rtp_error_t where
  | RTP_OK
  | RTP_NOT_FOUND
  | RTP_INVALID_VALUE
  | RTP_NOT_SUPPORTED
  | RTP_TIMEOUT
  | RTP_GENERIC_ERROR
  | RTP_PKT_READY
  | RTP_MULTIPLE_PKTS_READY
deriving DecidableEq

/-- Modelled from the spec: the fragment types of §3 (`h26x.hh` is not part of
the sources). -/
inductive FRAG_TYPE where
  | FT_INVALID
  | FT_NOT_FRAG
  | FT_AGGR
  | FT_START
  | FT_MIDDLE
  | FT_END
deriving DecidableEq

/-- Modelled from the spec: the frame categories of the glossary (`h26x.hh` is
not part of the sources). -/
inductive NAL_TYPE where
  | NT_INTRA
  | NT_INTER
  | NT_OTHER
deriving DecidableEq

/-- The fields of `uvgrtp::frame::rtp_header` that the payload engine reads. -/
structure rtp_header where
  timestamp : Nat
  seq : Nat
deriving DecidableEq

/-- An `uvgrtp::frame::rtp_frame`; `payload_len` is the length of `payload`. -/
structure rtp_frame where
  header : rtp_header
  payload : List Byte
deriving DecidableEq

/-- What a codec variant supplies: the virtual size getters (all `uint8_t`),
the classification of a received frame, and the two values its
`construct_format_header_divide_fus` derives from a NAL unit (the payload
header of its FU packets and the NAL type placed in the FU header). -/
structure Codec where
  get_payload_header_size : Nat
  get_nal_header_size : Nat
  get_fu_header_size : Nat
  get_start_code_range : Nat
  get_fragment_type : rtp_frame → FRAG_TYPE
  get_nal_type : rtp_frame → NAL_TYPE
  fu_payload_header : List Byte → List Byte
  fu_nal_type : List Byte → Byte

/-- Modelled from the spec: the H.265 variant is not part of the sources. §4.5
gives a 2-byte payload header and a 1-byte FU header that carry the NAL type in
split form (bits `0x81` of byte 0 and byte 1 stay in the payload header, the six
type bits go to the FU header, bit 7 of the FU header marks the start and bit 6
the end); §4.1 describes the scan as 4-byte word analysis; the type codes 48
(aggregation), 49 (fragmentation unit), 19/20 (IDR, intra) and 1 (trailing
picture, inter) are those of RFC 7798, to which §6 binds the wire format. -/
def h265 : Codec :=
  { get_payload_header_size := 2
    get_nal_header_size := 2
    get_fu_header_size := 1
    get_start_code_range := 4
    get_fragment_type := fun frame =>
      let t := (byteAt frame.payload 0 >>> 1) &&& 0x3f
      if t = 48 then FRAG_TYPE.FT_AGGR
      else if t ≠ 49 then FRAG_TYPE.FT_NOT_FRAG
      else
        let first_frag := byteAt frame.payload 2 &&& 0x80
        let last_frag := byteAt frame.payload 2 &&& 0x40
        if first_frag ≠ 0 ∧ last_frag ≠ 0 then FRAG_TYPE.FT_INVALID
        else if first_frag ≠ 0 then FRAG_TYPE.FT_START
        else if last_frag ≠ 0 then FRAG_TYPE.FT_END
        else FRAG_TYPE.FT_MIDDLE
    get_nal_type := fun frame =>
      let t := byteAt frame.payload 2 &&& 0x3f
      if t = 19 ∨ t = 20 then NAL_TYPE.NT_INTRA
      else if t = 1 then NAL_TYPE.NT_INTER
      else NAL_TYPE.NT_OTHER
    fu_payload_header := fun data =>
      [toByte ((byteAt data 0 &&& 0x81) ||| (49 <<< 1)), data.getD 1 0]
    fu_nal_type := fun data => toByte ((byteAt data 0 >>> 1) &&& 0x3f) }

/-- Number of values of a `size_t`. -/
def SIZE_MOD : Nat := 2 ^ 64

/-- Subtraction of two `size_t` values. -/
def size_sub (a b : Nat) : Nat := (a + SIZE_MOD - b % SIZE_MOD) % SIZE_MOD

/-- The load `*(uint32_t *)(data + p)` on a little-endian machine. -/
def load32_le (data : List Byte) (p : Nat) : Nat :=
  byteAt data p + byteAt data (p + 1) * 2 ^ 8 + byteAt data (p + 2) * 2 ^ 16
    + byteAt data (p + 3) * 2 ^ 24

/-- The load `*(uint64_t *)(data + p)` on a little-endian machine. -/
def load64_le (data : List Byte) (p : Nat) : Nat :=
  load32_le data p + load32_le data (p + 4) * 2 ^ 32

/-- The macro `haszero64_le(v)`: `((v) - 0x0101010101010101) & ~(v) & 0x8080808080808080UL`
on a `uint64_t` (`~v` is `2 ^ 64 - 1 - v`). -/
def haszero64_le (v : Nat) : Nat :=
  ((v + 2 ^ 64 - 0x0101010101010101) % 2 ^ 64) &&& (2 ^ 64 - 1 - v) &&& 0x8080808080808080

/-- The macro `haszero32_le(v)`: `((v) - 0x01010101) & ~(v) & 0x80808080UL` on a
`uint32_t` (`~v` is `2 ^ 32 - 1 - v`). -/
def haszero32_le (v : Nat) : Nat :=
  ((v + 2 ^ 32 - 0x01010101) % 2 ^ 32) &&& (2 ^ 32 - 1 - v) &&& 0x80808080

/-- The word classifier `__find_h26x_start(value, additional_byte)`; the pair is
the returned code and the final `additional_byte`. -/
def __find_h26x_start (value : Nat) : Nat × Bool :=
  let u := (value >>> 16) &&& 0xffff
  let l := (value >>> 0) &&& 0xffff
  let t1 := decide (l = 0)
  let t2 := decide ((u &&& 0xff) = 0x01)
  let t3 := decide (u = 0x0100)
  let t4 := decide (((l >>> 8) &&& 0xff) = 0)
  if t1 then
    if t3 then (4, false)
    else if t2 then (5, false)
    else (0, false)
  else if t4 && t3 then (4, true)
  else (0, false)

/-- What `find_h26x_start_code` hands back: the buffer as the call leaves it,
the returned index (`-1` for not found) and the final `start_len`. -/
structure ScanResult where
  data : List Byte
  ret : Int
  start_len : Nat
deriving DecidableEq

/-- The loop-carried locals of `find_h26x_start_code` (`ptr` is always
`data + pos`). -/
structure ScanState where
  pos : Nat
  prev_z : Bool
  cur_z : Bool
  prev : Nat
  start_len : Nat
deriving DecidableEq

/-- The inner `do { ptr += 8; ... } while (!cur_z)` loop: the position of the
first following 8-byte chunk in which the zero detector fires. -/
def skip_chunks (data : List Byte) : Nat → Nat → Option Nat
  | 0, _ => none
  | fuel + 1, pos =>
    if haszero64_le (load64_le data (pos + 8)) ≠ 0 then some (pos + 8)
    else skip_chunks data fuel (pos + 8)

/-- Outcome of one pass through the body of the `while (pos + 8 < len)` loop. -/
inductive Step where
  | done (r : ScanResult)
  | next (s : ScanState)
  | stuck
deriving DecidableEq

/-- The part of the loop body from `value = *(uint32_t *)ptr` on, entered at
position `pos` with the current `cur_z`; `fin` is the code at the label `end`
and `block` the braced block that starts with the call of the classifier. -/
def examine (c : Codec) (data : List Byte) (rpos : Nat) (lb : Byte)
    (s : ScanState) (pos : Nat) (cur_z0 : Bool) : Step :=
  let value := load32_le data pos
  let cur_z := if cur_z0 then decide (haszero32_le value ≠ 0) else cur_z0
  let fin (sl : Nat) : Step :=
    Step.next { pos := pos + c.get_start_code_range, prev_z := cur_z, cur_z := cur_z,
                prev := value, start_len := sl }
  let block : Step :=
    let found := __find_h26x_start value
    if found.1 > 0 then
      let ret := if found.1 = 5 then 3 else found.1
      let sl := if found.1 = 5 then (if ((s.prev >>> 24) &&& 0xff) = 0 then 4 else 3)
                else found.1
      Step.done { data := data.set rpos lb, ret := ((pos + ret : Nat) : Int),
                  start_len := if found.2 then sl - 1 else sl }
    else
      let u := (value >>> 16) &&& 0xffff
      let l := (value >>> 0) &&& 0xffff
      let p := (s.prev >>> 16) &&& 0xffff
      let t1 := decide ((p &&& 0xffff) = 0)
      let t2 := decide (((p >>> 8) &&& 0xff) = 0)
      let t4 := decide (l = 0x0100)
      let t5 := decide (l = 0x0000) && decide (u = 0x01)
      if t1 && t4 then
        if t4 then
          Step.done { data := data.set rpos lb, ret := ((pos + 2 : Nat) : Int), start_len := 4 }
        else fin found.1
      else if t2 then
        if t5 then
          Step.done { data := data.set rpos lb, ret := ((pos + 3 : Nat) : Int), start_len := 4 }
        else if t4 then
          Step.done { data := data.set rpos lb, ret := ((pos + 2 : Nat) : Int), start_len := 3 }
        else fin found.1
      else fin found.1
  if !s.prev_z && !cur_z then fin s.start_len
  else if s.prev_z && !cur_z then
    if decide (((value >>> 0) &&& 0xff) = 0x01) && decide (((s.prev >>> 16) &&& 0xffff) = 0) then
      Step.done { data := data.set rpos lb, ret := ((pos + 1 : Nat) : Int),
                  start_len := if ((s.prev >>> 8) &&& 0xffffff) = 0 then 4 else 3 }
    else block
  else block

/-- One pass through the body of `while (pos + 8 < len)`, entered with the
loop condition true. -/
def scan_step (c : Codec) (data : List Byte) (len rpos : Nat) (lb : Byte)
    (s : ScanState) : Step :=
  let prefetch := load64_le data s.pos
  if !s.prev_z then
    if haszero64_le prefetch ≠ 0 then examine c data rpos lb s s.pos true
    else
      match skip_chunks data (data.length + 1) s.pos with
      | none => Step.stuck
      | some pos =>
        if pos + 8 ≥ len then
          Step.done { data := data.set rpos lb, ret := -1, start_len := s.start_len }
        else examine c data rpos lb s pos true
  else examine c data rpos lb s s.pos s.cur_z

/-- The `while (pos + 8 < len)` loop of `find_h26x_start_code` with the two
statements that follow it. -/
def scan_loop (c : Codec) (data : List Byte) (len rpos : Nat) (lb : Byte) :
    Nat → ScanState → Option ScanResult
  | 0, _ => none
  | fuel + 1, s =>
    if s.pos + 8 < len then
      match scan_step c data len rpos lb s with
      | Step.done r => some r
      | Step.next s1 => scan_loop c data len rpos lb fuel s1
      | Step.stuck => none
    else some { data := data.set rpos lb, ret := -1, start_len := s.start_len }

/-- The function `find_h26x_start_code(data, len, offset, start_len)`. -/
def find_h26x_start_code (c : Codec) (data : List Byte) (len offset start_len : Nat) :
    Option ScanResult :=
  let rpos := size_sub (size_sub len (len % 8)) 1
  let lb := data.getD rpos 0
  scan_loop c (data.set rpos 0) len rpos lb (len + 1)
    { pos := offset, prev_z := false, cur_z := false, prev := 0xffffffff,
      start_len := start_len }

/-- The record `nal_info` that `scl` collects for every NAL unit. -/
structure nal_info where
  offset : Nat
  prefix_len : Nat
  size : Nat
  aggregate : Bool
deriving DecidableEq

/-- The loop `while (offset > -1)` of `scl`: push a record for the current hit
and scan on from it. The result is the buffer and the vector `nals`. -/
def scl_find (c : Codec) (data_len : Nat) :
    Nat → List Byte → Int → Nat → List nal_info → Option (List Byte × List nal_info)
  | 0, _, _, _, _ => none
  | fuel + 1, data, offset, start_len, nals =>
    if offset > -1 then
      let nal : nal_info :=
        { offset := offset.toNat, prefix_len := start_len, size := 0, aggregate := false }
      match find_h26x_start_code c data data_len offset.toNat start_len with
      | none => none
      | some r => scl_find c data_len fuel r.data r.ret r.start_len (nals ++ [nal])
    else some (data, nals)

/-- The loop `for (i = 0; i < nals.size(); ++i)` of `scl` from index `i` on,
where the argument list is `nals[i ..]`: it sets `size` and `aggregate` of every
record and carries `aggregate_size` and `aggregatable_packets`. -/
def scl_sizes (data_len packet_size : Nat) :
    List nal_info → Nat → Int → List nal_info × Nat × Int
  | [], aggregate_size, aggregatable_packets => ([], aggregate_size, aggregatable_packets)
  | nal :: rest, aggregate_size, aggregatable_packets =>
    let size :=
      match rest with
      | next :: _ => size_sub (size_sub next.offset nal.offset) next.prefix_len
      | [] => size_sub data_len nal.offset
    if (aggregate_size + size + 2) % SIZE_MOD ≤ packet_size then
      let out := scl_sizes data_len packet_size rest ((aggregate_size + size + 2) % SIZE_MOD)
        (aggregatable_packets + 1)
      ({ nal with size := size, aggregate := true } :: out.1, out.2)
    else
      let out := scl_sizes data_len packet_size rest aggregate_size aggregatable_packets
      ({ nal with size := size } :: out.1, out.2)

/-- The function `scl(data, data_len, packet_size, nals, can_be_aggregated)`: the
buffer as the call leaves it, the vector `nals` and `can_be_aggregated`. -/
def scl (c : Codec) (data : List Byte) (data_len packet_size : Nat) (nals : List nal_info) :
    Option (List Byte × List nal_info × Bool) :=
  match find_h26x_start_code c data data_len 0 0 with
  | none => none
  | some r =>
    let packet_size1 := size_sub packet_size c.get_payload_header_size
    match scl_find c data_len (data_len + 1) r.data r.ret r.start_len nals with
    | none => none
    | some (data1, nals1) =>
      let out := scl_sizes data_len packet_size1 nals1 0 0
      some (data1, out.1, decide (out.2.2 ≥ 2))

/-! ### Send path: FU division -/

/-- A `buf_vec` as the frame queue sees it when a message is enqueued: the
bytes of each scatter/gather entry. -/
abbrev buf_vec := List (List Byte)

/-- Modelled from the spec: the frame queue (§6, `frame_queue.hh` is not part of
the sources). `queued` are the messages accepted so far, `results` the codes
the collaborator gives to the coming `enqueue_message` calls (`RTP_OK` once the
list is used up), `has_buffer_vector` whether `get_buffer_vector()` is non-null. -/
structure frame_queue where
  queued : List buf_vec
  results : List rtp_error_t
  has_buffer_vector : Bool
deriving DecidableEq

/-- Modelled from the spec: `fqueue_->enqueue_message(...)` either accepts the
message and returns `RTP_OK` or returns an error and queues nothing. -/
def enqueue_message (q : frame_queue) (m : buf_vec) : rtp_error_t × frame_queue :=
  match q.results with
  | [] => (rtp_error_t.RTP_OK, { q with queued := q.queued ++ [m] })
  | r :: rest =>
    if r = rtp_error_t.RTP_OK then
      (rtp_error_t.RTP_OK, { q with queued := q.queued ++ [m], results := rest })
    else (r, { q with results := rest })

/-- The three entries of the `buf_vec` used for FU packets: `buffers.at(0)` the
payload header, `buffers.at(1)` the FU header, `buffers.at(2)` the payload. -/
structure fu_buffers where
  payload_header : List Byte
  fu_header : List Byte
  payload : List Byte
deriving DecidableEq

/-- The message `fqueue_->enqueue_message(buffers)` hands over. -/
def fu_buffers.message (b : fu_buffers) : buf_vec := [b.payload_header, b.fu_header, b.payload]

/-- The function `initialize_fu_headers(nal_type, fu_headers)`. -/
def initialize_fu_headers (nal_type : Byte) : List Byte :=
  [toByte ((1 <<< 7) ||| nal_type.val), nal_type, toByte ((1 <<< 6) ||| nal_type.val)]

/-- The `while (data_left > fu_payload_size)` loop of `divide_frame_to_fus`; the
result is `ret`, `data_pos`, `data_left`, `buffers` and the frame queue. -/
def divide_loop (data fu_headers : List Byte) (fu_payload_size : Nat) :
    Nat → Nat → Nat → fu_buffers → frame_queue →
      Option (rtp_error_t × Nat × Nat × fu_buffers × frame_queue)
  | 0, _, _, _, _ => none
  | fuel + 1, data_pos, data_left, buffers, q =>
    if data_left > fu_payload_size then
      let buffers1 := { buffers with payload := (data.drop data_pos).take fu_payload_size }
      let e := enqueue_message q buffers1.message
      if e.1 ≠ rtp_error_t.RTP_OK then some (e.1, data_pos, data_left, buffers1, e.2)
      else
        divide_loop data fu_headers fu_payload_size fuel
          ((data_pos + fu_payload_size) % SIZE_MOD) (data_left - fu_payload_size)
          { buffers1 with fu_header := (fu_headers.drop 1).take buffers1.fu_header.length } e.2
    else some (rtp_error_t.RTP_OK, data_pos, data_left, buffers, q)

/-- The function `divide_frame_to_fus(data, data_left, payload_size, buffers,
fu_headers)`; the result is the return value, `data_left`, `buffers` and the
frame queue. -/
def divide_frame_to_fus (c : Codec) (data : List Byte) (data_left payload_size : Nat)
    (buffers : fu_buffers) (fu_headers : List Byte) (q : frame_queue) :
    Option (rtp_error_t × Nat × fu_buffers × frame_queue) :=
  if data_left ≤ payload_size then some (rtp_error_t.RTP_GENERIC_ERROR, data_left, buffers, q)
  else
    let fu_payload_size :=
      size_sub (size_sub payload_size c.get_payload_header_size) c.get_fu_header_size
    let data_pos := c.get_nal_header_size
    let data_left1 := size_sub data_left c.get_nal_header_size
    match divide_loop data fu_headers fu_payload_size (data_left1 + 1) data_pos data_left1
        buffers q with
    | none => none
    | some (ret, data_pos1, data_left2, buffers1, q1) =>
      if ret ≠ rtp_error_t.RTP_OK then some (ret, data_left2, buffers1, q1)
      else
        some (ret, data_left2,
          { buffers1 with
            fu_header := (fu_headers.drop 2).take buffers1.fu_header.length
            payload := (data.drop data_pos1).take data_left2 }, q1)

/-- Modelled from the spec: the virtual `construct_format_header_divide_fus` is
defined by the codec variants, which are not part of the sources. By §4.3 it
embeds the NAL header in the payload and FU headers, initialises the three FU
headers, puts the "start" header in place for the first fragment and divides. -/
def construct_format_header_divide_fus (c : Codec) (data : List Byte)
    (data_len payload_size : Nat) (q : frame_queue) :
    Option (rtp_error_t × Nat × fu_buffers × frame_queue) :=
  let fu_headers := initialize_fu_headers (c.fu_nal_type data)
  divide_frame_to_fus c data data_len payload_size
    { payload_header := c.fu_payload_header data, fu_header := fu_headers.take 1, payload := [] }
    fu_headers q

/-- The function `fu_division(data, data_len, payload_size)`. -/
def fu_division (c : Codec) (data : List Byte) (data_len payload_size : Nat)
    (q : frame_queue) : Option (rtp_error_t × frame_queue) :=
  if data_len = 0 ∨ data_len ≤ payload_size then some (rtp_error_t.RTP_GENERIC_ERROR, q)
  else if !q.has_buffer_vector then some (rtp_error_t.RTP_GENERIC_ERROR, q)
  else
    match construct_format_header_divide_fus c data data_len payload_size q with
    | none => none
    | some (ret, _, buffers, q1) =>
      if ret ≠ rtp_error_t.RTP_OK then some (ret, q1)
      else some (enqueue_message q1 buffers.message)

/-- The payload entry `buffers.at(2)` of an enqueued FU message. -/
def fu_payload (m : buf_vec) : List Byte := m.getD 2 []

/-- The FU header entry `buffers.at(1)` of an enqueued FU message. -/
def fu_header_of (m : buf_vec) : List Byte := m.getD 1 []

/-! ### Receive path -/

/-- Modelled from the spec: the flag `NO_H26X_SCL` of §6; `util.hh` is not part
of the sources, so the bit position is an assumption (the three flags are
distinct single bits). -/
def RCE_NO_H26X_SCL : Nat := 1 <<< 4

/-- Modelled from the spec: the flag `NO_H26X_INTRA_DELAY` of §6 (bit position
assumed, see `RCE_NO_H26X_SCL`). -/
def RCE_NO_H26X_INTRA_DELAY : Nat := 1 <<< 5

/-- Modelled from the spec: the flag `H26X_PREPEND_SC` of §6 (bit position
assumed, see `RCE_NO_H26X_SCL`). -/
def RCE_H26X_PREPEND_SC : Nat := 1 <<< 6

/-- Modelled from the spec: the sentinel of §3 for "sequence number not yet
observed"; `h26x.hh` is not part of the sources. Any 32-bit value above
`0xffff` behaves alike. -/
def INVALID_SEQ : Nat := 0x13371338

/-- Modelled from the spec: the sentinel for "no intra frame in progress";
`h26x.hh` is not part of the sources. -/
def INVALID_TS : Nat := 0xffffffff

/-- The constant `GARBAGE_COLLECTION_INTERVAL_MS`. -/
def GARBAGE_COLLECTION_INTERVAL_MS : Nat := 100

/-- The constant `LOST_FRAME_TIMEOUT_MS`. -/
def LOST_FRAME_TIMEOUT_MS : Nat := 500

/-- What the receive path takes from its collaborators: the configured
`rtp_ctx_->get_pkt_max_delay()` (ms) and `sizeof(uvgrtp::frame::rtp_frame)`. -/
structure recv_env where
  pkt_max_delay : Nat
  sizeof_rtp_frame : Nat
deriving DecidableEq

/-- The record `h26x_info_t` of one in-progress frame; `fragments` is the
`std::map` in key order and `temporary` the vector of fragments that arrived
before the start fragment. -/
structure h26x_info where
  sframe_time : Nat
  s_seq : Nat
  e_seq : Nat
  pkts_received : Nat
  total_size : Nat
  fragments : List (Nat × rtp_frame)
  temporary : List rtp_frame
deriving DecidableEq

/-- The members of `class h26x` that the receive path reads and writes:
`frames_` (one entry per key), `dropped_`, `queued_` and
`last_garbage_collection_`. -/
structure h26x_state where
  frames_ : List (Nat × h26x_info)
  dropped_ : List Nat
  queued_ : List rtp_frame
  last_garbage_collection_ : Nat
deriving DecidableEq

/-- A value-initialised `h26x_info_t`, what `frames_[ts]` creates for a new key. -/
def h26x_info.empty : h26x_info :=
  { sframe_time := 0, s_seq := 0, e_seq := 0, pkts_received := 0, total_size := 0,
    fragments := [], temporary := [] }

/-- The lookup `frames_.find(ts)`. -/
def frames_find (ts : Nat) (frames : List (Nat × h26x_info)) : Option h26x_info :=
  (frames.find? (fun e => e.1 = ts)).map (fun e => e.2)

/-- The store `frames_[ts] = info`. -/
def frames_set (ts : Nat) (info : h26x_info) :
    List (Nat × h26x_info) → List (Nat × h26x_info)
  | [] => [(ts, info)]
  | e :: rest => if e.1 = ts then (ts, info) :: rest else e :: frames_set ts info rest

/-- The call `frames_.erase(ts)`. -/
def frames_erase (ts : Nat) (frames : List (Nat × h26x_info)) : List (Nat × h26x_info) :=
  frames.filter (fun e => e.1 ≠ ts)

/-- The store `fragments[key] = frame` into the ordered `std::map`. -/
def fragments_set (key : Nat) (frame : rtp_frame) :
    List (Nat × rtp_frame) → List (Nat × rtp_frame)
  | [] => [(key, frame)]
  | e :: rest =>
    if key < e.1 then (key, frame) :: e :: rest
    else if key = e.1 then (key, frame) :: rest
    else e :: fragments_set key frame rest

/-- The call `dropped_.insert(ts)`. -/
def dropped_insert (ts : Nat) (dropped : List Nat) : List Nat :=
  if ts ∈ dropped then dropped else ts :: dropped

/-- A `memcpy` of `src` into `buf` at index `pos`; bytes that would land past
the end of `buf` are not stored. -/
def write_bytes (buf : List Byte) (pos : Nat) (src : List Byte) : List Byte :=
  buf.take pos ++ src.take (buf.length - pos) ++ buf.drop (pos + src.length)

/-- The `n` bytes at `src + off` that a `memcpy` reads; a copy that runs past
the end of its source takes only the bytes that exist. -/
def read_bytes (src : List Byte) (off n : Nat) : List Byte := (src.drop off).take n

/-- The function `allocate_rtp_frame_with_startcode(add_start_code, header,
payload_size_without_startcode, fptr)`: the new frame (fresh bytes read as 0)
and the updated `fptr`. -/
def allocate_rtp_frame_with_startcode (add_start_code : Bool) (header : rtp_header)
    (payload_size_without_startcode fptr : Nat) : rtp_frame × Nat :=
  if add_start_code then
    ({ header := header,
       payload := write_bytes (List.replicate (payload_size_without_startcode + 4) 0) 0
         [0, 0, 0, 1] }, fptr + 4)
  else ({ header := header, payload := List.replicate payload_size_without_startcode 0 }, fptr)

/-- The function `prepend_start_code(flags, out)`. -/
def prepend_start_code (flags : Nat) (frame : rtp_frame) : rtp_frame :=
  if flags &&& RCE_H26X_PREPEND_SC ≠ 0 then
    { frame with payload := [0, 0, 0, 1] ++ frame.payload }
  else frame

/-- The function `calculate_expected_fus(ts)` on the entry `frames_[ts]`. -/
def calculate_expected_fus (info : h26x_info) : Nat :=
  if info.s_seq = INVALID_SEQ ∨ info.e_seq = INVALID_SEQ then 0
  else if info.s_seq > info.e_seq then (size_sub 0xffff info.s_seq + info.e_seq + 2) % SIZE_MOD
  else (info.e_seq - info.s_seq + 1) % SIZE_MOD

/-- The function `drop_frame(ts)`: the returned byte count and the new state;
`none` when `frames_.at(ts)` throws because `ts` has no entry. -/
def drop_frame (env : recv_env) (ts : Nat) (st : h26x_state) : Option (Nat × h26x_state) :=
  match frames_find ts st.frames_ with
  | none => none
  | some info =>
    let cleaned_fragments := info.fragments.foldl
      (fun total fragment => (total + fragment.2.payload.length + env.sizeof_rtp_frame) % 2 ^ 32) 0
    let total_cleaned := info.temporary.foldl
      (fun total temporary => (total + temporary.payload.length + env.sizeof_rtp_frame) % 2 ^ 32)
      cleaned_fragments
    some (total_cleaned,
      { st with frames_ := frames_erase ts st.frames_, dropped_ := dropped_insert ts st.dropped_ })

/-- The loop `for (auto& old_frame : to_remove)` of `garbage_collect_lost_frames`. -/
def drop_frames (env : recv_env) : List Nat → Nat → h26x_state → Option (Nat × h26x_state)
  | [], total_cleaned, st => some (total_cleaned, st)
  | old_frame :: rest, total_cleaned, st =>
    match drop_frame env old_frame st with
    | none => none
    | some (cleaned, st1) => drop_frames env rest ((total_cleaned + cleaned) % 2 ^ 32) st1

/-- The function `garbage_collect_lost_frames()` at clock reading `now`. -/
def garbage_collect_lost_frames (env : recv_env) (now : Nat) (st : h26x_state) :
    Option h26x_state :=
  if now - st.last_garbage_collection_ ≥ GARBAGE_COLLECTION_INTERVAL_MS then
    let to_remove := (st.frames_.filter (fun gc_frame => now - gc_frame.2.sframe_time > LOST_FRAME_TIMEOUT_MS)).map
      (fun gc_frame => gc_frame.1)
    match drop_frames env to_remove 0 st with
    | none => none
    | some (_, st1) => some { st1 with last_garbage_collection_ := now }
  else some st

/-- The function `initialize_new_fragmented_frame(ts)` at clock reading `now`. -/
def initialize_new_fragmented_frame (now ts : Nat) (st : h26x_state) : h26x_state :=
  let info := (frames_find ts st.frames_).getD h26x_info.empty
  let info1 : h26x_info :=
    { info with s_seq := INVALID_SEQ, e_seq := INVALID_SEQ, sframe_time := now,
                total_size := 0, pkts_received := 0 }
  { st with frames_ := frames_set ts info1 st.frames_ }

/-- The function `is_frame_late(hinfo, max_delay)` at clock reading `now`. -/
def is_frame_late (now : Nat) (hinfo : h26x_info) (max_delay : Nat) : Bool :=
  decide (now - hinfo.sframe_time ≥ max_delay)

/-- The function `get_nal_header_from_fu_headers(fptr, frame_payload,
complete_payload)`: the completed payload after the `memcpy`. -/
def get_nal_header_from_fu_headers (c : Codec) (fptr : Nat) (frame_payload : List Byte)
    (complete_payload : List Byte) : List Byte :=
  let payload_header : List Byte :=
    [toByte ((byteAt frame_payload 0 &&& 0x81) ||| ((byteAt frame_payload 2 &&& 0x3f) <<< 1)),
     toByte (byteAt frame_payload 1)]
  write_bytes complete_payload fptr (payload_header.take c.get_payload_header_size)

/-- The first loop of `handle_aggregation_packet` from index `i` with the
running `size`: the `(length, index)` pairs pushed to `nalus`, or the error. -/
def aggregation_scan (payload : List Byte) :
    Nat → Nat → Nat → List (Nat × Nat) → Option (rtp_error_t × List (Nat × Nat))
  | 0, _, _, _ => none
  | fuel + 1, i, size, nalus =>
    if i < payload.length then
      let packet_size := byteAt payload i * 256 + byteAt payload (i + 1)
      let size1 := (size + packet_size) % SIZE_MOD
      if size1 ≤ payload.length then
        aggregation_scan payload fuel ((i + packet_size + 2) % SIZE_MOD) size1
          (nalus ++ [(packet_size, i + 2)])
      else some (rtp_error_t.RTP_GENERIC_ERROR, nalus)
    else some (rtp_error_t.RTP_OK, nalus)

/-- The function `handle_aggregation_packet(out, payload_header_size, flags)`. -/
def handle_aggregation_packet (frame : rtp_frame) (payload_header_size flags : Nat)
    (st : h26x_state) : Option (rtp_error_t × h26x_state) :=
  match aggregation_scan frame.payload (frame.payload.length + 1) payload_header_size 0 [] with
  | none => none
  | some (ret, nalus) =>
    if ret ≠ rtp_error_t.RTP_OK then some (ret, st)
    else
      let frames := nalus.map (fun nalu =>
        let a := allocate_rtp_frame_with_startcode (decide (flags ≠ 0)) frame.header nalu.1 0
        { a.1 with payload := write_bytes a.1.payload a.2 (read_bytes frame.payload nalu.2 nalu.1) })
      some (rtp_error_t.RTP_MULTIPLE_PKTS_READY, { st with queued_ := st.queued_ ++ frames })

/-- Lines 681-724 of `packet_handler`: what the arrival of the fragment `frame`
of type `frag_type` does to the entry `frames_[c_ts]`. -/
def fragment_update (c : Codec) (frag_type : FRAG_TYPE) (frame : rtp_frame)
    (info : h26x_info) : h26x_info :=
  let sizeof_fu_headers := c.get_payload_header_size + c.get_fu_header_size
  let c_seq := frame.header.seq
  let info1 : h26x_info :=
    { info with
      pkts_received := (info.pkts_received + 1) % SIZE_MOD,
      total_size :=
        (info.total_size + size_sub frame.payload.length sizeof_fu_headers) % SIZE_MOD }
  let info2 : h26x_info :=
    if frag_type = FRAG_TYPE.FT_START then
      { info1 with
        s_seq := c_seq,
        fragments := (info1.temporary.foldl
          (fun fragments fragment =>
            fragments_set
              (if c_seq > fragment.header.seq then 0x10000 + fragment.header.seq
               else fragment.header.seq)
              fragment fragments)
          (fragments_set c_seq frame info1.fragments)),
        temporary := [] }
    else info1
  let info3 : h26x_info :=
    if frag_type = FRAG_TYPE.FT_END then { info2 with e_seq := c_seq } else info2
  if frag_type ≠ FRAG_TYPE.FT_START then
    if info3.s_seq ≠ INVALID_SEQ then
      { info3 with fragments :=
          (fragments_set (if info3.s_seq > c_seq then 0x10000 + c_seq else c_seq) frame
            info3.fragments) }
    else { info3 with temporary := info3.temporary ++ [frame] }
  else info3

/-- Lines 740-757 of `packet_handler`: the frame built from the fragments of a
complete entry; `frame` is the fragment that has just arrived. -/
def reconstruct_frame (c : Codec) (flags : Nat) (frame : rtp_frame) (info : h26x_info) :
    rtp_frame :=
  let sizeof_fu_headers := c.get_payload_header_size + c.get_fu_header_size
  let a := allocate_rtp_frame_with_startcode (decide (flags &&& RCE_H26X_PREPEND_SC ≠ 0))
    frame.header ((c.get_nal_header_size + info.total_size) % SIZE_MOD) 0
  let payload0 := get_nal_header_from_fu_headers c a.2 frame.payload a.1.payload
  let copied := info.fragments.foldl
    (fun (acc : List Byte × Nat) fragment =>
      (write_bytes acc.1 acc.2
          (read_bytes fragment.2.payload sizeof_fu_headers
            (size_sub fragment.2.payload.length sizeof_fu_headers)),
        acc.2 + size_sub fragment.2.payload.length sizeof_fu_headers))
    (payload0, a.2 + c.get_nal_header_size)
  { a.1 with payload := copied.1 }

/-- The function `packet_handler(flags, out)` at clock reading `now`: the
return value, the frame `*out` points to afterwards (`none` for `nullptr`) and
the new state. -/
def packet_handler (c : Codec) (env : recv_env) (now flags : Nat) (frame : rtp_frame)
    (st : h26x_state) : Option (rtp_error_t × Option rtp_frame × h26x_state) :=
  let enable_idelay := decide (flags &&& RCE_NO_H26X_INTRA_DELAY = 0)
  let intra0 := INVALID_TS
  let frag_type := c.get_fragment_type frame
  if frag_type = FRAG_TYPE.FT_AGGR then
    (handle_aggregation_packet frame c.get_payload_header_size flags st).map
      (fun r => (r.1, some frame, r.2))
  else if frag_type = FRAG_TYPE.FT_NOT_FRAG then
    some (rtp_error_t.RTP_PKT_READY, some (prepend_start_code flags frame), st)
  else if frag_type = FRAG_TYPE.FT_INVALID then
    some (rtp_error_t.RTP_GENERIC_ERROR, none, st)
  else
    let c_ts := frame.header.timestamp
    let nal_type := c.get_nal_type frame
    let is_new := (frames_find c_ts st.frames_).isNone
    if is_new && decide (c_ts ∈ st.dropped_) then
      some (rtp_error_t.RTP_GENERIC_ERROR, some frame, st)
    else
      let opened : Option (Nat × h26x_state) :=
        if is_new then
          if nal_type = NAL_TYPE.NT_INTRA then
            if intra0 ≠ INVALID_TS ∧ enable_idelay = true then
              (drop_frame env intra0 st).map
                (fun r => (c_ts, initialize_new_fragmented_frame now c_ts r.2))
            else some (c_ts, initialize_new_fragmented_frame now c_ts st)
          else some (intra0, initialize_new_fragmented_frame now c_ts st)
        else some (intra0, st)
      match opened with
      | none => none
      | some (intra, st1) =>
        let info := fragment_update c frag_type frame
          ((frames_find c_ts st1.frames_).getD h26x_info.empty)
        let st2 := { st1 with frames_ := frames_set c_ts info st1.frames_ }
        if info.s_seq ≠ INVALID_SEQ ∧ info.e_seq ≠ INVALID_SEQ
            ∧ calculate_expected_fus info = info.pkts_received then
          -- the assignment `intra = INVALID_TS` of line 760 sets a local that is never read again
          if nal_type = NAL_TYPE.NT_INTER ∧ intra ≠ INVALID_TS ∧ enable_idelay = true then
            (drop_frame env c_ts st2).map (fun r => (rtp_error_t.RTP_OK, some frame, r.2))
          else
            some (rtp_error_t.RTP_PKT_READY, some (reconstruct_frame c flags frame info),
              { st2 with frames_ := frames_erase c_ts st2.frames_ })
        else
          let late : Option h26x_state :=
            if is_frame_late now info env.pkt_max_delay = true then
              if nal_type ≠ NAL_TYPE.NT_INTRA
                  ∨ (nal_type = NAL_TYPE.NT_INTRA ∧ enable_idelay = false) then
                (drop_frame env c_ts st2).map (fun r => r.2)
              else some st2
            else some st2
          match late with
          | none => none
          | some st3 =>
            (garbage_collect_lost_frames env now st3).map
              (fun st4 => (rtp_error_t.RTP_OK, some frame, st4))

/-- The reassembler before any packet has arrived, created at clock reading
`now`. -/
def h26x_state.init (now : Nat) : h26x_state :=
  { frames_ := [], dropped_ := [], queued_ := [], last_garbage_collection_ := now }

/-- Feed the packets to `packet_handler` one after the other, each with the
clock reading at its arrival; the result lists what each call returned. -/
def handle_packets (c : Codec) (env : recv_env) (flags : Nat) :
    List (Nat × rtp_frame) → h26x_state →
      Option (List (rtp_error_t × Option rtp_frame) × h26x_state)
  | [], st => some ([], st)
  | (now, frame) :: rest, st =>
    match packet_handler c env now flags frame st with
    | none => none
    | some (ret, out, st1) =>
      (handle_packets c env flags rest st1).map (fun r => ((ret, out) :: r.1, r.2))

/-- Modelled from the spec: the frame queue and the socket are not part of the
sources. Each queued message leaves as one RTP packet whose payload is the
concatenation of the entries of the message; the packets of one frame share the
timestamp `ts` and carry consecutive 16-bit sequence numbers from `seq` on. -/
def rtp_packets (ts : Nat) : Nat → List buf_vec → List rtp_frame
  | _, [] => []
  | seq, m :: rest =>
    { header := { timestamp := ts, seq := seq % 65536 }, payload := m.flatten }
      :: rtp_packets ts (seq + 1) rest

/-- The packets `frames` with their arrival times: the `i`-th packet of the
list arrives at clock reading `time i`, counted from `i`. -/
def arrivals (time : Nat → Nat) : Nat → List rtp_frame → List (Nat × rtp_frame)
  | _, [] => []
  | i, frame :: rest => (time i, frame) :: arrivals time (i + 1) rest

/-- What the loop knows about `prev` on entry to the word at `pos` of the
scanned buffer `d`: with `prev_z` set it is the word four bytes back, otherwise
it holds no zero byte and neither does the byte before `pos`. -/
def PrevOK (d : List Byte) (offset pos : Nat) (pz : Bool) (prev : Nat) : Prop :=
  offset ≤ pos ∧ prev < 2 ^ 32 ∧
  (pz = true → offset + 4 ≤ pos ∧ prev = load32_le d (pos - 4)) ∧
  (pz = false →
    (prev % 256 ≠ 0 ∧ prev / 2 ^ 8 % 256 ≠ 0 ∧ prev / 2 ^ 16 % 256 ≠ 0
      ∧ prev / 2 ^ 24 % 256 ≠ 0) ∧
    (offset < pos → byteAt d (pos - 1) ≠ 0))

/-- The result `r` reports a start code of the buffer `d` at or after
`offset`: `d[j], d[j+1], d[j+2]` are `00 00 01`, the returned index is `j + 3`,
and `start_len` is 4 exactly when `j > offset` and `d[j-1]` is `00`. -/
def Hit (d : List Byte) (offset : Nat) (r : ScanResult) : Prop :=
  ∃ j : Nat, r.ret = ((j + 3 : Nat) : Int) ∧ offset ≤ j ∧
    byteAt d j = 0 ∧ byteAt d (j + 1) = 0 ∧ byteAt d (j + 2) = 1 ∧
    (r.start_len = 3 ∨ r.start_len = 4) ∧
    (r.start_len = 4 ↔ (offset < j ∧ byteAt d (j - 1) = 0))

/-- The loop invariant of `find_h26x_start_code` on the scanned buffer `d`. -/
def ScanInv (d : List Byte) (offset : Nat) (s : ScanState) : Prop :=
  PrevOK d offset s.pos s.prev_z s.prev ∧ s.cur_z = s.prev_z

/-- The step either returns with the buffer `dset` or leaves the loop state
`(pos1, z, z, v, _)`. -/
def StepShape (dset : List Byte) (pos1 : Nat) (z : Bool) (v : Nat) (st : Step) : Prop :=
  (∃ sl, st = Step.next { pos := pos1, prev_z := z, cur_z := z, prev := v, start_len := sl })
    ∨ (∃ r, st = Step.done r ∧ r.data = dset)

def sentinel_hit_buffer : List Byte :=
  [0xAA, 0xAA, 0, 0, 0, 1, 0, 7, 1, 0xBB, 0xBB, 0xBB, 0xBB, 0xBB, 0xBB]

def missed_start_code_buffer : List Byte :=
  [0xAA, 0xAA, 0, 0, 1, 0x41, 0, 0xAA, 0xAA, 0xAA, 0xAA, 0xAA, 0xAA, 0xAA, 0xAA, 0xAA]

def offset_one_buffer : List Byte :=
  [0, 0, 0, 1, 0xAA, 0xAA, 0xAA, 0xAA, 0xAA, 0xAA, 0xAA, 0xAA, 0xAA, 0xAA, 0xAA, 0xAA]

/-- Two consecutive records collected by `scl_find`. -/
def HitRel (data_len : Nat) (a b : nal_info) : Prop :=
  a.offset + b.prefix_len ≤ b.offset ∧ 3 ≤ b.prefix_len ∧ b.offset < data_len ∧
    b.aggregate = false

/-- The size equation between two consecutive records of `scl`. -/
def Tile (x y : nal_info) : Prop := x.offset + x.size + y.prefix_len = y.offset

/-- The greedy marking in the words of the spec: visit the sizes in order with a
running total `T`; a record is marked iff `T + size + 2 ≤ B`, and then `T` grows
by `size + 2`. -/
def greedy_marks (B : Nat) : List Nat → Nat → List Bool
  | [], _ => []
  | size :: rest, T =>
    if T + size + 2 ≤ B then true :: greedy_marks B rest (T + size + 2)
    else false :: greedy_marks B rest T

/-- Sum of `size + 2` over the records marked for aggregation. -/
def marked_total (nals : List nal_info) : Nat :=
  ((nals.filter (fun n => n.aggregate)).map (fun n => n.size + 2)).sum

/-- The buffer `00 00 00 01 AA 00 00 01 BB CC` of the spec's two-NAL scenario. -/
def two_nal_buffer : List Byte := [0, 0, 0, 1, 0xAA, 0, 0, 1, 0xBB, 0xCC]

/-- A 20-byte buffer with the NAL units `AA` and `BB CC 01 .. 0A`. -/
def two_nal_long_buffer : List Byte :=
  [0, 0, 0, 1, 0xAA, 0, 0, 1, 0xBB, 0xCC, 1, 2, 3, 4, 5, 6, 7, 8, 9, 10]

/-- The slices FU division cuts from the bytes that follow the NAL header: full
slices of `F` bytes while more than `F` bytes are left, then the rest. -/
def fu_chunks (F : Nat) : Nat → List Byte → List (List Byte)
  | 0, bytes => [bytes]
  | fuel + 1, bytes =>
    if bytes.length > F then bytes.take F :: fu_chunks F fuel (bytes.drop F) else [bytes]

/-- The FU messages for the slices `Xs` when the slice in front of them was sent
with another header: middle headers, and the end header on the last one. -/
def fu_tail (ph mid end_ : List Byte) : List (List Byte) → List buf_vec
  | [] => []
  | [x] => [[ph, end_, x]]
  | x :: y :: rest => [ph, mid, x] :: fu_tail ph mid end_ (y :: rest)

/-- The FU messages for the slices `Xs` of one NAL unit: the header `first` on
the first slice when others follow, then `fu_tail`. -/
def fu_messages (ph first mid end_ : List Byte) : List (List Byte) → List buf_vec
  | [] => []
  | [x] => [[ph, end_, x]]
  | x :: y :: rest => [ph, first, x] :: fu_tail ph mid end_ (y :: rest)

/-- A 10-byte H.265 NAL unit: header `26 01` (type 19) and the bytes 1..8. -/
def sample_nal : List Byte := [0x26, 0x01, 1, 2, 3, 4, 5, 6, 7, 8]

/-- A frame queue that holds nothing and accepts every message. -/
def empty_frame_queue : frame_queue := { queued := [], results := [], has_buffer_vector := true }

/-- The fragments `fs` keyed with consecutive keys from `k` on, as the ordered
fragment map holds them. -/
def keyed (k : Nat) : List rtp_frame → List (Nat × rtp_frame)
  | [] => []
  | f :: rest => (k, f) :: keyed (k + 1) rest

/-- Sum of the payload lengths of `fs` without payload header and FU header. -/
def stripped_total (c : Codec) (fs : List rtp_frame) : Nat :=
  (fs.map (fun f => f.payload.length
    - (c.get_payload_header_size + c.get_fu_header_size))).sum

/-- The entry of a frame opened at clock reading `t0` whose start fragment
(sequence number `s`) and the fragments `fs` that follow it in sequence have
arrived (`fs` includes the start fragment), the end fragment not yet. -/
def in_order_info (c : Codec) (t0 s : Nat) (fs : List rtp_frame) : h26x_info :=
  { sframe_time := t0, s_seq := s, e_seq := INVALID_SEQ, pkts_received := fs.length,
    total_size := stripped_total c fs, fragments := keyed s fs, temporary := [] }

/-- The reassembler holds exactly one in-progress frame, for timestamp `ts`,
with the entry `in_order_info c t0 s fs`; nothing is dropped or queued. -/
def InProgress (c : Codec) (ts t0 s : Nat) (fs : List rtp_frame) (st : h26x_state) : Prop :=
  st.frames_ = [(ts, in_order_info c t0 s fs)] ∧ st.dropped_ = [] ∧ st.queued_ = []

/-- The entry of a frame all of whose fragments `fs` have arrived in sequence,
the last of them the end fragment with sequence number `e`. -/
def complete_info (c : Codec) (t0 s e : Nat) (fs : List rtp_frame) : h26x_info :=
  { sframe_time := t0, s_seq := s, e_seq := e, pkts_received := fs.length,
    total_size := stripped_total c fs, fragments := keyed s fs, temporary := [] }

/-- The frames handed to the caller: `*out` of each call that returned
`RTP_PKT_READY`. -/
def delivered (rs : List (rtp_error_t × Option rtp_frame)) : List rtp_frame :=
  rs.filterMap (fun r => if r.1 = rtp_error_t.RTP_PKT_READY then r.2 else none)

/-- Send then receive: `fu_division` of `nal` with payload size `M` into an
empty queue that accepts every message, the queued messages sent as RTP packets
with timestamp `ts` and sequence numbers from `s`, the packets given in order
to a fresh reassembler, the `i`-th at clock reading `time i`. The result is the
list of frames handed to the caller; `none` when a call does not return. -/
def fu_round_trip (c : Codec) (env : recv_env) (flags ts s : Nat) (time : Nat → Nat)
    (nal : List Byte) (M : Nat) : Option (List rtp_frame) :=
  (fu_division c nal nal.length M empty_frame_queue).bind (fun r =>
    if r.1 = rtp_error_t.RTP_OK then
      (handle_packets c env flags (arrivals time 0 (rtp_packets ts s r.2.queued))
        (h26x_state.init (time 0))).map (fun out => delivered out.1)
    else none)

/-- An entry whose sequence numbers wrap: first fragment 65534, last fragment 0
(the three fragments 65534, 65535, 0). -/
def wrap_info : h26x_info := { h26x_info.empty with s_seq := 65534, e_seq := 0 }

/-- An entry that spans all sequence numbers: first fragment 0, last 65535. -/
def full_range_info : h26x_info := { h26x_info.empty with s_seq := 0, e_seq := 65535 }

/-- The bytes of an aggregation payload behind the payload header: every unit
is its length as a 16-bit big-endian number followed by its bytes. -/
def aggregation_body (units : List (List Byte)) : List Byte :=
  (units.map (fun u => [toByte (u.length / 256), toByte (u.length % 256)] ++ u)).flatten

/-- The `(length, index)` pairs of the units of an aggregation body that starts
at index `i` of the payload. -/
def aggregation_positions : Nat → List (List Byte) → List (Nat × Nat)
  | _, [] => []
  | i, u :: rest => (u.length, i + 2) :: aggregation_positions (i + u.length + 2) rest

/-- The bytes `allocate_rtp_frame_with_startcode` puts in front of a NAL unit
when `add_start_code` is set. -/
def start_code_if (add_start_code : Bool) : List Byte :=
  if add_start_code then [0, 0, 0, 1] else []

/-- What `initialize_new_fragmented_frame` stores for a timestamp that had no
entry, at clock reading `now`. -/
def fresh_info (now : Nat) : h26x_info :=
  { h26x_info.empty with s_seq := INVALID_SEQ, e_seq := INVALID_SEQ, sframe_time := now }

/-- The test of lines 727-731 of `packet_handler`: first and last sequence
number known and as many fragments received as expected. -/
def is_complete (info : h26x_info) : Bool :=
  decide (info.s_seq ≠ INVALID_SEQ ∧ info.e_seq ≠ INVALID_SEQ
    ∧ calculate_expected_fus info = info.pkts_received)

/-- The keys of `frames_` are pairwise different, as in a `std::map`. -/
def keys_nodup (st : h26x_state) : Prop := (st.frames_.map Prod.fst).Nodup

/-- The frames `garbage_collect_lost_frames` removes at clock reading `now`. -/
def gc_removes (now : Nat) (st : h26x_state) (e : Nat × h26x_info) : Bool :=
  decide (now - st.last_garbage_collection_ ≥ GARBAGE_COLLECTION_INTERVAL_MS
    ∧ now - e.2.sframe_time > LOST_FRAME_TIMEOUT_MS)

/-- The key under which `packet_handler` files a fragment with sequence number
`seq` of a frame whose first sequence number is `s` (lines 689 and 718). -/
def frag_key (s seq : Nat) : Nat := if s > seq then 0x10000 + seq else seq

/-- A fragment paired with the key it is filed under. -/
def with_key (s : Nat) (f : rtp_frame) : Nat × rtp_frame := (frag_key s f.header.seq, f)

/-- The fragments `f0 :: (mids ++ [fe])` are the FU packets of one NAL unit in
sending order: a start fragment, middle fragments and an end fragment, at most
65536 of them, with timestamp `ts` and consecutive 16-bit sequence numbers from
`s`; each is at least as long as payload header plus FU header, and the sizes
fit in a `size_t`. -/
def FragSet (c : Codec) (ts s : Nat) (f0 : rtp_frame) (mids : List rtp_frame)
    (fe : rtp_frame) : Prop :=
  s < 65536 ∧ mids.length + 2 ≤ 65536 ∧
  c.get_fragment_type f0 = FRAG_TYPE.FT_START ∧
  (∀ m ∈ mids, c.get_fragment_type m = FRAG_TYPE.FT_MIDDLE) ∧
  c.get_fragment_type fe = FRAG_TYPE.FT_END ∧
  (∀ p ∈ keyed s (f0 :: (mids ++ [fe])),
    p.2.header.timestamp = ts ∧ p.2.header.seq = p.1 % 65536 ∧
    c.get_payload_header_size + c.get_fu_header_size ≤ p.2.payload.length ∧
    p.2.payload.length < 2 ^ 64) ∧
  c.get_nal_header_size + stripped_total c (f0 :: (mids ++ [fe])) < 2 ^ 64

/-- The entry of a frame after the fragments `arrived` (pairwise different
fragments of `f0 :: (mids ++ [fe])`, in arrival order) have been received,
the first of them at clock reading `t0`. -/
def EntryInv (c : Codec) (s : Nat) (f0 : rtp_frame) (mids : List rtp_frame) (fe : rtp_frame)
    (t0 : Nat) (arrived : List rtp_frame) (info : h26x_info) : Prop :=
  info.sframe_time = t0 ∧ info.pkts_received = arrived.length ∧
  info.total_size = stripped_total c arrived ∧
  info.s_seq = (if f0 ∈ arrived then s else INVALID_SEQ) ∧
  info.e_seq = (if fe ∈ arrived then fe.header.seq else INVALID_SEQ) ∧
  (f0 ∈ arrived → info.temporary = [] ∧
    info.fragments.Sublist (keyed s (f0 :: (mids ++ [fe]))) ∧
    ∀ p, p ∈ info.fragments ↔ ∃ f ∈ arrived, p = with_key s f) ∧
  (f0 ∉ arrived → info.fragments = [] ∧ info.temporary = arrived)

/-- The bytes `get_nal_header_from_fu_headers` copies from the FU packet
`payload`. -/
def nal_header_of (c : Codec) (payload : List Byte) : List Byte :=
  [toByte ((byteAt payload 0 &&& 0x81) ||| ((byteAt payload 2 &&& 0x3f) <<< 1)),
    toByte (byteAt payload 1)].take c.get_payload_header_size

/-- A fragment's payload without payload header and FU header. -/
def stripped (c : Codec) (f : rtp_frame) : List Byte :=
  f.payload.drop (c.get_payload_header_size + c.get_fu_header_size)

/-- The reassembler has received the fragments `arrived` of the set (the
`i`-th arrival at clock reading `time i`) and holds them in the entry of `ts`;
for `arrived = []` the timestamp may have no entry yet. -/
def Receiving (c : Codec) (ts s : Nat) (f0 : rtp_frame) (mids : List rtp_frame)
    (fe : rtp_frame) (time : Nat → Nat) (arrived : List rtp_frame) (st : h26x_state) : Prop :=
  keys_nodup st ∧ ts ∉ st.dropped_ ∧
  EntryInv c s f0 mids fe (time 0) arrived
    ((frames_find ts st.frames_).getD (fresh_info (time arrived.length)))

/-- The start fragment of the sample frame: H.265 FU packet (payload header
`62 01`, FU header `93`: start bit, NAL type 19) with timestamp 9000, sequence
number 100 and the bytes `01 02`. -/
def sample_start : rtp_frame :=
  { header := { timestamp := 9000, seq := 100 }, payload := [0x62, 0x01, 0x93, 1, 2] }

/-- The middle fragment of the sample frame: sequence number 101, FU header
`13`, bytes `03 04`. -/
def sample_middle : rtp_frame :=
  { header := { timestamp := 9000, seq := 101 }, payload := [0x62, 0x01, 0x13, 3, 4] }

/-- The end fragment of the sample frame: sequence number 102, FU header `53`
(end bit), byte `05`. -/
def sample_end : rtp_frame :=
  { header := { timestamp := 9000, seq := 102 }, payload := [0x62, 0x01, 0x53, 5] }

/-- The clock readings of the examples: every packet arrives at reading 0. -/
def sample_time : Nat → Nat := fun _ => 0

/-- The receive environment of the examples: maximum delay 100 ms. -/
def sample_env : recv_env := { pkt_max_delay := 100, sizeof_rtp_frame := 0 }

/-- The sample start fragment carried on sequence number 65534. -/
def wrap_start : rtp_frame :=
  { header := { timestamp := 9000, seq := 65534 }, payload := [0x62, 0x01, 0x93, 1, 2] }

/-- The sample middle fragment carried on sequence number 65535. -/
def wrap_middle : rtp_frame :=
  { header := { timestamp := 9000, seq := 65535 }, payload := [0x62, 0x01, 0x13, 3, 4] }

/-- The sample end fragment carried on sequence number 0. -/
def wrap_end : rtp_frame :=
  { header := { timestamp := 9000, seq := 0 }, payload := [0x62, 0x01, 0x53, 5] }

/-- The start fragment of an intra frame (NAL type 19) with timestamp 1000. -/
def intra_start : rtp_frame :=
  { header := { timestamp := 1000, seq := 10 }, payload := [0x62, 0x01, 0x93, 1, 2] }

/-- The end fragment of the intra frame with timestamp 1000. -/
def intra_end : rtp_frame :=
  { header := { timestamp := 1000, seq := 11 }, payload := [0x62, 0x01, 0x53, 3] }

/-- The start fragment of an inter frame (NAL type 1) with timestamp 2000. -/
def inter_start : rtp_frame :=
  { header := { timestamp := 2000, seq := 20 }, payload := [0x62, 0x01, 0x81, 7] }

/-- The end fragment of the inter frame with timestamp 2000. -/
def inter_end : rtp_frame :=
  { header := { timestamp := 2000, seq := 21 }, payload := [0x62, 0x01, 0x41, 8] }

/-- The states of the reassembler that can be reached from a new instance by
calls of `packet_handler`, `drop_frame` and `garbage_collect_lost_frames` that
return. -/
inductive Reachable (c : Codec) (env : recv_env) : h26x_state → Prop where
  | init (now : Nat) : Reachable c env (h26x_state.init now)
  | packet (now flags : Nat) (frame : rtp_frame) (st st1 : h26x_state) (ret : rtp_error_t)
      (out : Option rtp_frame) :
      Reachable c env st → packet_handler c env now flags frame st = some (ret, out, st1) →
      Reachable c env st1
  | drop (ts n : Nat) (st st1 : h26x_state) :
      Reachable c env st → drop_frame env ts st = some (n, st1) → Reachable c env st1
  | collect (now : Nat) (st st1 : h26x_state) :
      Reachable c env st → garbage_collect_lost_frames env now st = some st1 →
      Reachable c env st1

/-- The reassembler after the sample start fragment has arrived at clock
reading 0. -/
def started_state : h26x_state :=
  { frames_ := [(9000, { sframe_time := 0, s_seq := 100, e_seq := INVALID_SEQ,
                         pkts_received := 1, total_size := 2,
                         fragments := [(100, sample_start)], temporary := [] })],
    dropped_ := [], queued_ := [], last_garbage_collection_ := 0 }

/-- The reassembler after `drop_frame(9000)` in `started_state`. -/
def dropped_state : h26x_state :=
  { frames_ := [], dropped_ := [9000], queued_ := [], last_garbage_collection_ := 0 }

/-- The reassembler after the start fragment of the intra frame of timestamp
1000 has arrived in `dropped_state` at clock reading 0. -/
def dropped_and_started_state : h26x_state :=
  { frames_ := [(1000, { sframe_time := 0, s_seq := 10, e_seq := INVALID_SEQ,
                         pkts_received := 1, total_size := 2,
                         fragments := [(10, intra_start)], temporary := [] })],
    dropped_ := [9000], queued_ := [], last_garbage_collection_ := 0 }

/-- No dropped timestamp has an entry in `frames_`. -/
def NoRevive (st : h26x_state) : Prop := ∀ k ∈ st.dropped_, frames_find k st.frames_ = none

/-! ### Receive path: accounting and sample states -/

/-- The bytes `drop_frame` accounts for one in-progress entry: for every
fragment in `fragments` and every fragment in `temporary` its `payload_len`
plus `sizeof(uvgrtp::frame::rtp_frame)`. -/
def held_bytes (env : recv_env) (info : h26x_info) : Nat :=
  (info.fragments.map (fun fragment => fragment.2.payload.length + env.sizeof_rtp_frame)).sum
    + (info.temporary.map (fun temporary => temporary.payload.length + env.sizeof_rtp_frame)).sum

/-- An in-progress entry that holds one keyed fragment and one fragment that
arrived before the start fragment. -/
def held_info : h26x_info :=
  { sframe_time := 0, s_seq := 100, e_seq := INVALID_SEQ, pkts_received := 2, total_size := 3,
    fragments := [(100, sample_start)], temporary := [sample_end] }

/-- A reassembler with the entry `held_info` at timestamp 9000, an empty entry
at timestamp 7000, one delivered frame and one dropped timestamp. -/
def held_state : h26x_state :=
  { frames_ := [(7000, fresh_info 0), (9000, held_info)], dropped_ := [5000],
    queued_ := [sample_middle], last_garbage_collection_ := 0 }

/-- A reassembler at clock reading 600 with an entry started at 0 and an entry
started at 400. -/
def aged_state : h26x_state :=
  { frames_ := [(7000, fresh_info 0), (9000, fresh_info 400)], dropped_ := [5000],
    queued_ := [], last_garbage_collection_ := 450 }

/-- An H.265 aggregation packet whose only length prefix says 3 although two
bytes follow it. -/
def overrun_aggregation : rtp_frame :=
  { header := { timestamp := 9000, seq := 7 }, payload := [0x60, 0x01, 0, 3, 0xAA, 0xBB] }

/-- An H.265 aggregation packet with one unit of one byte followed by a single
stray byte, where the next length prefix would need two. -/
def stray_aggregation : rtp_frame :=
  { header := { timestamp := 9000, seq := 7 }, payload := [0x60, 0x01, 0, 1, 0xAA, 0] }

/-- An H.265 aggregation packet with the units `AA BB` and `CC`. -/
def two_unit_aggregation : rtp_frame :=
  { header := { timestamp := 9000, seq := 7 },
    payload := [0x60, 0x01, 0, 2, 0xAA, 0xBB, 0, 1, 0xCC] }

/-- An H.265 single NAL unit packet (type 1). -/
def single_nal_packet : rtp_frame :=
  { header := { timestamp := 9000, seq := 7 }, payload := [0x02, 0x01, 0xAA, 0xBB] }

/-! ### Send path: `push_media_frame` -/

/-- Modelled from the spec: the transaction side of the frame queue and of the
payload engine on the send path (§6 lists `init_transaction`, `flush_queue` and
`deinit_transaction`; `frame_queue.hh` is not part of the sources).
`init_result` and `flush_result` are what `init_transaction` and `flush_queue`
return; `flush_calls`, `deinit_calls` and `clear_calls` count the calls of
`flush_queue`, `deinit_transaction` and `clear_aggregation_info` so far, and
`returned` lists what the calls of `add_aggregate_packet`, `single_nal_unit`
and `fu_division` made by `push_media_frame` have returned so far. -/
structure send_state where
  fqueue : frame_queue
  init_result : rtp_error_t
  flush_result : rtp_error_t
  returned : List rtp_error_t
  flush_calls : Nat
  deinit_calls : Nat
  clear_calls : Nat
deriving DecidableEq

/-- The function `single_nal_unit(data, data_len)`. -/
def single_nal_unit (data : List Byte) (data_len : Nat) (q : frame_queue) :
    rtp_error_t × frame_queue :=
  enqueue_message q [data.take data_len]

/-- The function `add_aggregate_packet(data, data_len)` of the base class. -/
def add_aggregate_packet (data : List Byte) (data_len : Nat) (q : frame_queue) :
    rtp_error_t × frame_queue :=
  single_nal_unit data data_len q

/-- The send state after one of the calls `add_aggregate_packet`,
`single_nal_unit` or `fu_division` has left the frame queue as `q` and
returned `ret`. -/
def after_send (s : send_state) (q : frame_queue) (ret : rtp_error_t) : send_state :=
  { s with fqueue := q, returned := s.returned ++ [ret] }

/-- The two statements `clear_aggregation_info(); fqueue_->deinit_transaction();`
that precede every error return of the enqueue loops of `push_media_frame`. -/
def roll_back (s : send_state) : send_state :=
  { s with clear_calls := s.clear_calls + 1, deinit_calls := s.deinit_calls + 1 }

/-- The loop over `nals` of `push_media_frame` that runs when `should_aggregate`
is set (lines 316-327): the return value is `RTP_OK` when the loop ran to its
end, and otherwise the value the function returns from inside the loop. -/
def push_aggregates (data : List Byte) : List nal_info → send_state → rtp_error_t × send_state
  | [], s => (rtp_error_t.RTP_OK, s)
  | nal :: rest, s =>
    if nal.aggregate then
      let e := add_aggregate_packet (data.drop nal.offset) nal.size s.fqueue
      if e.1 ≠ rtp_error_t.RTP_OK then (e.1, roll_back (after_send s e.2 e.1))
      else push_aggregates data rest (after_send s e.2 e.1)
    else push_aggregates data rest s

/-- The loop over `nals` of `push_media_frame` for the NAL units that are not
aggregated (lines 332-354), with the same convention for the return value. -/
def push_singles (c : Codec) (data : List Byte) (payload_size : Nat) (should_aggregate : Bool) :
    List nal_info → send_state → Option (rtp_error_t × send_state)
  | [], s => some (rtp_error_t.RTP_OK, s)
  | nal :: rest, s =>
    if !nal.aggregate || !should_aggregate then
      let sent : Option (rtp_error_t × frame_queue) :=
        if nal.size ≤ payload_size then
          some (single_nal_unit (data.drop nal.offset) nal.size s.fqueue)
        else fu_division c (data.drop nal.offset) nal.size payload_size s.fqueue
      match sent with
      | none => none
      | some (ret, q1) =>
        if ret ≠ rtp_error_t.RTP_OK then some (ret, roll_back (after_send s q1 ret))
        else push_singles c data payload_size should_aggregate rest (after_send s q1 ret)
    else push_singles c data payload_size should_aggregate rest s

/-- Lines 287-305 of `push_media_frame`: the vector `nals` and
`should_aggregate`, from the single record of the `RCE_NO_H26X_SCL` case or from
`scl`, together with the buffer as `scl` leaves it. -/
def locate_nals (c : Codec) (payload_size : Nat) (data : List Byte) (data_len flags : Nat) :
    Option (List Byte × List nal_info × Bool) :=
  if flags &&& RCE_NO_H26X_SCL ≠ 0 then
    some (data, [{ offset := 0, prefix_len := 0, size := data_len, aggregate := false }], false)
  else scl c data data_len payload_size []

/-- The function `push_media_frame(data, data_len, flags)`; `data` is `none` for
a null pointer and `payload_size` is `rtp_ctx_->get_payload_size()`. -/
def push_media_frame (c : Codec) (payload_size : Nat) (data : Option (List Byte))
    (data_len flags : Nat) (s : send_state) : Option (rtp_error_t × send_state) :=
  match data with
  | none => some (rtp_error_t.RTP_INVALID_VALUE, s)
  | some data =>
    if data_len = 0 then some (rtp_error_t.RTP_INVALID_VALUE, s)
    else if s.init_result ≠ rtp_error_t.RTP_OK then some (s.init_result, s)
    else
      match locate_nals c payload_size data data_len flags with
      | none => none
      | some (data1, nals, should_aggregate) =>
        if nals.isEmpty then some (rtp_error_t.RTP_INVALID_VALUE, s)
        else
          let aggregated :=
            if should_aggregate then push_aggregates data1 nals s else (rtp_error_t.RTP_OK, s)
          if aggregated.1 ≠ rtp_error_t.RTP_OK then some aggregated
          else
            match push_singles c data1 payload_size should_aggregate nals aggregated.2 with
            | none => none
            | some (ret, s1) =>
              if ret ≠ rtp_error_t.RTP_OK then some (ret, s1)
              else
                some (s1.flush_result,
                  { s1 with flush_calls := s1.flush_calls + 1, clear_calls := s1.clear_calls + 1 })

/-- Every `enqueue_message` call between the queue states `q` and `q1`
returned `RTP_OK`: the return codes used up in between are all `RTP_OK`. -/
def enqueues_ok (q q1 : frame_queue) : Prop :=
  ∃ used, q.results = used ++ q1.results ∧ ∀ r ∈ used, r = rtp_error_t.RTP_OK

/-- The last `enqueue_message` call between the queue states `q` and `q1`
returned the error `e` and the calls before it returned `RTP_OK`. -/
def enqueue_failed (q q1 : frame_queue) (e : rtp_error_t) : Prop :=
  ∃ used, q.results = used ++ e :: q1.results ∧ (∀ r ∈ used, r = rtp_error_t.RTP_OK)
    ∧ e ≠ rtp_error_t.RTP_OK

/-- The calls of `add_aggregate_packet`, `single_nal_unit` and `fu_division`
between the lists `l` and `l1` of returned values: all returned `RTP_OK` and
`ret` is `RTP_OK`, or the last one returned the error `ret` and those before
it `RTP_OK`. -/
def Returned (l l1 : List rtp_error_t) (ret : rtp_error_t) : Prop :=
  ∃ ops, l1 = l ++ ops ∧
    ((ret = rtp_error_t.RTP_OK ∧ ∀ r ∈ ops, r = rtp_error_t.RTP_OK)
      ∨ (ret ≠ rtp_error_t.RTP_OK ∧ ∃ before, ops = before ++ [ret]
          ∧ ∀ r ∈ before, r = rtp_error_t.RTP_OK))

/-- How a sequence of sends can end: with `RTP_OK` after successful enqueues,
with the error of a failed enqueue, or with an error although every enqueue
succeeded, which takes a queue that hands out no buffer vector. -/
def Sent (q q1 : frame_queue) (ret : rtp_error_t) : Prop :=
  q1.has_buffer_vector = q.has_buffer_vector ∧
  ((ret = rtp_error_t.RTP_OK ∧ enqueues_ok q q1)
    ∨ (ret ≠ rtp_error_t.RTP_OK ∧ enqueue_failed q q1 ret)
    ∨ (ret ≠ rtp_error_t.RTP_OK ∧ enqueues_ok q q1 ∧ q.has_buffer_vector = false))

/-- A send state whose frame queue accepts one message and refuses the next
with `RTP_GENERIC_ERROR`. -/
def refusing_state : send_state :=
  { fqueue := { queued := [], results := [rtp_error_t.RTP_OK, rtp_error_t.RTP_GENERIC_ERROR],
                has_buffer_vector := true },
    init_result := rtp_error_t.RTP_OK, flush_result := rtp_error_t.RTP_OK, returned := [],
    flush_calls := 0, deinit_calls := 0, clear_calls := 0 }

/-- A send state whose frame queue accepts every message but hands out no
buffer vector. -/
def no_vector_state : send_state :=
  { fqueue := { queued := [], results := [], has_buffer_vector := false },
    init_result := rtp_error_t.RTP_OK, flush_result := rtp_error_t.RTP_OK, returned := [],
    flush_calls := 0, deinit_calls := 0, clear_calls := 0 }

/-- How one of the enqueue loops of `push_media_frame` leaves the send state:
the frame queue as `Sent` says, no flush, and `clear_aggregation_info` and
`deinit_transaction` called once each exactly when the loop ends in an error. -/
def Pushed (s s1 : send_state) (ret : rtp_error_t) : Prop :=
  Sent s.fqueue s1.fqueue ret ∧ Returned s.returned s1.returned ret ∧
  s1.init_result = s.init_result ∧
  s1.flush_result = s.flush_result ∧ s1.flush_calls = s.flush_calls ∧
  (ret = rtp_error_t.RTP_OK →
    s1.deinit_calls = s.deinit_calls ∧ s1.clear_calls = s.clear_calls) ∧
  (ret ≠ rtp_error_t.RTP_OK →
    s1.deinit_calls = s.deinit_calls + 1 ∧ s1.clear_calls = s.clear_calls + 1)

/-- A send state whose frame queue accepts every message and whose
`flush_queue` returns `RTP_GENERIC_ERROR`. -/
def failing_flush_state : send_state :=
  { fqueue := { queued := [], results := [], has_buffer_vector := true },
    init_result := rtp_error_t.RTP_OK, flush_result := rtp_error_t.RTP_GENERIC_ERROR,
    returned := [], flush_calls := 0, deinit_calls := 0, clear_calls := 0 }

/-! ### ZRTP handshake (`zrtp.cc`) -/

/-- The loop `for (int i = 31; i >= 0; --i)` of `are_we_initiator` with `n`
indices still to examine, the next one being `i = n - 1`; falling out of the
loop returns `true`. -/
def are_we_initiator_loop (our_hvi their_hvi : List Byte) : Nat → Bool
  | 0 => true
  | i + 1 =>
    if byteAt our_hvi i > byteAt their_hvi i then true
    else if byteAt our_hvi i < byteAt their_hvi i then false
    else are_we_initiator_loop our_hvi their_hvi i

/-- The function `are_we_initiator(our_hvi, their_hvi)`. -/
def are_we_initiator (our_hvi their_hvi : List Byte) : Bool :=
  are_we_initiator_loop our_hvi their_hvi 32

/-- The bytes `hvi[0 .. n-1]` read as a big-endian unsigned integer (index 0
the most significant byte). -/
def be_value (hvi : List Byte) : Nat → Nat
  | 0 => 0
  | i + 1 => be_value hvi i * 256 + byteAt hvi i

/-- The bytes `hvi[0 .. n-1]` read as a little-endian unsigned integer (index
`n - 1` the most significant byte). -/
def le_value (hvi : List Byte) : Nat → Nat
  | 0 => 0
  | i + 1 => le_value hvi i + byteAt hvi i * 256 ^ i

/-- The hvi `01 00 .. 00`. -/
def hvi_low_index : List Byte := 1 :: List.replicate 31 0

/-- The hvi `00 .. 00 01`. -/
def hvi_high_index : List Byte := List.replicate 31 0 ++ [1]

/-- Modelled from the spec: the crypto collaborators of §6 (`crypto.hh` is not
part of the sources) as functions of the bytes fed to them. `sha256 m` is what
`final` writes after `update` calls whose inputs concatenate to `m`, and
`hmac_sha256 key m` the same for the object keyed with `key`. -/
structure crypto_env where
  sha256 : List Byte → List Byte
  hmac_sha256 : List Byte → List Byte → List Byte

/-- The values of `session_.role`. -/
inductive zrtp_role where
  | INITIATOR
  | RESPONDER
deriving DecidableEq

/-- The members of `session_` that `derive_key` and `validate_session` read
(the struct is declared outside the sources): `o_zid` and `r_zid`,
`secrets.s0`, `hash_ctx.total_hash`, `hash_ctx.r_hash[0]`, the array
`hash_ctx.r_mac` with every `uint64_t` given by its eight bytes in memory, and
the stored remote messages as pairs of length `first` and bytes `second`. -/
structure zrtp_session where
  role : zrtp_role
  o_zid : List Byte
  r_zid : List Byte
  s0 : List Byte
  total_hash : List Byte
  r_hash0 : List Byte
  r_mac : List (List Byte)
  r_msg_hello : Nat × List Byte
  r_msg_commit : Nat × List Byte
  r_msg_dh : Nat × List Byte
deriving DecidableEq

/-- The four bytes of a 32-bit value, most significant first. -/
def be32 (v : Nat) : List Byte :=
  [toByte (v / 2 ^ 24), toByte (v / 2 ^ 16), toByte (v / 2 ^ 8), toByte v]

/-- The bytes `(uint8_t *)&v` of a `uint32_t` object on a host of the given
byte order. -/
def host_bytes32 (little_endian : Bool) (v : Nat) : List Byte :=
  if little_endian then (be32 v).reverse else be32 v

/-- The `uint32_t` whose object holds the four bytes `bytes` on a host of the
given byte order. -/
def host_value32 (little_endian : Bool) (bytes : List Byte) : Nat :=
  if little_endian then
    byteAt bytes 0 + byteAt bytes 1 * 2 ^ 8 + byteAt bytes 2 * 2 ^ 16 + byteAt bytes 3 * 2 ^ 24
  else
    byteAt bytes 3 + byteAt bytes 2 * 2 ^ 8 + byteAt bytes 1 * 2 ^ 16 + byteAt bytes 0 * 2 ^ 24

/-- The library function `htonl`: the value whose object holds `v` in network
byte order. -/
def htonl (little_endian : Bool) (v : Nat) : Nat := host_value32 little_endian (be32 v)

/-- The bytes that `derive_key(label, key_len, out_key)` feeds to the HMAC
object through its `update` calls, in the order of the calls. -/
def derive_key_message (little_endian : Bool) (session : zrtp_session) (label : List Byte)
    (key_len : Nat) : List Byte :=
  let length := htonl little_endian key_len
  let counter := 0x1
  let delim : Byte := 0x0
  host_bytes32 little_endian counter ++ label
    ++ (if session.role = zrtp_role.INITIATOR then
          read_bytes session.o_zid 0 12 ++ read_bytes session.r_zid 0 12
        else read_bytes session.r_zid 0 12 ++ read_bytes session.o_zid 0 12)
    ++ read_bytes session.total_hash 0 32 ++ [delim] ++ host_bytes32 little_endian length

/-- The bytes that `memcpy(dst, src, n)` stores at `dst`: the `n` bytes at
`src`, a byte outside the list `src` reading as `0`. -/
def memcpy (src : List Byte) (n : Nat) : List Byte :=
  (List.range n).map (fun i => src.getD i 0)

/-- The function `derive_key(label, key_len, out_key)`: the bytes written to
`out_key`. For `key_len ≠ 256` the digest goes to the 32-byte array `tmp` and
`key_len / 8` bytes are copied from it; for `key_len > 256` the copy reads
past `tmp`. -/
def derive_key (e : crypto_env) (little_endian : Bool) (session : zrtp_session)
    (label : List Byte) (key_len : Nat) : List Byte :=
  let digest := e.hmac_sha256 (read_bytes session.s0 0 32)
    (derive_key_message little_endian session label key_len)
  if key_len ≠ 256 then
    let tmp := read_bytes digest 0 32
    memcpy tmp (key_len / 8)
  else digest

/-- Following the spec: the byte string of the KDF of §4.7,
`0x00000001 ‖ label ‖ 0x00 ‖ ZID_I ‖ ZID_R ‖ total_hash ‖ be32(L)`. -/
def kdf_message (label zid_i zid_r total_hash : List Byte) (L : Nat) : List Byte :=
  [0, 0, 0, 1] ++ label ++ [0] ++ zid_i ++ zid_r ++ total_hash ++ be32 L

/-- The function `verify_hash(key, buf, len, mac)`; `mac` is given by its eight
bytes in memory, which `memcpy(&truncated, full, sizeof(uint64_t))` compares
with the first eight bytes of the digest. -/
def verify_hash (e : crypto_env) (key buf : List Byte) (len : Nat) (mac : List Byte) :
    rtp_error_t :=
  let full := e.hmac_sha256 (read_bytes key 0 32) (read_bytes buf 0 len)
  let truncated := read_bytes full 0 8
  if mac = truncated then rtp_error_t.RTP_OK else rtp_error_t.RTP_INVALID_VALUE

/-- The function `validate_session()`. -/
def validate_session (e : crypto_env) (session : zrtp_session) : rtp_error_t :=
  let hashes0 := read_bytes session.r_hash0 0 32
  let hashes1 := e.sha256 (read_bytes hashes0 0 32)
  let hashes2 := e.sha256 (read_bytes hashes1 0 32)
  let _hashes3 := e.sha256 (read_bytes hashes2 0 32)
  if rtp_error_t.RTP_INVALID_VALUE
      = verify_hash e hashes2 session.r_msg_hello.2 81 (session.r_mac.getD 3 []) then
    rtp_error_t.RTP_INVALID_VALUE
  else if session.role = zrtp_role.RESPONDER ∧ rtp_error_t.RTP_INVALID_VALUE
      = verify_hash e hashes1 session.r_msg_commit.2
          (size_sub (size_sub session.r_msg_commit.1 8) 4) (session.r_mac.getD 2 []) then
    rtp_error_t.RTP_INVALID_VALUE
  else if rtp_error_t.RTP_INVALID_VALUE
      = verify_hash e hashes0 session.r_msg_dh.2
          (size_sub (size_sub session.r_msg_dh.1 8) 4) (session.r_mac.getD 1 []) then
    rtp_error_t.RTP_INVALID_VALUE
  else rtp_error_t.RTP_OK

/-- Following the spec: the validation of §4.7, which checks the MAC of each of
Hello, Commit and DHPart with the keys `H2`, `H1` and `H0` over the message
without its last 12 bytes. -/
def validate_session_spec (e : crypto_env) (session : zrtp_session) : rtp_error_t :=
  let h0 := session.r_hash0
  let h1 := e.sha256 h0
  let h2 := e.sha256 h1
  if verify_hash e h2 session.r_msg_hello.2 (session.r_msg_hello.1 - 12)
        (session.r_mac.getD 3 []) = rtp_error_t.RTP_OK
      ∧ verify_hash e h1 session.r_msg_commit.2 (session.r_msg_commit.1 - 12)
        (session.r_mac.getD 2 []) = rtp_error_t.RTP_OK
      ∧ verify_hash e h0 session.r_msg_dh.2 (session.r_msg_dh.1 - 12)
        (session.r_mac.getD 1 []) = rtp_error_t.RTP_OK then
    rtp_error_t.RTP_OK
  else rtp_error_t.RTP_INVALID_VALUE

/-- Stand-ins for the hash functions, used to run the handshake functions on
concrete bytes: the "digest" of a message adds one to each byte, and the
"keyed digest" adds, byte by byte, the first 32 bytes of the key to the first
32 bytes of the message preceded by its length. -/
def sample_crypto : crypto_env :=
  { sha256 := fun m => m.map (fun b => b + 1)
    hmac_sha256 := fun key m =>
      List.zipWith (fun k b => k + b) ((key ++ List.replicate 32 0).take 32)
        ((toByte m.length :: m ++ List.replicate 32 0).take 32) }

/-- The label `"SAS"`. -/
def sas_label : List Byte := [0x53, 0x41, 0x53]

/-- A session of the initiator with ZIDs `11 ..` (own) and `22 ..` (remote). -/
def kdf_session : zrtp_session :=
  { role := zrtp_role.INITIATOR
    o_zid := List.replicate 12 0x11, r_zid := List.replicate 12 0x22
    s0 := List.replicate 32 0x33, total_hash := List.replicate 32 0x44
    r_hash0 := List.replicate 32 0, r_mac := []
    r_msg_hello := (0, []), r_msg_commit := (0, []), r_msg_dh := (0, []) }

/-- The MAC that §4.7 prescribes for a stored message under `sample_crypto`. -/
def sample_mac (key : List Byte) (msg : Nat × List Byte) : List Byte :=
  read_bytes (sample_crypto.hmac_sha256 key (read_bytes msg.2 0 (msg.1 - 12))) 0 8

/-- A responder's session whose stored Hello has 104 bytes and whose three MACs
are the ones §4.7 prescribes. -/
def long_hello_session : zrtp_session :=
  { role := zrtp_role.RESPONDER
    o_zid := List.replicate 12 0x11, r_zid := List.replicate 12 0x22
    s0 := List.replicate 32 0x33, total_hash := List.replicate 32 0x44
    r_hash0 := List.replicate 32 0
    r_mac := [[], sample_mac (List.replicate 32 0) (96, List.replicate 96 0xD1),
              sample_mac (List.replicate 32 1) (132, List.replicate 132 0xC1),
              sample_mac (List.replicate 32 2) (104, List.replicate 104 0xA1)]
    r_msg_hello := (104, List.replicate 104 0xA1)
    r_msg_commit := (132, List.replicate 132 0xC1)
    r_msg_dh := (96, List.replicate 96 0xD1) }

/-- An initiator's session whose stored Hello has 93 bytes and whose stored
Commit carries a wrong MAC. -/
def bad_commit_session : zrtp_session :=
  { long_hello_session with
    role := zrtp_role.INITIATOR
    r_msg_hello := (93, List.replicate 93 0xA1)
    r_mac := [[], sample_mac (List.replicate 32 0) (96, List.replicate 96 0xD1),
              [0, 0, 0, 0, 0, 0, 0, 0],
              sample_mac (List.replicate 32 2) (93, List.replicate 93 0xA1)] }

/-- Modelled from the spec: what a `receiver_.recv_msg` call that returns a
positive value reports (the message types of §4.7; `mzrtp/defines.hh` is not
part of the sources). A Hello carries the version that `hello.parse_msg`
stores in `session_.capabilities.version`, a Commit the `r_hvi` that
`commit.parse_msg` stores. -/
inductive zrtp_frame where
  | ZRTP_FT_HELLO (version : Nat)
  | ZRTP_FT_HELLO_ACK
  | ZRTP_FT_COMMIT (r_hvi : List Byte)
  | ZRTP_FT_DH_PART1
  | ZRTP_FT_DH_PART2
  | ZRTP_FT_CONFIRM1
  | ZRTP_FT_CONFIRM2
  | ZRTP_FT_CONF2_ACK
  | ZRTP_FT_OTHER
deriving DecidableEq

/-- The constant `ZRTP_VERSION`. -/
def ZRTP_VERSION : Nat := 110

/-- The next blocking `receiver_.recv_msg(socket_, 0)` call on the sequence of
its coming results: `none` stands for a return value that is not positive (the
timeout ran out, or an error), and so does the end of the sequence. -/
def recv_msg : List (Option zrtp_frame) → Option zrtp_frame × List (Option zrtp_frame)
  | [] => (none, [])
  | r :: rest => (r, rest)

/-- The loop `for (i = 0; i < 20; ++i)` of `begin_session` with `n` rounds left:
the return value and the arguments of the `set_timeout` calls, each of which is
followed by one Hello. -/
def begin_session_loop : Nat → List (Option zrtp_frame) → Bool → Nat → List Nat →
    rtp_error_t × List Nat
  | 0, _, _, _, timeouts => (rtp_error_t.RTP_TIMEOUT, timeouts)
  | n + 1, recvs, hello_recv, rto, timeouts =>
    let timeouts1 := timeouts ++ [rto]
    let rto1 := if rto < 200 then rto * 2 else rto
    match (recv_msg recvs).1 with
    | some (zrtp_frame.ZRTP_FT_HELLO version) =>
      if !hello_recv then
        if version ≠ ZRTP_VERSION then
          if version < ZRTP_VERSION then (rtp_error_t.RTP_NOT_SUPPORTED, timeouts1)
          else begin_session_loop n (recv_msg recvs).2 false rto1 timeouts1
        else begin_session_loop n (recv_msg recvs).2 true rto1 timeouts1
      else begin_session_loop n (recv_msg recvs).2 hello_recv rto1 timeouts1
    | some zrtp_frame.ZRTP_FT_HELLO_ACK =>
      if hello_recv then (rtp_error_t.RTP_OK, timeouts1)
      else begin_session_loop n (recv_msg recvs).2 hello_recv rto1 timeouts1
    | _ => begin_session_loop n (recv_msg recvs).2 hello_recv rto1 timeouts1

/-- The function `begin_session()` on the sequence of results of its
`recv_msg` calls. -/
def begin_session (recvs : List (Option zrtp_frame)) : rtp_error_t × List Nat :=
  begin_session_loop 20 recvs false 50 []

/-- The loop `while ((type = receiver_.recv_msg(socket_, MSG_DONTWAIT)) !=
-EAGAIN)` of `init_session` on the results that precede `-EAGAIN`: whether it
meets a Commit. -/
def init_session_pending : List (Option zrtp_frame) → Bool
  | [] => false
  | some (zrtp_frame.ZRTP_FT_COMMIT _) :: _ => true
  | _ :: rest => init_session_pending rest

/-- The loop `for (int i = 0; i < 10; ++i)` of `init_session` with `n` rounds
left: the return value, `session_.role` and the arguments of the `set_timeout`
calls, each of which is followed by one Commit. -/
def init_session_loop (o_hvi : List Byte) : Nat → List (Option zrtp_frame) → Nat → List Nat →
    rtp_error_t × zrtp_role × List Nat
  | 0, _, _, timeouts => (rtp_error_t.RTP_TIMEOUT, zrtp_role.INITIATOR, timeouts)
  | n + 1, recvs, rto, timeouts =>
    let timeouts1 := timeouts ++ [rto]
    let rto1 := if rto < 1200 then rto * 2 else rto
    match (recv_msg recvs).1 with
    | some (zrtp_frame.ZRTP_FT_COMMIT r_hvi) =>
      if !are_we_initiator o_hvi r_hvi then
        (rtp_error_t.RTP_OK, zrtp_role.RESPONDER, timeouts1)
      else init_session_loop o_hvi n (recv_msg recvs).2 rto1 timeouts1
    | some zrtp_frame.ZRTP_FT_DH_PART1 => (rtp_error_t.RTP_OK, zrtp_role.INITIATOR, timeouts1)
    | some zrtp_frame.ZRTP_FT_CONFIRM1 => (rtp_error_t.RTP_OK, zrtp_role.INITIATOR, timeouts1)
    | _ => init_session_loop o_hvi n (recv_msg recvs).2 rto1 timeouts1

/-- The function `init_session()`: `pending` are the results of the
non-blocking `recv_msg` calls before `-EAGAIN`, `recvs` those of the blocking
calls, `o_hvi` is `session_.hash_ctx.o_hvi`. -/
def init_session (o_hvi : List Byte) (pending recvs : List (Option zrtp_frame)) :
    rtp_error_t × zrtp_role × List Nat :=
  if init_session_pending pending then (rtp_error_t.RTP_OK, zrtp_role.RESPONDER, [])
  else init_session_loop o_hvi 10 recvs 150 []

/-- Sixteen bytes in which the start code `00 00 00 01` ends at the first byte
of the second word and that word holds a zero byte further on. -/
def cross_word_zero_buffer : List Byte :=
  [0xAA, 0x00, 0x00, 0x00, 0x01, 0x41, 0x00, 0xAA,
   0xAA, 0xAA, 0xAA, 0xAA, 0xAA, 0xAA, 0xAA, 0xAA]

/-- The same sixteen bytes with `42` in place of the zero byte of the second word. -/
def cross_word_buffer : List Byte :=
  [0xAA, 0x00, 0x00, 0x00, 0x01, 0x41, 0x42, 0xAA,
   0xAA, 0xAA, 0xAA, 0xAA, 0xAA, 0xAA, 0xAA, 0xAA]

/-- Sixteen bytes in which the start code `00 00 01` ends at the first byte of
the second word, which holds no zero byte. -/
def cross_word_short_buffer : List Byte :=
  [0xAA, 0xAA, 0x00, 0x00, 0x01, 0x41, 0x42, 0xAA,
   0xAA, 0xAA, 0xAA, 0xAA, 0xAA, 0xAA, 0xAA, 0xAA]

/-- The positions at which the loop `do { ptr += 8; prefetch = *(uint64_t *)ptr; ... }
while (!cur_z)` of `find_h26x_start_code` loads a chunk, entered at `pos`; each
load reads the eight indices `p .. p + 7`. -/
def skip_chunks_loads (data : List Byte) : Nat → Nat → List Nat
  | 0, _ => []
  | fuel + 1, pos =>
    if haszero64_le (load64_le data (pos + 8)) ≠ 0 then [pos + 8]
    else (pos + 8) :: skip_chunks_loads data fuel (pos + 8)

/-- Twenty-four bytes: the start code `00 00 01` and twenty-one bytes `AA`. -/
def start_code_then_payload : List Byte := [0x00, 0x00, 0x01] ++ List.replicate 21 0xAA

/-- Five bytes `AA`. -/
def five_bytes : List Byte := List.replicate 5 0xAA

/-! ### Receive and send path: further sample data and the messages of a NAL record -/

/-- An entry with first sequence number 65534 that holds the fragment 65535
and has one more fragment, with sequence number 0, in its pending list. -/
def wrap_pending_info : h26x_info :=
  { h26x_info.empty with
    s_seq := 65534
    fragments := [(65535, { header := { timestamp := 9000, seq := 65535 }, payload := [] })]
    temporary := [{ header := { timestamp := 9000, seq := 0 }, payload := [] }] }

/-- The entry of timestamp 9000 after the sample start fragment has arrived
twice: two packets counted, four payload bytes counted, one fragment held. -/
def twice_started_info : h26x_info :=
  { sframe_time := 0, s_seq := 100, e_seq := INVALID_SEQ, pkts_received := 2, total_size := 4,
    fragments := [(100, sample_start)], temporary := [] }

/-- A 32-byte buffer with three NAL units: 13 bytes behind `00 00 00 01`, one
byte behind `00 00 01` and 8 bytes behind `00 00 01`. -/
def large_then_small_buffer : List Byte :=
  [0, 0, 0, 1, 0x40, 1, 2, 3, 4, 5, 6, 7, 8, 9, 10, 11, 12,
   0, 0, 1, 0x42,
   0, 0, 1, 0x44, 9, 10, 11, 12, 13, 14, 15]

/-- A send state whose frame queue holds nothing, accepts every message and
hands out a buffer vector, and whose transaction calls return `RTP_OK`. -/
def accepting_state : send_state :=
  { fqueue := { queued := [], results := [], has_buffer_vector := true },
    init_result := rtp_error_t.RTP_OK, flush_result := rtp_error_t.RTP_OK, returned := [],
    flush_calls := 0, deinit_calls := 0, clear_calls := 0 }

/-- The messages that the second loop of `push_media_frame` queues for the NAL
record `nal`: one message with the bytes of the unit when it fits in a packet
(`single_nal_unit`), and otherwise the FU messages of `fu_division`, one per
slice of the bytes behind the NAL header. -/
def nal_messages (c : Codec) (data : List Byte) (payload_size : Nat) (nal : nal_info) :
    List buf_vec :=
  if nal.size ≤ payload_size then [[(data.drop nal.offset).take nal.size]]
  else
    fu_messages (c.fu_payload_header (data.drop nal.offset))
      [toByte ((1 <<< 7) ||| (c.fu_nal_type (data.drop nal.offset)).val)]
      [c.fu_nal_type (data.drop nal.offset)]
      [toByte ((1 <<< 6) ||| (c.fu_nal_type (data.drop nal.offset)).val)]
      (fu_chunks (payload_size - c.get_payload_header_size - c.get_fu_header_size)
        (nal.size - c.get_nal_header_size)
        (((data.drop nal.offset).drop c.get_nal_header_size).take
          (nal.size - c.get_nal_header_size)))

/-! ### ZRTP handshake: the loops after role election -/

/-- Modelled from the spec: the next `parse_msg` call of a message object on
the sequence of the coming return values (the message classes of `mzrtp/` are
not part of the sources); a call beyond the sequence returns `RTP_OK`. -/
def parse_msg : List rtp_error_t → rtp_error_t × List rtp_error_t
  | [] => (rtp_error_t.RTP_OK, [])
  | r :: rest => (r, rest)

/-- The loop `for (int i = 0; i < 10; ++i)` of `dh_part1` with `n` rounds left:
the return value and the arguments of the `set_timeout` calls, each of which is
followed by one DHPart1. A DHPart2 that does not parse leads to `continue`,
which passes over the doubling of `rto`. -/
def dh_part1_loop : Nat → List (Option zrtp_frame) → List rtp_error_t → Nat → List Nat →
    rtp_error_t × List Nat
  | 0, _, _, _, timeouts => (rtp_error_t.RTP_TIMEOUT, timeouts)
  | n + 1, recvs, parses, rto, timeouts =>
    let timeouts1 := timeouts ++ [rto]
    let rto1 := if rto < 1200 then rto * 2 else rto
    match (recv_msg recvs).1 with
    | some zrtp_frame.ZRTP_FT_DH_PART2 =>
      if (parse_msg parses).1 ≠ rtp_error_t.RTP_OK then
        dh_part1_loop n (recv_msg recvs).2 (parse_msg parses).2 rto timeouts1
      else (rtp_error_t.RTP_OK, timeouts1)
    | _ => dh_part1_loop n (recv_msg recvs).2 parses rto1 timeouts1

/-- The function `dh_part1()` on the return values of its `parse_msg` calls and
the results of its `recv_msg` calls. -/
def dh_part1 (parses : List rtp_error_t) (recvs : List (Option zrtp_frame)) :
    rtp_error_t × List Nat :=
  dh_part1_loop 10 recvs parses 150 []

/-- The loop `for (int i = 0; i < 10; ++i)` of `dh_part2` with `n` rounds left. -/
def dh_part2_loop : Nat → List (Option zrtp_frame) → Nat → List Nat → rtp_error_t × List Nat
  | 0, _, _, timeouts => (rtp_error_t.RTP_TIMEOUT, timeouts)
  | n + 1, recvs, rto, timeouts =>
    let timeouts1 := timeouts ++ [rto]
    let rto1 := if rto < 1200 then rto * 2 else rto
    match (recv_msg recvs).1 with
    | some zrtp_frame.ZRTP_FT_CONFIRM1 => (rtp_error_t.RTP_OK, timeouts1)
    | _ => dh_part2_loop n (recv_msg recvs).2 rto1 timeouts1

/-- The function `dh_part2()`: it parses the stored DHPart1 and then runs its
loop from `rto = 0`. -/
def dh_part2 (parses : List rtp_error_t) (recvs : List (Option zrtp_frame)) :
    rtp_error_t × List Nat :=
  if (parse_msg parses).1 ≠ rtp_error_t.RTP_OK then (rtp_error_t.RTP_INVALID_VALUE, [])
  else dh_part2_loop 10 recvs 0 []

/-- The loop `for (int i = 0; i < 10; ++i)` of `responder_finalize_session`
with `n` rounds left; `session` is `session_` as a successful `parse_msg` of the
Confirm2 leaves it. -/
def responder_finalize_session_loop (e : crypto_env) (session : zrtp_session) :
    Nat → List (Option zrtp_frame) → List rtp_error_t → Nat → List Nat → rtp_error_t × List Nat
  | 0, _, _, _, timeouts => (rtp_error_t.RTP_TIMEOUT, timeouts)
  | n + 1, recvs, parses, rto, timeouts =>
    let timeouts1 := timeouts ++ [rto]
    let rto1 := if rto < 1200 then rto * 2 else rto
    match (recv_msg recvs).1 with
    | some zrtp_frame.ZRTP_FT_CONFIRM2 =>
      if (parse_msg parses).1 ≠ rtp_error_t.RTP_OK then
        responder_finalize_session_loop e session n (recv_msg recvs).2 (parse_msg parses).2 rto
          timeouts1
      else if validate_session e session ≠ rtp_error_t.RTP_OK then
        (rtp_error_t.RTP_INVALID_VALUE, timeouts1)
      else (rtp_error_t.RTP_OK, timeouts1)
    | _ => responder_finalize_session_loop e session n (recv_msg recvs).2 parses rto1 timeouts1

/-- The function `responder_finalize_session()`. -/
def responder_finalize_session (e : crypto_env) (session : zrtp_session)
    (parses : List rtp_error_t) (recvs : List (Option zrtp_frame)) : rtp_error_t × List Nat :=
  responder_finalize_session_loop e session 10 recvs parses 150 []

/-- The loop `for (int i = 0; i < 10; ++i)` of `initiator_finalize_session`
with `n` rounds left. -/
def initiator_finalize_session_loop : Nat → List (Option zrtp_frame) → Nat → List Nat →
    rtp_error_t × List Nat
  | 0, _, _, timeouts => (rtp_error_t.RTP_TIMEOUT, timeouts)
  | n + 1, recvs, rto, timeouts =>
    let timeouts1 := timeouts ++ [rto]
    let rto1 := if rto < 1200 then rto * 2 else rto
    match (recv_msg recvs).1 with
    | some zrtp_frame.ZRTP_FT_CONF2_ACK => (rtp_error_t.RTP_OK, timeouts1)
    | _ => initiator_finalize_session_loop n (recv_msg recvs).2 rto1 timeouts1

/-- The function `initiator_finalize_session()`; `session` is `session_` as a
successful `parse_msg` of the stored Confirm1 leaves it. -/
def initiator_finalize_session (e : crypto_env) (session : zrtp_session)
    (parses : List rtp_error_t) (recvs : List (Option zrtp_frame)) : rtp_error_t × List Nat :=
  if (parse_msg parses).1 ≠ rtp_error_t.RTP_OK then (rtp_error_t.RTP_INVALID_VALUE, [])
  else if validate_session e session ≠ rtp_error_t.RTP_OK then
    (rtp_error_t.RTP_INVALID_VALUE, [])
  else initiator_finalize_session_loop 10 recvs 150 []

/-! ## Theorems -/

/-! ### Bit-level facts -/

theorem and_ff (x : Nat) : x &&& 0xff = x % 256 := Nat.and_pow_two_sub_one_eq_mod x 8

theorem and_ffff (x : Nat) : x &&& 0xffff = x % 65536 := Nat.and_pow_two_sub_one_eq_mod x 16

theorem and_ffffff (x : Nat) : x &&& 0xffffff = x % 16777216 :=
  Nat.and_pow_two_sub_one_eq_mod x 24

theorem byteAt_lt (d : List Byte) (i : Nat) : byteAt d i < 256 := (d.getD i 0).isLt

theorem byteAt_of_length_le (d : List Byte) (i : Nat) (h : d.length ≤ i) : byteAt d i = 0 := by
  unfold byteAt
  rw [List.getD_eq_default _ _ h]
  rfl

theorem load32_le_lt (d : List Byte) (p : Nat) : load32_le d p < 2 ^ 32 := by
  unfold load32_le
  have h0 := byteAt_lt d p
  have h1 := byteAt_lt d (p + 1)
  have h2 := byteAt_lt d (p + 2)
  have h3 := byteAt_lt d (p + 3)
  omega

theorem load64_le_lt (d : List Byte) (p : Nat) : load64_le d p < 2 ^ 64 := by
  unfold load64_le
  have h0 := load32_le_lt d p
  have h1 := load32_le_lt d (p + 4)
  omega

/-- The word classifier in terms of the four bytes of the word. -/
theorem find_start_spec (b0 b1 b2 b3 : Nat) (h0 : b0 < 256) (h1 : b1 < 256) (h2 : b2 < 256)
    (h3 : b3 < 256) :
    __find_h26x_start (b0 + b1 * 2 ^ 8 + b2 * 2 ^ 16 + b3 * 2 ^ 24) =
      if b0 = 0 ∧ b1 = 0 then
        (if b2 = 0 ∧ b3 = 1 then (4, false) else if b2 = 1 then (5, false) else (0, false))
      else if b1 = 0 ∧ b2 = 0 ∧ b3 = 1 then (4, true) else (0, false) := by
  simp only [__find_h26x_start, Nat.shiftRight_eq_div_pow, and_ff, and_ffff]
  have e1 : (b0 + b1 * 2 ^ 8 + b2 * 2 ^ 16 + b3 * 2 ^ 24) / 2 ^ 16 % 65536 = b2 + 256 * b3 := by
    omega
  have e2 : (b0 + b1 * 2 ^ 8 + b2 * 2 ^ 16 + b3 * 2 ^ 24) / 2 ^ 0 % 65536 = b0 + 256 * b1 := by
    omega
  rw [e1, e2]
  have e3 : (b2 + 256 * b3) % 256 = b2 := by omega
  have e4 : (b0 + 256 * b1) / 2 ^ 8 % 256 = b1 := by omega
  rw [e3, e4]
  by_cases c0 : b0 = 0 <;> by_cases c1 : b1 = 0 <;> by_cases c2 : b2 = 0 <;>
    by_cases c3 : b3 = 1 <;> by_cases c4 : b2 = 1 <;> simp [c0, c1, c2, c3, c4] <;> omega

theorem and3_ne_zero (A B M i : Nat) (hA : A / 2 ^ i % 2 = 1) (hB : B / 2 ^ i % 2 = 1)
    (hM : M / 2 ^ i % 2 = 1) : A &&& B &&& M ≠ 0 := by
  intro hz
  have key : (A &&& B &&& M).testBit i = false := by rw [hz]; exact Nat.zero_testBit i
  rw [Nat.testBit_and, Nat.testBit_and] at key
  simp only [Nat.testBit_to_div_mod, hA, hB, hM] at key
  simp at key

/-- The 32-bit zero detector fires on every word that holds a zero byte. -/
theorem haszero32_of_zero (v : Nat) (hv : v < 2 ^ 32)
    (h : v % 256 = 0 ∨ v / 2 ^ 8 % 256 = 0 ∨ v / 2 ^ 16 % 256 = 0 ∨ v / 2 ^ 24 % 256 = 0) :
    haszero32_le v ≠ 0 := by
  unfold haszero32_le
  by_cases c0 : v % 256 = 0
  · exact and3_ne_zero _ _ _ 7 (by omega) (by omega) (by norm_num)
  by_cases c1 : v / 2 ^ 8 % 256 = 0
  · exact and3_ne_zero _ _ _ 15 (by omega) (by omega) (by norm_num)
  by_cases c2 : v / 2 ^ 16 % 256 = 0
  · exact and3_ne_zero _ _ _ 23 (by omega) (by omega) (by norm_num)
  have c3 : v / 2 ^ 24 % 256 = 0 := by tauto
  exact and3_ne_zero _ _ _ 31 (by omega) (by omega) (by norm_num)

/-- The 64-bit zero detector fires on every word that holds a zero byte. -/
theorem haszero64_of_zero (v : Nat) (hv : v < 2 ^ 64)
    (h : v % 256 = 0 ∨ v / 2 ^ 8 % 256 = 0 ∨ v / 2 ^ 16 % 256 = 0 ∨ v / 2 ^ 24 % 256 = 0
      ∨ v / 2 ^ 32 % 256 = 0 ∨ v / 2 ^ 40 % 256 = 0 ∨ v / 2 ^ 48 % 256 = 0
      ∨ v / 2 ^ 56 % 256 = 0) :
    haszero64_le v ≠ 0 := by
  unfold haszero64_le
  by_cases c0 : v % 256 = 0
  · exact and3_ne_zero _ _ _ 7 (by omega) (by omega) (by norm_num)
  by_cases c1 : v / 2 ^ 8 % 256 = 0
  · exact and3_ne_zero _ _ _ 15 (by omega) (by omega) (by norm_num)
  by_cases c2 : v / 2 ^ 16 % 256 = 0
  · exact and3_ne_zero _ _ _ 23 (by omega) (by omega) (by norm_num)
  by_cases c3 : v / 2 ^ 24 % 256 = 0
  · exact and3_ne_zero _ _ _ 31 (by omega) (by omega) (by norm_num)
  by_cases c4 : v / 2 ^ 32 % 256 = 0
  · exact and3_ne_zero _ _ _ 39 (by omega) (by omega) (by norm_num)
  by_cases c5 : v / 2 ^ 40 % 256 = 0
  · exact and3_ne_zero _ _ _ 47 (by omega) (by omega) (by norm_num)
  by_cases c6 : v / 2 ^ 48 % 256 = 0
  · exact and3_ne_zero _ _ _ 55 (by omega) (by omega) (by norm_num)
  have c7 : v / 2 ^ 56 % 256 = 0 := by tauto
  exact and3_ne_zero _ _ _ 63 (by omega) (by omega) (by norm_num)

/-- A chunk on which the 64-bit detector stays silent has no zero byte. -/
theorem byteAt_ne_zero_of_haszero64 (d : List Byte) (q : Nat)
    (hz : haszero64_le (load64_le d q) = 0) (i : Nat) (h1 : q ≤ i) (h2 : i < q + 8) :
    byteAt d i ≠ 0 := by
  intro hi
  apply haszero64_of_zero (load64_le d q) (load64_le_lt d q) _ hz
  obtain ⟨k, rfl⟩ : ∃ k, i = q + k := ⟨i - q, by omega⟩
  have hk : k < 8 := by omega
  unfold load64_le load32_le
  simp only [Nat.add_assoc, Nat.reduceAdd]
  have h0 := byteAt_lt d q
  have h1 := byteAt_lt d (q + 1)
  have h2 := byteAt_lt d (q + 2)
  have h3 := byteAt_lt d (q + 3)
  have h4 := byteAt_lt d (q + 4)
  have h5 := byteAt_lt d (q + 5)
  have h6 := byteAt_lt d (q + 6)
  have h7 := byteAt_lt d (q + 7)
  interval_cases k
  · simp only [Nat.add_zero] at hi; omega
  all_goals omega

/-- A word on which the 32-bit detector stays silent has no zero byte. -/
theorem bytes_ne_zero_of_haszero32 (v : Nat) (hv : v < 2 ^ 32) (hz : haszero32_le v = 0) :
    v % 256 ≠ 0 ∧ v / 2 ^ 8 % 256 ≠ 0 ∧ v / 2 ^ 16 % 256 ≠ 0 ∧ v / 2 ^ 24 % 256 ≠ 0 := by
  refine ⟨?_, ?_, ?_, ?_⟩ <;> intro h
  · exact haszero32_of_zero v hv (Or.inl h) hz
  · exact haszero32_of_zero v hv (Or.inr (Or.inl h)) hz
  · exact haszero32_of_zero v hv (Or.inr (Or.inr (Or.inl h))) hz
  · exact haszero32_of_zero v hv (Or.inr (Or.inr (Or.inr h))) hz

/-! ### One examined word -/

set_option maxHeartbeats 1000000 in
/-- Decision table of one examined word: every way in which `examine` returns,
in terms of the bytes `b0 b1 b2 b3` of the word and `p0 p1 p2 p3` of `prev`. -/
theorem examine_table (c : Codec) (d : List Byte) (rpos : Nat) (lb : Byte) (s : ScanState)
    (pos p0 p1 p2 p3 b0 b1 b2 b3 : Nat)
    (hp0 : p0 < 256) (hp1 : p1 < 256) (hp2 : p2 < 256) (hp3 : p3 < 256)
    (hb0 : b0 < 256) (hb1 : b1 < 256) (hb2 : b2 < 256) (hb3 : b3 < 256)
    (hp : s.prev = p0 + p1 * 2 ^ 8 + p2 * 2 ^ 16 + p3 * 2 ^ 24)
    (hv : load32_le d pos = b0 + b1 * 2 ^ 8 + b2 * 2 ^ 16 + b3 * 2 ^ 24)
    (r : ScanResult) (h : examine c d rpos lb s pos true = Step.done r) :
    r.data = d.set rpos lb ∧
    ((r.ret = ((pos + 1 : Nat) : Int) ∧ s.prev_z = true ∧ p2 = 0 ∧ p3 = 0 ∧ b0 = 1
        ∧ r.start_len = (if p1 = 0 then 4 else 3))
    ∨ (r.ret = ((pos + 4 : Nat) : Int) ∧ b0 = 0 ∧ b1 = 0 ∧ b2 = 0 ∧ b3 = 1 ∧ r.start_len = 4)
    ∨ (r.ret = ((pos + 3 : Nat) : Int) ∧ b0 = 0 ∧ b1 = 0 ∧ b2 = 1
        ∧ r.start_len = (if p3 = 0 then 4 else 3))
    ∨ (r.ret = ((pos + 4 : Nat) : Int) ∧ b0 ≠ 0 ∧ b1 = 0 ∧ b2 = 0 ∧ b3 = 1 ∧ r.start_len = 3)
    ∨ (r.ret = ((pos + 2 : Nat) : Int) ∧ p2 = 0 ∧ p3 = 0 ∧ b0 = 0 ∧ b1 = 1 ∧ r.start_len = 4)
    ∨ (r.ret = ((pos + 2 : Nat) : Int) ∧ p2 ≠ 0 ∧ p3 = 0 ∧ b0 = 0 ∧ b1 = 1
        ∧ r.start_len = 3)) := by
  have e1 : (b0 + b1 * 2 ^ 8 + b2 * 2 ^ 16 + b3 * 2 ^ 24) / 2 ^ 16 % 65536 = b2 + 256 * b3 := by
    omega
  have e2 : (b0 + b1 * 2 ^ 8 + b2 * 2 ^ 16 + b3 * 2 ^ 24) / 2 ^ 0 % 65536 = b0 + 256 * b1 := by
    omega
  have e3 : (b0 + b1 * 2 ^ 8 + b2 * 2 ^ 16 + b3 * 2 ^ 24) / 2 ^ 0 % 256 = b0 := by omega
  have f1 : (p0 + p1 * 2 ^ 8 + p2 * 2 ^ 16 + p3 * 2 ^ 24) / 2 ^ 16 % 65536 = p2 + 256 * p3 := by
    omega
  have f2 : (p0 + p1 * 2 ^ 8 + p2 * 2 ^ 16 + p3 * 2 ^ 24) / 2 ^ 8 % 16777216
      = p1 + 256 * p2 + 65536 * p3 := by omega
  have f3 : (p0 + p1 * 2 ^ 8 + p2 * 2 ^ 16 + p3 * 2 ^ 24) / 2 ^ 24 % 256 = p3 := by omega
  have f4 : (p2 + 256 * p3) % 65536 = p2 + 256 * p3 := by omega
  have f5 : (p2 + 256 * p3) / 2 ^ 8 % 256 = p3 := by omega
  unfold examine at h
  simp only [hv, hp] at h
  have hfs := find_start_spec b0 b1 b2 b3 hb0 hb1 hb2 hb3
  generalize __find_h26x_start (b0 + b1 * 2 ^ 8 + b2 * 2 ^ 16 + b3 * 2 ^ 24) = found at h hfs
  generalize haszero32_le (b0 + b1 * 2 ^ 8 + b2 * 2 ^ 16 + b3 * 2 ^ 24) = hz at h
  simp only [Nat.shiftRight_eq_div_pow, and_ff, and_ffff, and_ffffff] at h
  simp only [e1, e2, e3, f1, f2, f3, f4, f5] at h
  split_ifs at hfs <;> subst hfs <;>
    simp only [if_true, if_false, Bool.and_eq_true, Bool.not_eq_true', decide_eq_true_eq,
      gt_iff_lt, Nat.lt_irrefl, Nat.zero_lt_succ, reduceIte] at h
  all_goals clear e1 e2 e3 f1 f2 f3 f4 f5 hp hv
  all_goals
    split_ifs at h <;> cases h <;> refine ⟨rfl, ?_⟩ <;> simp only [] <;>
      first | contradiction | (simp_all; done) | (simp_all; omega)

theorem load32_bytes (d : List Byte) (q : Nat) :
    load32_le d q % 256 = byteAt d q ∧ load32_le d q / 2 ^ 8 % 256 = byteAt d (q + 1) ∧
    load32_le d q / 2 ^ 16 % 256 = byteAt d (q + 2) ∧
    load32_le d q / 2 ^ 24 % 256 = byteAt d (q + 3) := by
  unfold load32_le
  have h0 := byteAt_lt d q
  have h1 := byteAt_lt d (q + 1)
  have h2 := byteAt_lt d (q + 2)
  have h3 := byteAt_lt d (q + 3)
  refine ⟨?_, ?_, ?_, ?_⟩ <;> omega

theorem examine_done (c : Codec) (d : List Byte) (rpos : Nat) (lb : Byte) (s : ScanState)
    (offset pos : Nat) (hok : PrevOK d offset pos s.prev_z s.prev)
    (r : ScanResult) (h : examine c d rpos lb s pos true = Step.done r) :
    r.data = d.set rpos lb ∧ Hit d offset r ∧ r.ret ≤ ((pos + 4 : Nat) : Int) := by
  obtain ⟨hle, hlt, htrue, hfalse⟩ := hok
  have hb := load32_bytes d pos
  have hv : load32_le d pos = byteAt d pos + byteAt d (pos + 1) * 2 ^ 8
      + byteAt d (pos + 2) * 2 ^ 16 + byteAt d (pos + 3) * 2 ^ 24 := rfl
  have hp : s.prev = s.prev % 256 + (s.prev / 2 ^ 8 % 256) * 2 ^ 8
      + (s.prev / 2 ^ 16 % 256) * 2 ^ 16 + (s.prev / 2 ^ 24 % 256) * 2 ^ 24 := by omega
  obtain ⟨hd, hcases⟩ := examine_table c d rpos lb s pos _ _ _ _ _ _ _ _
    (Nat.mod_lt _ (by norm_num)) (Nat.mod_lt _ (by norm_num)) (Nat.mod_lt _ (by norm_num))
    (Nat.mod_lt _ (by norm_num)) (byteAt_lt d pos) (byteAt_lt d (pos + 1))
    (byteAt_lt d (pos + 2)) (byteAt_lt d (pos + 3)) hp hv r h
  refine ⟨hd, ?_⟩
  cases hpz : s.prev_z with
  | true =>
    obtain ⟨h4, hprev⟩ := htrue hpz
    obtain ⟨q, rfl⟩ : ∃ q, pos = q + 4 := ⟨pos - 4, by omega⟩
    simp only [Nat.add_sub_cancel] at hprev
    have hq := load32_bytes d q
    rw [← hprev] at hq
    obtain ⟨hq0, hq1, hq2, hq3⟩ := hq
    rw [hq1, hq2, hq3] at hcases
    simp only [Nat.add_assoc, Nat.reduceAdd] at hcases
    rcases hcases with ⟨hr, -, e2, e3, e0, hs⟩ | ⟨hr, e0, e1, e2, e3, hs⟩ | ⟨hr, e0, e1, e2, hs⟩
      | ⟨hr, e0, e1, e2, e3, hs⟩ | ⟨hr, e2, e3, e0, e1, hs⟩ | ⟨hr, e2, e3, e0, e1, hs⟩
    · have e : q + 2 - 1 = q + 1 := rfl
      refine ⟨⟨q + 2, by omega, by omega, e2, e3, e0, ?_, ?_⟩, by omega⟩
      · rw [hs]; split_ifs <;> simp
      · rw [hs, e]
        split_ifs with h1 <;> simp [h1] <;> omega
    · refine ⟨⟨q + 5, by omega, by omega, e1, e2, e3, Or.inr hs, ?_⟩, by omega⟩
      have e : q + 5 - 1 = q + 4 := rfl
      rw [hs, e]
      simp [e0]; omega
    · have e : q + 4 - 1 = q + 3 := rfl
      refine ⟨⟨q + 4, by omega, by omega, e0, e1, e2, ?_, ?_⟩, by omega⟩
      · rw [hs]; split_ifs <;> simp
      · rw [hs, e]
        split_ifs with h1 <;> simp [h1] <;> omega
    · refine ⟨⟨q + 5, by omega, by omega, e1, e2, e3, Or.inl hs, ?_⟩, by omega⟩
      have e : q + 5 - 1 = q + 4 := rfl
      rw [hs, e]
      simp [e0]
    · have e : q + 3 - 1 = q + 2 := rfl
      refine ⟨⟨q + 3, by omega, by omega, e3, e0, e1, Or.inr hs, ?_⟩, by omega⟩
      rw [hs, e]
      simp [e2]; omega
    · have e : q + 3 - 1 = q + 2 := rfl
      refine ⟨⟨q + 3, by omega, by omega, e3, e0, e1, Or.inl hs, ?_⟩, by omega⟩
      rw [hs, e]
      simp [e2]
  | false =>
    obtain ⟨⟨n0, n1, n2, n3⟩, hbefore⟩ := hfalse hpz
    rcases hcases with ⟨hr, hz, -⟩ | ⟨hr, e0, e1, e2, e3, hs⟩ | ⟨hr, e0, e1, e2, hs⟩
      | ⟨hr, e0, e1, e2, e3, hs⟩ | ⟨hr, e2, e3, e0, e1, hs⟩ | ⟨hr, e2, e3, e0, e1, hs⟩
    · rw [hpz] at hz; exact absurd hz (by simp)
    · refine ⟨⟨pos + 1, by omega, by omega, e1, e2, e3, Or.inr hs, ?_⟩, by omega⟩
      have e : pos + 1 - 1 = pos := rfl
      rw [hs, e]
      simp [e0]; omega
    · rw [if_neg n3] at hs
      refine ⟨⟨pos, by omega, by omega, e0, e1, e2, Or.inl hs, ?_⟩, by omega⟩
      rw [hs]
      simp only [show (3 : Nat) = 4 ↔ False by decide, false_iff, not_and]
      exact fun hlt => hbefore hlt
    · refine ⟨⟨pos + 1, by omega, by omega, e1, e2, e3, Or.inl hs, ?_⟩, by omega⟩
      have e : pos + 1 - 1 = pos := rfl
      rw [hs, e]
      simp [e0]
    · exact absurd e3 n3
    · exact absurd e3 n3

theorem examine_shape (c : Codec) (d : List Byte) (rpos : Nat) (lb : Byte) (s : ScanState)
    (pos : Nat) (cz : Bool) :
    StepShape (d.set rpos lb) (pos + c.get_start_code_range)
      (if cz then decide (haszero32_le (load32_le d pos) ≠ 0) else cz) (load32_le d pos)
      (examine c d rpos lb s pos cz) := by
  unfold examine
  simp only []
  generalize __find_h26x_start (load32_le d pos) = f
  generalize (if cz then decide (haszero32_le (load32_le d pos) ≠ 0) else cz) = z
  generalize load32_le d pos = v
  generalize s.prev = pv
  repeat' split
  all_goals first | exact Or.inl ⟨_, rfl⟩ | exact Or.inr ⟨_, rfl, rfl⟩

/-- The state in which `examine` leaves the loop when it does not return. -/
theorem examine_next (c : Codec) (d : List Byte) (rpos : Nat) (lb : Byte) (s s1 : ScanState)
    (pos : Nat) (h : examine c d rpos lb s pos true = Step.next s1) :
    s1.pos = pos + c.get_start_code_range ∧ s1.prev = load32_le d pos ∧
    s1.cur_z = s1.prev_z ∧ s1.prev_z = decide (haszero32_le (load32_le d pos) ≠ 0) := by
  rcases examine_shape c d rpos lb s pos true with ⟨sl, h1⟩ | ⟨r, h1, -⟩
  · rw [h1] at h; cases h; simp
  · rw [h1] at h; cases h

theorem examine_data (c : Codec) (d : List Byte) (rpos : Nat) (lb : Byte) (s : ScanState)
    (pos : Nat) (cz : Bool) (r : ScanResult) (h : examine c d rpos lb s pos cz = Step.done r) :
    r.data = d.set rpos lb := by
  rcases examine_shape c d rpos lb s pos cz with ⟨sl, h1⟩ | ⟨r1, h1, h2⟩
  · rw [h1] at h; cases h
  · rw [h1] at h; cases h; exact h2

theorem examine_keeps (c : Codec) (d : List Byte) (rpos : Nat) (lb : Byte) (s s1 : ScanState)
    (offset pos : Nat) (hc : c.get_start_code_range = 4) (hle : offset ≤ pos)
    (h : examine c d rpos lb s pos true = Step.next s1) :
    ScanInv d offset s1 ∧ s1.pos = pos + 4 := by
  obtain ⟨h1, h2, h3, h4⟩ := examine_next c d rpos lb s s1 pos h
  rw [hc] at h1
  refine ⟨⟨⟨by omega, by rw [h2]; exact load32_le_lt d pos, ?_, ?_⟩, h3⟩, h1⟩
  · intro _
    refine ⟨by omega, ?_⟩
    rw [h2, h1, Nat.add_sub_cancel]
  · intro hz
    rw [hz] at h4
    have hz0 : haszero32_le (load32_le d pos) = 0 := by simpa using h4.symm
    have hb := bytes_ne_zero_of_haszero32 _ (load32_le_lt d pos) hz0
    rw [h2]
    refine ⟨hb, fun _ => ?_⟩
    have e : s1.pos - 1 = pos + 3 := by omega
    rw [e, ← (load32_bytes d pos).2.2.2]
    exact hb.2.2.2

theorem examine_next_pos (c : Codec) (d : List Byte) (rpos : Nat) (lb : Byte) (s s1 : ScanState)
    (pos : Nat) (cz : Bool) (h : examine c d rpos lb s pos cz = Step.next s1) :
    s1.pos = pos + c.get_start_code_range := by
  rcases examine_shape c d rpos lb s pos cz with ⟨sl, h1⟩ | ⟨r, h1, -⟩
  · rw [h1] at h; cases h; rfl
  · rw [h1] at h; cases h

theorem examine_ne_stuck (c : Codec) (d : List Byte) (rpos : Nat) (lb : Byte) (s : ScanState)
    (pos : Nat) (cz : Bool) : examine c d rpos lb s pos cz ≠ Step.stuck := by
  intro h
  rcases examine_shape c d rpos lb s pos cz with ⟨sl, h1⟩ | ⟨r, h1, -⟩
  · rw [h1] at h; cases h
  · rw [h1] at h; cases h

theorem load64_le_of_length_le (d : List Byte) (p : Nat) (h : d.length ≤ p) :
    load64_le d p = 0 := by
  unfold load64_le load32_le
  simp [byteAt_of_length_le d _ (show d.length ≤ p by omega),
    byteAt_of_length_le d (p + 1) (by omega), byteAt_of_length_le d (p + 2) (by omega),
    byteAt_of_length_le d (p + 3) (by omega), byteAt_of_length_le d (p + 4) (by omega),
    byteAt_of_length_le d (p + 4 + 1) (by omega), byteAt_of_length_le d (p + 4 + 2) (by omega),
    byteAt_of_length_le d (p + 4 + 3) (by omega)]

theorem haszero64_le_zero : haszero64_le 0 ≠ 0 := by decide

theorem skip_chunks_spec (d : List Byte) :
    ∀ (fuel pos p : Nat), skip_chunks d fuel pos = some p →
      pos + 8 ≤ p ∧ ∀ i, pos + 8 ≤ i → i < p → byteAt d i ≠ 0 := by
  intro fuel
  induction fuel with
  | zero => intro pos p h; simp [skip_chunks] at h
  | succ n ih =>
    intro pos p h
    rw [skip_chunks] at h
    split_ifs at h with hz
    · cases h
      exact ⟨le_refl _, fun i h1 h2 => absurd h2 (by omega)⟩
    · obtain ⟨h1, h2⟩ := ih (pos + 8) p h
      refine ⟨by omega, fun i hi1 hi2 => ?_⟩
      by_cases hlt : i < pos + 8 + 8
      · exact byteAt_ne_zero_of_haszero64 d (pos + 8) (by simpa using hz) i hi1 hlt
      · exact h2 i (by omega) hi2

theorem skip_chunks_total (d : List Byte) :
    ∀ (fuel pos : Nat), 1 ≤ fuel → d.length ≤ pos + 8 * fuel →
      ∃ p, skip_chunks d fuel pos = some p := by
  intro fuel
  induction fuel with
  | zero => intro pos h; omega
  | succ n ih =>
    intro pos _ hlen
    rw [skip_chunks]
    split_ifs with hz
    · exact ⟨_, rfl⟩
    · rcases Nat.eq_zero_or_pos n with h0 | hpos
      · subst h0
        exfalso
        apply hz
        rw [load64_le_of_length_le d (pos + 8) (by omega)]
        exact haszero64_le_zero
      · exact ih (pos + 8) hpos (by omega)

/-! ### The scanning loop -/

theorem scan_step_ne_stuck (c : Codec) (d : List Byte) (len rpos : Nat) (lb : Byte)
    (s : ScanState) : scan_step c d len rpos lb s ≠ Step.stuck := by
  unfold scan_step
  simp only []
  split
  · split
    · exact examine_ne_stuck _ _ _ _ _ _ _
    · obtain ⟨p, hp⟩ := skip_chunks_total d (d.length + 1) s.pos (by omega) (by omega)
      rw [hp]
      simp only []
      split
      · simp
      · exact examine_ne_stuck _ _ _ _ _ _ _
  · exact examine_ne_stuck _ _ _ _ _ _ _

theorem scan_step_progress (c : Codec) (d : List Byte) (len rpos : Nat) (lb : Byte)
    (s s1 : ScanState) (h : scan_step c d len rpos lb s = Step.next s1) :
    s.pos + c.get_start_code_range ≤ s1.pos := by
  unfold scan_step at h
  simp only [] at h
  split at h
  · split at h
    · rw [examine_next_pos _ _ _ _ _ _ _ _ h]
    · split at h
      · cases h
      · rename_i p hp
        split at h
        · cases h
        · rw [examine_next_pos _ _ _ _ _ _ _ _ h]
          have := (skip_chunks_spec d _ _ _ hp).1
          omega
  · rw [examine_next_pos _ _ _ _ _ _ _ _ h]

theorem scan_step_next (c : Codec) (d : List Byte) (len rpos : Nat) (lb : Byte)
    (offset : Nat) (s s1 : ScanState) (hc : c.get_start_code_range = 4)
    (hinv : ScanInv d offset s) (h : scan_step c d len rpos lb s = Step.next s1) :
    ScanInv d offset s1 := by
  obtain ⟨⟨hle, hlt, htrue, hfalse⟩, hcz⟩ := hinv
  unfold scan_step at h
  simp only [] at h
  split at h
  · split at h
    · exact (examine_keeps c d rpos lb s s1 offset s.pos hc hle h).1
    · split at h
      · cases h
      · rename_i p hp
        split at h
        · cases h
        · have := (skip_chunks_spec d _ _ _ hp).1
          exact (examine_keeps c d rpos lb s s1 offset p hc (by omega) h).1
  · rename_i hpz
    have hpz1 : s.prev_z = true := by simpa using hpz
    rw [hcz, hpz1] at h
    exact (examine_keeps c d rpos lb s s1 offset s.pos hc hle h).1

theorem scan_step_done (c : Codec) (d : List Byte) (len rpos : Nat) (lb : Byte)
    (offset : Nat) (s : ScanState) (r : ScanResult)
    (hinv : ScanInv d offset s) (hpos : s.pos + 8 < len)
    (h : scan_step c d len rpos lb s = Step.done r) :
    r.data = d.set rpos lb ∧ (r.ret = -1 ∨ (Hit d offset r ∧ r.ret < (len : Int))) := by
  obtain ⟨hok, hcz⟩ := hinv
  have fin : ∀ pos, pos + 8 < len → PrevOK d offset pos s.prev_z s.prev →
      examine c d rpos lb s pos true = Step.done r →
      r.data = d.set rpos lb ∧ (r.ret = -1 ∨ (Hit d offset r ∧ r.ret < (len : Int))) := by
    intro pos hp hk he
    obtain ⟨h1, h2, h3⟩ := examine_done c d rpos lb s offset pos hk r he
    exact ⟨h1, Or.inr ⟨h2, by omega⟩⟩
  unfold scan_step at h
  simp only [] at h
  split at h
  · rename_i hpz
    have hpz0 : s.prev_z = false := by simpa using hpz
    split at h
    · exact fin s.pos hpos hok h
    · rename_i hz
      split at h
      · cases h
      · rename_i p hp
        split at h
        · cases h
          exact ⟨rfl, Or.inl rfl⟩
        · rename_i hlen
          obtain ⟨hge, hnz⟩ := skip_chunks_spec d _ _ _ hp
          obtain ⟨hle, hlt, htrue, hfalse⟩ := hok
          refine fin p (by omega) ⟨by omega, hlt, ?_, ?_⟩ h
          · intro ht; rw [hpz0] at ht; cases ht
          · intro _
            refine ⟨(hfalse hpz0).1, fun _ => ?_⟩
            by_cases hi : s.pos + 8 ≤ p - 1
            · exact hnz (p - 1) hi (by omega)
            · exact byteAt_ne_zero_of_haszero64 d s.pos (by simpa using hz) (p - 1)
                (by omega) (by omega)
  · rename_i hpz
    have hpz1 : s.prev_z = true := by simpa using hpz
    rw [hcz, hpz1] at h
    exact fin s.pos hpos hok h

theorem scan_loop_spec (c : Codec) (d : List Byte) (len rpos : Nat) (lb : Byte)
    (offset : Nat) (hc : c.get_start_code_range = 4) :
    ∀ (fuel : Nat) (s : ScanState) (r : ScanResult), ScanInv d offset s →
      scan_loop c d len rpos lb fuel s = some r →
      r.data = d.set rpos lb ∧ (r.ret = -1 ∨ (Hit d offset r ∧ r.ret < (len : Int))) := by
  intro fuel
  induction fuel with
  | zero => intro s r _ h; simp [scan_loop] at h
  | succ n ih =>
    intro s r hinv h
    rw [scan_loop] at h
    split at h
    · rename_i hpos
      split at h
      · rename_i r1 hstep
        cases h
        exact scan_step_done c d len rpos lb offset s r hinv hpos hstep
      · rename_i s1 hstep
        exact ih s1 r (scan_step_next c d len rpos lb offset s s1 hc hinv hstep) h
      · cases h
    · cases h
      exact ⟨rfl, Or.inl rfl⟩

theorem scan_loop_total (c : Codec) (d : List Byte) (len rpos : Nat) (lb : Byte)
    (hc : 0 < c.get_start_code_range) :
    ∀ (fuel : Nat) (s : ScanState), len ≤ s.pos + fuel →
      ∃ r, scan_loop c d len rpos lb (fuel + 1) s = some r := by
  intro fuel
  induction fuel with
  | zero =>
    intro s h
    rw [scan_loop, if_neg (by omega)]
    exact ⟨_, rfl⟩
  | succ n ih =>
    intro s hlen
    rw [scan_loop]
    split
    · split
      · exact ⟨_, rfl⟩
      · rename_i s1 hstep
        have := scan_step_progress c d len rpos lb s s1 hstep
        exact ih s1 (by omega)
      · rename_i hstep
        exact absurd hstep (scan_step_ne_stuck c d len rpos lb s)
    · exact ⟨_, rfl⟩

/-- The index at which the scan plants its zero byte. -/
theorem sentinel_index_eq (len : Nat) (h8 : 8 ≤ len) (hlen : len < 2 ^ 64) :
    size_sub (size_sub len (len % 8)) 1 = len - len % 8 - 1 := by
  unfold size_sub SIZE_MOD
  omega

theorem find_total (c : Codec) (data : List Byte) (len offset sl : Nat)
    (hc : 0 < c.get_start_code_range) :
    ∃ r, find_h26x_start_code c data len offset sl = some r := by
  unfold find_h26x_start_code
  exact scan_loop_total c _ len _ _ hc len _ (by simp)

theorem set_set_getD (data : List Byte) (i : Nat) (b : Byte) :
    (data.set i b).set i (data.getD i 0) = data := by
  rw [List.set_set]
  apply List.ext_getElem
  · simp
  · intro n h1 h2
    rw [List.getElem_set]
    split
    · rename_i h; subst h
      rw [List.getD_eq_getElem _ _ h2]
    · rfl

theorem find_spec (c : Codec) (data : List Byte) (len offset sl : Nat)
    (hc : c.get_start_code_range = 4) (r : ScanResult)
    (h : find_h26x_start_code c data len offset sl = some r) :
    r.data = data ∧ (r.ret = -1 ∨
      (Hit (data.set (size_sub (size_sub len (len % 8)) 1) 0) offset r ∧ r.ret < (len : Int))) := by
  unfold find_h26x_start_code at h
  simp only [] at h
  have hinv : ScanInv (data.set (size_sub (size_sub len (len % 8)) 1) 0) offset
      { pos := offset, prev_z := false, cur_z := false, prev := 0xffffffff, start_len := sl } := by
    refine ⟨⟨le_refl _, by norm_num, ?_, ?_⟩, rfl⟩
    · intro h; cases h
    · intro _
      exact ⟨by norm_num, fun h => absurd h (lt_irrefl _)⟩
  obtain ⟨h1, h2⟩ := scan_loop_spec c _ len _ _ offset hc _ _ r hinv h
  exact ⟨by rw [h1]; exact set_set_getD _ _ _, h2⟩

/-! ### The scanner as a whole and the partitioner -/

theorem scan_step_data (c : Codec) (d : List Byte) (len rpos : Nat) (lb : Byte)
    (s : ScanState) (r : ScanResult) (h : scan_step c d len rpos lb s = Step.done r) :
    r.data = d.set rpos lb := by
  unfold scan_step at h
  simp only [] at h
  split at h
  · split at h
    · exact examine_data _ _ _ _ _ _ _ _ h
    · split at h
      · cases h
      · split at h
        · cases h; rfl
        · exact examine_data _ _ _ _ _ _ _ _ h
  · exact examine_data _ _ _ _ _ _ _ _ h

theorem scan_loop_data (c : Codec) (d : List Byte) (len rpos : Nat) (lb : Byte) :
    ∀ (fuel : Nat) (s : ScanState) (r : ScanResult),
      scan_loop c d len rpos lb fuel s = some r → r.data = d.set rpos lb := by
  intro fuel
  induction fuel with
  | zero => intro s r h; simp [scan_loop] at h
  | succ n ih =>
    intro s r h
    rw [scan_loop] at h
    split at h
    · split at h
      · rename_i r1 hstep
        cases h
        exact scan_step_data c d len rpos lb s r hstep
      · exact ih _ r h
      · cases h
    · cases h; rfl

theorem find_data (c : Codec) (data : List Byte) (len offset sl : Nat) (r : ScanResult)
    (h : find_h26x_start_code c data len offset sl = some r) : r.data = data := by
  unfold find_h26x_start_code at h
  rw [scan_loop_data c _ len _ _ _ _ r h]
  exact set_set_getD _ _ _

theorem byteAt_set_ne (d : List Byte) (k i : Nat) (b : Byte) (h : k ≠ i) :
    byteAt (d.set k b) i = byteAt d i := by
  unfold byteAt
  simp [List.getD_eq_getElem?_getD, List.getElem?_set_ne h]

theorem scl_find_spec (c : Codec) (data_len : Nat) (hc : c.get_start_code_range = 4) :
    ∀ (fuel : Nat) (data : List Byte) (offset : Int) (sl : Nat) (nals : List nal_info)
      (d1 : List Byte) (out : List nal_info),
      scl_find c data_len fuel data offset sl nals = some (d1, out) →
      d1 = data ∧ ((offset ≤ -1 ∧ out = nals) ∨
        (offset > -1 ∧ ∃ rest, out = nals ++ ⟨offset.toNat, sl, 0, false⟩ :: rest ∧
          List.Chain (HitRel data_len) ⟨offset.toNat, sl, 0, false⟩ rest)) := by
  intro fuel
  induction fuel with
  | zero => intro data offset sl nals d1 out h; simp [scl_find] at h
  | succ n ih =>
    intro data offset sl nals d1 out h
    rw [scl_find] at h
    split at h
    · rename_i hoff
      simp only [] at h
      split at h
      · cases h
      · rename_i r hfind
        obtain ⟨hdata, hcase⟩ := find_spec c data data_len offset.toNat sl hc r hfind
        obtain ⟨hd, hres⟩ := ih _ _ _ _ _ _ h
        refine ⟨by rw [hd, hdata], Or.inr ⟨hoff, ?_⟩⟩
        rcases hres with ⟨hneg, hout⟩ | ⟨hpos, rest, hout, hchain⟩
        · exact ⟨[], hout, List.Chain.nil⟩
        · refine ⟨_ :: rest, by rw [hout]; simp, List.Chain.cons ?_ hchain⟩
          rcases hcase with hneg | ⟨⟨j, hj, hoj, -, -, -, h34, h4⟩, hlt⟩
          · omega
          · refine ⟨?_, ?_, ?_, rfl⟩
            · show offset.toNat + r.start_len ≤ r.ret.toNat
              rcases h34 with h3 | h4'
              · omega
              · have := (h4.1 h4').1
                omega
            · show 3 ≤ r.start_len
              omega
            · show r.ret.toNat < data_len
              omega
    · cases h
      exact ⟨rfl, Or.inl ⟨by omega, rfl⟩⟩

theorem scl_find_total (c : Codec) (data_len : Nat) (hc : c.get_start_code_range = 4) :
    ∀ (fuel : Nat) (data : List Byte) (offset : Int) (sl : Nat) (nals : List nal_info),
      (offset ≤ -1 ∨ (1 ≤ fuel ∧ (data_len + 1 : Int) ≤ offset + fuel)) →
      ∃ res, scl_find c data_len (fuel + 1) data offset sl nals = some res := by
  intro fuel
  induction fuel with
  | zero =>
    intro data offset sl nals hf
    rw [scl_find, if_neg (by omega)]
    exact ⟨_, rfl⟩
  | succ n ih =>
    intro data offset sl nals hf
    rw [scl_find]
    split
    · rename_i hoff
      simp only []
      obtain ⟨r, hr⟩ := find_total c data data_len offset.toNat sl (by omega)
      rw [hr]
      simp only []
      obtain ⟨-, hcase⟩ := find_spec c data data_len offset.toNat sl hc r hr
      apply ih
      rcases hcase with hneg | ⟨⟨j, hj, hoj, -⟩, hlt⟩
      · exact Or.inl (by omega)
      · exact Or.inr (by omega)
    · exact ⟨_, rfl⟩

theorem size_sub_eq (a b : Nat) (ha : a < 2 ^ 64) (hb : b ≤ a) : size_sub a b = a - b := by
  unfold size_sub SIZE_MOD
  omega

theorem scl_sizes_spec (dl B : Nat) (hdl : dl < 2 ^ 64) :
    ∀ (rest : List nal_info) (a : nal_info) (agg : Nat) (cnt : Int),
      List.Chain (HitRel dl) a rest → a.aggregate = false → agg + 3 ≤ a.offset →
      a.offset < dl →
      ∃ h t, (scl_sizes dl B (a :: rest) agg cnt).1 = h :: t ∧
        h.offset = a.offset ∧ h.prefix_len = a.prefix_len ∧
        List.Chain' Tile (h :: t) ∧
        (∀ x, (h :: t).getLast? = some x → x.offset + x.size = dl) ∧
        (h :: t).map (fun n => n.aggregate) = greedy_marks B ((h :: t).map (fun n => n.size)) agg ∧
        (scl_sizes dl B (a :: rest) agg cnt).2.2
          = cnt + (((h :: t).filter (fun n => n.aggregate)).length : Int) ∧
        (scl_sizes dl B (a :: rest) agg cnt).2.1 = agg + marked_total (h :: t) := by
  intro rest
  induction rest with
  | nil =>
    intro a agg cnt _ hagg h3 hlt
    have hs : size_sub dl a.offset = dl - a.offset := size_sub_eq _ _ hdl (by omega)
    have hmod : (agg + (dl - a.offset) + 2) % SIZE_MOD = agg + (dl - a.offset) + 2 := by
      unfold SIZE_MOD; omega
    by_cases hfit : agg + (dl - a.offset) + 2 ≤ B
    · refine ⟨{ a with size := dl - a.offset, aggregate := true }, [], ?_, rfl, rfl, ?_, ?_, ?_, ?_, ?_⟩
      · simp [scl_sizes, hs, hmod, hfit]
      · exact List.chain'_singleton _
      · intro x hx
        simp at hx
        subst hx
        simp; omega
      · simp [greedy_marks, hfit]
      · simp [scl_sizes, hs, hmod, hfit]
      · simp [scl_sizes, hs, hmod, hfit, marked_total]; omega
    · refine ⟨{ a with size := dl - a.offset }, [], ?_, rfl, rfl, ?_, ?_, ?_, ?_, ?_⟩
      · simp [scl_sizes, hs, hmod, hfit]
      · exact List.chain'_singleton _
      · intro x hx
        simp at hx
        subst hx
        simp; omega
      · simp [greedy_marks, hfit, hagg]
      · simp [scl_sizes, hs, hmod, hfit, hagg]
      · simp [scl_sizes, hs, hmod, hfit, marked_total, hagg]
  | cons b rest ih =>
    intro a agg cnt hchain hagg h3 hlt
    obtain ⟨⟨hab, hb3, hblt, hbagg⟩, hrest⟩ := List.chain_cons.mp hchain
    have hs : size_sub (size_sub b.offset a.offset) b.prefix_len
        = b.offset - a.offset - b.prefix_len := by
      rw [size_sub_eq b.offset a.offset (by omega) (by omega)]
      exact size_sub_eq _ _ (by omega) (by omega)
    have hmod : (agg + (b.offset - a.offset - b.prefix_len) + 2) % SIZE_MOD
        = agg + (b.offset - a.offset - b.prefix_len) + 2 := by
      unfold SIZE_MOD; omega
    by_cases hfit : agg + (b.offset - a.offset - b.prefix_len) + 2 ≤ B
    · obtain ⟨h, t, e, ho, hp, hch, hlast, hgr, hcnt, hsum⟩ :=
        ih b (agg + (b.offset - a.offset - b.prefix_len) + 2) (cnt + 1) hrest hbagg
          (by omega) hblt
      refine ⟨{ a with size := b.offset - a.offset - b.prefix_len, aggregate := true }, h :: t,
        ?_, rfl, rfl, ?_, ?_, ?_, ?_, ?_⟩
      · rw [scl_sizes]; simp only [hs, hmod, if_pos hfit, e]
      · refine List.Chain'.cons ?_ hch
        show a.offset + (b.offset - a.offset - b.prefix_len) + h.prefix_len = h.offset
        rw [ho, hp]; omega
      · intro x hx
        exact hlast x (by simpa using hx)
      · show true :: (h :: t).map (fun n => n.aggregate) = greedy_marks B
          ((b.offset - a.offset - b.prefix_len) :: (h :: t).map (fun n => n.size)) agg
        rw [greedy_marks, if_pos hfit, hgr]
      · rw [scl_sizes]; simp only [hs, hmod, if_pos hfit, hcnt]
        simp; omega
      · rw [scl_sizes]; simp only [hs, hmod, if_pos hfit, hsum]
        simp [marked_total]; omega
    · obtain ⟨h, t, e, ho, hp, hch, hlast, hgr, hcnt, hsum⟩ :=
        ih b agg cnt hrest hbagg (by omega) hblt
      refine ⟨{ a with size := b.offset - a.offset - b.prefix_len }, h :: t,
        ?_, rfl, rfl, ?_, ?_, ?_, ?_, ?_⟩
      · rw [scl_sizes]; simp only [hs, hmod, if_neg hfit, e]
      · refine List.Chain'.cons ?_ hch
        show a.offset + (b.offset - a.offset - b.prefix_len) + h.prefix_len = h.offset
        rw [ho, hp]; omega
      · intro x hx
        exact hlast x (by simpa using hx)
      · show a.aggregate :: (h :: t).map (fun n => n.aggregate) = greedy_marks B
          ((b.offset - a.offset - b.prefix_len) :: (h :: t).map (fun n => n.size)) agg
        rw [greedy_marks, if_neg hfit, hgr, hagg]
      · rw [scl_sizes]; simp only [hs, hmod, if_neg hfit, hcnt]
        simp [hagg]
      · rw [scl_sizes]; simp only [hs, hmod, if_neg hfit, hsum]
        simp [marked_total, hagg]

theorem greedy_marks_total (B : Nat) :
    ∀ (nals : List nal_info) (T : Nat), T ≤ B →
      nals.map (fun n => n.aggregate) = greedy_marks B (nals.map (fun n => n.size)) T →
      T + marked_total nals ≤ B := by
  intro nals
  induction nals with
  | nil => intro T hT _; simpa [marked_total] using hT
  | cons a rest ih =>
    intro T hT h
    rw [List.map_cons, List.map_cons, greedy_marks] at h
    split at h
    · rename_i hfit
      rw [List.cons_eq_cons] at h
      have := ih (T + a.size + 2) hfit h.2
      simp only [marked_total] at this ⊢
      simp only [List.filter_cons, h.1, if_true, List.map_cons, List.sum_cons]
      omega
    · rw [List.cons_eq_cons] at h
      have := ih T hT h.2
      simp only [marked_total] at this ⊢
      simp only [List.filter_cons, h.1, Bool.false_eq_true, if_false]
      exact this

theorem chain_pairs_getElem {α : Type} (R : α → α → Prop) :
    ∀ (l : List α), List.Chain' R l → ∀ (i : Nat) (a b : α),
      l[i]? = some a → l[i + 1]? = some b → R a b := by
  intro l
  induction l with
  | nil => intro _ i a b h; simp at h
  | cons x rest ih =>
    intro hch i a b ha hb
    cases i with
    | zero =>
      simp at ha
      subst ha
      cases rest with
      | nil => simp at hb
      | cons y rest2 =>
        simp at hb
        subst hb
        exact (List.chain'_cons.mp hch).1
    | succ k =>
      simp at ha hb
      exact ih (List.Chain'.tail hch) k a b ha (by simpa using hb)

/-- Everything the partitioner guarantees about its output. -/
theorem scl_spec (c : Codec) (data : List Byte) (data_len packet_size : Nat)
    (hc : c.get_start_code_range = 4) (hlen : data_len < 2 ^ 64) :
    ∃ nals flag, scl c data data_len packet_size [] = some (data, nals, flag) ∧
      List.Chain' Tile nals ∧
      (∀ x, nals.getLast? = some x → x.offset + x.size = data_len) ∧
      nals.map (fun n => n.aggregate) = greedy_marks
        (size_sub packet_size c.get_payload_header_size) (nals.map (fun n => n.size)) 0 ∧
      (flag = true ↔ 2 ≤ (nals.filter (fun n => n.aggregate)).length) := by
  obtain ⟨r, hr⟩ := find_total c data data_len 0 0 (by omega)
  obtain ⟨hdata, hcase⟩ := find_spec c data data_len 0 0 hc r hr
  have htot := scl_find_total c data_len hc data_len r.data r.ret r.start_len [] (by
    rcases hcase with hneg | ⟨⟨j, hj, -⟩, hlt⟩
    · exact Or.inl (by omega)
    · exact Or.inr ⟨by omega, by omega⟩)
  obtain ⟨⟨d1, out⟩, hout⟩ := htot
  obtain ⟨hd1, hshape⟩ := scl_find_spec c data_len hc _ _ _ _ _ _ _ hout
  rw [hdata] at hd1
  subst hd1
  unfold scl
  rw [hr]
  simp only [hout]
  rcases hshape with ⟨-, hnil⟩ | ⟨hpos, rest, hcons, hchain⟩
  · subst hnil
    refine ⟨_, _, rfl, ?_, ?_, ?_, ?_⟩ <;> simp [scl_sizes, greedy_marks]
  · rw [List.nil_append] at hcons
    subst hcons
    have hfirst : 3 ≤ r.ret.toNat ∧ r.ret.toNat < data_len := by
      rcases hcase with hneg | ⟨⟨j, hj, -⟩, hlt⟩
      · omega
      · omega
    obtain ⟨h, t, e, -, -, hch, hlast, hgr, hcnt, -⟩ :=
      scl_sizes_spec data_len (size_sub packet_size c.get_payload_header_size) hlen rest
        ⟨r.ret.toNat, r.start_len, 0, false⟩ 0 0 hchain rfl (by simpa using hfirst.1) hfirst.2
    refine ⟨_, _, rfl, ?_, ?_, ?_, ?_⟩
    · rw [e]; exact hch
    · rw [e]; exact hlast
    · rw [e]; exact hgr
    · rw [hcnt, e]
      simp

/-! ### Claims about the scanner and the partitioner -/

/-- Claim C1 (scanner soundness) evaluated where it fails: on the 15-byte buffer
`AA AA 00 00 00 01 00 07 01 BB BB BB BB BB BB` the scan from offset 0 returns 6
(prefix 4) and the scan that continues from 6 returns 9 with `start_len` 3, yet
bytes 6, 7, 8 of the caller's buffer are `00 07 01`: the zero that the scan
plants at index `len - len % 8 - 1 = 7` is read back as data. -/
theorem find_h26x_start_code_false_hit :
    find_h26x_start_code h265 sentinel_hit_buffer 15 0 0 = some ⟨sentinel_hit_buffer, 6, 4⟩ ∧
    find_h26x_start_code h265 sentinel_hit_buffer 15 6 4 = some ⟨sentinel_hit_buffer, 9, 3⟩ ∧
    byteAt sentinel_hit_buffer (9 - 3) = 0 ∧ byteAt sentinel_hit_buffer (9 - 2) = 7 ∧
    byteAt sentinel_hit_buffer (9 - 1) = 1 := by
  decide

/-- Claim C2 (scanner completeness) evaluated where it fails: the 16-byte buffer
`AA AA 00 00 01 41 00 AA ..` holds the start code `00 00 01` at indices 2..4, but
the scan from offset 0 returns not-found (the word `01 41 00 AA` holds a zero
byte, so the test for a start code ending on its first byte is skipped); and on
the spec's own witness `00 00 00 01 67 42` the scan returns not-found at once
because the loop only runs while `pos + 8 < len`. -/
theorem find_h26x_start_code_misses_start_code :
    find_h26x_start_code h265 missed_start_code_buffer 16 0 0
      = some ⟨missed_start_code_buffer, -1, 0⟩ ∧
    byteAt missed_start_code_buffer 2 = 0 ∧ byteAt missed_start_code_buffer 3 = 0 ∧
    byteAt missed_start_code_buffer 4 = 1 ∧
    find_h26x_start_code h265 [0, 0, 0, 1, 0x67, 0x42] 6 0 0
      = some ⟨[0, 0, 0, 1, 0x67, 0x42], -1, 0⟩ := by
  decide

/-- Claim C3 as stated is false: scanning `00 00 00 01 AA ..` from offset 1
returns 4 with `start_len` 3 although `buffer[4 - 4]` exists and is `00`; the
byte before the scan offset is never consulted. -/
theorem find_h26x_start_code_prefix_len_before_offset :
    find_h26x_start_code h265 offset_one_buffer 16 1 0 = some ⟨offset_one_buffer, 4, 3⟩ ∧
    byteAt offset_one_buffer (4 - 4) = 0 := by
  decide

/-- Claim C3 (amended): whenever `find_h26x_start_code` (4-byte scan step)
returns `r ≥ 0` and `r - 4` is not the index `len - (len mod 8) - 1` of the
planted zero, `start_len` is 4 if `r - 4 ≥ offset` and `buffer[r - 4]` is `00`,
and 3 otherwise. -/
theorem find_h26x_start_code_prefix_len (c : Codec) (data : List Byte)
    (len offset sl : Nat) (res : ScanResult) (hc : c.get_start_code_range = 4)
    (h : find_h26x_start_code c data len offset sl = some res) (hr : 0 ≤ res.ret)
    (hs : res.ret ≠ ((size_sub (size_sub len (len % 8)) 1 + 4 : Nat) : Int)) :
    res.start_len =
      if offset + 4 ≤ res.ret.toNat ∧ byteAt data (res.ret.toNat - 4) = 0 then 4 else 3 := by
  obtain ⟨-, hcase⟩ := find_spec c data len offset sl hc res h
  generalize size_sub (size_sub len (len % 8)) 1 = rp at hs hcase
  rcases hcase with hneg | ⟨⟨j, hj, hoj, -, -, -, h34, h4⟩, -⟩
  · omega
  · have e1 : res.ret.toNat = j + 3 := by omega
    have e2 : j + 3 - 4 = j - 1 := by omega
    rw [e1, e2]
    by_cases hlt : offset < j
    · have hne : rp ≠ j - 1 := by
        intro he
        apply hs
        omega
      rw [byteAt_set_ne _ _ _ _ hne] at h4
      by_cases hb : byteAt data (j - 1) = 0
      · rw [if_pos ⟨by omega, hb⟩]
        exact h4.2 ⟨hlt, hb⟩
      · rw [if_neg (fun hh => hb hh.2)]
        rcases h34 with h3 | h4'
        · exact h3
        · exact absurd (h4.1 h4').2 hb
    · rw [if_neg (fun hh => hlt (by omega))]
      rcases h34 with h3 | h4'
      · exact h3
      · exact absurd (h4.1 h4').1 hlt

/-- The amended claim C3 at `00 00 00 01 AA ..` scanned from offset 0: the
scan returns 4 and the prefix length is 4. -/
theorem find_h26x_start_code_prefix_len_witness :
    h265.get_start_code_range = 4 ∧
    find_h26x_start_code h265 offset_one_buffer 16 0 0 = some ⟨offset_one_buffer, 4, 4⟩ ∧
    (0 : Int) ≤ 4 ∧ (4 : Int) ≠ ((size_sub (size_sub 16 (16 % 8)) 1 + 4 : Nat) : Int) ∧
    (4 : Nat) = if 0 + 4 ≤ (4 : Int).toNat ∧ byteAt offset_one_buffer ((4 : Int).toNat - 4) = 0
      then 4 else 3 :=
  ⟨rfl, by decide, by decide, by decide,
    find_h26x_start_code_prefix_len h265 offset_one_buffer 16 0 0 ⟨offset_one_buffer, 4, 4⟩
      rfl (by decide) (by decide) (by decide)⟩

/-- Claim C4 (sentinel restoration): for every buffer that holds `len ≥ 8`
bytes and every offset, `find_h26x_start_code` returns, and the buffer it leaves
is byte for byte the buffer it received, although the scan itself runs on the
buffer with a zero stored at index `len - (len mod 8) - 1` (an index inside the
buffer). -/
theorem find_h26x_start_code_restores_buffer (c : Codec) (data : List Byte)
    (len offset sl : Nat) (hc : 0 < c.get_start_code_range) (h8 : 8 ≤ len)
    (hlen : len ≤ data.length) (h64 : len < 2 ^ 64) :
    ∃ res, find_h26x_start_code c data len offset sl = some res ∧ res.data = data ∧
      find_h26x_start_code c data len offset sl =
        scan_loop c (data.set (len - len % 8 - 1) 0) len (len - len % 8 - 1)
          (data.getD (len - len % 8 - 1) 0) (len + 1)
          { pos := offset, prev_z := false, cur_z := false, prev := 0xffffffff,
            start_len := sl } ∧
      len - len % 8 - 1 < data.length := by
  obtain ⟨res, hres⟩ := find_total c data len offset sl hc
  refine ⟨res, hres, find_data c data len offset sl res hres, ?_, by omega⟩
  unfold find_h26x_start_code
  simp only [sentinel_index_eq len h8 h64]

/-- Claim C4 at the 16-byte buffer `00 00 00 01 AA ..` scanned from offset 0. -/
theorem find_h26x_start_code_restores_buffer_witness :
    0 < h265.get_start_code_range ∧ 8 ≤ 16 ∧ 16 ≤ offset_one_buffer.length ∧ 16 < 2 ^ 64 ∧
    ∃ res, find_h26x_start_code h265 offset_one_buffer 16 0 0 = some res ∧
      res.data = offset_one_buffer ∧
      find_h26x_start_code h265 offset_one_buffer 16 0 0 =
        scan_loop h265 (offset_one_buffer.set (16 - 16 % 8 - 1) 0) 16 (16 - 16 % 8 - 1)
          (offset_one_buffer.getD (16 - 16 % 8 - 1) 0) (16 + 1)
          { pos := 0, prev_z := false, cur_z := false, prev := 0xffffffff, start_len := 0 } ∧
      16 - 16 % 8 - 1 < offset_one_buffer.length :=
  ⟨by decide, by decide, by decide, by norm_num,
    find_h26x_start_code_restores_buffer h265 offset_one_buffer 16 0 0 (by decide) (by decide)
      (by decide) (by norm_num)⟩

/-- Claim C5 (partitioner end to end) evaluated where it fails: on the spec's
witness `00 00 00 01 AA 00 00 01 BB CC` the partitioner yields the single record
(offset 4, prefix 4, size 6) instead of the two records (4, 4, 1) and (8, 3, 2):
the scan that continues from index 4 stops at once because `4 + 8 < 10` is
false, so the second start code is never examined. -/
theorem scl_two_nal_buffer_single_record :
    scl h265 two_nal_buffer 10 1400 []
      = some (two_nal_buffer, [⟨4, 4, 6, true⟩], false) := by
  decide

theorem fu_chunks_ne_nil (F : Nat) : ∀ (fuel : Nat) (bytes : List Byte),
    fu_chunks F fuel bytes ≠ [] := by
  intro fuel
  cases fuel with
  | zero => intro bytes; simp [fu_chunks]
  | succ n => intro bytes; rw [fu_chunks]; split <;> simp

theorem fu_chunks_join (F : Nat) : ∀ (fuel : Nat) (bytes : List Byte),
    (fu_chunks F fuel bytes).flatten = bytes := by
  intro fuel
  induction fuel with
  | zero => intro bytes; simp [fu_chunks]
  | succ n ih =>
    intro bytes
    rw [fu_chunks]
    split
    · rw [List.flatten_cons, ih, List.take_append_drop]
    · simp

theorem fu_chunks_length (F : Nat) (hF : 1 ≤ F) : ∀ (fuel : Nat) (bytes : List Byte),
    bytes.length ≤ fuel → 1 ≤ bytes.length →
    (fu_chunks F fuel bytes).length = (bytes.length + F - 1) / F := by
  intro fuel
  induction fuel with
  | zero => intro bytes h0 h1; omega
  | succ n ih =>
    intro bytes hfuel h1
    rw [fu_chunks]
    split
    · rename_i hgt
      rw [List.length_cons, ih (bytes.drop F) (by rw [List.length_drop]; omega)
        (by rw [List.length_drop]; omega), List.length_drop]
      have e : bytes.length + F - 1 = (bytes.length - F + F - 1) + F := by omega
      rw [e, Nat.add_div_right _ (by omega)]
    · rename_i hle
      rw [List.length_singleton]
      symm
      apply Nat.div_eq_of_lt_le <;> omega

theorem fu_chunks_sizes (F : Nat) (hF : 1 ≤ F) : ∀ (fuel : Nat) (bytes : List Byte),
    bytes.length ≤ fuel → 1 ≤ bytes.length →
    (∀ x ∈ (fu_chunks F fuel bytes).dropLast, x.length = F) ∧
    (∀ x, (fu_chunks F fuel bytes).getLast? = some x → 1 ≤ x.length ∧ x.length ≤ F) := by
  intro fuel
  induction fuel with
  | zero => intro bytes h0 h1; omega
  | succ n ih =>
    intro bytes hfuel h1
    rw [fu_chunks]
    split
    · rename_i hgt
      obtain ⟨h2, h3⟩ := ih (bytes.drop F) (by rw [List.length_drop]; omega)
        (by rw [List.length_drop]; omega)
      have hne := fu_chunks_ne_nil F n (bytes.drop F)
      constructor
      · intro x hx
        rw [List.dropLast_cons_of_ne_nil hne, List.mem_cons] at hx
        rcases hx with rfl | hx
        · rw [List.length_take]; omega
        · exact h2 x hx
      · intro x hx
        obtain ⟨y, ys, hy⟩ := List.exists_cons_of_ne_nil hne
        rw [hy, List.getLast?_cons_cons, ← hy] at hx
        exact h3 x hx
    · rename_i hle
      constructor
      · intro x hx; simp at hx
      · intro x hx
        simp at hx
        subst hx
        omega

theorem fu_chunks_fuel (F : Nat) (hF : 1 ≤ F) : ∀ (fuel fuel1 : Nat) (bytes : List Byte),
    bytes.length ≤ fuel → bytes.length ≤ fuel1 →
    fu_chunks F fuel bytes = fu_chunks F fuel1 bytes := by
  intro fuel
  induction fuel with
  | zero =>
    intro fuel1 bytes h0 h1
    cases fuel1 with
    | zero => rfl
    | succ k => rw [fu_chunks, fu_chunks, if_neg (by omega)]
  | succ n ih =>
    intro fuel1 bytes h0 h1
    cases fuel1 with
    | zero => rw [fu_chunks, fu_chunks, if_neg (by omega)]
    | succ k =>
      rw [fu_chunks, fu_chunks]
      split
      · rw [ih k (bytes.drop F) (by rw [List.length_drop]; omega)
          (by rw [List.length_drop]; omega)]
      · rfl

theorem enqueue_message_ok (q : frame_queue) (m : buf_vec) (hq : q.results = []) :
    enqueue_message q m = (rtp_error_t.RTP_OK, { q with queued := q.queued ++ [m] }) := by
  unfold enqueue_message
  rw [hq]

/-- The loop of `divide_frame_to_fus` on a queue that accepts every message:
it sends every slice but the last, the first with the header it finds in
`buffers` and the others with the middle header. -/
theorem divide_loop_spec (data : List Byte) (hs hm he : Byte) (F : Nat) (hF : 1 ≤ F) :
    ∀ (fuel pos left : Nat) (b : fu_buffers) (q : frame_queue),
      q.results = [] → b.fu_header.length = 1 → left < fuel → 1 ≤ left →
      pos + left ≤ data.length → pos + left < 2 ^ 64 →
      ∃ pos1 left1 b1 q1,
        divide_loop data [hs, hm, he] F fuel pos left b q
          = some (rtp_error_t.RTP_OK, pos1, left1, b1, q1) ∧
        q1.results = [] ∧ q1.has_buffer_vector = q.has_buffer_vector ∧
        b1.payload_header = b.payload_header ∧ b1.fu_header.length = 1 ∧
        q1.queued ++ [[b1.payload_header, [he], (data.drop pos1).take left1]]
          = q.queued ++ fu_messages b.payload_header b.fu_header [hm] [he]
              (fu_chunks F left ((data.drop pos).take left)) := by
  intro fuel
  induction fuel with
  | zero => intro pos left b q _ _ h; omega
  | succ n ih =>
    intro pos left b q hq hb1 hfuel h1 hlen h64
    have hl : ((data.drop pos).take left).length = left := by
      rw [List.length_take, List.length_drop]; omega
    rw [divide_loop]
    obtain ⟨m, rfl⟩ : ∃ m, left = m + 1 := ⟨left - 1, by omega⟩
    split
    · rename_i hgt
      simp only [enqueue_message_ok q _ hq, ne_eq, not_true_eq_false, if_false]
      have hmod : (pos + F) % SIZE_MOD = pos + F := by unfold SIZE_MOD; omega
      rw [hmod]
      obtain ⟨pos1, left1, b1, q1, hrun, hr, hb, hph, hfl, hmsgs⟩ :=
        ih (pos + F) (m + 1 - F)
          { payload_header := b.payload_header,
            fu_header := ([hs, hm, he].drop 1).take b.fu_header.length,
            payload := (data.drop pos).take F }
          { q with queued := q.queued ++ [[b.payload_header, b.fu_header,
              (data.drop pos).take F]] }
          hq (by rw [hb1]; rfl) (by omega) (by omega) (by omega) (by omega)
      refine ⟨pos1, left1, b1, q1, hrun, hr, hb, hph, hfl, ?_⟩
      rw [hmsgs, fu_chunks, if_pos (by rw [hl]; omega)]
      simp only [hb1, List.drop_one, List.tail_cons, List.take_succ_cons, List.take_zero,
        List.append_assoc, List.singleton_append]
      have e1 : List.take F (List.take (m + 1) (List.drop pos data))
          = List.take F (List.drop pos data) := by
        rw [List.take_take]; congr 1; omega
      have e2 : List.drop F (List.take (m + 1) (List.drop pos data))
          = List.take (m + 1 - F) (List.drop (pos + F) data) := by
        rw [List.drop_take, List.drop_drop]
      rw [e1, e2, fu_chunks_fuel F hF m (m + 1 - F) _
        (by rw [List.length_take, List.length_drop]; omega)
        (by rw [List.length_take, List.length_drop]; omega)]
      obtain ⟨y, ys, hy⟩ := List.exists_cons_of_ne_nil
        (fu_chunks_ne_nil F (m + 1 - F) (List.take (m + 1 - F) (List.drop (pos + F) data)))
      rw [hy]
      cases ys <;> rfl
    · rename_i hle
      refine ⟨pos, m + 1, b, q, rfl, hq, rfl, rfl, hb1, ?_⟩
      rw [fu_chunks, if_neg (by rw [hl]; omega)]
      rfl

theorem fu_tail_payloads (ph mid end_ : List Byte) : ∀ (Xs : List (List Byte)),
    (fu_tail ph mid end_ Xs).map fu_payload = Xs := by
  intro Xs
  induction Xs with
  | nil => rfl
  | cons x rest ih =>
    cases rest with
    | nil => rfl
    | cons y rest2 =>
      rw [fu_tail, List.map_cons, ih]
      rfl

theorem fu_messages_payloads (ph first mid end_ : List Byte) (Xs : List (List Byte)) :
    (fu_messages ph first mid end_ Xs).map fu_payload = Xs := by
  cases Xs with
  | nil => rfl
  | cons x rest =>
    cases rest with
    | nil => rfl
    | cons y rest2 =>
      rw [fu_messages, List.map_cons, fu_tail_payloads]
      rfl

theorem fu_tail_headers (ph mid end_ : List Byte) : ∀ (Xs : List (List Byte)), Xs ≠ [] →
    (fu_tail ph mid end_ Xs).map fu_header_of
      = List.replicate (Xs.length - 1) mid ++ [end_] := by
  intro Xs
  induction Xs with
  | nil => intro h; exact absurd rfl h
  | cons x rest ih =>
    intro _
    cases rest with
    | nil => rfl
    | cons y rest2 =>
      rw [fu_tail, List.map_cons, ih (by simp)]
      rfl

/-- The FU headers of the messages of a NAL unit cut into at least two slices:
start, then middle headers, then end. -/
theorem fu_messages_headers (ph first mid end_ : List Byte) (x y : List Byte)
    (rest : List (List Byte)) :
    (fu_messages ph first mid end_ (x :: y :: rest)).map fu_header_of
      = first :: (List.replicate rest.length mid ++ [end_]) := by
  rw [fu_messages, List.map_cons, fu_tail_headers _ _ _ _ (by simp)]
  rfl

/-- What `fu_division` queues when the queue accepts every message: one
message per slice of the bytes after the NAL header. -/
theorem fu_division_spec (c : Codec) (data : List Byte) (data_len payload_size : Nat)
    (q : frame_queue) (hq : q.results = []) (hbv : q.has_buffer_vector = true)
    (hdata : data.length = data_len) (h64 : data_len < 2 ^ 64) (hgt : payload_size < data_len)
    (hF : c.get_payload_header_size + c.get_fu_header_size + 1 ≤ payload_size)
    (hnal : c.get_nal_header_size ≤ c.get_payload_header_size + c.get_fu_header_size) :
    ∃ q1, fu_division c data data_len payload_size q = some (rtp_error_t.RTP_OK, q1) ∧
      q1.results = [] ∧
      q1.queued = q.queued ++
        fu_messages (c.fu_payload_header data)
          [toByte ((1 <<< 7) ||| (c.fu_nal_type data).val)] [c.fu_nal_type data]
          [toByte ((1 <<< 6) ||| (c.fu_nal_type data).val)]
          (fu_chunks (payload_size - c.get_payload_header_size - c.get_fu_header_size)
            (data_len - c.get_nal_header_size) (data.drop c.get_nal_header_size)) := by
  have e1 : size_sub (size_sub payload_size c.get_payload_header_size) c.get_fu_header_size
      = payload_size - c.get_payload_header_size - c.get_fu_header_size := by
    rw [size_sub_eq payload_size _ (by omega) (by omega)]
    exact size_sub_eq _ _ (by omega) (by omega)
  have e2 : size_sub data_len c.get_nal_header_size = data_len - c.get_nal_header_size :=
    size_sub_eq _ _ h64 (by omega)
  obtain ⟨pos1, left1, b1, q1, hrun, hr, hb, hph, hfl, hmsgs⟩ :=
    divide_loop_spec data (toByte ((1 <<< 7) ||| (c.fu_nal_type data).val)) (c.fu_nal_type data)
      (toByte ((1 <<< 6) ||| (c.fu_nal_type data).val))
      (payload_size - c.get_payload_header_size - c.get_fu_header_size) (by omega)
      (data_len - c.get_nal_header_size + 1) c.get_nal_header_size
      (data_len - c.get_nal_header_size)
      { payload_header := c.fu_payload_header data,
        fu_header := [toByte ((1 <<< 7) ||| (c.fu_nal_type data).val)], payload := [] }
      q hq rfl (by omega) (by omega) (by omega) (by omega)
  have htake : List.take (data_len - c.get_nal_header_size) (data.drop c.get_nal_header_size)
      = data.drop c.get_nal_header_size := by
    apply List.take_of_length_le
    rw [List.length_drop]; omega
  rw [htake] at hmsgs
  refine ⟨{ q1 with queued := q1.queued ++ [[b1.payload_header,
      [toByte ((1 <<< 6) ||| (c.fu_nal_type data).val)], (data.drop pos1).take left1]] },
    ?_, hr, hmsgs⟩
  unfold fu_division
  rw [if_neg (by omega), hbv]
  simp only [Bool.not_true, Bool.false_eq_true, if_false]
  unfold construct_format_header_divide_fus divide_frame_to_fus
  rw [if_neg (by omega)]
  simp only [e1, e2, initialize_fu_headers, List.take_succ_cons, List.take_zero]
  rw [hrun]
  simp only [ne_eq, not_true_eq_false, if_false]
  rw [enqueue_message_ok _ _ hr]
  simp [fu_buffers.message, hfl]

/-- Claim C8 (FU division slices): for a NAL unit of `data_len > payload_size`
bytes and a fragment size `F = payload_size - payload header size - FU header
size ≥ 1` (codec whose NAL header is not longer than payload header plus FU
header, queue that accepts every message), `fu_division` returns `RTP_OK` and
queues `⌈(data_len - nal header size) / F⌉` fragments; every fragment but the
last carries exactly `F` payload bytes, the last between 1 and `F`, and the
fragment payloads in emission order concatenate to the bytes of the NAL unit
after its NAL header. -/
theorem fu_division_slices (c : Codec) (data : List Byte) (data_len payload_size : Nat)
    (q : frame_queue) (hq : q.results = []) (hbv : q.has_buffer_vector = true)
    (hdata : data.length = data_len) (h64 : data_len < 2 ^ 64) (hgt : payload_size < data_len)
    (hF : c.get_payload_header_size + c.get_fu_header_size + 1 ≤ payload_size)
    (hnal : c.get_nal_header_size ≤ c.get_payload_header_size + c.get_fu_header_size) :
    ∃ q1 frags, fu_division c data data_len payload_size q = some (rtp_error_t.RTP_OK, q1) ∧
      q1.queued = q.queued ++ frags ∧
      frags.length =
        (data_len - c.get_nal_header_size
          + (payload_size - c.get_payload_header_size - c.get_fu_header_size) - 1)
        / (payload_size - c.get_payload_header_size - c.get_fu_header_size) ∧
      (∀ m ∈ frags.dropLast, (fu_payload m).length
        = payload_size - c.get_payload_header_size - c.get_fu_header_size) ∧
      (∀ m, frags.getLast? = some m → 1 ≤ (fu_payload m).length ∧ (fu_payload m).length
        ≤ payload_size - c.get_payload_header_size - c.get_fu_header_size) ∧
      (frags.map fu_payload).flatten = data.drop c.get_nal_header_size := by
  obtain ⟨q1, hrun, -, hmsgs⟩ :=
    fu_division_spec c data data_len payload_size q hq hbv hdata h64 hgt hF hnal
  have hlen : (data.drop c.get_nal_header_size).length = data_len - c.get_nal_header_size := by
    rw [List.length_drop, hdata]
  have hsz := fu_chunks_sizes (payload_size - c.get_payload_header_size - c.get_fu_header_size)
    (by omega) (data_len - c.get_nal_header_size) (data.drop c.get_nal_header_size)
    (by omega) (by omega)
  refine ⟨q1, _, hrun, hmsgs, ?_, ?_, ?_, ?_⟩
  · rw [← List.length_map (fu_messages _ _ _ _ _) fu_payload, fu_messages_payloads,
      fu_chunks_length _ (by omega) _ _ (by omega) (by omega), hlen]
  · intro m hm
    apply hsz.1
    rw [← fu_messages_payloads (c.fu_payload_header data)
      [toByte ((1 <<< 7) ||| (c.fu_nal_type data).val)] [c.fu_nal_type data]
      [toByte ((1 <<< 6) ||| (c.fu_nal_type data).val)]
      (fu_chunks _ _ _), ← List.map_dropLast]
    exact List.mem_map_of_mem _ hm
  · intro m hm
    apply hsz.2
    rw [← fu_messages_payloads (c.fu_payload_header data)
      [toByte ((1 <<< 7) ||| (c.fu_nal_type data).val)] [c.fu_nal_type data]
      [toByte ((1 <<< 6) ||| (c.fu_nal_type data).val)]
      (fu_chunks _ _ _), List.getLast?_map, hm]
    rfl
  · rw [fu_messages_payloads, fu_chunks_join]

/-- Claim C8 at the 10-byte sample NAL unit with payload size 6 (`F = 3`). -/
theorem fu_division_slices_witness :
    empty_frame_queue.results = [] ∧ empty_frame_queue.has_buffer_vector = true ∧
    sample_nal.length = 10 ∧ 10 < 2 ^ 64 ∧ 6 < 10 ∧
    h265.get_payload_header_size + h265.get_fu_header_size + 1 ≤ 6 ∧
    h265.get_nal_header_size ≤ h265.get_payload_header_size + h265.get_fu_header_size ∧
    ∃ q1 frags, fu_division h265 sample_nal 10 6 empty_frame_queue
        = some (rtp_error_t.RTP_OK, q1) ∧
      q1.queued = empty_frame_queue.queued ++ frags ∧
      frags.length =
        (10 - h265.get_nal_header_size
          + (6 - h265.get_payload_header_size - h265.get_fu_header_size) - 1)
        / (6 - h265.get_payload_header_size - h265.get_fu_header_size) ∧
      (∀ m ∈ frags.dropLast, (fu_payload m).length
        = 6 - h265.get_payload_header_size - h265.get_fu_header_size) ∧
      (∀ m, frags.getLast? = some m → 1 ≤ (fu_payload m).length ∧ (fu_payload m).length
        ≤ 6 - h265.get_payload_header_size - h265.get_fu_header_size) ∧
      (frags.map fu_payload).flatten = sample_nal.drop h265.get_nal_header_size :=
  ⟨rfl, rfl, rfl, by norm_num, by norm_num, by decide, by decide,
    fu_division_slices h265 sample_nal 10 6 empty_frame_queue rfl rfl rfl (by norm_num)
      (by norm_num) (by decide) (by decide)⟩

/-- Claim C9 as stated is false: with payload size 2, below the 3 bytes of
payload header plus FU header, the 10-byte sample NAL unit (longer than the
payload size) is sent as a single fragment that carries the end header `53`
and all 8 payload bytes, not as two or more fragments. -/
theorem fu_division_single_fragment :
    fu_division h265 sample_nal 10 2 empty_frame_queue
      = some (rtp_error_t.RTP_OK,
          { queued := [[[98, 1], [0x53], [1, 2, 3, 4, 5, 6, 7, 8]]], results := [],
            has_buffer_vector := true }) := by
  decide

set_option maxRecDepth 100000 in
/-- The three FU headers for a NAL type below 64. -/
theorem initialize_fu_headers_bits : ∀ t : Byte, t.val < 64 →
    ((initialize_fu_headers t).map (fun b => b.val) = [0x80 ||| t.val, t.val, 0x40 ||| t.val]) ∧
    (initialize_fu_headers t).map (fun b => b.val &&& 0x3f) = [t.val, t.val, t.val] := by
  decide

/-- Claim C9 (amended): for every NAL type `t < 64`, `initialize_fu_headers`
yields start `0x80 | t`, middle `t`, end `0x40 | t`, which agree in their low
six bits; and for every FU-divided NAL unit (`data_len > payload_size`, NAL
header not longer than payload header plus FU header) whose payload size
exceeds payload header plus FU header, `fu_division` queues at least two
fragments, the first with the start header, the last with the end header and
every one in between with the middle header. -/
theorem fu_division_headers (c : Codec) (data : List Byte) (data_len payload_size : Nat)
    (q : frame_queue) (hq : q.results = []) (hbv : q.has_buffer_vector = true)
    (hdata : data.length = data_len) (h64 : data_len < 2 ^ 64) (hgt : payload_size < data_len)
    (hF : c.get_payload_header_size + c.get_fu_header_size + 1 ≤ payload_size)
    (hnal : c.get_nal_header_size ≤ c.get_payload_header_size + c.get_fu_header_size) :
    (∀ t : Byte, t.val < 64 →
      ((initialize_fu_headers t).map (fun b => b.val) = [0x80 ||| t.val, t.val, 0x40 ||| t.val]) ∧
      (initialize_fu_headers t).map (fun b => b.val &&& 0x3f) = [t.val, t.val, t.val]) ∧
    ∃ q1 frags, fu_division c data data_len payload_size q = some (rtp_error_t.RTP_OK, q1) ∧
      q1.queued = q.queued ++ frags ∧ 2 ≤ frags.length ∧
      frags.map fu_header_of =
        (initialize_fu_headers (c.fu_nal_type data)).take 1
          :: (List.replicate (frags.length - 2)
                (((initialize_fu_headers (c.fu_nal_type data)).drop 1).take 1)
              ++ [((initialize_fu_headers (c.fu_nal_type data)).drop 2).take 1]) := by
  constructor
  · exact initialize_fu_headers_bits
  · obtain ⟨q1, hrun, -, hmsgs⟩ :=
      fu_division_spec c data data_len payload_size q hq hbv hdata h64 hgt hF hnal
    have hlen : (data.drop c.get_nal_header_size).length
        = data_len - c.get_nal_header_size := by
      rw [List.length_drop, hdata]
    have h2 := fu_chunks_length (payload_size - c.get_payload_header_size - c.get_fu_header_size)
      (by omega) (data_len - c.get_nal_header_size) (data.drop c.get_nal_header_size)
      (by omega) (by omega)
    have hge : 2 ≤ (fu_chunks (payload_size - c.get_payload_header_size - c.get_fu_header_size)
        (data_len - c.get_nal_header_size) (data.drop c.get_nal_header_size)).length := by
      rw [h2, hlen]
      apply (Nat.le_div_iff_mul_le (by omega)).mpr
      omega
    generalize fu_chunks (payload_size - c.get_payload_header_size - c.get_fu_header_size)
      (data_len - c.get_nal_header_size) (data.drop c.get_nal_header_size) = Xs at hmsgs hge
    match Xs, hge with
    | x :: y :: rest, _ =>
      refine ⟨q1, _, hrun, hmsgs, ?_, ?_⟩
      · rw [← List.length_map (fu_messages _ _ _ _ _) fu_payload, fu_messages_payloads]
        simp
      · rw [fu_messages_headers]
        have hl : (fu_messages (c.fu_payload_header data)
            [toByte ((1 <<< 7) ||| (c.fu_nal_type data).val)] [c.fu_nal_type data]
            [toByte ((1 <<< 6) ||| (c.fu_nal_type data).val)] (x :: y :: rest)).length
            = rest.length + 2 := by
          rw [← List.length_map (fu_messages _ _ _ _ _) fu_payload, fu_messages_payloads]
          simp
        rw [hl]
        rfl

/-- The amended claim C9 at the 10-byte sample NAL unit with payload size 6. -/
theorem fu_division_headers_witness :
    empty_frame_queue.results = [] ∧ empty_frame_queue.has_buffer_vector = true ∧
    sample_nal.length = 10 ∧ 10 < 2 ^ 64 ∧ 6 < 10 ∧
    h265.get_payload_header_size + h265.get_fu_header_size + 1 ≤ 6 ∧
    h265.get_nal_header_size ≤ h265.get_payload_header_size + h265.get_fu_header_size ∧
    ((∀ t : Byte, t.val < 64 →
      ((initialize_fu_headers t).map (fun b => b.val) = [0x80 ||| t.val, t.val, 0x40 ||| t.val]) ∧
      (initialize_fu_headers t).map (fun b => b.val &&& 0x3f) = [t.val, t.val, t.val]) ∧
    ∃ q1 frags, fu_division h265 sample_nal 10 6 empty_frame_queue
        = some (rtp_error_t.RTP_OK, q1) ∧
      q1.queued = empty_frame_queue.queued ++ frags ∧ 2 ≤ frags.length ∧
      frags.map fu_header_of =
        (initialize_fu_headers (h265.fu_nal_type sample_nal)).take 1
          :: (List.replicate (frags.length - 2)
                (((initialize_fu_headers (h265.fu_nal_type sample_nal)).drop 1).take 1)
              ++ [((initialize_fu_headers (h265.fu_nal_type sample_nal)).drop 2).take 1])) :=
  ⟨rfl, rfl, rfl, by norm_num, by norm_num, by decide, by decide,
    fu_division_headers h265 sample_nal 10 6 empty_frame_queue rfl rfl rfl (by norm_num)
      (by norm_num) (by decide) (by decide)⟩

theorem fragments_set_keyed (f : rtp_frame) : ∀ (fs : List rtp_frame) (k : Nat),
    fragments_set (k + fs.length) f (keyed k fs) = keyed k (fs ++ [f]) := by
  intro fs
  induction fs with
  | nil => intro k; rfl
  | cons g rest ih =>
    intro k
    rw [keyed, fragments_set, if_neg (by simp), if_neg (by simp)]
    have e : k + (g :: rest).length = (k + 1) + rest.length := by simp; omega
    rw [e, ih (k + 1)]
    rfl

theorem stripped_total_append (c : Codec) (fs : List rtp_frame) (f : rtp_frame) :
    stripped_total c (fs ++ [f]) = stripped_total c fs
      + (f.payload.length - (c.get_payload_header_size + c.get_fu_header_size)) := by
  simp [stripped_total]

/-- Garbage collection leaves a reassembler alone whose only frame is at most
500 ms old. -/
theorem garbage_collect_young (env : recv_env) (now ts : Nat) (info : h26x_info)
    (st : h26x_state) (hf : st.frames_ = [(ts, info)])
    (hy : now - info.sframe_time ≤ 500) :
    ∃ st1, garbage_collect_lost_frames env now st = some st1 ∧ st1.frames_ = st.frames_ ∧
      st1.dropped_ = st.dropped_ ∧ st1.queued_ = st.queued_ := by
  unfold garbage_collect_lost_frames
  split
  · simp only [hf, List.filter_cons, LOST_FRAME_TIMEOUT_MS]
    rw [if_neg (by simpa using hy)]
    simp [drop_frames, hf]
  · exact ⟨st, rfl, rfl, rfl, rfl⟩

theorem frames_find_single (ts : Nat) (info : h26x_info) :
    frames_find ts [(ts, info)] = some info := by
  simp [frames_find]

theorem frames_set_single (ts : Nat) (info info1 : h26x_info) :
    frames_set ts info1 [(ts, info)] = [(ts, info1)] := by
  simp [frames_set]

theorem frames_erase_single (ts : Nat) (info : h26x_info) :
    frames_erase ts [(ts, info)] = [] := by
  simp [frames_erase]

theorem INVALID_SEQ_gt : 65536 ≤ INVALID_SEQ := by decide

/-- A middle fragment that follows the fragments `fs` already held is stored
behind them, and the call returns `RTP_OK`. -/
theorem packet_handler_middle (c : Codec) (env : recv_env) (now flags ts t0 s : Nat)
    (fs : List rtp_frame) (m : rtp_frame) (st : h26x_state)
    (hst : InProgress c ts t0 s fs st) (hfs : 1 ≤ fs.length) (hn : fs.length < 65536)
    (hs : s < 65536) (hts : m.header.timestamp = ts)
    (hseq : m.header.seq = (s + fs.length) % 65536)
    (hty : c.get_fragment_type m = FRAG_TYPE.FT_MIDDLE)
    (hlen : c.get_payload_header_size + c.get_fu_header_size ≤ m.payload.length)
    (h64 : stripped_total c (fs ++ [m]) < 2 ^ 64) (hp64 : m.payload.length < 2 ^ 64)
    (hlate : now - t0 < env.pkt_max_delay) (hgc : now - t0 ≤ 500) :
    ∃ st1, packet_handler c env now flags m st = some (rtp_error_t.RTP_OK, some m, st1) ∧
      InProgress c ts t0 s (fs ++ [m]) st1 := by
  obtain ⟨hf, hd, hq⟩ := hst
  have hkey : (if s > m.header.seq then 0x10000 + m.header.seq else m.header.seq)
      = s + fs.length := by
    rw [hseq]; split <;> omega
  have hsub : size_sub m.payload.length (c.get_payload_header_size + c.get_fu_header_size)
      = m.payload.length - (c.get_payload_header_size + c.get_fu_header_size) :=
    size_sub_eq _ _ hp64 hlen
  have htot := stripped_total_append c fs m
  have hsinv : s ≠ INVALID_SEQ := by have := INVALID_SEQ_gt; omega
  have hinfo : fragment_update c FRAG_TYPE.FT_MIDDLE m (in_order_info c t0 s fs)
      = in_order_info c t0 s (fs ++ [m]) := by
    unfold fragment_update in_order_info
    simp only [hsub, reduceCtorEq, if_false, ne_eq, not_false_eq_true, if_true, hsinv, hkey,
      fragments_set_keyed]
    have e1 : (fs.length + 1) % SIZE_MOD = (fs ++ [m]).length := by
      unfold SIZE_MOD; simp; omega
    have e2 : (stripped_total c fs + (m.payload.length
        - (c.get_payload_header_size + c.get_fu_header_size))) % SIZE_MOD
        = stripped_total c (fs ++ [m]) := by
      unfold SIZE_MOD; omega
    rw [e1, e2]
  obtain ⟨st1, hgc1, hgf, hgd, hgq⟩ := garbage_collect_young env now ts
    (in_order_info c t0 s (fs ++ [m]))
    { st with frames_ := [(ts, in_order_info c t0 s (fs ++ [m]))] } rfl hgc
  refine ⟨st1, ?_, ⟨hgf, by rw [hgd]; exact hd, by rw [hgq]; exact hq⟩⟩
  unfold packet_handler
  simp only [hty, reduceCtorEq, if_false, hts, hf, frames_find_single, Option.isNone_some,
    Bool.false_and, Bool.false_eq_true, Option.getD_some, hinfo, frames_set_single]
  have hnl : is_frame_late now (in_order_info c t0 s (fs ++ [m])) env.pkt_max_delay = false := by
    simp [is_frame_late, in_order_info]; omega
  rw [if_neg (fun h => h.2.1 rfl), hnl]
  simp only [Bool.false_eq_true, if_false, hgc1, Option.map_some']

/-- The start fragment of a timestamp that is neither in progress nor dropped
opens the frame, and the call returns `RTP_OK`. -/
theorem packet_handler_start (c : Codec) (env : recv_env) (now flags ts s : Nat)
    (f : rtp_frame) (st : h26x_state)
    (hf0 : st.frames_ = []) (hd : st.dropped_ = []) (hq : st.queued_ = [])
    (hs : s < 65536) (hts : f.header.timestamp = ts) (hseq : f.header.seq = s)
    (hty : c.get_fragment_type f = FRAG_TYPE.FT_START)
    (hlen : c.get_payload_header_size + c.get_fu_header_size ≤ f.payload.length)
    (hp64 : f.payload.length < 2 ^ 64) (hlate : 0 < env.pkt_max_delay) :
    ∃ st1, packet_handler c env now flags f st = some (rtp_error_t.RTP_OK, some f, st1) ∧
      InProgress c ts now s [f] st1 := by
  have hsub : size_sub f.payload.length (c.get_payload_header_size + c.get_fu_header_size)
      = f.payload.length - (c.get_payload_header_size + c.get_fu_header_size) :=
    size_sub_eq _ _ hp64 hlen
  have hinit : (initialize_new_fragmented_frame now ts st).frames_
      = [(ts, { h26x_info.empty with s_seq := INVALID_SEQ, e_seq := INVALID_SEQ,
                                     sframe_time := now })] := by
    simp [initialize_new_fragmented_frame, hf0, frames_find, frames_set, h26x_info.empty]
  have hinfo : fragment_update c FRAG_TYPE.FT_START f
      { h26x_info.empty with s_seq := INVALID_SEQ, e_seq := INVALID_SEQ, sframe_time := now }
      = in_order_info c now s [f] := by
    unfold fragment_update in_order_info
    simp only [hsub, h26x_info.empty, reduceCtorEq, if_false, if_true, ne_eq, not_true_eq_false,
      List.foldl_nil, hseq]
    simp [stripped_total, fragments_set, keyed, SIZE_MOD]
    omega
  obtain ⟨st1, hgc1, hgf, hgd, hgq⟩ := garbage_collect_young env now ts
    (in_order_info c now s [f])
    { initialize_new_fragmented_frame now ts st with
      frames_ := [(ts, in_order_info c now s [f])] } rfl (by simp [in_order_info])
  refine ⟨st1, ?_, ⟨hgf, by rw [hgd]; exact hd, by rw [hgq]; exact hq⟩⟩
  have hnl : is_frame_late now (in_order_info c now s [f]) env.pkt_max_delay = false := by
    simp [is_frame_late, in_order_info]; omega
  unfold packet_handler
  simp only [hty, reduceCtorEq, if_false, hts, hf0, hd, frames_find, List.find?_nil,
    Option.map_none', Option.isNone_none, List.not_mem_nil, decide_False, Bool.and_false,
    Bool.false_eq_true, ne_eq, not_true_eq_false, false_and, if_true]
  by_cases hnt : c.get_nal_type f = NAL_TYPE.NT_INTRA
  · simp only [hnt, if_true]
    simp only [frames_find, hinit, List.find?_cons, decide_True, Option.map_some',
      Option.getD_some, hinfo, frames_set_single]
    rw [if_neg (fun h => h.2.1 rfl), hnl]
    simp only [Bool.false_eq_true, if_false]
    rw [hgc1]; rfl
  · simp only [hnt, if_false]
    simp only [frames_find, hinit, List.find?_cons, decide_True, Option.map_some',
      Option.getD_some, hinfo, frames_set_single]
    rw [if_neg (fun h => h.2.1 rfl), hnl]
    simp only [Bool.false_eq_true, if_false]
    rw [hgc1]; rfl

/-- The end fragment that follows the fragments `fs` already held completes the
frame: the call returns `RTP_PKT_READY` with the reconstructed frame and the
entry is erased. -/
theorem packet_handler_end (c : Codec) (env : recv_env) (now flags ts t0 s : Nat)
    (fs : List rtp_frame) (m : rtp_frame) (st : h26x_state)
    (hst : InProgress c ts t0 s fs st) (hfs : 1 ≤ fs.length) (hn : fs.length < 65536)
    (hs : s < 65536) (hts : m.header.timestamp = ts)
    (hseq : m.header.seq = (s + fs.length) % 65536)
    (hty : c.get_fragment_type m = FRAG_TYPE.FT_END)
    (hlen : c.get_payload_header_size + c.get_fu_header_size ≤ m.payload.length)
    (h64 : stripped_total c (fs ++ [m]) < 2 ^ 64) (hp64 : m.payload.length < 2 ^ 64) :
    ∃ st1, packet_handler c env now flags m st
        = some (rtp_error_t.RTP_PKT_READY,
            some (reconstruct_frame c flags m (complete_info c t0 s m.header.seq (fs ++ [m]))),
            st1) ∧
      st1.frames_ = [] ∧ st1.dropped_ = [] ∧ st1.queued_ = [] := by
  obtain ⟨hf, hd, hq⟩ := hst
  have hkey : (if s > m.header.seq then 0x10000 + m.header.seq else m.header.seq)
      = s + fs.length := by
    rw [hseq]; split <;> omega
  have hsub : size_sub m.payload.length (c.get_payload_header_size + c.get_fu_header_size)
      = m.payload.length - (c.get_payload_header_size + c.get_fu_header_size) :=
    size_sub_eq _ _ hp64 hlen
  have htot := stripped_total_append c fs m
  have hsinv : s ≠ INVALID_SEQ := by have := INVALID_SEQ_gt; omega
  have heinv : m.header.seq ≠ INVALID_SEQ := by have := INVALID_SEQ_gt; omega
  have hinfo : fragment_update c FRAG_TYPE.FT_END m (in_order_info c t0 s fs)
      = complete_info c t0 s m.header.seq (fs ++ [m]) := by
    unfold fragment_update in_order_info complete_info
    simp only [hsub, reduceCtorEq, if_false, ne_eq, not_false_eq_true, if_true, hsinv, hkey,
      fragments_set_keyed]
    have e1 : (fs.length + 1) % SIZE_MOD = (fs ++ [m]).length := by
      unfold SIZE_MOD; simp; omega
    have e2 : (stripped_total c fs + (m.payload.length
        - (c.get_payload_header_size + c.get_fu_header_size))) % SIZE_MOD
        = stripped_total c (fs ++ [m]) := by
      unfold SIZE_MOD; omega
    rw [e1, e2]
  have hexp : calculate_expected_fus (complete_info c t0 s m.header.seq (fs ++ [m]))
      = (fs ++ [m]).length := by
    unfold calculate_expected_fus complete_info
    simp only [hsinv, heinv, or_self, if_false, List.length_append, List.length_singleton]
    rw [hseq]
    unfold size_sub SIZE_MOD
    split <;> omega
  refine ⟨{ st with frames_ := [] }, ?_, rfl, hd, hq⟩
  unfold packet_handler
  simp only [hty, reduceCtorEq, if_false, hts, hf, frames_find_single, Option.isNone_some,
    Bool.false_and, Bool.false_eq_true, Option.getD_some, hinfo, frames_set_single,
    frames_erase_single]
  rw [if_pos ⟨hsinv, heinv, hexp⟩, if_neg (fun h => h.2.1 rfl)]

theorem rtp_packets_length (ts : Nat) : ∀ (msgs : List buf_vec) (q : Nat),
    (rtp_packets ts q msgs).length = msgs.length := by
  intro msgs
  induction msgs with
  | nil => intro q; rfl
  | cons m rest ih => intro q; simp [rtp_packets, ih]

theorem rtp_packets_append (ts : Nat) : ∀ (a b : List buf_vec) (q : Nat),
    rtp_packets ts q (a ++ b) = rtp_packets ts q a ++ rtp_packets ts (q + a.length) b := by
  intro a
  induction a with
  | nil => intro b q; rfl
  | cons m rest ih =>
    intro b q
    have e : q + 1 + rest.length = q + (rest.length + 1) := by omega
    show rtp_packets ts q (m :: (rest ++ b)) = _
    simp only [List.cons_append, rtp_packets, ih, List.length_cons, e]

theorem arrivals_append (time : Nat → Nat) : ∀ (a b : List rtp_frame) (i : Nat),
    arrivals time i (a ++ b) = arrivals time i a ++ arrivals time (i + a.length) b := by
  intro a
  induction a with
  | nil => intro b i; rfl
  | cons m rest ih =>
    intro b i
    have e : i + 1 + rest.length = i + (rest.length + 1) := by omega
    show arrivals time i (m :: (rest ++ b)) = _
    simp only [List.cons_append, arrivals, ih, List.length_cons, e]

theorem handle_packets_append (c : Codec) (env : recv_env) (flags : Nat) :
    ∀ (a b : List (Nat × rtp_frame)) (st st1 : h26x_state)
      (r1 : List (rtp_error_t × Option rtp_frame)),
      handle_packets c env flags a st = some (r1, st1) →
      handle_packets c env flags (a ++ b) st
        = (handle_packets c env flags b st1).map (fun r => (r1 ++ r.1, r.2)) := by
  intro a
  induction a with
  | nil =>
    intro b st st1 r1 h
    simp only [handle_packets, Option.some.injEq, Prod.mk.injEq] at h
    obtain ⟨rfl, rfl⟩ := h
    simp
  | cons x rest ih =>
    intro b st st1 r1 h
    obtain ⟨now, frame⟩ := x
    show handle_packets c env flags ((now, frame) :: (rest ++ b)) st = _
    simp only [handle_packets] at h ⊢
    cases hp : packet_handler c env now flags frame st with
    | none => rw [hp] at h; cases h
    | some v =>
      obtain ⟨ret, out, st2⟩ := v
      rw [hp] at h
      simp only [] at h ⊢
      cases hr : handle_packets c env flags rest st2 with
      | none => rw [hr] at h; cases h
      | some w =>
        rw [hr] at h
        simp only [Option.map_some', Option.some.injEq, Prod.mk.injEq] at h
        obtain ⟨rfl, rfl⟩ := h
        rw [ih b st2 w.2 w.1 (by rw [hr])]
        cases handle_packets c env flags b w.2 <;> simp

/-- Middle fragments that arrive in sequence behind the fragments `fs` already
held are all stored, each call returning `RTP_OK`. -/
theorem handle_packets_middles (c : Codec) (env : recv_env) (flags ts t0 s : Nat)
    (time : Nat → Nat) (hs : s < 65536) :
    ∀ (msgs : List buf_vec) (fs : List rtp_frame) (i : Nat) (st : h26x_state),
      InProgress c ts t0 s fs st → 1 ≤ fs.length → fs.length + msgs.length ≤ 65536 →
      (∀ m ∈ msgs, (∀ hdr, c.get_fragment_type { header := hdr, payload := m.flatten }
          = FRAG_TYPE.FT_MIDDLE) ∧
        c.get_payload_header_size + c.get_fu_header_size ≤ m.flatten.length ∧
        m.flatten.length < 2 ^ 64) →
      stripped_total c fs + (msgs.map (fun m => m.flatten.length
        - (c.get_payload_header_size + c.get_fu_header_size))).sum < 2 ^ 64 →
      (∀ j, i ≤ j → time j - t0 < env.pkt_max_delay ∧ time j - t0 ≤ 500) →
      ∃ st1, handle_packets c env flags
          (arrivals time i (rtp_packets ts (s + fs.length) msgs)) st
          = some ((rtp_packets ts (s + fs.length) msgs).map
              (fun f => (rtp_error_t.RTP_OK, some f)), st1) ∧
        InProgress c ts t0 s (fs ++ rtp_packets ts (s + fs.length) msgs) st1 := by
  intro msgs
  induction msgs with
  | nil =>
    intro fs i st hst _ _ _ _ _
    exact ⟨st, rfl, by simpa [rtp_packets] using hst⟩
  | cons m rest ih =>
    intro fs i st hst hfs hn hall h64 htime
    have hm := hall m (List.mem_cons_self _ _)
    simp only [List.map_cons, List.sum_cons, List.length_cons] at h64 hn
    obtain ⟨st1, hrun, hst1⟩ := packet_handler_middle c env (time i) flags ts t0 s fs
      ⟨⟨ts, (s + fs.length) % 65536⟩, m.flatten⟩
      st hst hfs (by omega) hs rfl rfl (hm.1 _) hm.2.1
      (by rw [stripped_total_append]; simp only []; omega) hm.2.2
      (htime i (le_refl _)).1 (htime i (le_refl _)).2
    obtain ⟨st2, hrun2, hst2⟩ := ih
      (fs ++ [(⟨⟨ts, (s + fs.length) % 65536⟩, m.flatten⟩ : rtp_frame)])
      (i + 1) st1 hst1 (by simp) (by simp; omega)
      (fun x hx => hall x (List.mem_cons_of_mem _ hx))
      (by rw [stripped_total_append]; simp only []; omega)
      (fun j hj => htime j (by omega))
    have e : s + (fs ++ [(⟨⟨ts, (s + fs.length) % 65536⟩, m.flatten⟩ : rtp_frame)]).length = s + fs.length + 1 := by simp; omega
    rw [e] at hrun2 hst2
    refine ⟨st2, ?_, ?_⟩
    · simp only [rtp_packets, arrivals, handle_packets, hrun, hrun2, Option.map_some',
        List.map_cons]
    · simpa [rtp_packets] using hst2

theorem write_bytes_zeros (pre X : List Byte) (z : Nat) (hX : X.length ≤ z) :
    write_bytes (pre ++ List.replicate z 0) pre.length X
      = (pre ++ X) ++ List.replicate (z - X.length) 0 := by
  unfold write_bytes
  have e1 : (pre ++ List.replicate z (0 : Byte)).take pre.length = pre := by simp
  have e2 : X.take ((pre ++ List.replicate z (0 : Byte)).length - pre.length) = X := by
    apply List.take_of_length_le
    simp; omega
  have e3 : (pre ++ List.replicate z (0 : Byte)).drop (pre.length + X.length)
      = List.replicate (z - X.length) 0 := by
    rw [List.drop_append_eq_append_drop]
    simp
  rw [e1, e2, e3]

theorem read_bytes_stripped (p : List Byte) (h : Nat) (hlen : h ≤ p.length)
    (h64 : p.length < 2 ^ 64) :
    read_bytes p h (size_sub p.length h) = p.drop h := by
  rw [size_sub_eq _ _ h64 hlen]
  unfold read_bytes
  apply List.take_of_length_le
  simp

/-- The copy loop of the reconstruction writes the fragments one behind the
other, each without its payload header and FU header. -/
theorem copy_fragments (h : Nat) : ∀ (fs : List rtp_frame) (k : Nat) (pre : List Byte) (z : Nat),
    (∀ f ∈ fs, h ≤ f.payload.length ∧ f.payload.length < 2 ^ 64) →
    (fs.map (fun f => f.payload.length - h)).sum ≤ z →
    (keyed k fs).foldl
      (fun (acc : List Byte × Nat) (fragment : Nat × rtp_frame) =>
        (write_bytes acc.1 acc.2
            (read_bytes fragment.2.payload h (size_sub fragment.2.payload.length h)),
          acc.2 + size_sub fragment.2.payload.length h))
      (pre ++ List.replicate z 0, pre.length)
    = (pre ++ (fs.map (fun f => f.payload.drop h)).flatten
        ++ List.replicate (z - (fs.map (fun f => f.payload.length - h)).sum) 0,
       pre.length + (fs.map (fun f => f.payload.length - h)).sum) := by
  intro fs
  induction fs with
  | nil => intro k pre z _ _; simp [keyed]
  | cons f rest ih =>
    intro k pre z hall hz
    have hf := hall f (List.mem_cons_self _ _)
    simp only [List.map_cons, List.sum_cons] at hz
    have hr := read_bytes_stripped _ _ hf.1 hf.2
    rw [size_sub_eq _ _ hf.2 hf.1] at hr
    simp only [keyed, List.foldl_cons, size_sub_eq _ _ hf.2 hf.1, hr]
    rw [write_bytes_zeros pre _ z (by rw [List.length_drop]; omega)]
    have e : pre.length + (f.payload.length - h) = (pre ++ f.payload.drop h).length := by simp
    rw [e, ih (k + 1) (pre ++ f.payload.drop h) (z - (f.payload.drop h).length)
      (fun x hx => hall x (List.mem_cons_of_mem _ hx)) (by simp; omega)]
    simp only [List.map_cons, List.sum_cons, List.flatten_cons, List.length_append,
      List.length_drop, List.append_assoc, Nat.add_assoc, Nat.sub_sub]

/-- The frame rebuilt from the fragments `fs` held in arrival order: the NAL
header from the FU headers of the last fragment, then the fragments' bytes. -/
theorem reconstruct_frame_in_order (c : Codec) (flags t0 s e : Nat) (m : rtp_frame)
    (fs : List rtp_frame) (hflag : flags &&& RCE_H26X_PREPEND_SC = 0)
    (hph : c.get_payload_header_size = c.get_nal_header_size)
    (hnal : c.get_nal_header_size ≤ 2)
    (hall : ∀ f ∈ fs, c.get_payload_header_size + c.get_fu_header_size ≤ f.payload.length ∧
      f.payload.length < 2 ^ 64)
    (h64 : c.get_nal_header_size + stripped_total c fs < 2 ^ 64) :
    reconstruct_frame c flags m (complete_info c t0 s e fs)
      = { header := m.header,
          payload :=
            ([toByte ((byteAt m.payload 0 &&& 0x81) ||| ((byteAt m.payload 2 &&& 0x3f) <<< 1)),
              toByte (byteAt m.payload 1)].take c.get_payload_header_size)
            ++ (fs.map (fun f => f.payload.drop
                  (c.get_payload_header_size + c.get_fu_header_size))).flatten } := by
  obtain ⟨hb, hhb⟩ : ∃ hb : List Byte, hb =
      [toByte ((byteAt m.payload 0 &&& 0x81) ||| ((byteAt m.payload 2 &&& 0x3f) <<< 1)),
        toByte (byteAt m.payload 1)].take c.get_payload_header_size := ⟨_, rfl⟩
  have hbl : hb.length = c.get_nal_header_size := by
    rw [hhb, List.length_take]; simp; omega
  unfold reconstruct_frame allocate_rtp_frame_with_startcode get_nal_header_from_fu_headers
  simp only [hflag, ne_eq, not_true_eq_false, decide_False, Bool.false_eq_true, if_false,
    complete_info, ← hhb]
  rw [Nat.mod_eq_of_lt (by simpa [SIZE_MOD] using h64)]
  have e0 : write_bytes (List.replicate (c.get_nal_header_size + stripped_total c fs) 0) 0 hb
      = hb ++ List.replicate (stripped_total c fs) 0 := by
    have := write_bytes_zeros [] hb (c.get_nal_header_size + stripped_total c fs) (by omega)
    simp only [List.nil_append, List.length_nil] at this
    rw [this, hbl]; simp
  rw [e0, Nat.zero_add, ← hbl]
  have := copy_fragments (c.get_payload_header_size + c.get_fu_header_size) fs s hb
    (stripped_total c fs) hall (le_refl _)
  unfold stripped_total at this ⊢
  rw [this]
  simp

theorem delivered_ok (fs : List rtp_frame) :
    delivered (fs.map (fun f => (rtp_error_t.RTP_OK, some f))) = [] := by
  induction fs with
  | nil => rfl
  | cons f rest ih =>
    unfold delivered at ih ⊢
    rw [List.map_cons, List.filterMap_cons, ih]
    rfl

theorem delivered_append (a b : List (rtp_error_t × Option rtp_frame)) :
    delivered (a ++ b) = delivered a ++ delivered b := by
  simp [delivered]

theorem fu_messages_cons (ph first mid end_ x : List Byte) (Xs : List (List Byte))
    (hne : Xs ≠ []) :
    fu_messages ph first mid end_ (x :: Xs) = [ph, first, x] :: fu_tail ph mid end_ Xs := by
  cases Xs with
  | nil => exact absurd rfl hne
  | cons y rest => rfl

theorem fu_tail_concat (ph mid end_ z : List Byte) : ∀ (mids : List (List Byte)),
    fu_tail ph mid end_ (mids ++ [z])
      = mids.map (fun x => [ph, mid, x]) ++ [[ph, end_, z]] := by
  intro mids
  induction mids with
  | nil => rfl
  | cons x rest ih =>
    cases rest with
    | nil => rfl
    | cons y rest2 =>
      show fu_tail ph mid end_ (x :: y :: (rest2 ++ [z])) = _
      rw [fu_tail]
      rw [show y :: (rest2 ++ [z]) = (y :: rest2) ++ [z] from rfl, ih]
      rfl

theorem stripped_total_messages (c : Codec) (ts : Nat) (ph h : List Byte)
    (hl : ph.length + h.length = c.get_payload_header_size + c.get_fu_header_size) :
    ∀ (Xs : List (List Byte)) (q : Nat),
      stripped_total c (rtp_packets ts q (Xs.map (fun x => [ph, h, x])))
        = (Xs.map List.length).sum := by
  intro Xs
  induction Xs with
  | nil => intro q; rfl
  | cons x rest ih =>
    intro q
    have := ih (q + 1)
    unfold stripped_total at this ⊢
    simp only [List.map_cons, rtp_packets, List.sum_cons, this]
    simp
    omega

theorem stripped_payloads_messages (ts n : Nat) (ph h : List Byte) (hl : ph.length + h.length = n) :
    ∀ (Xs : List (List Byte)) (q : Nat),
      ((rtp_packets ts q (Xs.map (fun x => [ph, h, x]))).map (fun f => f.payload.drop n)).flatten
        = Xs.flatten := by
  intro Xs
  induction Xs with
  | nil => intro q; rfl
  | cons x rest ih =>
    intro q
    simp only [List.map_cons, rtp_packets, List.flatten_cons, ih (q + 1)]
    congr 1
    simp [← hl]

theorem length_message (ph h x : List Byte) :
    ([ph, h, x] : List (List Byte)).flatten.length = ph.length + h.length + x.length := by
  simp; omega

theorem drop_headers_append (ph h x : List Byte) (n : Nat) (hl : ph.length + h.length = n) :
    (ph ++ (h ++ x)).drop n = x := by
  simp [← hl]

theorem mem_rtp_packets (ts : Nat) (f : rtp_frame) : ∀ (msgs : List buf_vec) (q : Nat),
    f ∈ rtp_packets ts q msgs → ∃ m ∈ msgs, f.payload = m.flatten := by
  intro msgs
  induction msgs with
  | nil => intro q h; simp [rtp_packets] at h
  | cons m rest ih =>
    intro q h
    simp only [rtp_packets, List.mem_cons] at h
    rcases h with rfl | h
    · exact ⟨m, List.mem_cons_self _ _, rfl⟩
    · obtain ⟨m1, hm1, e⟩ := ih (q + 1) h
      exact ⟨m1, List.mem_cons_of_mem _ hm1, e⟩

/-- The fragments of one NAL unit (start, middles, end), received in order by a
fresh reassembler within the delay limits: every call but the last returns
`RTP_OK`, the last returns `RTP_PKT_READY` with the NAL header rebuilt from the
FU headers followed by the slices. -/
theorem handle_fu_messages (c : Codec) (env : recv_env) (flags ts s t : Nat)
    (time : Nat → Nat) (ph hs hm he x : List Byte) (mids : List (List Byte)) (z : List Byte)
    (hflag : flags &&& RCE_H26X_PREPEND_SC = 0) (hs16 : s < 65536)
    (hphl : ph.length = c.get_payload_header_size)
    (hsl : hs.length = c.get_fu_header_size) (hml : hm.length = c.get_fu_header_size)
    (hel : he.length = c.get_fu_header_size)
    (hnalph : c.get_payload_header_size = c.get_nal_header_size)
    (hnal2 : c.get_nal_header_size ≤ 2)
    (hstart : ∀ hdr, c.get_fragment_type { header := hdr, payload := [ph, hs, x].flatten }
      = FRAG_TYPE.FT_START)
    (hmid : ∀ y ∈ mids, ∀ hdr,
      c.get_fragment_type { header := hdr, payload := [ph, hm, y].flatten }
        = FRAG_TYPE.FT_MIDDLE)
    (hend : ∀ hdr, c.get_fragment_type { header := hdr, payload := [ph, he, z].flatten }
      = FRAG_TYPE.FT_END)
    (hcount : mids.length + 2 ≤ 65536)
    (hx64 : ∀ y ∈ x :: (mids ++ [z]),
      c.get_payload_header_size + c.get_fu_header_size + y.length < 2 ^ 64)
    (htot : c.get_nal_header_size + ((x :: (mids ++ [z])).map List.length).sum < 2 ^ 64)
    (htime : ∀ j, time j - time 0 < env.pkt_max_delay ∧ time j - time 0 ≤ 500) :
    ∃ rs st1, handle_packets c env flags
        (arrivals time 0 (rtp_packets ts s (fu_messages ph hs hm he (x :: (mids ++ [z])))))
        (h26x_state.init t) = some (rs, st1) ∧
      rs.map Prod.fst
        = List.replicate (mids.length + 1) rtp_error_t.RTP_OK ++ [rtp_error_t.RTP_PKT_READY] ∧
      delivered rs
        = [{ header := { timestamp := ts, seq := (s + (mids.length + 1)) % 65536 },
             payload :=
               ([toByte ((byteAt [ph, he, z].flatten 0 &&& 0x81)
                    ||| ((byteAt [ph, he, z].flatten 2 &&& 0x3f) <<< 1)),
                 toByte (byteAt [ph, he, z].flatten 1)].take c.get_payload_header_size)
               ++ (x :: (mids ++ [z])).flatten }] ∧
      st1.frames_ = [] := by
  have hn : ph.length + hs.length = c.get_payload_header_size + c.get_fu_header_size := by omega
  have hnm : ph.length + hm.length = c.get_payload_header_size + c.get_fu_header_size := by omega
  have hne : ph.length + he.length = c.get_payload_header_size + c.get_fu_header_size := by omega
  have hx := hx64 x (List.mem_cons_self _ _)
  have hz := hx64 z (List.mem_cons_of_mem _ (List.mem_append_right _ (List.mem_singleton.2 rfl)))
  have hmids : ∀ y ∈ mids,
      c.get_payload_header_size + c.get_fu_header_size + y.length < 2 ^ 64 :=
    fun y hy => hx64 y (List.mem_cons_of_mem _ (List.mem_append_left _ hy))
  simp only [List.map_cons, List.map_append, List.sum_cons, List.sum_append, List.map_nil,
    List.sum_nil, Nat.add_zero] at htot
  -- the packets
  obtain ⟨f0, hf0⟩ : ∃ f : rtp_frame,
      f = ⟨⟨ts, s % 65536⟩, ([ph, hs, x] : List (List Byte)).flatten⟩ := ⟨_, rfl⟩
  obtain ⟨fe, hfe⟩ : ∃ f : rtp_frame,
      f = ⟨⟨ts, (s + 1 + mids.length) % 65536⟩, ([ph, he, z] : List (List Byte)).flatten⟩ :=
    ⟨_, rfl⟩
  obtain ⟨mp, hmp⟩ : ∃ l : List rtp_frame,
      l = rtp_packets ts (s + 1) (mids.map (fun y => [ph, hm, y])) := ⟨_, rfl⟩
  have hmpl : mp.length = mids.length := by rw [hmp, rtp_packets_length, List.length_map]
  have hpk : rtp_packets ts s (fu_messages ph hs hm he (x :: (mids ++ [z])))
      = f0 :: (mp ++ [fe]) := by
    rw [fu_messages_cons _ _ _ _ _ _ (by simp), fu_tail_concat, rtp_packets, rtp_packets_append,
      List.length_map, hf0, hfe, hmp]
    rfl
  -- the start fragment
  obtain ⟨st1, hrun1, hst1⟩ := packet_handler_start c env (time 0) flags ts s f0
    (h26x_state.init t) rfl rfl rfl hs16 (by rw [hf0]) (by rw [hf0]; exact Nat.mod_eq_of_lt hs16)
    (by rw [hf0]; exact hstart _) (by rw [hf0, length_message]; omega)
    (by rw [hf0, length_message]; omega) (by have := (htime 0).1; omega)
  -- the middle fragments
  obtain ⟨st2, hrun2, hst2⟩ := handle_packets_middles c env flags ts (time 0) s time hs16
    (mids.map (fun y => [ph, hm, y])) [f0] 1 st1 hst1 (le_refl _)
    (by simp only [List.length_map, List.length_singleton]; omega)
    (by
      intro m hm1
      obtain ⟨y, hy, rfl⟩ := List.mem_map.1 hm1
      have := hmids y hy
      refine ⟨hmid y hy, ?_, ?_⟩ <;> rw [length_message] <;> omega)
    (by
      have e1 : stripped_total c [f0] = x.length := by
        rw [hf0]; simp [stripped_total]; omega
      have e2 : ((mids.map (fun y => [ph, hm, y])).map (fun m => m.flatten.length
          - (c.get_payload_header_size + c.get_fu_header_size))).sum
          = (mids.map List.length).sum := by
        rw [List.map_map]
        congr 1
        apply List.map_congr_left
        intro y _
        simp only [Function.comp, length_message]
        omega
      rw [e1, e2]; omega)
    (fun j _ => htime j)
  rw [show s + [f0].length = s + 1 from rfl, ← hmp] at hrun2 hst2
  -- the end fragment
  have htotal : stripped_total c (([f0] ++ mp) ++ [fe])
      = x.length + ((mids.map List.length).sum + z.length) := by
    have e2 := stripped_total_messages c ts ph hm hnm mids (s + 1)
    rw [← hmp] at e2
    unfold stripped_total at e2 ⊢
    simp only [List.map_append, List.sum_append, e2, List.map_cons, List.map_nil, List.sum_cons,
      List.sum_nil, hf0, hfe, length_message]
    omega
  obtain ⟨st3, hrun3, hst3⟩ := packet_handler_end c env (time (1 + mp.length)) flags ts
    (time 0) s ([f0] ++ mp) fe st2 hst2 (by simp) (by simp; omega) hs16 (by rw [hfe])
    (by rw [hfe]; simp only [List.length_append, List.length_singleton, hmpl]; congr 1; omega)
    (by rw [hfe]; exact hend _) (by rw [hfe, length_message]; omega)
    (by rw [htotal]; omega) (by rw [hfe, length_message]; omega)
  have hrec := reconstruct_frame_in_order c flags (time 0) s fe.header.seq fe
    (([f0] ++ mp) ++ [fe]) hflag hnalph hnal2
    (by
      intro f hf
      simp only [List.mem_append, List.mem_singleton, List.mem_cons, List.not_mem_nil,
        or_false] at hf
      rcases hf with (rfl | hf) | rfl
      · rw [hf0, length_message]; omega
      · rw [hmp] at hf
        obtain ⟨m1, hm1, e⟩ := mem_rtp_packets ts f _ _ hf
        obtain ⟨y, hy, rfl⟩ := List.mem_map.1 hm1
        have := hmids y hy
        rw [e, length_message]; omega
      · rw [hfe, length_message]; omega)
    (by rw [htotal]; omega)
  have hpay : ((([f0] ++ mp) ++ [fe]).map (fun f => f.payload.drop
      (c.get_payload_header_size + c.get_fu_header_size))).flatten
      = (x :: (mids ++ [z])).flatten := by
    have e2 := stripped_payloads_messages ts _ ph hm hnm mids (s + 1)
    rw [← hmp] at e2
    simp only [List.map_append, List.flatten_append, e2, List.map_cons, List.map_nil,
      List.flatten_cons, List.flatten_nil, List.append_nil, hf0, hfe]
    rw [drop_headers_append _ _ _ _ hn, drop_headers_append _ _ _ _ hne]
    simp
  have hfin : handle_packets c env flags [(time (1 + mp.length), fe)] st2
      = some ([(rtp_error_t.RTP_PKT_READY, some (reconstruct_frame c flags fe
          (complete_info c (time 0) s fe.header.seq (([f0] ++ mp) ++ [fe]))))], st3) := by
    simp only [handle_packets, hrun3, Option.map_some']
  have hrest := handle_packets_append c env flags (arrivals time 1 mp)
    [(time (1 + mp.length), fe)] st1 st2 _ hrun2
  rw [hfin, Option.map_some'] at hrest
  refine ⟨(rtp_error_t.RTP_OK, some f0) ::
        (mp.map (fun f => (rtp_error_t.RTP_OK, some f)) ++ [(rtp_error_t.RTP_PKT_READY,
          some (reconstruct_frame c flags fe
            (complete_info c (time 0) s fe.header.seq (([f0] ++ mp) ++ [fe]))))]),
    st3, ?_, ?_, ?_, hst3.1⟩
  · rw [hpk]
    show handle_packets c env flags ((time 0, f0) :: arrivals time 1 (mp ++ [fe]))
      (h26x_state.init t) = _
    rw [arrivals_append]
    show handle_packets c env flags
      ((time 0, f0) :: (arrivals time 1 mp ++ [(time (1 + mp.length), fe)]))
      (h26x_state.init t) = _
    rw [handle_packets, hrun1]
    simp only []
    rw [hrest, Option.map_some']
  · simp only [List.map_cons, List.map_append, List.map_map, List.map_nil, List.replicate_succ,
      List.cons_append, List.cons.injEq, true_and]
    congr 1
    rw [← hmpl]
    exact List.eq_replicate_iff.2 ⟨by simp, by simp⟩
  · rw [show ((rtp_error_t.RTP_OK, some f0) ::
        (mp.map (fun f => (rtp_error_t.RTP_OK, some f)) ++ [(rtp_error_t.RTP_PKT_READY,
          some (reconstruct_frame c flags fe
            (complete_info c (time 0) s fe.header.seq (([f0] ++ mp) ++ [fe]))))]))
        = ((f0 :: mp).map (fun f => (rtp_error_t.RTP_OK, some f))) ++
          [(rtp_error_t.RTP_PKT_READY, some (reconstruct_frame c flags fe
            (complete_info c (time 0) s fe.header.seq (([f0] ++ mp) ++ [fe]))))] from rfl,
      delivered_append, delivered_ok, hrec, hpay, hfe]
    simp only [delivered, List.filterMap_cons, List.filterMap_nil, if_true, List.nil_append]
    congr 3
    omega

theorem toByte_val (b : Byte) : toByte b.val = b := by
  apply Fin.ext
  simp only [toByte]
  exact Nat.mod_eq_of_lt b.isLt

set_option maxRecDepth 100000 in
/-- The FU bytes the H.265 sender derives from the first NAL header byte `b`
and what the receiver reads from them. -/
theorem h265_fu_bits : ∀ b : Byte,
    (((toByte ((b.val &&& 0x81) ||| (49 <<< 1))).val >>> 1) &&& 0x3f = 49) ∧
    ((toByte ((1 <<< 7) ||| (toByte ((b.val >>> 1) &&& 0x3f)).val)).val &&& 0x80 ≠ 0) ∧
    ((toByte ((1 <<< 7) ||| (toByte ((b.val >>> 1) &&& 0x3f)).val)).val &&& 0x40 = 0) ∧
    ((toByte ((b.val >>> 1) &&& 0x3f)).val &&& 0x80 = 0) ∧
    ((toByte ((b.val >>> 1) &&& 0x3f)).val &&& 0x40 = 0) ∧
    ((toByte ((1 <<< 6) ||| (toByte ((b.val >>> 1) &&& 0x3f)).val)).val &&& 0x80 = 0) ∧
    ((toByte ((1 <<< 6) ||| (toByte ((b.val >>> 1) &&& 0x3f)).val)).val &&& 0x40 ≠ 0) ∧
    (toByte (((toByte ((b.val &&& 0x81) ||| (49 <<< 1))).val &&& 0x81)
      ||| (((toByte ((1 <<< 6) ||| (toByte ((b.val >>> 1) &&& 0x3f)).val)).val &&& 0x3f) <<< 1))
      = b) := by
  decide

theorem fu_chunks_le (F : Nat) (hF : 1 ≤ F) : ∀ (fuel : Nat) (bytes : List Byte), bytes.length ≤ fuel →
    ∀ y ∈ fu_chunks F fuel bytes, y.length ≤ F := by
  intro fuel
  induction fuel with
  | zero =>
    intro bytes h y hy
    simp only [fu_chunks, List.mem_singleton] at hy
    subst hy; omega
  | succ n ih =>
    intro bytes h y hy
    rw [fu_chunks] at hy
    split at hy
    · rcases List.mem_cons.1 hy with rfl | hy1
      · simp
      · exact ih _ (by rw [List.length_drop]; omega) y hy1
    · simp only [List.mem_singleton] at hy
      subst hy; omega

/-- The round trip for H.265 at one payload size above the FU overhead. -/
theorem fu_round_trip_h265_one (env : recv_env) (flags ts s : Nat) (time : Nat → Nat)
    (nal : List Byte) (M : Nat) (h64 : nal.length < 2 ^ 64)
    (hflag : flags &&& RCE_H26X_PREPEND_SC = 0) (hs16 : s < 65536)
    (htime : ∀ j, time j - time 0 < env.pkt_max_delay ∧ time j - time 0 ≤ 500)
    (hM : h265.get_payload_header_size + h265.get_fu_header_size < M) (hlt : M < nal.length)
    (hcount : (nal.length - 2 + (M - 3) - 1) / (M - 3) ≤ 65536) :
    ∃ hdr, fu_round_trip h265 env flags ts s time nal M
      = some [{ header := hdr, payload := nal }] := by
  have hM3 : 3 < M := hM
  obtain ⟨q1, hdiv, -, hq⟩ := fu_division_spec h265 nal nal.length M empty_frame_queue rfl rfl rfl
    h64 hlt hM (by decide)
  obtain ⟨b0, b1, tl, rfl⟩ : ∃ b0 b1 tl, nal = b0 :: b1 :: tl := by
    match nal, hlt with
    | [], h => simp at h
    | [_], h => simp at h; omega
    | b0 :: b1 :: tl, _ => exact ⟨b0, b1, tl, rfl⟩
  simp only [List.length_cons] at h64 hlt hcount
  have hsz : h265.get_payload_header_size = 2 ∧ h265.get_fu_header_size = 1 ∧
      h265.get_nal_header_size = 2 := ⟨rfl, rfl, rfl⟩
  have hph : h265.fu_payload_header (b0 :: b1 :: tl)
      = [toByte ((b0.val &&& 0x81) ||| (49 <<< 1)), b1] := rfl
  have ht : h265.fu_nal_type (b0 :: b1 :: tl) = toByte ((b0.val >>> 1) &&& 0x3f) := rfl
  simp only [hsz.1, hsz.2.1, hsz.2.2, hph, ht, List.length_cons, List.drop_succ_cons, List.drop_zero,
    empty_frame_queue, List.nil_append] at hq
  have e1 : tl.length + 1 + 1 - 2 = tl.length := by omega
  have e2 : M - 2 - 1 = M - 3 := by omega
  rw [e1, e2] at hq
  rw [show tl.length + 1 + 1 - 2 = tl.length from e1] at hcount
  have hlen := fu_chunks_length (M - 3) (by omega) tl.length tl (le_refl _) (by omega)
  have hle := fu_chunks_le (M - 3) (by omega) tl.length tl (le_refl _)
  have hjoin := fu_chunks_join (M - 3) tl.length tl
  -- at least two slices
  obtain ⟨x, mids, z, hch⟩ : ∃ x mids z, fu_chunks (M - 3) tl.length tl = x :: (mids ++ [z]) := by
    obtain ⟨n, hn⟩ : ∃ n, tl.length = n + 1 := ⟨tl.length - 1, by omega⟩
    rw [hn, fu_chunks, if_pos (by omega)]
    rcases List.eq_nil_or_concat (fu_chunks (M - 3) n (tl.drop (M - 3))) with h | ⟨mids, z, h⟩
    · exact absurd h (fu_chunks_ne_nil _ _ _)
    · exact ⟨tl.take (M - 3), mids, z, by rw [h]; simp⟩
  rw [hch] at hq hlen hle hjoin
  have hbits := h265_fu_bits b0
  obtain ⟨rs, st1, hrun, -, hdel, -⟩ := handle_fu_messages h265 env flags ts s (time 0) time
    [toByte ((b0.val &&& 0x81) ||| (49 <<< 1)), b1]
    [toByte ((1 <<< 7) ||| (toByte ((b0.val >>> 1) &&& 0x3f)).val)]
    [toByte ((b0.val >>> 1) &&& 0x3f)]
    [toByte ((1 <<< 6) ||| (toByte ((b0.val >>> 1) &&& 0x3f)).val)]
    x mids z hflag hs16 rfl rfl rfl rfl rfl (by decide)
    (by
      intro hdr
      simp only [h265, List.flatten_cons, List.flatten_nil, List.cons_append, List.nil_append,
        byteAt, List.getD_cons_zero, List.getD_cons_succ, hbits.1, hbits.2.2.1]
      simp only [reduceCtorEq, if_false, ne_eq, not_true_eq_false, and_false, if_true]
      rw [if_pos hbits.2.1]
      rfl)
    (by
      intro y _ hdr
      simp only [h265, List.flatten_cons, List.flatten_nil, List.cons_append, List.nil_append,
        byteAt, List.getD_cons_zero, List.getD_cons_succ, hbits.1, hbits.2.2.2.1,
        hbits.2.2.2.2.1]
      simp)
    (by
      intro hdr
      simp only [h265, List.flatten_cons, List.flatten_nil, List.cons_append, List.nil_append,
        byteAt, List.getD_cons_zero, List.getD_cons_succ, hbits.1, hbits.2.2.2.2.2.1]
      simp only [reduceCtorEq, if_false, ne_eq, not_true_eq_false, false_and, if_true]
      rw [if_pos hbits.2.2.2.2.2.2.1]
      rfl)
    (by simp only [List.length_cons, List.length_append, List.length_singleton] at hlen; omega)
    (by
      intro y hy
      have := hle y hy
      simp only [hsz.1, hsz.2.1]; omega)
    (by
      have := congrArg List.length hjoin
      rw [List.length_flatten] at this
      rw [this, hsz.2.2]; omega)
    htime
  refine ⟨⟨ts, (s + (mids.length + 1)) % 65536⟩, ?_⟩
  unfold fu_round_trip
  rw [hdiv]
  simp only [Option.some_bind, if_true, hq, hrun, Option.map_some', hdel, hjoin]
  simp only [hsz.1, List.flatten_cons, List.flatten_nil, List.cons_append, List.nil_append,
    byteAt, List.getD_cons_zero, List.getD_cons_succ, hbits.2.2.2.2.2.2.2, toByte_val]
  rfl

/-- With a fragment size of 0 the loop of `divide_frame_to_fus` returns for no
amount of fuel while the queue accepts every message. -/
theorem divide_loop_zero_size (data fu_headers : List Byte) :
    ∀ (fuel data_pos data_left : Nat) (buffers : fu_buffers) (q : frame_queue),
      0 < data_left → q.results = [] →
      divide_loop data fu_headers 0 fuel data_pos data_left buffers q = none := by
  intro fuel
  induction fuel with
  | zero => intro _ _ _ _ _ _; rfl
  | succ n ih =>
    intro data_pos data_left buffers q hl hq
    rw [divide_loop, if_pos hl]
    simp only [enqueue_message_ok _ _ hq, ne_eq, not_true_eq_false, if_false]
    exact ih _ _ _ _ (by omega) hq

/-- Claim C10 as stated is false at the minimum it allows: with payload size 3,
equal to the H.265 payload header plus FU header, the fragment size is 0 and
FU division of the 10-byte sample NAL unit never returns (the loop of
`divide_frame_to_fus` gives no result for any amount of fuel), so no fragment
reaches the reassembler and no frame is delivered. -/
theorem fu_round_trip_minimum_overhead_diverges :
    h265.get_payload_header_size + h265.get_fu_header_size = 3 ∧
    fu_round_trip h265 { pkt_max_delay := 100, sizeof_rtp_frame := 0 } 0 0 0 (fun _ => 0)
      sample_nal 3 = none ∧
    ∀ fuel, divide_loop sample_nal (initialize_fu_headers (h265.fu_nal_type sample_nal))
      (size_sub (size_sub 3 h265.get_payload_header_size) h265.get_fu_header_size) fuel
      h265.get_nal_header_size (size_sub 10 h265.get_nal_header_size)
      { payload_header := h265.fu_payload_header sample_nal,
        fu_header := (initialize_fu_headers (h265.fu_nal_type sample_nal)).take 1,
        payload := [] }
      empty_frame_queue = none :=
  ⟨rfl, by decide, fun fuel => divide_loop_zero_size _ _ fuel _ _ _ _ (by decide) rfl⟩

/-- Claim C10 (packetize/reassemble round trip), amended, for H.265 (payload
header 2 bytes, FU header 1 byte): for a NAL unit of fewer than `2 ^ 64` bytes
and payload sizes `M1`, `M2` that are greater than payload header plus FU
header, smaller than the NAL unit and give at most 65536 fragments,
`fu_division` into a queue that accepts every message followed by
`packet_handler` on the fragments (one timestamp, consecutive sequence numbers
from `s`, in order, fresh reassembler, start-code prepending off, each fragment
arriving less than `pkt_max_delay` and at most 500 ms after the first)
delivers exactly one frame, whose payload is the NAL unit; the delivered
payloads are the same for `M1` and `M2`. -/
theorem fu_round_trip_reassembles (env : recv_env) (flags ts s : Nat) (time : Nat → Nat)
    (nal : List Byte) (M1 M2 : Nat) (h64 : nal.length < 2 ^ 64)
    (hflag : flags &&& RCE_H26X_PREPEND_SC = 0) (hs16 : s < 65536)
    (htime : ∀ j, time j - time 0 < env.pkt_max_delay ∧ time j - time 0 ≤ 500)
    (hM1 : h265.get_payload_header_size + h265.get_fu_header_size < M1)
    (hlt1 : M1 < nal.length)
    (hcount1 : (nal.length - 2 + (M1 - 3) - 1) / (M1 - 3) ≤ 65536)
    (hM2 : h265.get_payload_header_size + h265.get_fu_header_size < M2)
    (hlt2 : M2 < nal.length)
    (hcount2 : (nal.length - 2 + (M2 - 3) - 1) / (M2 - 3) ≤ 65536) :
    (fu_round_trip h265 env flags ts s time nal M1).map (List.map rtp_frame.payload)
      = some [nal] ∧
    (fu_round_trip h265 env flags ts s time nal M2).map (List.map rtp_frame.payload)
      = (fu_round_trip h265 env flags ts s time nal M1).map (List.map rtp_frame.payload) := by
  obtain ⟨hdr1, h1⟩ :=
    fu_round_trip_h265_one env flags ts s time nal M1 h64 hflag hs16 htime hM1 hlt1 hcount1
  obtain ⟨hdr2, h2⟩ :=
    fu_round_trip_h265_one env flags ts s time nal M2 h64 hflag hs16 htime hM2 hlt2 hcount2
  rw [h1, h2]
  exact ⟨rfl, rfl⟩

/-- Claim C10 amended, at the 10-byte sample NAL unit with payload sizes 6 and 5
(3 and 4 fragments), sequence numbers from 65534 (wrapping through 0), all
fragments arriving at clock reading 0. -/
theorem fu_round_trip_reassembles_witness :
    sample_nal.length < 2 ^ 64 ∧ 0 &&& RCE_H26X_PREPEND_SC = 0 ∧ 65534 < 65536 ∧
    (∀ j : Nat, (fun _ : Nat => 0) j - (fun _ : Nat => 0) 0 < 100 ∧
      (fun _ : Nat => 0) j - (fun _ : Nat => 0) 0 ≤ 500) ∧
    h265.get_payload_header_size + h265.get_fu_header_size < 6 ∧ 6 < sample_nal.length ∧
    (sample_nal.length - 2 + (6 - 3) - 1) / (6 - 3) ≤ 65536 ∧
    h265.get_payload_header_size + h265.get_fu_header_size < 5 ∧ 5 < sample_nal.length ∧
    (sample_nal.length - 2 + (5 - 3) - 1) / (5 - 3) ≤ 65536 ∧
    (fu_round_trip h265 { pkt_max_delay := 100, sizeof_rtp_frame := 0 } 0 7 65534
        (fun _ => 0) sample_nal 6).map (List.map rtp_frame.payload) = some [sample_nal] ∧
    (fu_round_trip h265 { pkt_max_delay := 100, sizeof_rtp_frame := 0 } 0 7 65534
        (fun _ => 0) sample_nal 5).map (List.map rtp_frame.payload)
      = (fu_round_trip h265 { pkt_max_delay := 100, sizeof_rtp_frame := 0 } 0 7 65534
        (fun _ => 0) sample_nal 6).map (List.map rtp_frame.payload) :=
  ⟨by decide, by decide, by decide, fun _ => ⟨by simp, by simp⟩, by decide, by decide,
    by decide, by decide, by decide, by decide,
    fu_round_trip_reassembles { pkt_max_delay := 100, sizeof_rtp_frame := 0 } 0 7 65534
      (fun _ => 0) sample_nal 6 5 (by decide) (by decide) (by decide)
      (fun _ => ⟨by simp, by simp⟩) (by decide) (by decide) (by decide) (by decide)
      (by decide) (by decide)⟩

/-- Claim C18 as stated is false: for first sequence number 65534 and last
sequence number 0 `calculate_expected_fus` returns 3 (the fragments 65534,
65535, 0), not `0x10000 - s + e + 2 = 4`; and for first 0, last 65535 it
returns 65536, not `(e - s + 1) mod 2^16 = 0`. -/
theorem calculate_expected_fus_wrap_count :
    calculate_expected_fus wrap_info = 3 ∧
    calculate_expected_fus wrap_info ≠ 0x10000 - wrap_info.s_seq + wrap_info.e_seq + 2 ∧
    calculate_expected_fus full_range_info = 65536 ∧
    calculate_expected_fus full_range_info
      ≠ (full_range_info.e_seq - full_range_info.s_seq + 1) % 2 ^ 16 := by
  decide

/-- Claim C18 (expected fragment count), amended: for 16-bit sequence numbers
`s` and `e`, `calculate_expected_fus` returns `e - s + 1` when `s ≤ e` (no
reduction modulo `2^16`) and `0xffff - s + e + 2` when `s > e`. -/
theorem calculate_expected_fus_formula (info : h26x_info) (hs : info.s_seq < 65536)
    (he : info.e_seq < 65536) :
    calculate_expected_fus info
      = if info.s_seq ≤ info.e_seq then info.e_seq - info.s_seq + 1
        else 0xffff - info.s_seq + info.e_seq + 2 := by
  have hi := INVALID_SEQ_gt
  unfold calculate_expected_fus
  rw [if_neg (by omega)]
  by_cases h : info.s_seq ≤ info.e_seq
  · rw [if_neg (by omega), if_pos h]
    exact Nat.mod_eq_of_lt (by unfold SIZE_MOD; omega)
  · rw [if_pos (by omega), if_neg h, size_sub_eq _ _ (by norm_num) (by omega)]
    exact Nat.mod_eq_of_lt (by unfold SIZE_MOD; omega)

/-- Claim C18 amended, at first 65533, last 3 (seven fragments). -/
theorem calculate_expected_fus_formula_witness :
    (65533 : Nat) < 65536 ∧ (3 : Nat) < 65536 ∧
    calculate_expected_fus { h26x_info.empty with s_seq := 65533, e_seq := 3 } = 7 :=
  ⟨by decide, by decide,
    calculate_expected_fus_formula { h26x_info.empty with s_seq := 65533, e_seq := 3 }
      (by decide) (by decide)⟩

set_option maxRecDepth 100000 in
/-- The two parts of a NAL header byte, one kept in the payload header and one
in the FU header, put together again. -/
theorem nal_header_byte_bits : ∀ b : Byte,
    toByte ((b.val &&& 0x81) ||| (((b.val >>> 1) &&& 0x3f) <<< 1)) = b := by
  decide

/-- Claim C19 (NAL header reconstitution), for a codec with a 2-byte payload
header and a destination that has room for it: `get_nal_header_from_fu_headers`
stores `(p[0] & 0x81) | ((p[2] & 0x3f) << 1)` and `p[1]` at `fptr` and leaves
the other bytes alone; when `p[0]` agrees with `b0` on the bits `0x81`, `p[1]`
is `b1` and the low six bits of the FU header `p[2]` are `(b0 >> 1) & 0x3f`,
the two stored bytes are `b0`, `b1`, whatever bits 7 and 6 of the FU header
are. -/
theorem get_nal_header_from_fu_headers_rebuilds (c : Codec) (fptr : Nat)
    (p buf : List Byte) (hph : c.get_payload_header_size = 2)
    (hfit : fptr + 2 ≤ buf.length) :
    get_nal_header_from_fu_headers c fptr p buf
      = buf.take fptr
        ++ [toByte ((byteAt p 0 &&& 0x81) ||| ((byteAt p 2 &&& 0x3f) <<< 1)), toByte (byteAt p 1)]
        ++ buf.drop (fptr + 2) ∧
    ∀ b0 b1 : Byte, byteAt p 0 &&& 0x81 = b0.val &&& 0x81 → byteAt p 1 = b1.val →
      byteAt p 2 &&& 0x3f = (b0.val >>> 1) &&& 0x3f →
      get_nal_header_from_fu_headers c fptr p buf
        = buf.take fptr ++ [b0, b1] ++ buf.drop (fptr + 2) := by
  have hw : get_nal_header_from_fu_headers c fptr p buf
      = buf.take fptr
        ++ [toByte ((byteAt p 0 &&& 0x81) ||| ((byteAt p 2 &&& 0x3f) <<< 1)), toByte (byteAt p 1)]
        ++ buf.drop (fptr + 2) := by
    have e : ∀ x y : Byte, [x, y].take (buf.length - fptr) = [x, y] :=
      fun x y => List.take_of_length_le (by simp; omega)
    unfold get_nal_header_from_fu_headers write_bytes
    simp only [hph, List.take_succ_cons, List.take_zero, List.length_cons, List.length_nil, e]
  refine ⟨hw, ?_⟩
  intro b0 b1 h0 h1 h2
  rw [hw, h0, h1, h2, nal_header_byte_bits, toByte_val]

/-- Claim C19 at the header `26 01` (type 19), rebuilt from the payload header
`62 01` and the end FU header `53` into bytes 4 and 5 of an 8-byte buffer. -/
theorem get_nal_header_from_fu_headers_rebuilds_witness :
    h265.get_payload_header_size = 2 ∧
    4 + 2 ≤ ([0, 0, 0, 1, 0, 0, 0, 0] : List Byte).length ∧
    get_nal_header_from_fu_headers h265 4 [0x62, 0x01, 0x53, 7, 7] [0, 0, 0, 1, 0, 0, 0, 0]
      = [0, 0, 0, 1, 0x26, 0x01, 0, 0] :=
  ⟨rfl, by decide,
    (get_nal_header_from_fu_headers_rebuilds h265 4 [0x62, 0x01, 0x53, 7, 7]
      [0, 0, 0, 1, 0, 0, 0, 0] rfl (by decide)).2 0x26 0x01 (by decide) (by decide) (by decide)⟩

theorem byteAt_append_right (pre rest : List Byte) (k : Nat) :
    byteAt (pre ++ rest) (pre.length + k) = byteAt rest k := by
  unfold byteAt
  rw [List.getD_eq_getElem?_getD, List.getD_eq_getElem?_getD,
    List.getElem?_append_right (by omega)]
  simp

theorem aggregation_length_prefix (n : Nat) (hn : n < 65536) :
    (toByte (n / 256)).val * 256 + (toByte (n % 256)).val = n := by
  simp only [toByte]
  omega

/-- The first loop of `handle_aggregation_packet` on a well-formed body: it
records every unit and returns `RTP_OK`. -/
theorem aggregation_scan_spec (payload : List Byte) (h64 : payload.length < 2 ^ 64) :
    ∀ (units : List (List Byte)) (pre : List Byte) (fuel size : Nat) (nalus : List (Nat × Nat)),
      (∀ u ∈ units, u.length < 65536) → payload = pre ++ aggregation_body units →
      size ≤ pre.length → units.length < fuel →
      aggregation_scan payload fuel pre.length size nalus
        = some (rtp_error_t.RTP_OK, nalus ++ aggregation_positions pre.length units) := by
  intro units
  induction units with
  | nil =>
    intro pre fuel size nalus _ hp _ hf
    obtain ⟨n, rfl⟩ : ∃ n, fuel = n + 1 := ⟨fuel - 1, by simp at hf; omega⟩
    have hl : payload.length = pre.length := by rw [hp]; simp [aggregation_body]
    rw [aggregation_scan, if_neg (by omega)]
    simp [aggregation_positions]
  | cons u rest ih =>
    intro pre fuel size nalus hu hp hs hf
    obtain ⟨n, rfl⟩ : ∃ n, fuel = n + 1 := ⟨fuel - 1, by simp at hf; omega⟩
    have hul := hu u (List.mem_cons_self _ _)
    have hp1 : payload = pre ++ (toByte (u.length / 256) :: toByte (u.length % 256)
        :: (u ++ aggregation_body rest)) := by
      rw [hp]; simp [aggregation_body]
    have hp2 : payload = (pre ++ [toByte (u.length / 256), toByte (u.length % 256)] ++ u)
        ++ aggregation_body rest := by
      rw [hp]; simp [aggregation_body]
    have hl : payload.length = pre.length + 2 + u.length + (aggregation_body rest).length := by
      rw [hp2]; simp; omega
    have hb0 : byteAt payload pre.length = (toByte (u.length / 256)).val := by
      rw [hp1]
      have := byteAt_append_right pre (toByte (u.length / 256) :: toByte (u.length % 256)
        :: (u ++ aggregation_body rest)) 0
      rw [Nat.add_zero] at this
      rw [this]; rfl
    have hb1 : byteAt payload (pre.length + 1) = (toByte (u.length % 256)).val := by
      rw [hp1, byteAt_append_right]; rfl
    rw [aggregation_scan, if_pos (by omega)]
    simp only [hb0, hb1, aggregation_length_prefix _ hul]
    have hm1 : (size + u.length) % SIZE_MOD = size + u.length :=
      Nat.mod_eq_of_lt (by unfold SIZE_MOD; omega)
    have hm2 : (pre.length + u.length + 2) % SIZE_MOD = pre.length + u.length + 2 :=
      Nat.mod_eq_of_lt (by unfold SIZE_MOD; omega)
    rw [hm1, hm2, if_pos (by omega)]
    have hpl : (pre ++ [toByte (u.length / 256), toByte (u.length % 256)] ++ u).length
        = pre.length + u.length + 2 := by simp; omega
    have := ih (pre ++ [toByte (u.length / 256), toByte (u.length % 256)] ++ u) n
      (size + u.length) (nalus ++ [(u.length, pre.length + 2)])
      (fun x hx => hu x (List.mem_cons_of_mem _ hx)) hp2 (by omega)
      (by simp at hf; omega)
    rw [hpl] at this
    rw [this]
    simp [aggregation_positions]

/-- What the second loop of `handle_aggregation_packet` copies for the recorded
units of a well-formed body: the bytes of each unit. -/
theorem aggregation_positions_read (payload : List Byte) :
    ∀ (units : List (List Byte)) (pre : List Byte),
      payload = pre ++ aggregation_body units →
      (aggregation_positions pre.length units).map
          (fun nalu => (nalu.1, read_bytes payload nalu.2 nalu.1))
        = units.map (fun u => (u.length, u)) := by
  intro units
  induction units with
  | nil => intro pre _; rfl
  | cons u rest ih =>
    intro pre hp
    have hp2 : payload = (pre ++ [toByte (u.length / 256), toByte (u.length % 256)] ++ u)
        ++ aggregation_body rest := by
      rw [hp]; simp [aggregation_body]
    have hpl : (pre ++ [toByte (u.length / 256), toByte (u.length % 256)] ++ u).length
        = pre.length + u.length + 2 := by simp; omega
    have := ih _ hp2
    rw [hpl] at this
    simp only [aggregation_positions, List.map_cons, this, List.cons.injEq, Prod.mk.injEq,
      true_and, and_true]
    have hp3 : payload = (pre ++ [toByte (u.length / 256), toByte (u.length % 256)])
        ++ (u ++ aggregation_body rest) := by
      rw [hp]; simp [aggregation_body]
    unfold read_bytes
    rw [hp3]
    have e : pre.length + 2
        = (pre ++ [toByte (u.length / 256), toByte (u.length % 256)]).length := by simp
    rw [e, List.drop_left, List.take_left]

/-- A NAL unit copied into a frame from `allocate_rtp_frame_with_startcode`. -/
theorem allocate_and_copy (add_start_code : Bool) (header : rtp_header) (u : List Byte) :
    write_bytes (allocate_rtp_frame_with_startcode add_start_code header u.length 0).1.payload
        (allocate_rtp_frame_with_startcode add_start_code header u.length 0).2 u
      = start_code_if add_start_code ++ u := by
  cases add_start_code with
  | false =>
    have := write_bytes_zeros [] u u.length (le_refl _)
    simpa [allocate_rtp_frame_with_startcode, start_code_if] using this
  | true =>
    have h1 : write_bytes (List.replicate (u.length + 4) 0) 0 [0, 0, 0, 1]
        = [0, 0, 0, 1] ++ List.replicate u.length 0 := by
      have := write_bytes_zeros [] [0, 0, 0, 1] (u.length + 4) (by simp)
      simpa using this
    have h2 := write_bytes_zeros [0, 0, 0, 1] u u.length (le_refl _)
    simp only [allocate_rtp_frame_with_startcode, if_true, h1, start_code_if]
    simpa using h2

/-- Claim C20 (aggregation split): for a payload that is the payload header
followed by `k ≥ 0` units, each a 16-bit big-endian length and that many
bytes, `handle_aggregation_packet` returns `RTP_MULTIPLE_PKTS_READY` and
appends exactly `k` frames to the delivery queue, in payload order; each
carries the header of the aggregation packet and, behind the start code that
`allocate_rtp_frame_with_startcode` adds when its first argument (here `flags`)
is non-zero, the bytes of its unit. -/
theorem handle_aggregation_packet_splits (frame : rtp_frame)
    (payload_header_size flags : Nat) (st : h26x_state) (hdr : List Byte)
    (units : List (List Byte)) (hp : frame.payload = hdr ++ aggregation_body units)
    (hh : hdr.length = payload_header_size) (hu : ∀ u ∈ units, u.length < 65536)
    (h64 : frame.payload.length < 2 ^ 64) :
    handle_aggregation_packet frame payload_header_size flags st
      = some (rtp_error_t.RTP_MULTIPLE_PKTS_READY,
          { st with queued_ := st.queued_ ++ units.map (fun u =>
              { header := frame.header,
                payload := start_code_if (decide (flags ≠ 0)) ++ u }) }) := by
  have hlen : units.length < frame.payload.length + 1 := by
    have : (aggregation_body units).length ≥ units.length := by
      clear hp hu
      induction units with
      | nil => simp
      | cons u rest ih =>
        simp only [aggregation_body, List.map_cons, List.flatten_cons, List.length_append,
          List.length_cons, List.length_nil] at ih ⊢
        omega
    rw [hp, List.length_append]; omega
  have hscan := aggregation_scan_spec frame.payload h64 units hdr (frame.payload.length + 1) 0 []
    hu hp (Nat.zero_le _) hlen
  rw [hh, List.nil_append] at hscan
  have hread := aggregation_positions_read frame.payload units hdr hp
  rw [hh] at hread
  unfold handle_aggregation_packet
  rw [hscan]
  simp only [ne_eq, not_true_eq_false, if_false]
  congr 3
  have hcomp : (aggregation_positions payload_header_size units).map (fun nalu =>
        ({ (allocate_rtp_frame_with_startcode (decide (flags ≠ 0)) frame.header nalu.1 0).1 with
          payload := write_bytes
            (allocate_rtp_frame_with_startcode (decide (flags ≠ 0)) frame.header
              nalu.1 0).1.payload
            (allocate_rtp_frame_with_startcode (decide (flags ≠ 0)) frame.header nalu.1 0).2
            (read_bytes frame.payload nalu.2 nalu.1) } : rtp_frame))
      = ((aggregation_positions payload_header_size units).map
          (fun nalu => (nalu.1, read_bytes frame.payload nalu.2 nalu.1))).map (fun p =>
        ({ (allocate_rtp_frame_with_startcode (decide (flags ≠ 0)) frame.header p.1 0).1 with
          payload := write_bytes
            (allocate_rtp_frame_with_startcode (decide (flags ≠ 0)) frame.header p.1 0).1.payload
            (allocate_rtp_frame_with_startcode (decide (flags ≠ 0)) frame.header p.1 0).2
            p.2 } : rtp_frame)) := by
    rw [List.map_map]; rfl
  rw [hcomp, hread, List.map_map]
  congr 1
  apply List.map_congr_left
  intro u _
  simp only [Function.comp, allocate_and_copy]
  cases hd : decide (flags ≠ 0) <;> simp [allocate_rtp_frame_with_startcode]

/-- Claim C20 at a 2-byte payload header followed by the units `AA BB` and
`CC`, flags 0. -/
theorem handle_aggregation_packet_splits_witness :
    ([0x60, 0x01, 0, 2, 0xAA, 0xBB, 0, 1, 0xCC] : List Byte)
      = [0x60, 0x01] ++ aggregation_body [[0xAA, 0xBB], [0xCC]] ∧
    ([0x60, 0x01] : List Byte).length = 2 ∧
    (∀ u ∈ ([[0xAA, 0xBB], [0xCC]] : List (List Byte)), u.length < 65536) ∧
    ([0x60, 0x01, 0, 2, 0xAA, 0xBB, 0, 1, 0xCC] : List Byte).length < 2 ^ 64 ∧
    handle_aggregation_packet
      { header := { timestamp := 9000, seq := 7 },
        payload := [0x60, 0x01, 0, 2, 0xAA, 0xBB, 0, 1, 0xCC] } 2 0 (h26x_state.init 0)
      = some (rtp_error_t.RTP_MULTIPLE_PKTS_READY,
          { h26x_state.init 0 with queued_ :=
              [{ header := { timestamp := 9000, seq := 7 }, payload := [0xAA, 0xBB] },
               { header := { timestamp := 9000, seq := 7 }, payload := [0xCC] }] }) :=
  ⟨by decide, by decide, by decide, by decide,
    handle_aggregation_packet_splits
      { header := { timestamp := 9000, seq := 7 },
        payload := [0x60, 0x01, 0, 2, 0xAA, 0xBB, 0, 1, 0xCC] } 2 0 (h26x_state.init 0)
      [0x60, 0x01] [[0xAA, 0xBB], [0xCC]] (by decide) (by decide) (by decide) (by decide)⟩

theorem frames_find_eq_none (ts : Nat) (fr : List (Nat × h26x_info)) :
    frames_find ts fr = none ↔ ts ∉ fr.map Prod.fst := by
  induction fr with
  | nil => simp [frames_find]
  | cons e rest ih =>
    unfold frames_find at ih ⊢
    by_cases h : e.1 = ts
    · simp [List.find?, h]
    · have h1 : ¬ ts = e.1 := fun h2 => h h2.symm
      simp only [List.find?, h, decide_False, List.map_cons, List.mem_cons, h1, false_or]
      exact ih

theorem frames_find_mem (ts : Nat) (info : h26x_info) (fr : List (Nat × h26x_info))
    (h : frames_find ts fr = some info) : (ts, info) ∈ fr := by
  induction fr with
  | nil => simp [frames_find] at h
  | cons e rest ih =>
    unfold frames_find at ih h
    by_cases h1 : e.1 = ts
    · simp only [List.find?, h1, decide_True, Option.map_some', Option.some.injEq] at h
      rw [← h, ← h1]
      exact List.mem_cons_self _ _
    · simp only [List.find?, h1, decide_False] at h
      exact List.mem_cons_of_mem _ (ih h)

theorem frames_find_of_mem (ts : Nat) (info : h26x_info) (fr : List (Nat × h26x_info))
    (hn : (fr.map Prod.fst).Nodup) (h : (ts, info) ∈ fr) : frames_find ts fr = some info := by
  induction fr with
  | nil => simp at h
  | cons e rest ih =>
    simp only [List.map_cons, List.nodup_cons] at hn
    unfold frames_find at ih ⊢
    rcases List.mem_cons.1 h with rfl | h1
    · simp [List.find?]
    · have hne : e.1 ≠ ts := by
        intro he
        apply hn.1
        rw [he]
        exact List.mem_map_of_mem Prod.fst h1
      simp only [List.find?, hne, decide_False]
      exact ih hn.2 h1

theorem frames_find_set_self (ts : Nat) (info : h26x_info) (fr : List (Nat × h26x_info)) :
    frames_find ts (frames_set ts info fr) = some info := by
  induction fr with
  | nil => simp [frames_find, frames_set]
  | cons e rest ih =>
    unfold frames_find at ih ⊢
    rw [frames_set]
    by_cases h : e.1 = ts
    · simp [h, List.find?]
    · simp only [h, if_false, List.find?, decide_False]
      exact ih

theorem frames_find_set_ne (ts k : Nat) (info : h26x_info) (fr : List (Nat × h26x_info))
    (hk : k ≠ ts) : frames_find k (frames_set ts info fr) = frames_find k fr := by
  induction fr with
  | nil =>
    have : ¬ ts = k := fun h => hk h.symm
    simp [frames_find, frames_set, List.find?, this]
  | cons e rest ih =>
    unfold frames_find at ih ⊢
    rw [frames_set]
    by_cases h : e.1 = ts
    · have h1 : ¬ ts = k := fun h => hk h.symm
      have h2 : ¬ e.1 = k := by rw [h]; exact h1
      simp [h, List.find?, h1, h2]
    · simp only [h, if_false, List.find?]
      by_cases h2 : e.1 = k
      · simp [h2]
      · simp only [h2, decide_False]
        exact ih

theorem frames_find_erase_self (ts : Nat) (fr : List (Nat × h26x_info)) :
    frames_find ts (frames_erase ts fr) = none := by
  rw [frames_find_eq_none]
  simp [frames_erase, List.mem_filter]

theorem frames_find_filter (ts : Nat) (p : Nat × h26x_info → Bool)
    (fr : List (Nat × h26x_info)) (hn : (fr.map Prod.fst).Nodup) :
    frames_find ts (fr.filter p) = (frames_find ts fr).bind
      (fun info => if p (ts, info) then some info else none) := by
  cases h : frames_find ts fr with
  | none =>
    rw [frames_find_eq_none] at h
    rw [Option.none_bind, frames_find_eq_none]
    intro hm
    apply h
    obtain ⟨e, he, rfl⟩ := List.mem_map.1 hm
    exact List.mem_map_of_mem _ (List.mem_of_mem_filter he)
  | some info =>
    have hm := frames_find_mem ts info fr h
    simp only [Option.some_bind]
    by_cases hp : p (ts, info) = true
    · rw [if_pos hp]
      apply frames_find_of_mem
      · exact (List.Sublist.map _ (List.filter_sublist fr)).nodup hn
      · exact List.mem_filter.2 ⟨hm, hp⟩
    · rw [if_neg hp, frames_find_eq_none]
      intro hm2
      obtain ⟨e, he, hts⟩ := List.mem_map.1 hm2
      have he1 := List.mem_filter.1 he
      have : frames_find ts fr = some e.2 := by
        apply frames_find_of_mem _ _ _ hn
        rw [← hts]; exact he1.1
      rw [h] at this
      apply hp
      have e2 : e = (ts, info) := by
        cases e; simp only [Option.some.injEq] at this; simp at hts; rw [hts, this]
      rw [← e2]; exact he1.2

theorem frames_find_erase_ne (ts k : Nat) (fr : List (Nat × h26x_info))
    (hn : (fr.map Prod.fst).Nodup) (hk : k ≠ ts) :
    frames_find k (frames_erase ts fr) = frames_find k fr := by
  unfold frames_erase
  rw [frames_find_filter _ _ _ hn]
  cases frames_find k fr with
  | none => rfl
  | some info => simp [hk]

theorem frames_set_set (ts : Nat) (a b : h26x_info) (fr : List (Nat × h26x_info)) :
    frames_set ts b (frames_set ts a fr) = frames_set ts b fr := by
  induction fr with
  | nil => simp [frames_set]
  | cons e rest ih =>
    by_cases h : e.1 = ts
    · simp [frames_set, h]
    · simp [frames_set, h, ih]

theorem frames_erase_set (ts : Nat) (a : h26x_info) (fr : List (Nat × h26x_info)) :
    frames_erase ts (frames_set ts a fr) = frames_erase ts fr := by
  induction fr with
  | nil => simp [frames_set, frames_erase]
  | cons e rest ih =>
    unfold frames_erase at ih ⊢
    by_cases h : e.1 = ts
    · simp [frames_set, h, List.filter]
    · simp only [frames_set, h, if_false, List.filter, ne_eq, not_false_eq_true, decide_True, ih]

theorem frames_set_keys (ts : Nat) (a : h26x_info) (fr : List (Nat × h26x_info)) :
    (frames_set ts a fr).map Prod.fst
      = if ts ∈ fr.map Prod.fst then fr.map Prod.fst else fr.map Prod.fst ++ [ts] := by
  induction fr with
  | nil => simp [frames_set]
  | cons e rest ih =>
    by_cases h : e.1 = ts
    · simp [frames_set, h]
    · have h1 : ¬ ts = e.1 := fun h2 => h h2.symm
      simp only [frames_set, h, if_false, List.map_cons, ih, List.mem_cons, h1, false_or]
      split <;> simp

theorem frames_set_nodup (ts : Nat) (a : h26x_info) (fr : List (Nat × h26x_info))
    (hn : (fr.map Prod.fst).Nodup) : ((frames_set ts a fr).map Prod.fst).Nodup := by
  rw [frames_set_keys]
  split
  · exact hn
  · rename_i h
    rw [List.nodup_append]
    exact ⟨hn, List.nodup_singleton _, by simpa using h⟩

theorem frames_erase_nodup (ts : Nat) (fr : List (Nat × h26x_info))
    (hn : (fr.map Prod.fst).Nodup) : ((frames_erase ts fr).map Prod.fst).Nodup :=
  (List.Sublist.map _ (List.filter_sublist fr)).nodup hn

theorem mem_dropped_insert (ts x : Nat) (d : List Nat) :
    x ∈ dropped_insert ts d ↔ x = ts ∨ x ∈ d := by
  unfold dropped_insert
  split
  · rename_i h
    constructor
    · intro hx; exact Or.inr hx
    · rintro (rfl | hx)
      · exact h
      · exact hx
  · simp

/-- On a timestamp that has an entry `drop_frame` erases the entry and records
the timestamp as dropped. -/
theorem drop_frame_some (env : recv_env) (ts : Nat) (st : h26x_state) (info : h26x_info)
    (h : frames_find ts st.frames_ = some info) :
    ∃ n, drop_frame env ts st
      = some (n, { st with frames_ := frames_erase ts st.frames_,
                           dropped_ := dropped_insert ts st.dropped_ }) := by
  unfold drop_frame
  rw [h]
  exact ⟨_, rfl⟩

/-- Whenever `drop_frame` returns, the timestamp had an entry, which is erased,
and the timestamp is recorded as dropped. -/
theorem drop_frame_eq_some (env : recv_env) (ts n : Nat) (st st1 : h26x_state)
    (h : drop_frame env ts st = some (n, st1)) :
    frames_find ts st.frames_ ≠ none ∧
    st1 = { st with frames_ := frames_erase ts st.frames_,
                    dropped_ := dropped_insert ts st.dropped_ } := by
  unfold drop_frame at h
  cases hf : frames_find ts st.frames_ with
  | none => rw [hf] at h; cases h
  | some info =>
    rw [hf] at h
    simp only [Option.some.injEq, Prod.mk.injEq] at h
    exact ⟨by simp, h.2.symm⟩

/-- The loop over `to_remove`: when the timestamps are pairwise different and
each has an entry, every one of them is dropped. -/
theorem drop_frames_spec (env : recv_env) : ∀ (l : List Nat) (total : Nat) (st : h26x_state),
    l.Nodup → (st.frames_.map Prod.fst).Nodup →
    (∀ k ∈ l, frames_find k st.frames_ ≠ none) →
    ∃ n st1, drop_frames env l total st = some (n, st1) ∧
      st1.frames_ = st.frames_.filter (fun e => decide (e.1 ∉ l)) ∧
      (∀ x, x ∈ st1.dropped_ ↔ x ∈ st.dropped_ ∨ x ∈ l) ∧
      st1.queued_ = st.queued_ ∧
      st1.last_garbage_collection_ = st.last_garbage_collection_ := by
  intro l
  induction l with
  | nil =>
    intro total st _ _ _
    exact ⟨total, st, rfl, by simp, by simp, rfl, rfl⟩
  | cons k rest ih =>
    intro total st hl hn hall
    obtain ⟨info, hinfo⟩ := Option.ne_none_iff_exists'.1 (hall k (List.mem_cons_self _ _))
    obtain ⟨n, hd⟩ := drop_frame_some env k st info hinfo
    rw [List.nodup_cons] at hl
    obtain ⟨m, st1, hrun, hfr, hdr, hq, hgc⟩ := ih ((total + n) % 2 ^ 32)
      { st with frames_ := frames_erase k st.frames_, dropped_ := dropped_insert k st.dropped_ }
      hl.2 (frames_erase_nodup k st.frames_ hn)
      (by
        intro x hx
        have hxk : x ≠ k := fun h => hl.1 (h ▸ hx)
        simp only []
        rw [frames_find_erase_ne k x st.frames_ hn hxk]
        exact hall x (List.mem_cons_of_mem _ hx))
    refine ⟨m, st1, ?_, ?_, ?_, hq, hgc⟩
    · rw [drop_frames, hd]
      exact hrun
    · rw [hfr]
      simp only [frames_erase, List.filter_filter]
      apply List.filter_congr
      intro e _
      simp only [List.mem_cons, not_or, ne_eq, Bool.decide_and, Bool.and_comm]
    · intro x
      rw [hdr]
      simp only [mem_dropped_insert, List.mem_cons]
      tauto

/-- The function `garbage_collect_lost_frames` on a state whose keys are
pairwise different: it returns, removes exactly the entries `gc_removes`
selects and records their timestamps as dropped. -/
theorem garbage_collect_spec (env : recv_env) (now : Nat) (st : h26x_state)
    (hn : keys_nodup st) :
    ∃ st1, garbage_collect_lost_frames env now st = some st1 ∧
      st1.frames_ = st.frames_.filter (fun e => !gc_removes now st e) ∧
      (∀ x, x ∈ st1.dropped_ ↔
        x ∈ st.dropped_ ∨ ∃ e ∈ st.frames_, e.1 = x ∧ gc_removes now st e = true) ∧
      st1.queued_ = st.queued_ ∧ keys_nodup st1 := by
  unfold garbage_collect_lost_frames
  by_cases ht : now - st.last_garbage_collection_ ≥ GARBAGE_COLLECTION_INTERVAL_MS
  · rw [if_pos ht]
    have hsub : ((st.frames_.filter
        (fun gc_frame => decide (now - gc_frame.2.sframe_time > LOST_FRAME_TIMEOUT_MS))).map
        (fun gc_frame => gc_frame.1)).Nodup :=
      (List.Sublist.map _ (List.filter_sublist _)).nodup hn
    obtain ⟨n, st1, hrun, hfr, hdr, hq, -⟩ := drop_frames_spec env _ 0 st hsub hn
      (by
        intro k hk
        obtain ⟨e, he, rfl⟩ := List.mem_map.1 hk
        rw [Ne, frames_find_eq_none, not_not]
        exact List.mem_map_of_mem _ (List.mem_of_mem_filter he))
    have hmem : ∀ e ∈ st.frames_,
        (e.1 ∈ (st.frames_.filter
          (fun gc_frame => decide (now - gc_frame.2.sframe_time > LOST_FRAME_TIMEOUT_MS))).map
          (fun gc_frame => gc_frame.1)) ↔ gc_removes now st e = true := by
      intro e he
      simp only [gc_removes, ht, true_and, List.mem_map, List.mem_filter]
      constructor
      · rintro ⟨e1, ⟨he1, hold⟩, hk⟩
        have h1 := frames_find_of_mem e1.1 e1.2 st.frames_ hn he1
        have h2 := frames_find_of_mem e.1 e.2 st.frames_ hn he
        rw [hk, h2] at h1
        simp only [Option.some.injEq] at h1
        rw [h1]; exact hold
      · intro hold
        exact ⟨e, ⟨he, hold⟩, rfl⟩
    simp only [hrun]
    refine ⟨_, rfl, ?_, ?_, hq, ?_⟩
    · simp only []
      rw [hfr]
      apply List.filter_congr
      intro e he
      have := hmem e he
      cases hg : gc_removes now st e
      · simp only [Bool.not_false, decide_eq_true_eq]
        intro hx; rw [this.1 hx] at hg; cases hg
      · simp only [Bool.not_true, decide_eq_false_iff_not, not_not]
        exact this.2 hg
    · intro x
      simp only []
      rw [hdr]
      constructor
      · rintro (h | h)
        · exact Or.inl h
        · obtain ⟨e, he, rfl⟩ := List.mem_map.1 h
          have he1 := List.mem_of_mem_filter he
          exact Or.inr ⟨e, he1, rfl, (hmem e he1).1 h⟩
      · rintro (h | ⟨e, he, rfl, hg⟩)
        · exact Or.inl h
        · exact Or.inr ((hmem e he).2 hg)
    · show ((_ : List (Nat × h26x_info)).map Prod.fst).Nodup
      simp only []
      rw [hfr]
      exact (List.Sublist.map _ (List.filter_sublist _)).nodup hn
  · rw [if_neg ht]
    refine ⟨st, rfl, ?_, ?_, rfl, hn⟩
    · have : ∀ e, gc_removes now st e = false := by
        intro e; simp [gc_removes, ht]
      simp [this]
    · intro x
      have : ∀ e, gc_removes now st e = false := by
        intro e; simp [gc_removes, ht]
      simp [this]

/-- What `packet_handler` does with a fragment (start, middle or end) whose
timestamp is in progress or has not been dropped; `info` is the entry of the
timestamp after lines 681-724. The interlock tests of lines 672 and 734 are
never taken: `intra` is `INVALID_TS` unless this very call sets it, and then
the frame is an intra frame. -/
theorem packet_handler_fragment (c : Codec) (env : recv_env) (now flags : Nat)
    (frame : rtp_frame) (st : h26x_state) (info : h26x_info)
    (h1 : c.get_fragment_type frame ≠ FRAG_TYPE.FT_AGGR)
    (h2 : c.get_fragment_type frame ≠ FRAG_TYPE.FT_NOT_FRAG)
    (h3 : c.get_fragment_type frame ≠ FRAG_TYPE.FT_INVALID)
    (hnd : frames_find frame.header.timestamp st.frames_ = none →
      frame.header.timestamp ∉ st.dropped_)
    (hinfo : info = fragment_update c (c.get_fragment_type frame) frame
      ((frames_find frame.header.timestamp st.frames_).getD (fresh_info now))) :
    packet_handler c env now flags frame st =
      if is_complete info = true then
        some (rtp_error_t.RTP_PKT_READY, some (reconstruct_frame c flags frame info),
          { st with frames_ := frames_erase frame.header.timestamp st.frames_ })
      else
        ((if is_frame_late now info env.pkt_max_delay = true
              ∧ (c.get_nal_type frame ≠ NAL_TYPE.NT_INTRA
                ∨ flags &&& RCE_NO_H26X_INTRA_DELAY ≠ 0) then
            (drop_frame env frame.header.timestamp
              { st with frames_ := frames_set frame.header.timestamp info st.frames_ }).map
              (fun r => r.2)
          else some { st with frames_ := frames_set frame.header.timestamp info st.frames_ }).bind
          (fun st3 => (garbage_collect_lost_frames env now st3).map
            (fun st4 => (rtp_error_t.RTP_OK, some frame, st4)))) := by
  have hinit : frames_find frame.header.timestamp st.frames_ = none →
      (initialize_new_fragmented_frame now frame.header.timestamp st)
        = { st with frames_ := frames_set frame.header.timestamp (fresh_info now) st.frames_ } := by
    intro hf
    simp [initialize_new_fragmented_frame, hf, fresh_info, h26x_info.empty]
  unfold packet_handler
  simp only [h1, h2, h3, if_false]
  cases hf : frames_find frame.header.timestamp st.frames_ with
  | none =>
    rw [hf] at hinfo
    have hd := hnd hf
    simp only [Option.isNone_none, Bool.true_and, hd, decide_False, Bool.false_eq_true, if_false,
      if_true, ne_eq, not_true_eq_false, false_and, hinit hf, ite_self, frames_find_set_self,
      Option.getD_some, frames_set_set, frames_erase_set]
    simp only [Option.getD_none] at hinfo
    by_cases hn : c.get_nal_type frame = NAL_TYPE.NT_INTRA
    · simp only [hn, if_true, frames_find_set_self, Option.getD_some, ← hinfo, reduceCtorEq,
        false_and, if_false, frames_set_set, frames_erase_set, not_true_eq_false, false_or,
        true_and, is_complete, decide_eq_true_eq, ne_eq, decide_eq_false_iff_not]
      split
      · rfl
      · by_cases hl : is_frame_late now info env.pkt_max_delay = true <;>
          by_cases hfl : flags &&& RCE_NO_H26X_INTRA_DELAY = 0 <;>
          simp only [hl, hfl, if_true, if_false, not_true_eq_false, not_false_eq_true, and_true,
            and_false, false_and, Option.some_bind] <;>
          cases drop_frame env frame.header.timestamp
            { st with frames_ := frames_set frame.header.timestamp info st.frames_ } <;> rfl
    · simp only [hn, if_false, frames_find_set_self, Option.getD_some, ← hinfo,
        not_true_eq_false, false_and, and_false, frames_set_set, frames_erase_set,
        not_false_eq_true, true_or, and_true, is_complete, decide_eq_true_eq, ne_eq]
      split
      · rfl
      · by_cases hl : is_frame_late now info env.pkt_max_delay = true <;>
          simp only [hl, if_true, if_false, Bool.false_eq_true, Option.some_bind] <;>
          cases drop_frame env frame.header.timestamp
            { st with frames_ := frames_set frame.header.timestamp info st.frames_ } <;> rfl
  | some info0 =>
    rw [hf] at hinfo
    simp only [Option.getD_some] at hinfo
    simp only [Option.isNone_some, Bool.false_and, Bool.false_eq_true, if_false, Option.getD_some,
      ← hinfo, ne_eq, not_true_eq_false, false_and, and_false, frames_erase_set, hf,
      is_complete, decide_eq_true_eq, decide_eq_false_iff_not]
    split
    · rfl
    · by_cases hn : c.get_nal_type frame = NAL_TYPE.NT_INTRA <;>
        by_cases hl : is_frame_late now info env.pkt_max_delay = true <;>
        by_cases hfl : flags &&& RCE_NO_H26X_INTRA_DELAY = 0 <;>
        simp only [hn, hl, hfl, if_true, if_false, not_true_eq_false, not_false_eq_true, and_true,
          and_false, false_and, true_and, or_false, false_or, true_or, or_true,
          Bool.false_eq_true, Option.some_bind] <;>
        cases drop_frame env frame.header.timestamp
          { st with frames_ := frames_set frame.header.timestamp info st.frames_ } <;> rfl

theorem keyed_map_snd : ∀ (fs : List rtp_frame) (k : Nat), (keyed k fs).map Prod.snd = fs := by
  intro fs
  induction fs with
  | nil => intro k; rfl
  | cons f rest ih => intro k; simp [keyed, ih]

theorem keyed_length : ∀ (fs : List rtp_frame) (k : Nat), (keyed k fs).length = fs.length := by
  intro fs
  induction fs with
  | nil => intro k; rfl
  | cons f rest ih => intro k; simp [keyed, ih]

theorem keyed_mem_range : ∀ (fs : List rtp_frame) (k : Nat) (p : Nat × rtp_frame),
    p ∈ keyed k fs → k ≤ p.1 ∧ p.1 < k + fs.length := by
  intro fs
  induction fs with
  | nil => intro k p h; simp [keyed] at h
  | cons f rest ih =>
    intro k p h
    simp only [keyed, List.mem_cons] at h
    rcases h with rfl | h
    · simp
    · have := ih (k + 1) p h
      simp only [List.length_cons]
      omega

theorem keyed_sorted : ∀ (fs : List rtp_frame) (k : Nat),
    (keyed k fs).Pairwise (fun a b => a.1 < b.1) := by
  intro fs
  induction fs with
  | nil => intro k; simp [keyed]
  | cons f rest ih =>
    intro k
    simp only [keyed, List.pairwise_cons]
    refine ⟨?_, ih (k + 1)⟩
    intro p hp
    have := keyed_mem_range rest (k + 1) p hp
    show k < p.1
    omega

/-- Filing a fragment whose key is new keeps the fragment map a sublist of any
list sorted by key that holds the map and the new fragment. -/
theorem fragments_set_sublist (k : Nat) (f : rtp_frame) :
    ∀ (K S : List (Nat × rtp_frame)), K.Pairwise (fun a b => a.1 < b.1) → S.Sublist K →
      (k, f) ∈ K → k ∉ S.map Prod.fst →
      (fragments_set k f S).Sublist K ∧ ∀ p, p ∈ fragments_set k f S ↔ p = (k, f) ∨ p ∈ S := by
  intro K
  induction K with
  | nil => intro S _ _ hm _; simp at hm
  | cons e rest ih =>
    intro S hK hS hm hk
    rw [List.pairwise_cons] at hK
    rcases List.mem_cons.1 hm with he | hm1
    · -- the new fragment is the head of `K`
      have hSr : S.Sublist rest := by
        cases hS with
        | cons _ h => exact h
        | cons₂ _ h =>
          exfalso; apply hk; rw [← he]; simp
      have hlt : ∀ q ∈ S, k < q.1 := by
        intro q hq
        have := hK.1 q (hSr.subset hq)
        rw [← he] at this
        exact this
      have hset : fragments_set k f S = (k, f) :: S := by
        cases S with
        | nil => rfl
        | cons q S1 =>
          rw [fragments_set, if_pos (hlt q (List.mem_cons_self _ _))]
      rw [hset, ← he]
      exact ⟨List.Sublist.cons₂ _ hSr, fun p => by simp⟩
    · have hek : e.1 < k := hK.1 _ hm1
      cases hS with
      | cons _ h =>
        obtain ⟨h1, h2⟩ := ih S hK.2 h hm1 hk
        exact ⟨List.Sublist.cons _ h1, h2⟩
      | cons₂ _ h =>
        rename_i S1
        have hk1 : k ∉ S1.map Prod.fst := by
          intro hx; apply hk; simp only [List.map_cons, List.mem_cons]; exact Or.inr hx
        obtain ⟨h1, h2⟩ := ih S1 hK.2 h hm1 hk1
        rw [fragments_set, if_neg (by omega), if_neg (by omega)]
        refine ⟨List.Sublist.cons₂ _ h1, ?_⟩
        intro p
        simp only [List.mem_cons, h2]
        tauto

theorem keyed_append : ∀ (a b : List rtp_frame) (k : Nat),
    keyed k (a ++ b) = keyed k a ++ keyed (k + a.length) b := by
  intro a
  induction a with
  | nil => intro b k; rfl
  | cons f rest ih =>
    intro b k
    show keyed k (f :: (rest ++ b)) = _
    have e : k + 1 + rest.length = k + (rest.length + 1) := by omega
    simp only [keyed, ih, List.cons_append, List.length_cons, e]

theorem sorted_key_unique : ∀ (K : List (Nat × rtp_frame)),
    K.Pairwise (fun a b => a.1 < b.1) → ∀ p q, p ∈ K → q ∈ K → p.1 = q.1 → p = q := by
  intro K
  induction K with
  | nil => intro _ p q hp; simp at hp
  | cons e rest ih =>
    intro hK p q hp hq hpq
    rw [List.pairwise_cons] at hK
    rcases List.mem_cons.1 hp with rfl | hp1 <;> rcases List.mem_cons.1 hq with rfl | hq1
    · rfl
    · have := hK.1 q hq1; omega
    · have := hK.1 p hp1; omega
    · exact ih hK.2 p q hp1 hq1 hpq

theorem fragset_with_key (c : Codec) (ts s : Nat) (f0 : rtp_frame) (mids : List rtp_frame)
    (fe : rtp_frame) (H : FragSet c ts s f0 mids fe) :
    ∀ p ∈ keyed s (f0 :: (mids ++ [fe])), with_key s p.2 = p := by
  intro p hp
  obtain ⟨hs, hn, -, -, -, hall, -⟩ := H
  have hr := keyed_mem_range _ s p hp
  have hseq := (hall p hp).2.1
  simp only [List.length_cons, List.length_append, List.length_singleton,
    List.length_nil] at hr
  unfold with_key frag_key
  rw [hseq]
  have : (if s > p.1 % 65536 then 0x10000 + p.1 % 65536 else p.1 % 65536) = p.1 := by
    split <;> omega
  rw [this]

theorem fragset_mem (c : Codec) (ts s : Nat) (f0 : rtp_frame) (mids : List rtp_frame)
    (fe : rtp_frame) (H : FragSet c ts s f0 mids fe) (f : rtp_frame)
    (hf : f ∈ f0 :: (mids ++ [fe])) : with_key s f ∈ keyed s (f0 :: (mids ++ [fe])) := by
  rw [← keyed_map_snd (f0 :: (mids ++ [fe])) s] at hf
  obtain ⟨p, hp, rfl⟩ := List.mem_map.1 hf
  rw [fragset_with_key c ts s f0 mids fe H p hp]
  exact hp

theorem fragset_types (c : Codec) (ts s : Nat) (f0 : rtp_frame) (mids : List rtp_frame)
    (fe : rtp_frame) (H : FragSet c ts s f0 mids fe) (f : rtp_frame)
    (hf : f ∈ f0 :: (mids ++ [fe])) :
    (f = f0 ∧ c.get_fragment_type f = FRAG_TYPE.FT_START) ∨
    (f ≠ f0 ∧ f ≠ fe ∧ c.get_fragment_type f = FRAG_TYPE.FT_MIDDLE) ∨
    (f = fe ∧ f ≠ f0 ∧ c.get_fragment_type f = FRAG_TYPE.FT_END) := by
  obtain ⟨-, -, h0, hm, he, -, -⟩ := H
  simp only [List.mem_cons, List.mem_append, List.mem_singleton, List.not_mem_nil,
    or_false] at hf
  rcases hf with rfl | hf | rfl
  · exact Or.inl ⟨rfl, h0⟩
  · refine Or.inr (Or.inl ⟨?_, ?_, hm f hf⟩)
    · intro h; have := hm f hf; rw [h, h0] at this; cases this
    · intro h; have := hm f hf; rw [h, he] at this; cases this
  · refine Or.inr (Or.inr ⟨rfl, ?_, he⟩)
    intro h; rw [h, h0] at he; cases he

theorem fragset_seqs (c : Codec) (ts s : Nat) (f0 : rtp_frame) (mids : List rtp_frame)
    (fe : rtp_frame) (H : FragSet c ts s f0 mids fe) :
    f0.header.seq = s ∧ fe.header.seq = (s + mids.length + 1) % 65536 := by
  obtain ⟨hs, hn, -, -, -, hall, -⟩ := H
  constructor
  · have := (hall (s, f0) (by simp [keyed])).2.1
    simp only [] at this
    rw [this]; exact Nat.mod_eq_of_lt hs
  · have hm : (s + mids.length + 1, fe) ∈ keyed s (f0 :: (mids ++ [fe])) := by
      rw [show f0 :: (mids ++ [fe]) = (f0 :: mids) ++ [fe] from rfl, keyed_append]
      apply List.mem_append_right
      simp only [keyed, List.length_cons, List.mem_singleton, Nat.add_assoc]
    exact (hall _ hm).2.1

/-- Filing the fragments of the pending list one after the other. -/
theorem drain_temporary (s : Nat) (K : List (Nat × rtp_frame))
    (hK : K.Pairwise (fun a b => a.1 < b.1)) :
    ∀ (temp : List rtp_frame) (F : List (Nat × rtp_frame)),
      F.Sublist K → (∀ g ∈ temp, with_key s g ∈ K) → temp.Nodup →
      (∀ g ∈ temp, with_key s g ∉ F) →
      (temp.foldl (fun fragments fragment =>
          fragments_set
            (if s > fragment.header.seq then 0x10000 + fragment.header.seq
             else fragment.header.seq)
            fragment fragments) F).Sublist K ∧
      ∀ p, p ∈ temp.foldl (fun fragments fragment =>
          fragments_set
            (if s > fragment.header.seq then 0x10000 + fragment.header.seq
             else fragment.header.seq)
            fragment fragments) F ↔ p ∈ F ∨ ∃ g ∈ temp, p = with_key s g := by
  intro temp
  induction temp with
  | nil => intro F hF _ _ _; exact ⟨hF, fun p => by simp⟩
  | cons g rest ih =>
    intro F hF hmem hnd hnew
    rw [List.nodup_cons] at hnd
    have hg := hmem g (List.mem_cons_self _ _)
    have hkey : frag_key s g.header.seq ∉ F.map Prod.fst := by
      intro hx
      obtain ⟨q, hq, hq1⟩ := List.mem_map.1 hx
      have := sorted_key_unique K hK q (with_key s g) (hF.subset hq) hg hq1
      rw [this] at hq
      exact hnew g (List.mem_cons_self _ _) hq
    obtain ⟨h1, h2⟩ := fragments_set_sublist (frag_key s g.header.seq) g K F hK hF hg hkey
    obtain ⟨h3, h4⟩ := ih (fragments_set (frag_key s g.header.seq) g F) h1
      (fun x hx => hmem x (List.mem_cons_of_mem _ hx)) hnd.2
      (by
        intro x hx hin
        rcases (h2 _).1 hin with heq | hin1
        · have : x = g := congrArg Prod.snd heq
          rw [this] at hx
          exact hnd.1 hx
        · exact hnew x (List.mem_cons_of_mem _ hx) hin1)
    refine ⟨h3, ?_⟩
    intro p
    rw [List.foldl_cons]
    have := h4 p
    unfold frag_key at this
    rw [this, ← frag_key, h2]
    simp only [List.mem_cons, exists_eq_or_imp, with_key]
    tauto

theorem fragment_update_start (c : Codec) (a : rtp_frame) (info : h26x_info) :
    fragment_update c FRAG_TYPE.FT_START a info
      = { sframe_time := info.sframe_time, s_seq := a.header.seq, e_seq := info.e_seq,
          pkts_received := (info.pkts_received + 1) % SIZE_MOD,
          total_size := (info.total_size + size_sub a.payload.length
            (c.get_payload_header_size + c.get_fu_header_size)) % SIZE_MOD,
          fragments := info.temporary.foldl (fun fragments fragment =>
            fragments_set
              (if a.header.seq > fragment.header.seq then 0x10000 + fragment.header.seq
               else fragment.header.seq)
              fragment fragments) (fragments_set a.header.seq a info.fragments),
          temporary := [] } := by
  simp [fragment_update]

theorem fragment_update_other (c : Codec) (ty : FRAG_TYPE) (a : rtp_frame) (info : h26x_info)
    (hty : ty ≠ FRAG_TYPE.FT_START) :
    fragment_update c ty a info
      = if info.s_seq ≠ INVALID_SEQ then
          { sframe_time := info.sframe_time, s_seq := info.s_seq,
            e_seq := if ty = FRAG_TYPE.FT_END then a.header.seq else info.e_seq,
            pkts_received := (info.pkts_received + 1) % SIZE_MOD,
            total_size := (info.total_size + size_sub a.payload.length
              (c.get_payload_header_size + c.get_fu_header_size)) % SIZE_MOD,
            fragments := fragments_set (frag_key info.s_seq a.header.seq) a info.fragments,
            temporary := info.temporary }
        else
          { sframe_time := info.sframe_time, s_seq := info.s_seq,
            e_seq := if ty = FRAG_TYPE.FT_END then a.header.seq else info.e_seq,
            pkts_received := (info.pkts_received + 1) % SIZE_MOD,
            total_size := (info.total_size + size_sub a.payload.length
              (c.get_payload_header_size + c.get_fu_header_size)) % SIZE_MOD,
            fragments := info.fragments,
            temporary := info.temporary ++ [a] } := by
  unfold fragment_update frag_key
  simp only [hty, if_false, ne_eq, not_false_eq_true, if_true]
  by_cases he : ty = FRAG_TYPE.FT_END <;> by_cases hs : info.s_seq = INVALID_SEQ <;>
    simp [he, hs]

/-- The entry invariant is kept when a fragment of the set that has not arrived
before is received. -/
theorem entry_step (c : Codec) (ts s : Nat) (f0 : rtp_frame) (mids : List rtp_frame)
    (fe : rtp_frame) (H : FragSet c ts s f0 mids fe) (t0 : Nat) (arrived : List rtp_frame)
    (info : h26x_info) (a : rtp_frame)
    (hinv : EntryInv c s f0 mids fe t0 arrived info)
    (hsub : ∀ g ∈ arrived ++ [a], g ∈ f0 :: (mids ++ [fe]))
    (hnd : (arrived ++ [a]).Nodup) (hlen : arrived.length < 65536)
    (htot : stripped_total c (arrived ++ [a]) < 2 ^ 64) :
    EntryInv c s f0 mids fe t0 (arrived ++ [a])
      (fragment_update c (c.get_fragment_type a) a info) := by
  obtain ⟨ht0, hpk, htz, hss, hes, hin, hout⟩ := hinv
  have ha : a ∈ f0 :: (mids ++ [fe]) := hsub a (by simp)
  have hna : a ∉ arrived := by
    intro h
    have := List.nodup_append.1 hnd
    exact List.disjoint_left.1 this.2.2 h (List.mem_singleton.2 rfl)
  have hndarr : arrived.Nodup := (List.nodup_append.1 hnd).1
  have hK := keyed_sorted (f0 :: (mids ++ [fe])) s
  have hkeyed := fragset_mem c ts s f0 mids fe H
  have hseqs := fragset_seqs c ts s f0 mids fe H
  have hs16 : s < 65536 := H.1
  have hsinv : s ≠ INVALID_SEQ := by have := INVALID_SEQ_gt; omega
  have hbounds := H.2.2.2.2.2.1 (with_key s a) (hkeyed a ha)
  have hsz : size_sub a.payload.length (c.get_payload_header_size + c.get_fu_header_size)
      = a.payload.length - (c.get_payload_header_size + c.get_fu_header_size) :=
    size_sub_eq _ _ hbounds.2.2.2 hbounds.2.2.1
  have hpk1 : (info.pkts_received + 1) % SIZE_MOD = (arrived ++ [a]).length := by
    rw [hpk, List.length_append, List.length_singleton]
    exact Nat.mod_eq_of_lt (by unfold SIZE_MOD; omega)
  have htz1 : (info.total_size + size_sub a.payload.length
      (c.get_payload_header_size + c.get_fu_header_size)) % SIZE_MOD
      = stripped_total c (arrived ++ [a]) := by
    rw [hsz, htz, stripped_total_append]
    rw [stripped_total_append] at htot
    exact Nat.mod_eq_of_lt (by unfold SIZE_MOD; omega)
  rcases fragset_types c ts s f0 mids fe H a ha with ⟨ha0, hty⟩ | ⟨ha0, hae, hty⟩ | ⟨hae, ha0, hty⟩
  · -- the start fragment
    subst ha0
    obtain ⟨hfr, htemp⟩ := hout hna
    have hfe : fe ≠ a := by
      intro h; have := H.2.2.2.2.1; rw [h, hty] at this; cases this
    rw [hty, fragment_update_start, hpk1, htz1, hseqs.1, hfr, htemp]
    have hfirst : fragments_set s a [] = [with_key s a] := by
      simp [fragments_set, with_key, frag_key, hseqs.1]
    obtain ⟨hd1, hd2⟩ := drain_temporary s _ hK arrived [with_key s a]
      (List.singleton_sublist.2 (hkeyed a ha))
      (fun g hg => hkeyed g (hsub g (List.mem_append_left _ hg))) hndarr
      (by
        intro g hg hin1
        have : g = a := congrArg Prod.snd (List.mem_singleton.1 hin1)
        exact hna (this ▸ hg))
    rw [hfirst]
    refine ⟨ht0, rfl, rfl, by simp, ?_, ?_, ?_⟩
    · simp only [List.mem_append, List.mem_singleton, hfe, or_false]
      exact hes
    · intro _
      refine ⟨rfl, hd1, ?_⟩
      intro p
      rw [hd2]
      simp only [List.mem_singleton, List.mem_append]
      constructor
      · rintro (h | ⟨g, hg, h⟩)
        · exact ⟨a, Or.inr rfl, h⟩
        · exact ⟨g, Or.inl hg, h⟩
      · rintro ⟨g, hg | hg, h⟩
        · exact Or.inr ⟨g, hg, h⟩
        · exact Or.inl (hg ▸ h)
    · intro hn; exact absurd (List.mem_append_right _ (List.mem_singleton.2 rfl)) hn
  · -- a middle fragment
    have hne : c.get_fragment_type a ≠ FRAG_TYPE.FT_START := by rw [hty]; simp
    have hf0 : f0 ∈ arrived ++ [a] ↔ f0 ∈ arrived := by
      simp only [List.mem_append, List.mem_singleton]
      constructor
      · rintro (h | h)
        · exact h
        · exact absurd h.symm ha0
      · exact Or.inl
    have hfe : fe ∈ arrived ++ [a] ↔ fe ∈ arrived := by
      simp only [List.mem_append, List.mem_singleton]
      constructor
      · rintro (h | h)
        · exact h
        · exact absurd h.symm hae
      · exact Or.inl
    rw [fragment_update_other c _ a info hne, hpk1, htz1, hty]
    simp only [reduceCtorEq, if_false]
    by_cases h0 : f0 ∈ arrived
    · obtain ⟨htemp, hfsub, hfmem⟩ := hin h0
      rw [if_pos h0] at hss
      rw [if_pos (by rw [hss]; exact hsinv), hss]
      have hkey : frag_key s a.header.seq ∉ info.fragments.map Prod.fst := by
        intro hx
        obtain ⟨q, hq, hq1⟩ := List.mem_map.1 hx
        have := sorted_key_unique _ hK q (with_key s a) (hfsub.subset hq) (hkeyed a ha) hq1
        rw [this] at hq
        obtain ⟨g, hg, hge⟩ := (hfmem _).1 hq
        have : a = g := congrArg Prod.snd hge
        exact hna (this ▸ hg)
      obtain ⟨hs1, hs2⟩ := fragments_set_sublist (frag_key s a.header.seq) a _ _ hK hfsub
        (hkeyed a ha) hkey
      refine ⟨ht0, rfl, rfl, ?_, ?_, ?_, ?_⟩
      · simp only [hf0, h0, if_true]
      · simp only [hfe]; exact hes
      · intro _
        refine ⟨htemp, hs1, ?_⟩
        intro p
        rw [hs2, hfmem]
        simp only [List.mem_append, List.mem_singleton, with_key]
        constructor
        · rintro (h | ⟨g, hg, h⟩)
          · exact ⟨a, Or.inr rfl, h⟩
          · exact ⟨g, Or.inl hg, h⟩
        · rintro ⟨g, hg | hg, h⟩
          · exact Or.inr ⟨g, hg, h⟩
          · exact Or.inl (hg ▸ h)
      · intro hn; exact absurd (hf0.2 h0) hn
    · obtain ⟨hfr, htemp⟩ := hout h0
      rw [if_neg h0] at hss
      rw [if_neg (by rw [hss]; simp), hss]
      refine ⟨ht0, rfl, rfl, ?_, ?_, ?_, ?_⟩
      · simp only [hf0, h0, if_false]
      · simp only [hfe]; exact hes
      · intro hx; exact absurd (hf0.1 hx) h0
      · intro _; exact ⟨hfr, by rw [htemp]⟩
  · -- the end fragment
    subst hae
    have hne : c.get_fragment_type a ≠ FRAG_TYPE.FT_START := by rw [hty]; simp
    have hf0 : f0 ∈ arrived ++ [a] ↔ f0 ∈ arrived := by
      simp only [List.mem_append, List.mem_singleton]
      constructor
      · rintro (h | h)
        · exact h
        · exact absurd h.symm ha0
      · exact Or.inl
    rw [fragment_update_other c _ a info hne, hpk1, htz1, hty]
    simp only [if_true]
    by_cases h0 : f0 ∈ arrived
    · obtain ⟨htemp, hfsub, hfmem⟩ := hin h0
      rw [if_pos h0] at hss
      rw [if_pos (by rw [hss]; exact hsinv), hss]
      have hkey : frag_key s a.header.seq ∉ info.fragments.map Prod.fst := by
        intro hx
        obtain ⟨q, hq, hq1⟩ := List.mem_map.1 hx
        have := sorted_key_unique _ hK q (with_key s a) (hfsub.subset hq) (hkeyed a ha) hq1
        rw [this] at hq
        obtain ⟨g, hg, hge⟩ := (hfmem _).1 hq
        have : a = g := congrArg Prod.snd hge
        exact hna (this ▸ hg)
      obtain ⟨hs1, hs2⟩ := fragments_set_sublist (frag_key s a.header.seq) a _ _ hK hfsub
        (hkeyed a ha) hkey
      refine ⟨ht0, rfl, rfl, ?_, ?_, ?_, ?_⟩
      · simp only [hf0, h0, if_true]
      · simp
      · intro _
        refine ⟨htemp, hs1, ?_⟩
        intro p
        rw [hs2, hfmem]
        simp only [List.mem_append, List.mem_singleton, with_key]
        constructor
        · rintro (h | ⟨g, hg, h⟩)
          · exact ⟨a, Or.inr rfl, h⟩
          · exact ⟨g, Or.inl hg, h⟩
        · rintro ⟨g, hg | hg, h⟩
          · exact Or.inr ⟨g, hg, h⟩
          · exact Or.inl (hg ▸ h)
      · intro hn; exact absurd (hf0.2 h0) hn
    · obtain ⟨hfr, htemp⟩ := hout h0
      rw [if_neg h0] at hss
      rw [if_neg (by rw [hss]; simp), hss]
      refine ⟨ht0, rfl, rfl, ?_, ?_, ?_, ?_⟩
      · simp only [hf0, h0, if_false]
      · simp
      · intro hx; exact absurd (hf0.1 hx) h0
      · intro _; exact ⟨hfr, by rw [htemp]⟩

/-- The expected count for first sequence number `s` and the last sequence
number of `m + 2` consecutive fragments. -/
theorem expected_count (info : h26x_info) (s m : Nat) (hs : s < 65536) (hm : m + 2 ≤ 65536)
    (h1 : info.s_seq = s) (h2 : info.e_seq = (s + m + 1) % 65536) :
    calculate_expected_fus info = m + 2 := by
  have hi := INVALID_SEQ_gt
  unfold calculate_expected_fus
  rw [h1, h2, if_neg (by omega)]
  by_cases h : s + m + 1 < 65536
  · rw [Nat.mod_eq_of_lt h, if_neg (by omega)]
    have : (s + m + 1 - s + 1) = m + 2 := by omega
    rw [this]
    exact Nat.mod_eq_of_lt (by unfold SIZE_MOD; omega)
  · have e : (s + m + 1) % 65536 = s + m + 1 - 65536 := by omega
    rw [e, if_pos (by omega), size_sub_eq _ _ (by norm_num) (by omega)]
    have : 0xffff - s + (s + m + 1 - 65536) + 2 = m + 2 := by omega
    rw [this]
    exact Nat.mod_eq_of_lt (by unfold SIZE_MOD; omega)

/-- While fragments of the set are missing the entry is not complete. -/
theorem entry_not_complete (c : Codec) (ts s : Nat) (f0 : rtp_frame) (mids : List rtp_frame)
    (fe : rtp_frame) (H : FragSet c ts s f0 mids fe) (t0 : Nat) (arrived : List rtp_frame)
    (info : h26x_info) (hinv : EntryInv c s f0 mids fe t0 arrived info)
    (hlen : arrived.length < mids.length + 2) : is_complete info = false := by
  obtain ⟨-, hpk, -, hss, hes, -, -⟩ := hinv
  have hseqs := fragset_seqs c ts s f0 mids fe H
  unfold is_complete
  rw [decide_eq_false_iff_not]
  rintro ⟨h1, h2, h3⟩
  by_cases h0 : f0 ∈ arrived
  · by_cases he : fe ∈ arrived
    · rw [if_pos h0] at hss
      rw [if_pos he, hseqs.2] at hes
      rw [expected_count info s mids.length H.1 H.2.1 hss hes, hpk] at h3
      omega
    · rw [if_neg he] at hes; exact h2 hes
  · rw [if_neg h0] at hss; exact h1 hss

/-- When all fragments of the set have arrived the entry is complete and holds
the fragments in sending order. -/
theorem entry_complete (c : Codec) (ts s : Nat) (f0 : rtp_frame) (mids : List rtp_frame)
    (fe : rtp_frame) (H : FragSet c ts s f0 mids fe) (t0 : Nat) (arrived : List rtp_frame)
    (info : h26x_info) (hinv : EntryInv c s f0 mids fe t0 arrived info)
    (hperm : arrived.Perm (f0 :: (mids ++ [fe]))) :
    is_complete info = true ∧
    info = complete_info c t0 s fe.header.seq (f0 :: (mids ++ [fe])) := by
  obtain ⟨ht0, hpk, htz, hss, hes, hin, -⟩ := hinv
  have hseqs := fragset_seqs c ts s f0 mids fe H
  have hi := INVALID_SEQ_gt
  have hs16 : s < 65536 := H.1
  have h0 : f0 ∈ arrived := hperm.symm.subset (List.mem_cons_self _ _)
  have he : fe ∈ arrived := hperm.symm.subset (by simp)
  have hl : arrived.length = mids.length + 2 := by rw [hperm.length_eq]; simp
  rw [if_pos h0] at hss
  rw [if_pos he] at hes
  obtain ⟨htemp, hfsub, hfmem⟩ := hin h0
  have hexp : calculate_expected_fus info = mids.length + 2 :=
    expected_count info s mids.length H.1 H.2.1 hss (by rw [hes, hseqs.2])
  have hK := keyed_sorted (f0 :: (mids ++ [fe])) s
  have hKnd : (keyed s (f0 :: (mids ++ [fe]))).Nodup := by
    apply List.Pairwise.imp _ hK
    intro a b hab heq
    rw [heq] at hab
    exact Nat.lt_irrefl _ hab
  have hfr : info.fragments = keyed s (f0 :: (mids ++ [fe])) := by
    apply hfsub.eq_of_length_le
    apply List.Subperm.length_le
    apply List.subperm_of_subset hKnd
    intro p hp
    rw [hfmem]
    refine ⟨p.2, hperm.symm.subset ?_, (fragset_with_key c ts s f0 mids fe H p hp).symm⟩
    rw [← keyed_map_snd (f0 :: (mids ++ [fe])) s]
    exact List.mem_map_of_mem _ hp
  have htot : stripped_total c arrived = stripped_total c (f0 :: (mids ++ [fe])) := by
    unfold stripped_total
    exact (hperm.map _).sum_eq
  constructor
  · unfold is_complete
    rw [decide_eq_true_eq, hexp, hpk, hl, hss]
    refine ⟨by omega, ?_, rfl⟩
    rw [hes, hseqs.2]; omega
  · obtain ⟨a1, a2, a3, a4, a5, a6, a7⟩ := info
    simp only [] at ht0 hpk htz hss hes htemp hfr
    simp only [complete_info, h26x_info.mk.injEq]
    refine ⟨ht0, hss, hes, ?_, ?_, hfr, htemp⟩
    · rw [hpk, hl]; simp
    · rw [htz, htot]

/-- The frame rebuilt from a complete entry that holds the fragments `fs`: the
start code when `RCE_H26X_PREPEND_SC` is set, the NAL header from the FU
headers of the fragment that arrived last, then the fragments' bytes. -/
theorem reconstruct_frame_spec (c : Codec) (flags t0 s e : Nat) (m : rtp_frame)
    (fs : List rtp_frame)
    (hph : c.get_payload_header_size = c.get_nal_header_size)
    (hnal : c.get_nal_header_size ≤ 2)
    (hall : ∀ f ∈ fs, c.get_payload_header_size + c.get_fu_header_size ≤ f.payload.length ∧
      f.payload.length < 2 ^ 64)
    (h64 : c.get_nal_header_size + stripped_total c fs < 2 ^ 64) :
    reconstruct_frame c flags m (complete_info c t0 s e fs)
      = { header := m.header,
          payload := start_code_if (decide (flags &&& RCE_H26X_PREPEND_SC ≠ 0))
            ++ nal_header_of c m.payload ++ (fs.map (stripped c)).flatten } := by
  by_cases hflag : flags &&& RCE_H26X_PREPEND_SC = 0
  · rw [reconstruct_frame_in_order c flags t0 s e m fs hflag hph hnal hall h64]
    simp only [start_code_if, hflag, nal_header_of, ne_eq, not_true_eq_false, decide_False,
      Bool.false_eq_true, if_false, List.nil_append]
    rfl
  · obtain ⟨hb, hhb⟩ : ∃ hb : List Byte, hb = nal_header_of c m.payload := ⟨_, rfl⟩
    have hbl : hb.length = c.get_nal_header_size := by
      rw [hhb, nal_header_of, List.length_take]; simp; omega
    unfold reconstruct_frame allocate_rtp_frame_with_startcode get_nal_header_from_fu_headers
    simp only [hflag, ne_eq, not_false_eq_true, decide_True, if_true, complete_info]
    rw [Nat.mod_eq_of_lt (by simpa [SIZE_MOD] using h64)]
    have e0 : write_bytes (List.replicate (c.get_nal_header_size + stripped_total c fs + 4) 0) 0
        [0, 0, 0, 1]
        = [0, 0, 0, 1] ++ List.replicate (c.get_nal_header_size + stripped_total c fs) 0 := by
      have := write_bytes_zeros [] [0, 0, 0, 1]
        (c.get_nal_header_size + stripped_total c fs + 4) (by simp)
      simpa using this
    have e1 : write_bytes ([0, 0, 0, 1]
          ++ List.replicate (c.get_nal_header_size + stripped_total c fs) 0) (0 + 4) hb
        = ([0, 0, 0, 1] ++ hb) ++ List.replicate (stripped_total c fs) 0 := by
      have := write_bytes_zeros [0, 0, 0, 1] hb (c.get_nal_header_size + stripped_total c fs)
        (by omega)
      rw [hbl] at this
      simpa using this
    have e2 : 0 + 4 + c.get_nal_header_size = ([0, 0, 0, 1] ++ hb : List Byte).length := by
      simp [hbl]; omega
    have hcopy := copy_fragments (c.get_payload_header_size + c.get_fu_header_size) fs s
      ([0, 0, 0, 1] ++ hb) (stripped_total c fs) hall (le_refl _)
    rw [e0]
    rw [show ([toByte ((byteAt m.payload 0 &&& 0x81) ||| ((byteAt m.payload 2 &&& 0x3f) <<< 1)),
        toByte (byteAt m.payload 1)].take c.get_payload_header_size) = hb from hhb.symm ▸ rfl]
    rw [e1, e2]
    unfold stripped_total at hcopy ⊢
    rw [hcopy]
    simp only [start_code_if, if_true, Nat.sub_self, List.replicate_zero, List.append_nil,
      List.append_assoc, hhb]
    rfl

theorem fragset_nodup (c : Codec) (ts s : Nat) (f0 : rtp_frame) (mids : List rtp_frame)
    (fe : rtp_frame) (H : FragSet c ts s f0 mids fe) : (f0 :: (mids ++ [fe])).Nodup := by
  have hK := keyed_sorted (f0 :: (mids ++ [fe])) s
  have hKnd : (keyed s (f0 :: (mids ++ [fe]))).Nodup := by
    apply List.Pairwise.imp _ hK
    intro a b hab heq
    rw [heq] at hab
    exact Nat.lt_irrefl _ hab
  rw [← keyed_map_snd (f0 :: (mids ++ [fe])) s]
  apply List.Nodup.map_on _ hKnd
  intro p hp q hq hpq
  rw [← fragset_with_key c ts s f0 mids fe H p hp, ← fragset_with_key c ts s f0 mids fe H q hq,
    hpq]

theorem fragset_header (c : Codec) (ts s : Nat) (f0 : rtp_frame) (mids : List rtp_frame)
    (fe : rtp_frame) (H : FragSet c ts s f0 mids fe) (f : rtp_frame)
    (hf : f ∈ f0 :: (mids ++ [fe])) :
    f.header.timestamp = ts ∧
    c.get_payload_header_size + c.get_fu_header_size ≤ f.payload.length ∧
    f.payload.length < 2 ^ 64 ∧
    c.get_fragment_type f ≠ FRAG_TYPE.FT_AGGR ∧
    c.get_fragment_type f ≠ FRAG_TYPE.FT_NOT_FRAG ∧
    c.get_fragment_type f ≠ FRAG_TYPE.FT_INVALID := by
  have hb := H.2.2.2.2.2.1 (with_key s f) (fragset_mem c ts s f0 mids fe H f hf)
  refine ⟨hb.1, hb.2.2.1, hb.2.2.2, ?_⟩
  rcases fragset_types c ts s f0 mids fe H f hf with ⟨-, h⟩ | ⟨-, -, h⟩ | ⟨-, -, h⟩ <;>
    rw [h] <;> simp

theorem receiving_init (c : Codec) (ts s : Nat) (f0 : rtp_frame) (mids : List rtp_frame)
    (fe : rtp_frame) (time : Nat → Nat) (st : h26x_state) (hn : keys_nodup st)
    (hd : ts ∉ st.dropped_) (hf : frames_find ts st.frames_ = none) :
    Receiving c ts s f0 mids fe time [] st := by
  refine ⟨hn, hd, ?_⟩
  rw [hf]
  simp [EntryInv, fresh_info, h26x_info.empty, stripped_total]

/-- A fragment of the set that is not the last to arrive is stored; the call
returns `RTP_OK`. -/
theorem receive_fragment (c : Codec) (env : recv_env) (flags ts s : Nat) (f0 : rtp_frame)
    (mids : List rtp_frame) (fe : rtp_frame) (H : FragSet c ts s f0 mids fe)
    (time : Nat → Nat)
    (htime : ∀ j, time j - time 0 < env.pkt_max_delay ∧ time j - time 0 ≤ 500)
    (arrived : List rtp_frame) (a : rtp_frame) (later : List rtp_frame) (st : h26x_state)
    (hst : Receiving c ts s f0 mids fe time arrived st)
    (hperm : (arrived ++ a :: later).Perm (f0 :: (mids ++ [fe]))) (hlater : later ≠ []) :
    ∃ st1, packet_handler c env (time arrived.length) flags a st
        = some (rtp_error_t.RTP_OK, some a, st1) ∧
      Receiving c ts s f0 mids fe time (arrived ++ [a]) st1 := by
  obtain ⟨hn, hd, hinv⟩ := hst
  have hnd := hperm.nodup_iff.2 (fragset_nodup c ts s f0 mids fe H)
  have hlen := hperm.length_eq
  simp only [List.length_append, List.length_cons, List.length_singleton,
    List.length_nil] at hlen
  have htl : 1 ≤ later.length := by
    cases later with
    | nil => exact absurd rfl hlater
    | cons x r => simp
  have hcount := H.2.1
  have hsub : ∀ g ∈ arrived ++ [a], g ∈ f0 :: (mids ++ [fe]) := by
    intro g hg
    apply hperm.subset
    simp only [List.mem_append, List.mem_singleton, List.mem_cons] at hg ⊢
    tauto
  have hnd1 : (arrived ++ [a]).Nodup := by
    have hs : (arrived ++ [a]).Sublist (arrived ++ a :: later) := by
      apply List.Sublist.append_left
      simp
    exact hnd.sublist hs
  have htot : stripped_total c (arrived ++ [a]) < 2 ^ 64 := by
    have h1 : stripped_total c (arrived ++ a :: later)
        = stripped_total c (f0 :: (mids ++ [fe])) := by
      unfold stripped_total
      exact (hperm.map _).sum_eq
    have h2 : stripped_total c (arrived ++ [a]) ≤ stripped_total c (arrived ++ a :: later) := by
      simp [stripped_total]
    have := H.2.2.2.2.2.2
    omega
  obtain ⟨info1, hinfo1⟩ : ∃ i, i = fragment_update c (c.get_fragment_type a) a
      ((frames_find ts st.frames_).getD (fresh_info (time arrived.length))) := ⟨_, rfl⟩
  have hinv1 : EntryInv c s f0 mids fe (time 0) (arrived ++ [a]) info1 := by
    rw [hinfo1]
    exact entry_step c ts s f0 mids fe H (time 0) arrived _ a hinv hsub hnd1 (by omega) htot
  have hnc := entry_not_complete c ts s f0 mids fe H (time 0) (arrived ++ [a]) _ hinv1
    (by simp only [List.length_append, List.length_singleton]; omega)
  obtain ⟨hts, -, -, ht1, ht2, ht3⟩ := fragset_header c ts s f0 mids fe H a (hsub a (by simp))
  have hnl : is_frame_late (time arrived.length) info1 env.pkt_max_delay = false := by
    unfold is_frame_late
    rw [hinv1.1, decide_eq_false_iff_not]
    have := (htime arrived.length).1
    omega
  have hn2 : keys_nodup { st with frames_ := frames_set ts info1 st.frames_ } :=
    frames_set_nodup _ _ _ hn
  obtain ⟨st1, hgc, hfr, hdr, -, hn1⟩ := garbage_collect_spec env (time arrived.length) _ hn2
  have hkeep : ∀ e, e.1 = ts → e ∈ frames_set ts info1 st.frames_ →
      gc_removes (time arrived.length) { st with frames_ := frames_set ts info1 st.frames_ } e
        = false := by
    intro e hk he
    have h1 := frames_find_of_mem e.1 e.2 _ hn2 he
    simp only [] at h1
    rw [hk, frames_find_set_self] at h1
    simp only [Option.some.injEq] at h1
    unfold gc_removes
    rw [← h1, hinv1.1, decide_eq_false_iff_not]
    have := (htime arrived.length).2
    unfold LOST_FRAME_TIMEOUT_MS
    omega
  refine ⟨st1, ?_, hn1, ?_, ?_⟩
  · rw [packet_handler_fragment c env (time arrived.length) flags a st info1 ht1 ht2 ht3
      (fun _ => hts ▸ hd) (by rw [hts]; exact hinfo1)]
    rw [hts, hnc, hnl]
    simp only [Bool.false_eq_true, if_false, false_and, Option.some_bind, hgc, Option.map_some']
  · rw [hdr]
    rintro (h | ⟨e, he, hk, hg⟩)
    · exact hd h
    · rw [hkeep e hk he] at hg; cases hg
  · rw [hfr, frames_find_filter _ _ _ hn2]
    simp only [frames_find_set_self, Option.some_bind]
    rw [hkeep (ts, info1) rfl (frames_find_mem _ _ _ (frames_find_set_self _ _ _))]
    simp only [Bool.not_false, if_true, Option.getD_some]
    exact hinv1

/-- The last fragment of the set to arrive completes the frame: the call
returns `RTP_PKT_READY` with the rebuilt frame and the entry is erased. -/
theorem receive_last_fragment (c : Codec) (env : recv_env) (flags ts s : Nat) (f0 : rtp_frame)
    (mids : List rtp_frame) (fe : rtp_frame) (H : FragSet c ts s f0 mids fe)
    (hph : c.get_payload_header_size = c.get_nal_header_size)
    (hnal : c.get_nal_header_size ≤ 2)
    (time : Nat → Nat) (arrived : List rtp_frame) (a : rtp_frame) (st : h26x_state)
    (hst : Receiving c ts s f0 mids fe time arrived st)
    (hperm : (arrived ++ [a]).Perm (f0 :: (mids ++ [fe]))) :
    ∃ st1, packet_handler c env (time arrived.length) flags a st
        = some (rtp_error_t.RTP_PKT_READY,
            some { header := a.header,
                   payload := start_code_if (decide (flags &&& RCE_H26X_PREPEND_SC ≠ 0))
                     ++ nal_header_of c a.payload
                     ++ ((f0 :: (mids ++ [fe])).map (stripped c)).flatten }, st1) ∧
      frames_find ts st1.frames_ = none ∧ keys_nodup st1 ∧ st1.dropped_ = st.dropped_ ∧
      st1.queued_ = st.queued_ ∧
      ∀ k, k ≠ ts → frames_find k st1.frames_ = frames_find k st.frames_ := by
  obtain ⟨hn, hd, hinv⟩ := hst
  have hnd := hperm.nodup_iff.2 (fragset_nodup c ts s f0 mids fe H)
  have hlen := hperm.length_eq
  simp only [List.length_append, List.length_cons, List.length_singleton,
    List.length_nil] at hlen
  have hcount := H.2.1
  have hsub : ∀ g ∈ arrived ++ [a], g ∈ f0 :: (mids ++ [fe]) := fun g hg => hperm.subset hg
  have htot : stripped_total c (arrived ++ [a]) < 2 ^ 64 := by
    have h1 : stripped_total c (arrived ++ [a]) = stripped_total c (f0 :: (mids ++ [fe])) := by
      unfold stripped_total
      exact (hperm.map _).sum_eq
    have := H.2.2.2.2.2.2
    omega
  obtain ⟨info1, hinfo1⟩ : ∃ i, i = fragment_update c (c.get_fragment_type a) a
      ((frames_find ts st.frames_).getD (fresh_info (time arrived.length))) := ⟨_, rfl⟩
  have hinv1 : EntryInv c s f0 mids fe (time 0) (arrived ++ [a]) info1 := by
    rw [hinfo1]
    exact entry_step c ts s f0 mids fe H (time 0) arrived _ a hinv hsub hnd (by omega) htot
  obtain ⟨hc, hci⟩ := entry_complete c ts s f0 mids fe H (time 0) (arrived ++ [a]) info1 hinv1
    hperm
  obtain ⟨hts, -, -, ht1, ht2, ht3⟩ := fragset_header c ts s f0 mids fe H a (hsub a (by simp))
  refine ⟨{ st with frames_ := frames_erase ts st.frames_ }, ?_, frames_find_erase_self _ _,
    frames_erase_nodup _ _ hn, rfl, rfl, fun k hk => frames_find_erase_ne ts k _ hn hk⟩
  rw [packet_handler_fragment c env (time arrived.length) flags a st info1 ht1 ht2 ht3
    (fun _ => hts ▸ hd) (by rw [hts]; exact hinfo1)]
  rw [hts, hc, if_pos rfl, hci,
    reconstruct_frame_spec c flags (time 0) s fe.header.seq a (f0 :: (mids ++ [fe])) hph hnal
      (fun f hf => by
        have := fragset_header c ts s f0 mids fe H f hf
        exact ⟨this.2.1, this.2.2.1⟩)
      H.2.2.2.2.2.2]

/-- Fragments of the set that arrive while others are still missing are all
stored, each call returning `RTP_OK`. -/
theorem receive_fragments (c : Codec) (env : recv_env) (flags ts s : Nat) (f0 : rtp_frame)
    (mids : List rtp_frame) (fe : rtp_frame) (H : FragSet c ts s f0 mids fe)
    (time : Nat → Nat)
    (htime : ∀ j, time j - time 0 < env.pkt_max_delay ∧ time j - time 0 ≤ 500)
    (rest : List rtp_frame) (hrest : rest ≠ []) :
    ∀ (pre arrived : List rtp_frame) (st : h26x_state),
      Receiving c ts s f0 mids fe time arrived st →
      (arrived ++ (pre ++ rest)).Perm (f0 :: (mids ++ [fe])) →
      ∃ st1, handle_packets c env flags (arrivals time arrived.length pre) st
          = some (pre.map (fun f => (rtp_error_t.RTP_OK, some f)), st1) ∧
        Receiving c ts s f0 mids fe time (arrived ++ pre) st1 := by
  intro pre
  induction pre with
  | nil =>
    intro arrived st hst _
    exact ⟨st, rfl, by simpa using hst⟩
  | cons a pre1 ih =>
    intro arrived st hst hperm
    obtain ⟨st1, hrun, hst1⟩ := receive_fragment c env flags ts s f0 mids fe H time htime
      arrived a (pre1 ++ rest) st hst hperm (by simp [hrest])
    obtain ⟨st2, hrun2, hst2⟩ := ih (arrived ++ [a]) st1 hst1 (by simpa using hperm)
    have e : (arrived ++ [a]).length = arrived.length + 1 := by simp
    rw [e] at hrun2
    refine ⟨st2, ?_, by simpa using hst2⟩
    simp only [arrivals, handle_packets, hrun, hrun2, Option.map_some', List.map_cons]

/-- The fragments of one NAL unit, each received once, in any order, by a
reassembler that has no entry for the timestamp and has not dropped it: every
call but the last returns `RTP_OK`, the last returns `RTP_PKT_READY` with the
rebuilt frame, and afterwards the timestamp has no entry. -/
theorem handle_fragments_any_order (c : Codec) (env : recv_env) (flags ts s : Nat)
    (f0 : rtp_frame) (mids : List rtp_frame) (fe : rtp_frame)
    (H : FragSet c ts s f0 mids fe)
    (hph : c.get_payload_header_size = c.get_nal_header_size)
    (hnal : c.get_nal_header_size ≤ 2) (time : Nat → Nat)
    (htime : ∀ j, time j - time 0 < env.pkt_max_delay ∧ time j - time 0 ≤ 500)
    (pre : List rtp_frame) (last : rtp_frame)
    (hperm : (pre ++ [last]).Perm (f0 :: (mids ++ [fe])))
    (st : h26x_state) (hn : keys_nodup st) (hd : ts ∉ st.dropped_)
    (hf : frames_find ts st.frames_ = none) :
    ∃ st1, handle_packets c env flags (arrivals time 0 (pre ++ [last])) st
        = some (pre.map (fun f => (rtp_error_t.RTP_OK, some f))
            ++ [(rtp_error_t.RTP_PKT_READY,
                 some { header := last.header,
                        payload := start_code_if (decide (flags &&& RCE_H26X_PREPEND_SC ≠ 0))
                          ++ nal_header_of c last.payload
                          ++ ((f0 :: (mids ++ [fe])).map (stripped c)).flatten })], st1) ∧
      frames_find ts st1.frames_ = none ∧ keys_nodup st1 := by
  have h0 := receiving_init c ts s f0 mids fe time st hn hd hf
  obtain ⟨st1, hrun1, hst1⟩ := receive_fragments c env flags ts s f0 mids fe H time htime
    [last] (by simp) pre [] st h0 (by simpa using hperm)
  rw [List.nil_append] at hst1
  obtain ⟨st2, hrun2, hnone, hn2, -, -, -⟩ := receive_last_fragment c env flags ts s f0 mids fe H
    hph hnal time pre last st1 hst1 hperm
  refine ⟨st2, ?_, hnone, hn2⟩
  rw [List.length_nil] at hrun1
  rw [arrivals_append, handle_packets_append c env flags _ _ st st1 _ hrun1]
  simp only [List.length_nil, Nat.zero_add, arrivals, handle_packets, hrun2, Option.map_some']

theorem wrap_fragset : FragSet h265 9000 65534 wrap_start [wrap_middle] wrap_end := by
  unfold FragSet
  decide

theorem sample_fragset : FragSet h265 9000 100 sample_start [sample_middle] sample_end := by
  unfold FragSet
  decide

theorem delivered_ok_ready (pre : List rtp_frame) (x : rtp_frame) :
    delivered (pre.map (fun f => (rtp_error_t.RTP_OK, some f))
      ++ [(rtp_error_t.RTP_PKT_READY, some x)]) = [x] := by
  rw [delivered_append, delivered_ok]
  rfl

theorem codes_ok_ready (pre : List rtp_frame) (x : rtp_frame) :
    (pre.map (fun f => (rtp_error_t.RTP_OK, some f))
      ++ [(rtp_error_t.RTP_PKT_READY, some x)]).map Prod.fst
      = List.replicate pre.length rtp_error_t.RTP_OK ++ [rtp_error_t.RTP_PKT_READY] := by
  simp only [List.map_append, List.map_map, List.map_cons, List.map_nil]
  congr 1
  exact List.eq_replicate_iff.2 ⟨by simp, by simp⟩

/-- Claim C11 (in-order FU reassembly): the `n ≥ 2` fragments of one NAL unit
(start, middles, end; consecutive sequence numbers, wrapping or not; one
timestamp that has no entry and is not in the dropped set; each fragment
arriving less than `pkt_max_delay` and at most 500 ms after the first), given
to `packet_handler` in sequence order: each of the first `n - 1` calls returns
`RTP_OK`, the last returns `RTP_PKT_READY` with the payload
`NAL_HEADER ‖ X1 ‖ … ‖ Xn` (behind the start code when `RCE_H26X_PREPEND_SC` is
set), where `Xi` is fragment `i` without payload header and FU header and
`NAL_HEADER` is rebuilt from the FU headers of the end fragment; afterwards the
timestamp has no entry. -/
theorem packet_handler_in_order (c : Codec) (env : recv_env) (flags ts s : Nat)
    (f0 : rtp_frame) (mids : List rtp_frame) (fe : rtp_frame)
    (H : FragSet c ts s f0 mids fe)
    (hph : c.get_payload_header_size = c.get_nal_header_size)
    (hnal : c.get_nal_header_size ≤ 2) (time : Nat → Nat)
    (htime : ∀ j, time j - time 0 < env.pkt_max_delay ∧ time j - time 0 ≤ 500)
    (st : h26x_state) (hn : keys_nodup st) (hd : ts ∉ st.dropped_)
    (hf : frames_find ts st.frames_ = none) :
    ∃ st1, handle_packets c env flags (arrivals time 0 (f0 :: (mids ++ [fe]))) st
        = some ((f0 :: mids).map (fun f => (rtp_error_t.RTP_OK, some f))
            ++ [(rtp_error_t.RTP_PKT_READY,
                 some { header := fe.header,
                        payload := start_code_if (decide (flags &&& RCE_H26X_PREPEND_SC ≠ 0))
                          ++ nal_header_of c fe.payload
                          ++ ((f0 :: (mids ++ [fe])).map (stripped c)).flatten })], st1) ∧
      frames_find ts st1.frames_ = none := by
  obtain ⟨st1, hrun, hnone, -⟩ := handle_fragments_any_order c env flags ts s f0 mids fe H hph
    hnal time htime (f0 :: mids) fe (List.Perm.refl _) st hn hd hf
  exact ⟨st1, hrun, hnone⟩

/-- Claim C11 at the fragments 100 (start, `01 02`), 101 (middle, `03 04`),
102 (end, `05`) of timestamp 9000: the third call delivers `26 01 01 02 03 04
05`. -/
theorem packet_handler_in_order_witness :
    FragSet h265 9000 100 sample_start [sample_middle] sample_end ∧
    h265.get_payload_header_size = h265.get_nal_header_size ∧
    h265.get_nal_header_size ≤ 2 ∧
    (∀ j, sample_time j - sample_time 0 < sample_env.pkt_max_delay
      ∧ sample_time j - sample_time 0 ≤ 500) ∧
    keys_nodup (h26x_state.init 0) ∧ 9000 ∉ (h26x_state.init 0).dropped_ ∧
    frames_find 9000 (h26x_state.init 0).frames_ = none ∧
    ∃ st1, handle_packets h265 sample_env 0
        (arrivals sample_time 0 (sample_start :: ([sample_middle] ++ [sample_end])))
        (h26x_state.init 0)
        = some ((sample_start :: [sample_middle]).map (fun f => (rtp_error_t.RTP_OK, some f))
            ++ [(rtp_error_t.RTP_PKT_READY,
                 some { header := sample_end.header,
                        payload := start_code_if (decide (0 &&& RCE_H26X_PREPEND_SC ≠ 0))
                          ++ nal_header_of h265 sample_end.payload
                          ++ ((sample_start :: ([sample_middle] ++ [sample_end])).map
                                (stripped h265)).flatten })], st1) ∧
      frames_find 9000 st1.frames_ = none :=
  ⟨sample_fragset, rfl, by decide, fun _ => ⟨by simp [sample_time, sample_env], by simp [sample_time]⟩,
    by simp [keys_nodup, h26x_state.init], by simp [h26x_state.init], rfl,
    packet_handler_in_order h265 sample_env 0 9000 100 sample_start [sample_middle] sample_end
      sample_fragset rfl (by decide)
      sample_time (fun _ => ⟨by simp [sample_time, sample_env], by simp [sample_time]⟩)
      (h26x_state.init 0) (by simp [keys_nodup, h26x_state.init]) (by simp [h26x_state.init])
      rfl⟩

/-- Claim C12 (arrival-order independence): the fragments of one NAL unit
(start, middles, end, consecutive sequence numbers, one timestamp; every
fragment yields the same NAL header), each received once in any order `arr`:
`packet_handler` returns `RTP_PKT_READY` on the last arrival and `RTP_OK` on
all earlier ones, and the one delivered payload is the payload delivered when
the fragments arrive in sequence order. -/
theorem packet_handler_any_arrival_order (c : Codec) (env : recv_env) (flags ts s : Nat)
    (f0 : rtp_frame) (mids : List rtp_frame) (fe : rtp_frame)
    (H : FragSet c ts s f0 mids fe)
    (hph : c.get_payload_header_size = c.get_nal_header_size)
    (hnal : c.get_nal_header_size ≤ 2)
    (hhdr : ∀ f ∈ f0 :: (mids ++ [fe]), nal_header_of c f.payload = nal_header_of c f0.payload)
    (time : Nat → Nat)
    (htime : ∀ j, time j - time 0 < env.pkt_max_delay ∧ time j - time 0 ≤ 500)
    (arr : List rtp_frame) (hperm : arr.Perm (f0 :: (mids ++ [fe])))
    (st : h26x_state) (hn : keys_nodup st) (hd : ts ∉ st.dropped_)
    (hf : frames_find ts st.frames_ = none) :
    ∃ rs st1 rs0 st0,
      handle_packets c env flags (arrivals time 0 arr) st = some (rs, st1) ∧
      rs.map Prod.fst
        = List.replicate (arr.length - 1) rtp_error_t.RTP_OK ++ [rtp_error_t.RTP_PKT_READY] ∧
      handle_packets c env flags (arrivals time 0 (f0 :: (mids ++ [fe]))) st = some (rs0, st0) ∧
      (delivered rs).map rtp_frame.payload
        = [start_code_if (decide (flags &&& RCE_H26X_PREPEND_SC ≠ 0))
            ++ nal_header_of c f0.payload
            ++ ((f0 :: (mids ++ [fe])).map (stripped c)).flatten] ∧
      (delivered rs0).map rtp_frame.payload = (delivered rs).map rtp_frame.payload := by
  obtain ⟨pre, last, rfl⟩ : ∃ pre last, arr = pre ++ [last] := by
    rcases List.eq_nil_or_concat arr with h | ⟨pre, last, h⟩
    · rw [h] at hperm; exact absurd hperm.length_eq (by simp)
    · exact ⟨pre, last, by rw [h]; simp⟩
  obtain ⟨st1, hrun, -, -⟩ := handle_fragments_any_order c env flags ts s f0 mids fe H hph
    hnal time htime pre last hperm st hn hd hf
  obtain ⟨st0, hrun0, -, -⟩ := handle_fragments_any_order c env flags ts s f0 mids fe H hph
    hnal time htime (f0 :: mids) fe (List.Perm.refl _) st hn hd hf
  refine ⟨_, st1, _, st0, hrun, ?_, hrun0, ?_, ?_⟩
  · rw [codes_ok_ready]; simp
  · rw [delivered_ok_ready]
    show [_] = [_]
    simp only []
    rw [hhdr last (hperm.subset (by simp))]
  · rw [delivered_ok_ready, delivered_ok_ready]
    show [_] = [_]
    simp only []
    rw [hhdr last (hperm.subset (by simp)), hhdr fe (by simp)]

/-- Claim C12 at the sample fragments arriving in the order 102 (end), 100
(start), 101 (middle). -/
theorem packet_handler_any_arrival_order_witness :
    FragSet h265 9000 100 sample_start [sample_middle] sample_end ∧
    h265.get_payload_header_size = h265.get_nal_header_size ∧
    h265.get_nal_header_size ≤ 2 ∧
    (∀ f ∈ sample_start :: ([sample_middle] ++ [sample_end]),
      nal_header_of h265 f.payload = nal_header_of h265 sample_start.payload) ∧
    (∀ j, sample_time j - sample_time 0 < sample_env.pkt_max_delay
      ∧ sample_time j - sample_time 0 ≤ 500) ∧
    [sample_end, sample_start, sample_middle].Perm
      (sample_start :: ([sample_middle] ++ [sample_end])) ∧
    keys_nodup (h26x_state.init 0) ∧ 9000 ∉ (h26x_state.init 0).dropped_ ∧
    frames_find 9000 (h26x_state.init 0).frames_ = none ∧
    ∃ rs st1 rs0 st0,
      handle_packets h265 sample_env 0
        (arrivals sample_time 0 [sample_end, sample_start, sample_middle]) (h26x_state.init 0)
        = some (rs, st1) ∧
      rs.map Prod.fst
        = List.replicate ([sample_end, sample_start, sample_middle].length - 1)
            rtp_error_t.RTP_OK ++ [rtp_error_t.RTP_PKT_READY] ∧
      handle_packets h265 sample_env 0
        (arrivals sample_time 0 (sample_start :: ([sample_middle] ++ [sample_end])))
        (h26x_state.init 0) = some (rs0, st0) ∧
      (delivered rs).map rtp_frame.payload
        = [start_code_if (decide (0 &&& RCE_H26X_PREPEND_SC ≠ 0))
            ++ nal_header_of h265 sample_start.payload
            ++ ((sample_start :: ([sample_middle] ++ [sample_end])).map
                  (stripped h265)).flatten] ∧
      (delivered rs0).map rtp_frame.payload = (delivered rs).map rtp_frame.payload :=
  ⟨sample_fragset, rfl, by decide, by decide,
    fun _ => ⟨by simp [sample_time, sample_env], by simp [sample_time]⟩, by decide,
    by simp [keys_nodup, h26x_state.init], by simp [h26x_state.init], rfl,
    packet_handler_any_arrival_order h265 sample_env 0 9000 100 sample_start [sample_middle]
      sample_end sample_fragset rfl (by decide) (by decide)
      sample_time (fun _ => ⟨by simp [sample_time, sample_env], by simp [sample_time]⟩)
      [sample_end, sample_start, sample_middle] (by decide)
      (h26x_state.init 0) (by simp [keys_nodup, h26x_state.init]) (by simp [h26x_state.init])
      rfl⟩

theorem stripped_of_payloads (c : Codec) (fs gs : List rtp_frame)
    (h : fs.map rtp_frame.payload = gs.map rtp_frame.payload) :
    fs.map (stripped c) = gs.map (stripped c) := by
  have e : ∀ l : List rtp_frame, l.map (stripped c)
      = (l.map rtp_frame.payload).map
          (fun p => p.drop (c.get_payload_header_size + c.get_fu_header_size)) := by
    intro l; rw [List.map_map]; rfl
  rw [e fs, e gs, h]

/-- Claim C13 (wrap safety): two fragment sets with the same fragment payloads
(each set: start, middles, end of one NAL unit, at most 65536 fragments,
consecutive 16-bit sequence numbers from its own first sequence number; every
fragment yields the same NAL header), each received once in any order: both
deliver exactly one frame and the two payloads are equal. In particular a set
whose sequence numbers wrap from 65535 to 0 delivers what the same payloads
deliver on sequence numbers that do not wrap. -/
theorem packet_handler_wrap_safe (c : Codec) (env : recv_env) (flags ts s : Nat)
    (f0 : rtp_frame) (mids : List rtp_frame) (fe : rtp_frame)
    (H : FragSet c ts s f0 mids fe) (ts2 s2 : Nat)
    (g0 : rtp_frame) (gmids : List rtp_frame) (ge : rtp_frame)
    (H2 : FragSet c ts2 s2 g0 gmids ge)
    (hpay : (f0 :: (mids ++ [fe])).map rtp_frame.payload
      = (g0 :: (gmids ++ [ge])).map rtp_frame.payload)
    (hph : c.get_payload_header_size = c.get_nal_header_size)
    (hnal : c.get_nal_header_size ≤ 2)
    (hhdr : ∀ f ∈ f0 :: (mids ++ [fe]), nal_header_of c f.payload = nal_header_of c f0.payload)
    (time time2 : Nat → Nat)
    (htime : ∀ j, time j - time 0 < env.pkt_max_delay ∧ time j - time 0 ≤ 500)
    (htime2 : ∀ j, time2 j - time2 0 < env.pkt_max_delay ∧ time2 j - time2 0 ≤ 500)
    (arr arr2 : List rtp_frame) (hperm : arr.Perm (f0 :: (mids ++ [fe])))
    (hperm2 : arr2.Perm (g0 :: (gmids ++ [ge])))
    (st st2 : h26x_state) (hn : keys_nodup st) (hd : ts ∉ st.dropped_)
    (hf : frames_find ts st.frames_ = none) (hn2 : keys_nodup st2)
    (hd2 : ts2 ∉ st2.dropped_) (hf2 : frames_find ts2 st2.frames_ = none) :
    ∃ rs st1 rs2 st3,
      handle_packets c env flags (arrivals time 0 arr) st = some (rs, st1) ∧
      handle_packets c env flags (arrivals time2 0 arr2) st2 = some (rs2, st3) ∧
      (delivered rs).length = 1 ∧
      (delivered rs2).map rtp_frame.payload = (delivered rs).map rtp_frame.payload := by
  obtain ⟨pre, last, rfl⟩ : ∃ pre last, arr = pre ++ [last] := by
    rcases List.eq_nil_or_concat arr with h | ⟨pre, last, h⟩
    · rw [h] at hperm; exact absurd hperm.length_eq (by simp)
    · exact ⟨pre, last, by rw [h]; simp⟩
  obtain ⟨pre2, last2, rfl⟩ : ∃ pre last, arr2 = pre ++ [last] := by
    rcases List.eq_nil_or_concat arr2 with h | ⟨pre, last, h⟩
    · rw [h] at hperm2; exact absurd hperm2.length_eq (by simp)
    · exact ⟨pre, last, by rw [h]; simp⟩
  obtain ⟨st1, hrun, -, -⟩ := handle_fragments_any_order c env flags ts s f0 mids fe H hph
    hnal time htime pre last hperm st hn hd hf
  obtain ⟨st3, hrun2, -, -⟩ := handle_fragments_any_order c env flags ts2 s2 g0 gmids ge H2 hph
    hnal time2 htime2 pre2 last2 hperm2 st2 hn2 hd2 hf2
  have hlast2 : nal_header_of c last2.payload = nal_header_of c f0.payload := by
    have hm : last2.payload ∈ (g0 :: (gmids ++ [ge])).map rtp_frame.payload :=
      List.mem_map_of_mem _ (hperm2.subset (by simp))
    rw [← hpay] at hm
    obtain ⟨f, hf1, hf2⟩ := List.mem_map.1 hm
    rw [← hf2]
    exact hhdr f hf1
  refine ⟨_, st1, _, st3, hrun, hrun2, ?_, ?_⟩
  · rw [delivered_ok_ready]; rfl
  · rw [delivered_ok_ready, delivered_ok_ready]
    show [_] = [_]
    simp only []
    rw [hhdr last (hperm.subset (by simp)), hlast2,
      stripped_of_payloads c _ _ hpay]

/-- Claim C13 at start 65534, middle 65535, end 0 arriving as end, start,
middle, against the same payloads on 100, 101, 102 arriving in order. -/
theorem packet_handler_wrap_safe_witness :
    FragSet h265 9000 65534 wrap_start [wrap_middle] wrap_end ∧
    FragSet h265 9000 100 sample_start [sample_middle] sample_end ∧
    (wrap_start :: ([wrap_middle] ++ [wrap_end])).map rtp_frame.payload
      = (sample_start :: ([sample_middle] ++ [sample_end])).map rtp_frame.payload ∧
    h265.get_payload_header_size = h265.get_nal_header_size ∧
    h265.get_nal_header_size ≤ 2 ∧
    (∀ f ∈ wrap_start :: ([wrap_middle] ++ [wrap_end]),
      nal_header_of h265 f.payload = nal_header_of h265 wrap_start.payload) ∧
    (∀ j, sample_time j - sample_time 0 < sample_env.pkt_max_delay
      ∧ sample_time j - sample_time 0 ≤ 500) ∧
    [wrap_end, wrap_start, wrap_middle].Perm (wrap_start :: ([wrap_middle] ++ [wrap_end])) ∧
    [sample_start, sample_middle, sample_end].Perm
      (sample_start :: ([sample_middle] ++ [sample_end])) ∧
    keys_nodup (h26x_state.init 0) ∧ 9000 ∉ (h26x_state.init 0).dropped_ ∧
    frames_find 9000 (h26x_state.init 0).frames_ = none ∧
    ∃ rs st1 rs2 st3,
      handle_packets h265 sample_env 0
        (arrivals sample_time 0 [wrap_end, wrap_start, wrap_middle]) (h26x_state.init 0)
        = some (rs, st1) ∧
      handle_packets h265 sample_env 0
        (arrivals sample_time 0 [sample_start, sample_middle, sample_end]) (h26x_state.init 0)
        = some (rs2, st3) ∧
      (delivered rs).length = 1 ∧
      (delivered rs2).map rtp_frame.payload = (delivered rs).map rtp_frame.payload :=
  ⟨wrap_fragset, sample_fragset, by decide, rfl, by decide, by decide,
    fun _ => ⟨by simp [sample_time, sample_env], by simp [sample_time]⟩, by decide, by decide,
    by simp [keys_nodup, h26x_state.init], by simp [h26x_state.init], rfl,
    packet_handler_wrap_safe h265 sample_env 0 9000 65534 wrap_start [wrap_middle] wrap_end
      wrap_fragset 9000 100 sample_start [sample_middle] sample_end sample_fragset (by decide)
      rfl (by decide) (by decide) sample_time sample_time
      (fun _ => ⟨by simp [sample_time, sample_env], by simp [sample_time]⟩)
      (fun _ => ⟨by simp [sample_time, sample_env], by simp [sample_time]⟩)
      [wrap_end, wrap_start, wrap_middle] [sample_start, sample_middle, sample_end]
      (by decide) (by decide) (h26x_state.init 0) (h26x_state.init 0)
      (by simp [keys_nodup, h26x_state.init]) (by simp [h26x_state.init]) rfl
      (by simp [keys_nodup, h26x_state.init]) (by simp [h26x_state.init]) rfl⟩

/-- Claim C14 fails on the code: with intra delay enabled (`flags = 0`) and the
intra frame of timestamp 1000 in progress (start fragment received, end
fragment missing), the end fragment of the inter frame of timestamp 2000 makes
`packet_handler` return `RTP_PKT_READY` and deliver the inter frame `02 01 07
08`; timestamp 2000 does not enter the dropped set. The intra frame is
delivered when its end fragment arrives. -/
theorem packet_handler_delivers_inter_during_intra :
    h265.get_nal_type intra_start = NAL_TYPE.NT_INTRA ∧
    h265.get_nal_type inter_end = NAL_TYPE.NT_INTER ∧
    0 &&& RCE_NO_H26X_INTRA_DELAY = 0 ∧
    (handle_packets h265 sample_env 0
        (arrivals sample_time 0 [intra_start, inter_start, inter_end, intra_end])
        (h26x_state.init 0)).map (fun r => (r.1.map Prod.fst, delivered r.1, r.2.dropped_))
      = some ([rtp_error_t.RTP_OK, rtp_error_t.RTP_OK, rtp_error_t.RTP_PKT_READY,
                rtp_error_t.RTP_PKT_READY],
              [{ header := inter_end.header, payload := [0x02, 0x01, 7, 8] },
               { header := intra_end.header, payload := [0x26, 0x01, 1, 2, 3] }], []) := by
  decide

/-- Claim C17 (received count against expected count) evaluated where it
fails: after the start fragment 100, the middle fragment 101, the middle
fragment 101 once more and the end fragment 102 every call has returned
`RTP_OK` and the entry of timestamp 9000 is still in progress with first
sequence number 100, last sequence number 102, `pkts_received = 4` and an
expected count of 3: the repeated fragment is counted, the count passes the
expected count, and the equality test of the completion check never holds. -/
theorem pkts_received_counts_duplicates :
    (handle_packets h265 sample_env 0
        (arrivals sample_time 0 [sample_start, sample_middle, sample_middle, sample_end])
        (h26x_state.init 0)).map (fun r => (r.1.map Prod.fst,
          (frames_find 9000 r.2.frames_).map (fun info =>
            (info.s_seq, info.e_seq, info.pkts_received, calculate_expected_fus info))))
      = some ([rtp_error_t.RTP_OK, rtp_error_t.RTP_OK, rtp_error_t.RTP_OK, rtp_error_t.RTP_OK],
              some (100, 102, 4, 3)) := by
  decide

/-- The received count without repeated fragments: while the
fragments of one NAL unit (start, middles, end, consecutive sequence numbers,
one timestamp that had no entry and was not dropped) arrive, each at most once,
in any order and not late, and some are still missing, every call returns
`RTP_OK`, the entry of the timestamp counts exactly the fragments received, and
once first and last sequence number are both set the count is below the
expected count. -/
theorem pkts_received_below_expected (c : Codec) (env : recv_env) (flags ts s : Nat)
    (f0 : rtp_frame) (mids : List rtp_frame) (fe : rtp_frame)
    (H : FragSet c ts s f0 mids fe) (time : Nat → Nat)
    (htime : ∀ j, time j - time 0 < env.pkt_max_delay ∧ time j - time 0 ≤ 500)
    (pre rest : List rtp_frame) (hpre : pre ≠ []) (hrest : rest ≠ [])
    (hperm : (pre ++ rest).Perm (f0 :: (mids ++ [fe])))
    (st : h26x_state) (hn : keys_nodup st) (hd : ts ∉ st.dropped_)
    (hf : frames_find ts st.frames_ = none) :
    ∃ st1 info, handle_packets c env flags (arrivals time 0 pre) st
        = some (pre.map (fun f => (rtp_error_t.RTP_OK, some f)), st1) ∧
      frames_find ts st1.frames_ = some info ∧
      info.pkts_received = pre.length ∧
      (info.s_seq ≠ INVALID_SEQ → info.e_seq ≠ INVALID_SEQ →
        info.pkts_received < calculate_expected_fus info ∧
        calculate_expected_fus info = mids.length + 2) := by
  have h0 := receiving_init c ts s f0 mids fe time st hn hd hf
  obtain ⟨st1, hrun, -, -, hinv⟩ := receive_fragments c env flags ts s f0 mids fe H time htime
    rest hrest pre [] st h0 (by simpa using hperm)
  rw [List.length_nil] at hrun
  rw [List.nil_append] at hinv
  have hlen := hperm.length_eq
  simp only [List.length_append, List.length_cons, List.length_singleton,
    List.length_nil] at hlen
  have hrl : 1 ≤ rest.length := by
    cases rest with
    | nil => exact absurd rfl hrest
    | cons x r => simp
  have hpl : 1 ≤ pre.length := by
    cases pre with
    | nil => exact absurd rfl hpre
    | cons x r => simp
  cases hfind : frames_find ts st1.frames_ with
  | none =>
    rw [hfind] at hinv
    have := hinv.2.1
    simp [fresh_info, h26x_info.empty] at this
    omega
  | some info =>
    rw [hfind, Option.getD_some] at hinv
    obtain ⟨-, hpk, -, hss, hes, -, -⟩ := hinv
    refine ⟨st1, info, hrun, hfind, hpk, ?_⟩
    intro h1 h2
    have hf0 : f0 ∈ pre := by
      by_contra hx; rw [if_neg hx] at hss; exact h1 hss
    have hfe : fe ∈ pre := by
      by_contra hx; rw [if_neg hx] at hes; exact h2 hes
    rw [if_pos hf0] at hss
    rw [if_pos hfe, (fragset_seqs c ts s f0 mids fe H).2] at hes
    have hexp := expected_count info s mids.length H.1 H.2.1 hss hes
    rw [hexp, hpk]
    exact ⟨by omega, rfl⟩

/-- The received count at the sample fragments after the end fragment 102 and
the start fragment 100 have arrived and the middle fragment 101 is missing. -/
theorem pkts_received_below_expected_witness :
    FragSet h265 9000 100 sample_start [sample_middle] sample_end ∧
    (∀ j, sample_time j - sample_time 0 < sample_env.pkt_max_delay
      ∧ sample_time j - sample_time 0 ≤ 500) ∧
    [sample_end, sample_start] ≠ [] ∧ [sample_middle] ≠ [] ∧
    ([sample_end, sample_start] ++ [sample_middle]).Perm
      (sample_start :: ([sample_middle] ++ [sample_end])) ∧
    keys_nodup (h26x_state.init 0) ∧ 9000 ∉ (h26x_state.init 0).dropped_ ∧
    frames_find 9000 (h26x_state.init 0).frames_ = none ∧
    ∃ st1 info, handle_packets h265 sample_env 0
        (arrivals sample_time 0 [sample_end, sample_start]) (h26x_state.init 0)
        = some ([sample_end, sample_start].map (fun f => (rtp_error_t.RTP_OK, some f)), st1) ∧
      frames_find 9000 st1.frames_ = some info ∧
      info.pkts_received = [sample_end, sample_start].length ∧
      (info.s_seq ≠ INVALID_SEQ → info.e_seq ≠ INVALID_SEQ →
        info.pkts_received < calculate_expected_fus info ∧
        calculate_expected_fus info = [sample_middle].length + 2) :=
  ⟨sample_fragset, fun _ => ⟨by simp [sample_time, sample_env], by simp [sample_time]⟩,
    by decide, by decide, by decide,
    by simp [keys_nodup, h26x_state.init], by simp [h26x_state.init], rfl,
    pkts_received_below_expected h265 sample_env 0 9000 100 sample_start [sample_middle]
      sample_end sample_fragset sample_time
      (fun _ => ⟨by simp [sample_time, sample_env], by simp [sample_time]⟩)
      [sample_end, sample_start] [sample_middle] (by decide) (by decide) (by decide)
      (h26x_state.init 0) (by simp [keys_nodup, h26x_state.init]) (by simp [h26x_state.init])
      rfl⟩

theorem frames_find_erase_none (ts k : Nat) (fr : List (Nat × h26x_info))
    (h : frames_find k fr = none) : frames_find k (frames_erase ts fr) = none := by
  rw [frames_find_eq_none] at h ⊢
  intro hm
  apply h
  obtain ⟨e, he, rfl⟩ := List.mem_map.1 hm
  exact List.mem_map_of_mem _ (List.mem_of_mem_filter he)

theorem no_revive_erase (ts : Nat) (st : h26x_state) (h : NoRevive st) :
    NoRevive { st with frames_ := frames_erase ts st.frames_ } :=
  fun k hk => frames_find_erase_none ts k _ (h k hk)

theorem no_revive_drop_frame (env : recv_env) (ts n : Nat) (st st1 : h26x_state)
    (h : NoRevive st) (hd : drop_frame env ts st = some (n, st1)) : NoRevive st1 := by
  obtain ⟨-, rfl⟩ := drop_frame_eq_some env ts n st st1 hd
  intro k hk
  simp only [] at hk ⊢
  rcases (mem_dropped_insert ts k st.dropped_).1 hk with rfl | hk1
  · exact frames_find_erase_self _ _
  · exact frames_find_erase_none _ _ _ (h k hk1)

theorem no_revive_drop_frames (env : recv_env) : ∀ (l : List Nat) (total n : Nat)
    (st st1 : h26x_state), NoRevive st → drop_frames env l total st = some (n, st1) →
    NoRevive st1 := by
  intro l
  induction l with
  | nil =>
    intro total n st st1 h hd
    simp only [drop_frames, Option.some.injEq, Prod.mk.injEq] at hd
    rw [← hd.2]; exact h
  | cons k rest ih =>
    intro total n st st1 h hd
    rw [drop_frames] at hd
    cases hk : drop_frame env k st with
    | none => rw [hk] at hd; cases hd
    | some r =>
      obtain ⟨m, st2⟩ := r
      rw [hk] at hd
      exact ih _ n st2 st1 (no_revive_drop_frame env k m st st2 h hk) hd

theorem no_revive_collect (env : recv_env) (now : Nat) (st st1 : h26x_state)
    (h : NoRevive st) (hg : garbage_collect_lost_frames env now st = some st1) :
    NoRevive st1 := by
  unfold garbage_collect_lost_frames at hg
  split at hg
  · simp only [] at hg
    split at hg
    · cases hg
    · rename_i n st2 hd
      simp only [Option.some.injEq] at hg
      have := no_revive_drop_frames env _ 0 n st st2 h hd
      rw [← hg]
      exact this
  · simp only [Option.some.injEq] at hg
    rw [← hg]; exact h

theorem handle_aggregation_packet_frames (frame : rtp_frame) (phs flags : Nat)
    (st st1 : h26x_state) (ret : rtp_error_t)
    (h : handle_aggregation_packet frame phs flags st = some (ret, st1)) :
    st1.frames_ = st.frames_ ∧ st1.dropped_ = st.dropped_ := by
  unfold handle_aggregation_packet at h
  split at h
  · cases h
  · split at h
    · simp only [Option.some.injEq, Prod.mk.injEq] at h
      rw [← h.2]; exact ⟨rfl, rfl⟩
    · simp only [Option.some.injEq, Prod.mk.injEq] at h
      rw [← h.2]; exact ⟨rfl, rfl⟩

/-- A fragment whose timestamp has no entry and is in the dropped set is
rejected and nothing changes. -/
theorem packet_handler_dropped (c : Codec) (env : recv_env) (now flags : Nat)
    (frame : rtp_frame) (st : h26x_state)
    (h1 : c.get_fragment_type frame ≠ FRAG_TYPE.FT_AGGR)
    (h2 : c.get_fragment_type frame ≠ FRAG_TYPE.FT_NOT_FRAG)
    (h3 : c.get_fragment_type frame ≠ FRAG_TYPE.FT_INVALID)
    (hf : frames_find frame.header.timestamp st.frames_ = none)
    (hd : frame.header.timestamp ∈ st.dropped_) :
    packet_handler c env now flags frame st
      = some (rtp_error_t.RTP_GENERIC_ERROR, some frame, st) := by
  unfold packet_handler
  simp only [h1, h2, h3, if_false, hf, Option.isNone_none, Bool.true_and, hd, decide_True,
    if_true]

/-- Every call of `packet_handler` that returns keeps dropped timestamps out
of `frames_`. -/
theorem no_revive_packet (c : Codec) (env : recv_env) (now flags : Nat) (frame : rtp_frame)
    (st st1 : h26x_state) (ret : rtp_error_t) (out : Option rtp_frame) (h : NoRevive st)
    (hp : packet_handler c env now flags frame st = some (ret, out, st1)) : NoRevive st1 := by
  by_cases h1 : c.get_fragment_type frame = FRAG_TYPE.FT_AGGR
  · unfold packet_handler at hp
    simp only [h1, if_true] at hp
    cases ha : handle_aggregation_packet frame c.get_payload_header_size flags st with
    | none => rw [ha] at hp; cases hp
    | some r =>
      rw [ha] at hp
      simp only [Option.map_some', Option.some.injEq, Prod.mk.injEq] at hp
      obtain ⟨e1, e2⟩ := handle_aggregation_packet_frames frame _ flags st r.2 r.1 (by rw [ha])
      intro k hk
      rw [← hp.2.2, e1]
      rw [← hp.2.2, e2] at hk
      exact h k hk
  by_cases h2 : c.get_fragment_type frame = FRAG_TYPE.FT_NOT_FRAG
  · unfold packet_handler at hp
    simp only [h2, reduceCtorEq, if_true, if_false, Option.some.injEq, Prod.mk.injEq] at hp
    rw [← hp.2.2]; exact h
  by_cases h3 : c.get_fragment_type frame = FRAG_TYPE.FT_INVALID
  · unfold packet_handler at hp
    simp only [h3, reduceCtorEq, if_true, if_false, Option.some.injEq, Prod.mk.injEq] at hp
    rw [← hp.2.2]; exact h
  by_cases hnd : frames_find frame.header.timestamp st.frames_ = none →
      frame.header.timestamp ∉ st.dropped_
  · obtain ⟨info, hinfo⟩ : ∃ i, i = fragment_update c (c.get_fragment_type frame) frame
        ((frames_find frame.header.timestamp st.frames_).getD (fresh_info now)) := ⟨_, rfl⟩
    rw [packet_handler_fragment c env now flags frame st info h1 h2 h3 hnd hinfo] at hp
    have hset : NoRevive { st with frames_ := frames_set frame.header.timestamp info st.frames_ } := by
      intro k hk
      simp only [] at hk ⊢
      have hkt : k ≠ frame.header.timestamp := by
        intro hx
        rw [hx] at hk
        exact hnd (h _ hk) hk
      rw [frames_find_set_ne _ _ _ _ hkt]
      exact h k hk
    split at hp
    · simp only [Option.some.injEq, Prod.mk.injEq] at hp
      rw [← hp.2.2]
      exact no_revive_erase _ _ h
    · split at hp
      · cases hdrop : drop_frame env frame.header.timestamp
            { st with frames_ := frames_set frame.header.timestamp info st.frames_ } with
        | none => rw [hdrop] at hp; cases hp
        | some r =>
          rw [hdrop] at hp
          simp only [Option.map_some', Option.some_bind] at hp
          cases hgc : garbage_collect_lost_frames env now r.2 with
          | none => rw [hgc] at hp; cases hp
          | some st4 =>
            rw [hgc] at hp
            simp only [Option.map_some', Option.some.injEq, Prod.mk.injEq] at hp
            rw [← hp.2.2]
            exact no_revive_collect env now r.2 st4
              (no_revive_drop_frame env _ r.1 _ r.2 hset (by rw [hdrop])) hgc
      · simp only [Option.some_bind] at hp
        cases hgc : garbage_collect_lost_frames env now
            { st with frames_ := frames_set frame.header.timestamp info st.frames_ } with
        | none => rw [hgc] at hp; cases hp
        | some st4 =>
          rw [hgc] at hp
          simp only [Option.map_some', Option.some.injEq, Prod.mk.injEq] at hp
          rw [← hp.2.2]
          exact no_revive_collect env now _ st4 hset hgc
  · have hf : frames_find frame.header.timestamp st.frames_ = none := by
      by_contra hx; exact hnd (fun h => absurd h hx)
    have hd : frame.header.timestamp ∈ st.dropped_ := by
      by_contra hx; exact hnd (fun _ => hx)
    rw [packet_handler_dropped c env now flags frame st h1 h2 h3 hf hd] at hp
    simp only [Option.some.injEq, Prod.mk.injEq] at hp
    rw [← hp.2.2]; exact h

/-- In every reachable state no dropped timestamp has an entry. -/
theorem reachable_no_revive (c : Codec) (env : recv_env) (st : h26x_state)
    (h : Reachable c env st) : NoRevive st := by
  induction h with
  | init now => intro k hk; simp [h26x_state.init] at hk
  | packet now flags frame st st1 ret out _ hp ih =>
    exact no_revive_packet c env now flags frame st st1 ret out ih hp
  | drop ts n st st1 _ hd ih => exact no_revive_drop_frame env ts n st st1 ih hd
  | collect now st st1 _ hg ih => exact no_revive_collect env now st st1 ih hg

theorem dropped_state_reachable : Reachable h265 sample_env dropped_state :=
  Reachable.drop 9000 5 started_state dropped_state
    (Reachable.packet 0 0 sample_start (h26x_state.init 0) started_state rtp_error_t.RTP_OK
      (some sample_start) (Reachable.init 0) (by decide))
    (by decide)

theorem dropped_and_started_state_reachable :
    Reachable h265 sample_env dropped_and_started_state :=
  Reachable.packet 0 0 intra_start dropped_state dropped_and_started_state rtp_error_t.RTP_OK
    (some intra_start) dropped_state_reachable (by decide)

/-- Claim C15 (dropped timestamps are never revived): in every reachable state
a start, middle or end fragment whose timestamp is in the dropped set makes
`packet_handler` return `RTP_GENERIC_ERROR` and leave the state (in-progress
map, dropped set, delivery queue) as it was; no entry is created. -/
theorem packet_handler_rejects_dropped (c : Codec) (env : recv_env) (st : h26x_state)
    (hr : Reachable c env st) (now flags : Nat) (frame : rtp_frame)
    (hty : c.get_fragment_type frame = FRAG_TYPE.FT_START
      ∨ c.get_fragment_type frame = FRAG_TYPE.FT_MIDDLE
      ∨ c.get_fragment_type frame = FRAG_TYPE.FT_END)
    (hd : frame.header.timestamp ∈ st.dropped_) :
    packet_handler c env now flags frame st
      = some (rtp_error_t.RTP_GENERIC_ERROR, some frame, st) ∧
    frames_find frame.header.timestamp st.frames_ = none := by
  have hf := reachable_no_revive c env st hr _ hd
  refine ⟨packet_handler_dropped c env now flags frame st ?_ ?_ ?_ hf hd, hf⟩ <;>
    rcases hty with h | h | h <;> rw [h] <;> simp

/-- Claim C15 at the middle fragment 101 of timestamp 9000 after the frame of
timestamp 9000 has been dropped. -/
theorem packet_handler_rejects_dropped_witness :
    Reachable h265 sample_env dropped_state ∧
    (h265.get_fragment_type sample_middle = FRAG_TYPE.FT_START
      ∨ h265.get_fragment_type sample_middle = FRAG_TYPE.FT_MIDDLE
      ∨ h265.get_fragment_type sample_middle = FRAG_TYPE.FT_END) ∧
    sample_middle.header.timestamp ∈ dropped_state.dropped_ ∧
    packet_handler h265 sample_env 7 0 sample_middle dropped_state
      = some (rtp_error_t.RTP_GENERIC_ERROR, some sample_middle, dropped_state) ∧
    frames_find sample_middle.header.timestamp dropped_state.frames_ = none :=
  ⟨dropped_state_reachable, by decide, by decide,
    packet_handler_rejects_dropped h265 sample_env dropped_state dropped_state_reachable 7 0
      sample_middle (by decide) (by decide)⟩

/-- Claim C16 (in progress and dropped are disjoint): in every state reachable
from a new reassembler by calls of `packet_handler`, `drop_frame` (on
timestamps that have an entry, the only ones on which it returns) and
`garbage_collect_lost_frames`, no timestamp is both a key of `frames_` and a
member of `dropped_`. -/
theorem reachable_in_progress_not_dropped (c : Codec) (env : recv_env) (st : h26x_state)
    (hr : Reachable c env st) :
    ∀ ts, ts ∈ st.frames_.map Prod.fst → ts ∉ st.dropped_ := by
  intro ts hk hd
  have := reachable_no_revive c env st hr ts hd
  rw [frames_find_eq_none] at this
  exact this hk

/-- Claim C16 at the state with timestamp 9000 dropped and timestamp 1000 in
progress. -/
theorem reachable_in_progress_not_dropped_witness :
    Reachable h265 sample_env dropped_and_started_state ∧
    ∀ ts, ts ∈ dropped_and_started_state.frames_.map Prod.fst →
      ts ∉ dropped_and_started_state.dropped_ :=
  ⟨dropped_and_started_state_reachable,
    reachable_in_progress_not_dropped h265 sample_env dropped_and_started_state
      dropped_and_started_state_reachable⟩

/-! ### Garbage collection, `drop_frame`, aggregation bounds and start code -/

theorem frames_find_erase_other (ts k : Nat) (hk : k ≠ ts) :
    ∀ fr : List (Nat × h26x_info), frames_find k (frames_erase ts fr) = frames_find k fr := by
  intro fr
  induction fr with
  | nil => rfl
  | cons e rest ih =>
    by_cases h1 : e.1 = ts
    · have h2 : ¬ e.1 = k := fun h => hk (h ▸ h1)
      have e1 : frames_erase ts (e :: rest) = frames_erase ts rest := by
        simp [frames_erase, List.filter_cons, h1]
      rw [e1, ih]
      simp [frames_find, List.find?_cons, h2]
    · have e1 : frames_erase ts (e :: rest) = e :: frames_erase ts rest := by
        simp [frames_erase, List.filter_cons, h1]
      rw [e1]
      by_cases h2 : e.1 = k
      · simp [frames_find, List.find?_cons, h2]
      · simp only [frames_find, List.find?_cons, h2, decide_False]
        exact ih

theorem cleaned_fold {α : Type} (f : α → Nat) (s : Nat) :
    ∀ (l : List α) (init : Nat),
      l.foldl (fun total x => (total + f x + s) % 2 ^ 32) init % 2 ^ 32
        = (init + (l.map (fun x => f x + s)).sum) % 2 ^ 32 := by
  intro l
  induction l with
  | nil => intro init; simp
  | cons a rest ih =>
    intro init
    rw [List.foldl_cons, ih, List.map_cons, List.sum_cons]
    omega

theorem cleaned_fold_lt {α : Type} (f : α → Nat) (s : Nat) :
    ∀ (l : List α) (init : Nat), init < 2 ^ 32 →
      l.foldl (fun total x => (total + f x + s) % 2 ^ 32) init < 2 ^ 32 := by
  intro l
  induction l with
  | nil => intro init h; exact h
  | cons a rest ih =>
    intro init _
    rw [List.foldl_cons]
    exact ih _ (Nat.mod_lt _ (by norm_num))

/-- The value `drop_frame` returns: the held bytes reduced to `uint32_t`. -/
theorem drop_frame_total (env : recv_env) (ts : Nat) (st : h26x_state) (info : h26x_info)
    (h : frames_find ts st.frames_ = some info) :
    drop_frame env ts st
      = some (held_bytes env info % 2 ^ 32,
          { st with frames_ := frames_erase ts st.frames_,
                    dropped_ := dropped_insert ts st.dropped_ }) := by
  unfold drop_frame
  rw [h]
  simp only [Option.some.injEq, Prod.mk.injEq, and_true]
  have h1 := cleaned_fold (fun fragment : Nat × rtp_frame => fragment.2.payload.length)
    env.sizeof_rtp_frame info.fragments 0
  have h2 := cleaned_fold (fun temporary : rtp_frame => temporary.payload.length)
    env.sizeof_rtp_frame info.temporary
    (info.fragments.foldl
      (fun total fragment => (total + fragment.2.payload.length + env.sizeof_rtp_frame) % 2 ^ 32) 0)
  have h3 := cleaned_fold_lt (fun temporary : rtp_frame => temporary.payload.length)
    env.sizeof_rtp_frame info.temporary
    (info.fragments.foldl
      (fun total fragment => (total + fragment.2.payload.length + env.sizeof_rtp_frame) % 2 ^ 32) 0)
    (cleaned_fold_lt (fun fragment : Nat × rtp_frame => fragment.2.payload.length)
      env.sizeof_rtp_frame info.fragments 0 (by norm_num))
  rw [← Nat.mod_eq_of_lt h3, h2]
  unfold held_bytes
  rw [Nat.zero_add] at h1
  omega

/-- When the interval has passed `garbage_collect_lost_frames` stores the clock
reading in `last_garbage_collection_`. -/
theorem garbage_collect_last (env : recv_env) (now : Nat) (st st1 : h26x_state)
    (ht : now - st.last_garbage_collection_ ≥ GARBAGE_COLLECTION_INTERVAL_MS)
    (h : garbage_collect_lost_frames env now st = some st1) :
    st1.last_garbage_collection_ = now := by
  unfold garbage_collect_lost_frames at h
  rw [if_pos ht] at h
  simp only [] at h
  cases hd : drop_frames env ((st.frames_.filter
      (fun gc_frame => decide (now - gc_frame.2.sframe_time > LOST_FRAME_TIMEOUT_MS))).map
      (fun gc_frame => gc_frame.1)) 0 st with
  | none => rw [hd] at h; cases h
  | some r =>
    rw [hd] at h
    simp only [Option.some.injEq] at h
    rw [← h]

/-- Before the interval has passed `garbage_collect_lost_frames` does nothing. -/
theorem garbage_collect_idle (env : recv_env) (now : Nat) (st : h26x_state)
    (ht : now - st.last_garbage_collection_ < GARBAGE_COLLECTION_INTERVAL_MS) :
    garbage_collect_lost_frames env now st = some st := by
  unfold garbage_collect_lost_frames
  rw [if_neg (by omega)]

/-- Claim C24: garbage collection with the clock as an input. When
`garbage_collect_lost_frames` runs at clock reading `now` with
`now - last_garbage_collection_ ≥ 100`, it returns, every entry of `frames_`
whose `sframe_time` is more than 500 ms old is erased and its timestamp is in
`dropped_`, every other entry is found unchanged, no entry appears, `dropped_`
gains exactly the timestamps of the erased entries, and
`last_garbage_collection_` becomes `now`; when `now - last_garbage_collection_
< 100` the state is returned as it was. -/
theorem garbage_collect_lost_frames_policy (env : recv_env) (now : Nat) (st : h26x_state)
    (hn : keys_nodup st) :
    (now - st.last_garbage_collection_ ≥ 100 →
      ∃ st1, garbage_collect_lost_frames env now st = some st1 ∧
        (∀ ts info, frames_find ts st.frames_ = some info → now - info.sframe_time > 500 →
          frames_find ts st1.frames_ = none ∧ ts ∈ st1.dropped_) ∧
        (∀ ts info, frames_find ts st.frames_ = some info → ¬ now - info.sframe_time > 500 →
          frames_find ts st1.frames_ = some info) ∧
        (∀ ts, frames_find ts st.frames_ = none → frames_find ts st1.frames_ = none) ∧
        (∀ x, x ∈ st1.dropped_ ↔ x ∈ st.dropped_ ∨
          ∃ info, frames_find x st.frames_ = some info ∧ now - info.sframe_time > 500) ∧
        st1.last_garbage_collection_ = now) ∧
    (now - st.last_garbage_collection_ < 100 →
      garbage_collect_lost_frames env now st = some st) := by
  constructor
  · intro ht
    obtain ⟨st1, hrun, hfr, hdr, -, -⟩ := garbage_collect_spec env now st hn
    have hrem : ∀ e : Nat × h26x_info,
        gc_removes now st e = decide (now - e.2.sframe_time > 500) := by
      intro e
      have ht1 : now - st.last_garbage_collection_ ≥ GARBAGE_COLLECTION_INTERVAL_MS := ht
      simp only [gc_removes, ht1, true_and, LOST_FRAME_TIMEOUT_MS]
    have hfind : ∀ ts, frames_find ts st1.frames_ = (frames_find ts st.frames_).bind
        (fun info => if (!gc_removes now st (ts, info)) = true then some info else none) := by
      intro ts
      rw [hfr]
      exact frames_find_filter ts _ st.frames_ hn
    refine ⟨st1, hrun, ?_, ?_, ?_, ?_, garbage_collect_last env now st st1 ht hrun⟩
    · intro ts info hf hold
      constructor
      · rw [hfind, hf, Option.some_bind, hrem]
        simp [hold]
      · rw [hdr]
        refine Or.inr ⟨(ts, info), frames_find_mem ts info st.frames_ hf, rfl, ?_⟩
        rw [hrem]
        simp [hold]
    · intro ts info hf hyoung
      rw [hfind, hf, Option.some_bind, hrem]
      simp [hyoung]
    · intro ts hf
      rw [hfind, hf]
      rfl
    · intro x
      rw [hdr]
      constructor
      · rintro (h | ⟨e, he, hx, hg⟩)
        · exact Or.inl h
        · refine Or.inr ⟨e.2, ?_, ?_⟩
          · rw [← hx]
            exact frames_find_of_mem e.1 e.2 st.frames_ hn he
          · rw [hrem] at hg
            simpa using hg
      · rintro (h | ⟨info, hf, hold⟩)
        · exact Or.inl h
        · refine Or.inr ⟨(x, info), frames_find_mem x info st.frames_ hf, rfl, ?_⟩
          rw [hrem]
          simp [hold]
  · intro ht
    exact garbage_collect_idle env now st ht

/-- Claim C25: `drop_frame` on a timestamp that has an entry (held bytes within
`uint32_t`) returns the sum over the keyed and the pending fragments of payload
length plus `sizeof(rtp_frame)`; afterwards the timestamp has no entry and is in
`dropped_`, every other entry is found as before, `queued_` and
`last_garbage_collection_` are unchanged and `dropped_` holds the same other
timestamps. -/
theorem drop_frame_accounting (env : recv_env) (ts : Nat) (st : h26x_state) (info : h26x_info)
    (h : frames_find ts st.frames_ = some info) (h32 : held_bytes env info < 2 ^ 32) :
    ∃ st1, drop_frame env ts st = some (held_bytes env info, st1) ∧
      frames_find ts st1.frames_ = none ∧ ts ∈ st1.dropped_ ∧
      (∀ k, k ≠ ts → frames_find k st1.frames_ = frames_find k st.frames_) ∧
      st1.queued_ = st.queued_ ∧
      (∀ x, x ≠ ts → (x ∈ st1.dropped_ ↔ x ∈ st.dropped_)) ∧
      st1.last_garbage_collection_ = st.last_garbage_collection_ := by
  refine ⟨{ st with frames_ := frames_erase ts st.frames_,
                    dropped_ := dropped_insert ts st.dropped_ }, ?_,
    frames_find_erase_self ts st.frames_, ?_, ?_, rfl, ?_, rfl⟩
  · rw [drop_frame_total env ts st info h, Nat.mod_eq_of_lt h32]
  · exact (mem_dropped_insert ts ts st.dropped_).2 (Or.inl rfl)
  · intro k hk
    exact frames_find_erase_other ts k hk st.frames_
  · intro x hx
    rw [mem_dropped_insert]
    constructor
    · rintro (h1 | h1)
      · exact absurd h1 hx
      · exact h1
    · intro h1
      exact Or.inr h1

/-- Claim C24 at clock reading 600 with the last collection at 450: the entry
started at 0 is collected, the entry started at 400 stays. -/
theorem garbage_collect_lost_frames_policy_witness :
    keys_nodup aged_state ∧
    ((600 - aged_state.last_garbage_collection_ ≥ 100 →
      ∃ st1, garbage_collect_lost_frames sample_env 600 aged_state = some st1 ∧
        (∀ ts info, frames_find ts aged_state.frames_ = some info → 600 - info.sframe_time > 500 →
          frames_find ts st1.frames_ = none ∧ ts ∈ st1.dropped_) ∧
        (∀ ts info, frames_find ts aged_state.frames_ = some info →
          ¬ 600 - info.sframe_time > 500 → frames_find ts st1.frames_ = some info) ∧
        (∀ ts, frames_find ts aged_state.frames_ = none → frames_find ts st1.frames_ = none) ∧
        (∀ x, x ∈ st1.dropped_ ↔ x ∈ aged_state.dropped_ ∨
          ∃ info, frames_find x aged_state.frames_ = some info ∧ 600 - info.sframe_time > 500) ∧
        st1.last_garbage_collection_ = 600) ∧
    (600 - aged_state.last_garbage_collection_ < 100 →
      garbage_collect_lost_frames sample_env 600 aged_state = some aged_state)) :=
  ⟨by unfold keys_nodup; decide,
    garbage_collect_lost_frames_policy sample_env 600 aged_state (by unfold keys_nodup; decide)⟩

/-- The two runs of the C24 witness evaluated: at 600 the entry of timestamp
7000 is collected, at 500 nothing happens. -/
theorem garbage_collect_aged_state :
    garbage_collect_lost_frames sample_env 600 aged_state
      = some { aged_state with frames_ := [(9000, fresh_info 400)], dropped_ := [7000, 5000],
                               last_garbage_collection_ := 600 } ∧
    garbage_collect_lost_frames sample_env 500 aged_state = some aged_state := by
  decide

/-- Claim C25 at an entry that holds a keyed fragment of 5 bytes and a pending
fragment of 4 bytes, with 48 bytes of overhead each: 105 bytes. -/
theorem drop_frame_accounting_witness :
    frames_find 9000 held_state.frames_ = some held_info ∧
    held_bytes { pkt_max_delay := 100, sizeof_rtp_frame := 48 } held_info < 2 ^ 32 ∧
    ∃ st1, drop_frame { pkt_max_delay := 100, sizeof_rtp_frame := 48 } 9000 held_state
        = some (held_bytes { pkt_max_delay := 100, sizeof_rtp_frame := 48 } held_info, st1) ∧
      frames_find 9000 st1.frames_ = none ∧ 9000 ∈ st1.dropped_ ∧
      (∀ k, k ≠ 9000 → frames_find k st1.frames_ = frames_find k held_state.frames_) ∧
      st1.queued_ = held_state.queued_ ∧
      (∀ x, x ≠ 9000 → (x ∈ st1.dropped_ ↔ x ∈ held_state.dropped_)) ∧
      st1.last_garbage_collection_ = held_state.last_garbage_collection_ :=
  ⟨by decide, by decide,
    drop_frame_accounting { pkt_max_delay := 100, sizeof_rtp_frame := 48 } 9000 held_state
      held_info (by decide) (by decide)⟩

/-- The run of the C25 witness evaluated. -/
theorem drop_frame_held_state :
    drop_frame { pkt_max_delay := 100, sizeof_rtp_frame := 48 } 9000 held_state
      = some (105, { held_state with frames_ := [(7000, fresh_info 0)],
                                     dropped_ := [9000, 5000] }) := by
  decide

/-- Claim C21 (aggregation bounds check) evaluated where it fails. On the
6-byte payload `60 01 00 03 AA BB` the only length prefix claims 3 bytes where
2 follow; the scan accepts the unit (length 3 at index 4, `4 + 3 > 6`) because
it compares the sum of the unit lengths, 3, with the payload length, and the
function returns `RTP_MULTIPLE_PKTS_READY` with a 3-byte frame queued (its
last byte is read past the payload). On `60 01 00 01 AA 00` the second length
prefix is read at indices 5 and 6, the latter past the payload, and a second
frame is queued. -/
theorem handle_aggregation_packet_accepts_overrun :
    aggregation_scan overrun_aggregation.payload 7 2 0 [] = some (rtp_error_t.RTP_OK, [(3, 4)]) ∧
    4 + 3 > overrun_aggregation.payload.length ∧
    handle_aggregation_packet overrun_aggregation 2 0 (h26x_state.init 0)
      = some (rtp_error_t.RTP_MULTIPLE_PKTS_READY,
          { h26x_state.init 0 with queued_ :=
              [{ header := { timestamp := 9000, seq := 7 }, payload := [0xAA, 0xBB, 0] }] }) ∧
    aggregation_scan stray_aggregation.payload 7 2 0 []
      = some (rtp_error_t.RTP_OK, [(1, 4), (0, 7)]) ∧
    5 + 2 > stray_aggregation.payload.length ∧
    handle_aggregation_packet stray_aggregation 2 0 (h26x_state.init 0)
      = some (rtp_error_t.RTP_MULTIPLE_PKTS_READY,
          { h26x_state.init 0 with queued_ :=
              [{ header := { timestamp := 9000, seq := 7 }, payload := [0xAA] },
               { header := { timestamp := 9000, seq := 7 }, payload := [] }] }) := by
  decide

/-- Claim C22 (start-code prepend flag) evaluated where it fails. With
`flags = RCE_NO_H26X_INTRA_DELAY`, in which the `RCE_H26X_PREPEND_SC` bit is
clear, the constituents `AA BB` and `CC` of an aggregation packet are queued as
`00 00 00 01 AA BB` and `00 00 00 01 CC`, while with the same flags a single
NAL unit packet and a reassembled FU frame are delivered without a start
code. -/
theorem handle_aggregation_packet_prepends_without_flag :
    RCE_NO_H26X_INTRA_DELAY &&& RCE_H26X_PREPEND_SC = 0 ∧
    packet_handler h265 sample_env 0 RCE_NO_H26X_INTRA_DELAY two_unit_aggregation
        (h26x_state.init 0)
      = some (rtp_error_t.RTP_MULTIPLE_PKTS_READY, some two_unit_aggregation,
          { h26x_state.init 0 with queued_ :=
              [{ header := { timestamp := 9000, seq := 7 }, payload := [0, 0, 0, 1, 0xAA, 0xBB] },
               { header := { timestamp := 9000, seq := 7 }, payload := [0, 0, 0, 1, 0xCC] }] }) ∧
    packet_handler h265 sample_env 0 RCE_NO_H26X_INTRA_DELAY single_nal_packet
        (h26x_state.init 0)
      = some (rtp_error_t.RTP_PKT_READY, some single_nal_packet, h26x_state.init 0) ∧
    (handle_packets h265 sample_env RCE_NO_H26X_INTRA_DELAY
        [(0, sample_start), (0, sample_middle), (0, sample_end)] (h26x_state.init 0)).map
        (fun r => r.1.getLast?)
      = some (some (rtp_error_t.RTP_PKT_READY,
          some { header := sample_end.header, payload := [0x26, 0x01, 1, 2, 3, 4, 5] })) := by
  decide

/-! ### Send-path rollback -/

theorem enqueues_ok_refl (q : frame_queue) : enqueues_ok q q :=
  ⟨[], rfl, by simp⟩

theorem enqueues_ok_trans (q q1 q2 : frame_queue) (h1 : enqueues_ok q q1)
    (h2 : enqueues_ok q1 q2) : enqueues_ok q q2 := by
  obtain ⟨u1, e1, a1⟩ := h1
  obtain ⟨u2, e2, a2⟩ := h2
  refine ⟨u1 ++ u2, by rw [e1, e2, List.append_assoc], ?_⟩
  intro r hr
  rcases List.mem_append.1 hr with h | h
  · exact a1 r h
  · exact a2 r h

theorem enqueue_failed_trans (q q1 q2 : frame_queue) (e : rtp_error_t) (h1 : enqueues_ok q q1)
    (h2 : enqueue_failed q1 q2 e) : enqueue_failed q q2 e := by
  obtain ⟨u1, e1, a1⟩ := h1
  obtain ⟨u2, e2, a2, ne⟩ := h2
  refine ⟨u1 ++ u2, by rw [e1, e2, List.append_assoc], ?_, ne⟩
  intro r hr
  rcases List.mem_append.1 hr with h | h
  · exact a1 r h
  · exact a2 r h

/-- A queue state cannot both follow successful enqueues and a failed one. -/
theorem enqueues_ok_not_failed (q q1 : frame_queue) (e : rtp_error_t) (h1 : enqueues_ok q q1)
    (h2 : enqueue_failed q q1 e) : False := by
  obtain ⟨u1, e1, a1⟩ := h1
  obtain ⟨u2, e2, -, ne⟩ := h2
  have h : u1 ++ q1.results = (u2 ++ [e]) ++ q1.results := by
    rw [← e1, e2, List.append_assoc]; rfl
  have h3 := List.append_cancel_right h
  exact ne (a1 e (by rw [h3]; simp))

theorem sent_trans (q q1 q2 : frame_queue) (ret : rtp_error_t) (h1 : enqueues_ok q q1)
    (hb : q1.has_buffer_vector = q.has_buffer_vector) (h2 : Sent q1 q2 ret) : Sent q q2 ret := by
  obtain ⟨hbv, h | h | h⟩ := h2
  · exact ⟨hbv.trans hb, Or.inl ⟨h.1, enqueues_ok_trans q q1 q2 h1 h.2⟩⟩
  · exact ⟨hbv.trans hb, Or.inr (Or.inl ⟨h.1, enqueue_failed_trans q q1 q2 ret h1 h.2⟩)⟩
  · exact ⟨hbv.trans hb,
      Or.inr (Or.inr ⟨h.1, enqueues_ok_trans q q1 q2 h1 h.2.1, hb ▸ h.2.2⟩)⟩

/-- One `enqueue_message` call: it keeps the buffer vector and either succeeds
or fails with the code it returns. -/
theorem enqueue_message_sent (q : frame_queue) (m : buf_vec) :
    (enqueue_message q m).2.has_buffer_vector = q.has_buffer_vector ∧
    (((enqueue_message q m).1 = rtp_error_t.RTP_OK ∧ enqueues_ok q (enqueue_message q m).2)
      ∨ ((enqueue_message q m).1 ≠ rtp_error_t.RTP_OK
          ∧ enqueue_failed q (enqueue_message q m).2 (enqueue_message q m).1)) := by
  unfold enqueue_message
  cases hr : q.results with
  | nil =>
    simp only []
    exact ⟨trivial, Or.inl ⟨trivial, ⟨[], by simp [hr], by simp⟩⟩⟩
  | cons r rest =>
    simp only []
    by_cases h : r = rtp_error_t.RTP_OK
    · rw [if_pos h]
      exact ⟨rfl, Or.inl ⟨rfl, ⟨[r], by simp [hr], by simp [h]⟩⟩⟩
    · rw [if_neg h]
      exact ⟨rfl, Or.inr ⟨h, ⟨[], by simp [hr], by simp, h⟩⟩⟩

/-- The division loop returns for a positive fragment size whatever the frame
queue answers, and ends with `RTP_OK` or with the error of a failed enqueue. -/
theorem divide_loop_sent (data fu_headers : List Byte) (F : Nat) (hF : 1 ≤ F) :
    ∀ (fuel pos left : Nat) (b : fu_buffers) (q : frame_queue), left < fuel →
      ∃ ret pos1 left1 b1 q1,
        divide_loop data fu_headers F fuel pos left b q = some (ret, pos1, left1, b1, q1) ∧
        q1.has_buffer_vector = q.has_buffer_vector ∧
        ((ret = rtp_error_t.RTP_OK ∧ enqueues_ok q q1)
          ∨ (ret ≠ rtp_error_t.RTP_OK ∧ enqueue_failed q q1 ret)) := by
  intro fuel
  induction fuel with
  | zero => intro pos left b q h; omega
  | succ fuel ih =>
    intro pos left b q hlt
    rw [divide_loop]
    by_cases hgt : left > F
    · rw [if_pos hgt]
      simp only []
      obtain ⟨hbv, hs⟩ := enqueue_message_sent q
        ({ b with payload := (data.drop pos).take F } : fu_buffers).message
      by_cases hok : (enqueue_message q
          ({ b with payload := (data.drop pos).take F } : fu_buffers).message).1
          = rtp_error_t.RTP_OK
      · rw [if_neg (by simpa using hok)]
        rcases hs with hs | hs
        · obtain ⟨ret, pos1, left1, b1, q1, hrun, hbv1, hout⟩ :=
            ih ((pos + F) % SIZE_MOD) (left - F)
              { ({ b with payload := (data.drop pos).take F } : fu_buffers) with
                fu_header := (fu_headers.drop 1).take
                  ({ b with payload := (data.drop pos).take F } : fu_buffers).fu_header.length }
              (enqueue_message q
                ({ b with payload := (data.drop pos).take F } : fu_buffers).message).2
              (by omega)
          refine ⟨ret, pos1, left1, b1, q1, hrun, hbv1.trans hbv, ?_⟩
          rcases hout with h | h
          · exact Or.inl ⟨h.1, enqueues_ok_trans _ _ _ hs.2 h.2⟩
          · exact Or.inr ⟨h.1, enqueue_failed_trans _ _ _ _ hs.2 h.2⟩
        · exact absurd hok hs.1
      · rw [if_pos (by simpa using hok)]
        rcases hs with hs | hs
        · exact absurd hs.1 hok
        · exact ⟨_, _, _, _, _, rfl, hbv, Or.inr hs⟩
    · rw [if_neg hgt]
      exact ⟨_, _, _, _, _, rfl, rfl, Or.inl ⟨rfl, enqueues_ok_refl q⟩⟩

/-- The function `fu_division` on a NAL unit larger than the payload size
returns when the fragment size is positive, whatever the frame queue answers. -/
theorem fu_division_sent (c : Codec) (data : List Byte) (data_len payload_size : Nat)
    (q : frame_queue) (hgt : payload_size < data_len)
    (hF : 1 ≤ size_sub (size_sub payload_size c.get_payload_header_size) c.get_fu_header_size) :
    ∃ ret q1, fu_division c data data_len payload_size q = some (ret, q1) ∧ Sent q q1 ret := by
  unfold fu_division
  rw [if_neg (by omega)]
  by_cases hbv : q.has_buffer_vector = true
  · rw [if_neg (by simp [hbv])]
    unfold construct_format_header_divide_fus divide_frame_to_fus
    simp only []
    rw [if_neg (by omega)]
    obtain ⟨ret, pos1, left1, b1, q1, hrun, hbv1, hout⟩ :=
      divide_loop_sent data (initialize_fu_headers (c.fu_nal_type data))
        (size_sub (size_sub payload_size c.get_payload_header_size) c.get_fu_header_size) hF
        (size_sub data_len c.get_nal_header_size + 1) c.get_nal_header_size
        (size_sub data_len c.get_nal_header_size)
        { payload_header := c.fu_payload_header data,
          fu_header := (initialize_fu_headers (c.fu_nal_type data)).take 1, payload := [] }
        q (by omega)
    rw [hrun]
    simp only []
    by_cases hok : ret = rtp_error_t.RTP_OK
    · rw [if_neg (by simpa using hok)]
      simp only []
      rw [if_neg (by simpa using hok)]
      rcases hout with h | h
      · obtain ⟨hbv2, hs⟩ := enqueue_message_sent q1
          ({ b1 with
              fu_header := ((initialize_fu_headers (c.fu_nal_type data)).drop 2).take
                b1.fu_header.length
              payload := (data.drop pos1).take left1 } : fu_buffers).message
        refine ⟨_, _, rfl, hbv2.trans hbv1, ?_⟩
        rcases hs with hs | hs
        · exact Or.inl ⟨hs.1, enqueues_ok_trans _ _ _ h.2 hs.2⟩
        · exact Or.inr (Or.inl ⟨hs.1, enqueue_failed_trans _ _ _ _ h.2 hs.2⟩)
      · exact absurd hok h.1
    · rw [if_pos (by simpa using hok)]
      simp only []
      rw [if_pos (by simpa using hok)]
      rcases hout with h | h
      · exact absurd h.1 hok
      · exact ⟨_, _, rfl, hbv1, Or.inr (Or.inl h)⟩
  · have hbf : q.has_buffer_vector = false := by simpa using hbv
    rw [if_pos (by simp [hbf])]
    exact ⟨_, _, rfl, rfl, Or.inr (Or.inr ⟨by decide, enqueues_ok_refl q, hbf⟩)⟩

theorem enqueue_failed_unique (q q1 : frame_queue) (e e1 : rtp_error_t)
    (h : enqueue_failed q q1 e) (h1 : enqueue_failed q q1 e1) : e = e1 := by
  obtain ⟨u, hu, -, -⟩ := h
  obtain ⟨u1, hu1, -, -⟩ := h1
  rw [hu] at hu1
  have := (List.append_inj' hu1 (by simp)).2
  simpa using this

theorem sent_refl (q : frame_queue) : Sent q q rtp_error_t.RTP_OK :=
  ⟨rfl, Or.inl ⟨rfl, enqueues_ok_refl q⟩⟩

theorem sent_ok (q q1 : frame_queue) (h : Sent q q1 rtp_error_t.RTP_OK) : enqueues_ok q q1 := by
  obtain ⟨-, h | h | h⟩ := h
  · exact h.2
  · exact absurd rfl h.1
  · exact absurd rfl h.1

theorem returned_refl (l : List rtp_error_t) : Returned l l rtp_error_t.RTP_OK :=
  ⟨[], by simp, Or.inl ⟨rfl, by simp⟩⟩

theorem returned_step (l : List rtp_error_t) (ret : rtp_error_t) :
    Returned l (l ++ [ret]) ret := by
  refine ⟨[ret], rfl, ?_⟩
  by_cases h : ret = rtp_error_t.RTP_OK
  · exact Or.inl ⟨h, by simp [h]⟩
  · exact Or.inr ⟨h, [], rfl, by simp⟩

theorem returned_trans (l l1 l2 : List rtp_error_t) (ret : rtp_error_t)
    (h1 : Returned l l1 rtp_error_t.RTP_OK) (h2 : Returned l1 l2 ret) : Returned l l2 ret := by
  obtain ⟨o1, e1, a1⟩ := h1
  obtain ⟨o2, e2, a2⟩ := h2
  have a1 : ∀ r ∈ o1, r = rtp_error_t.RTP_OK := by
    rcases a1 with h | h
    · exact h.2
    · exact absurd rfl h.1
  refine ⟨o1 ++ o2, by rw [e2, e1, List.append_assoc], ?_⟩
  rcases a2 with h | ⟨hne, before, hb, hall⟩
  · refine Or.inl ⟨h.1, ?_⟩
    intro r hr
    rcases List.mem_append.1 hr with h3 | h3
    · exact a1 r h3
    · exact h.2 r h3
  · refine Or.inr ⟨hne, o1 ++ before, by rw [hb, List.append_assoc], ?_⟩
    intro r hr
    rcases List.mem_append.1 hr with h3 | h3
    · exact a1 r h3
    · exact hall r h3

theorem pushed_refl (s : send_state) : Pushed s s rtp_error_t.RTP_OK :=
  ⟨sent_refl s.fqueue, returned_refl s.returned, rfl, rfl, rfl, fun _ => ⟨rfl, rfl⟩,
    fun h => absurd rfl h⟩

theorem pushed_trans (s s1 s2 : send_state) (ret : rtp_error_t)
    (h1 : Pushed s s1 rtp_error_t.RTP_OK) (h2 : Pushed s1 s2 ret) : Pushed s s2 ret := by
  obtain ⟨a1, r1, b1, c1, d1, e1, -⟩ := h1
  obtain ⟨a2, r2, b2, c2, d2, e2, f2⟩ := h2
  have e1 := e1 rfl
  refine ⟨sent_trans _ _ _ _ (sent_ok _ _ a1) a1.1 a2, returned_trans _ _ _ _ r1 r2,
    b2.trans b1, c2.trans c1, d2.trans d1, ?_, ?_⟩
  · intro h
    have := e2 h
    exact ⟨this.1.trans e1.1, this.2.trans e1.2⟩
  · intro h
    have := f2 h
    exact ⟨by rw [this.1, e1.1], by rw [this.2, e1.2]⟩

/-- One send of `push_media_frame` followed by the loop's test of `ret`. -/
theorem pushed_step (s : send_state) (q1 : frame_queue) (ret : rtp_error_t)
    (h : Sent s.fqueue q1 ret) :
    (ret = rtp_error_t.RTP_OK → Pushed s (after_send s q1 ret) rtp_error_t.RTP_OK) ∧
    (ret ≠ rtp_error_t.RTP_OK → Pushed s (roll_back (after_send s q1 ret)) ret) := by
  constructor
  · intro hok
    have hr := returned_step s.returned ret
    rw [hok] at h hr
    rw [hok]
    exact ⟨h, hr, rfl, rfl, rfl, fun _ => ⟨rfl, rfl⟩, fun h => absurd rfl h⟩
  · intro hne
    exact ⟨h, returned_step s.returned ret, rfl, rfl, rfl, fun h => absurd h hne,
      fun _ => ⟨rfl, rfl⟩⟩

theorem single_nal_unit_sent (data : List Byte) (data_len : Nat) (q : frame_queue) :
    Sent q (single_nal_unit data data_len q).2 (single_nal_unit data data_len q).1 := by
  unfold single_nal_unit
  obtain ⟨hbv, h | h⟩ := enqueue_message_sent q [data.take data_len]
  · exact ⟨hbv, Or.inl h⟩
  · exact ⟨hbv, Or.inr (Or.inl h)⟩

theorem push_aggregates_pushed (data : List Byte) : ∀ (nals : List nal_info) (s : send_state),
    Pushed s (push_aggregates data nals s).2 (push_aggregates data nals s).1 := by
  intro nals
  induction nals with
  | nil => intro s; exact pushed_refl s
  | cons nal rest ih =>
    intro s
    rw [push_aggregates]
    by_cases ha : nal.aggregate = true
    · rw [if_pos ha]
      simp only []
      have hs := pushed_step s _ _ (single_nal_unit_sent (data.drop nal.offset) nal.size s.fqueue)
      by_cases hok : (add_aggregate_packet (data.drop nal.offset) nal.size s.fqueue).1
          = rtp_error_t.RTP_OK
      · rw [if_neg (by simpa using hok)]
        exact pushed_trans _ _ _ _ (hs.1 hok) (ih _)
      · rw [if_pos (by simpa using hok)]
        exact hs.2 hok
    · rw [if_neg ha]
      exact ih s

theorem push_singles_pushed (c : Codec) (data : List Byte) (payload_size : Nat)
    (should_aggregate : Bool)
    (hF : 1 ≤ size_sub (size_sub payload_size c.get_payload_header_size) c.get_fu_header_size) :
    ∀ (nals : List nal_info) (s : send_state),
      ∃ ret s1, push_singles c data payload_size should_aggregate nals s = some (ret, s1) ∧
        Pushed s s1 ret := by
  intro nals
  induction nals with
  | nil => intro s; exact ⟨_, _, rfl, pushed_refl s⟩
  | cons nal rest ih =>
    intro s
    rw [push_singles]
    by_cases ha : (!nal.aggregate || !should_aggregate) = true
    · rw [if_pos ha]
      have hsent : ∃ ret q1,
          (if nal.size ≤ payload_size then
            some (single_nal_unit (data.drop nal.offset) nal.size s.fqueue)
          else fu_division c (data.drop nal.offset) nal.size payload_size s.fqueue)
            = some (ret, q1) ∧ Sent s.fqueue q1 ret := by
        by_cases hsz : nal.size ≤ payload_size
        · rw [if_pos hsz]
          exact ⟨_, _, rfl, single_nal_unit_sent _ _ _⟩
        · rw [if_neg hsz]
          exact fu_division_sent c _ nal.size payload_size s.fqueue (by omega) hF
      obtain ⟨ret, q1, hrun, hs⟩ := hsent
      simp only [hrun]
      have hp := pushed_step s q1 ret hs
      by_cases hok : ret = rtp_error_t.RTP_OK
      · rw [if_neg (by simpa using hok)]
        obtain ⟨ret2, s2, hrun2, hp2⟩ := ih (after_send s q1 ret)
        exact ⟨ret2, s2, hrun2, pushed_trans _ _ _ _ (hp.1 hok) hp2⟩
      · rw [if_pos (by simpa using hok)]
        exact ⟨_, _, rfl, hp.2 hok⟩
    · rw [if_neg ha]
      exact ih s

/-- The NAL units are always located: `scl` returns on every buffer. -/
theorem locate_nals_total (c : Codec) (payload_size : Nat) (data : List Byte)
    (data_len flags : Nat) (hc : c.get_start_code_range = 4) (hlen : data_len < 2 ^ 64) :
    ∃ r, locate_nals c payload_size data data_len flags = some r := by
  unfold locate_nals
  by_cases hf : flags &&& RCE_NO_H26X_SCL ≠ 0
  · rw [if_pos hf]
    exact ⟨_, rfl⟩
  · rw [if_neg hf]
    obtain ⟨nals, flag, h, -⟩ := scl_spec c data data_len payload_size hc hlen
    exact ⟨_, h⟩

/-- The function `push_media_frame` past its argument checks: it returns, and
either no NAL unit was located and nothing was enqueued, or the two loops ran
and the queue was flushed exactly when they ended with `RTP_OK`. -/
theorem push_media_frame_pushed (c : Codec) (payload_size : Nat) (data : List Byte)
    (data_len flags : Nat) (s : send_state) (hc : c.get_start_code_range = 4)
    (hlen64 : data_len < 2 ^ 64) (hlen : data_len ≠ 0)
    (hinit : s.init_result = rtp_error_t.RTP_OK)
    (hF : 1 ≤ size_sub (size_sub payload_size c.get_payload_header_size) c.get_fu_header_size) :
    ∃ r ret s1, locate_nals c payload_size data data_len flags = some r ∧
      push_media_frame c payload_size (some data) data_len flags s = some (ret, s1) ∧
      ((r.2.1 = [] ∧ s1 = s) ∨
        (r.2.1 ≠ [] ∧ ret ≠ rtp_error_t.RTP_OK ∧ Pushed s s1 ret) ∨
        (r.2.1 ≠ [] ∧ ret = s.flush_result ∧ enqueues_ok s.fqueue s1.fqueue ∧
          Returned s.returned s1.returned rtp_error_t.RTP_OK ∧
          s1.flush_calls = s.flush_calls + 1 ∧ s1.deinit_calls = s.deinit_calls ∧
          s1.clear_calls = s.clear_calls + 1)) := by
  obtain ⟨⟨data1, nals, agg⟩, hloc⟩ := locate_nals_total c payload_size data data_len flags hc hlen64
  suffices h : ∃ ret s1,
      push_media_frame c payload_size (some data) data_len flags s = some (ret, s1) ∧
      ((nals = [] ∧ s1 = s) ∨
        (nals ≠ [] ∧ ret ≠ rtp_error_t.RTP_OK ∧ Pushed s s1 ret) ∨
        (nals ≠ [] ∧ ret = s.flush_result ∧ enqueues_ok s.fqueue s1.fqueue ∧
          Returned s.returned s1.returned rtp_error_t.RTP_OK ∧
          s1.flush_calls = s.flush_calls + 1 ∧ s1.deinit_calls = s.deinit_calls ∧
          s1.clear_calls = s.clear_calls + 1)) by
    obtain ⟨ret, s1, h1, h2⟩ := h
    exact ⟨(data1, nals, agg), ret, s1, hloc, h1, h2⟩
  unfold push_media_frame
  simp only [hlen, if_false, hinit, ne_eq, not_true_eq_false, hloc]
  cases hn : nals with
  | nil => exact ⟨_, _, rfl, Or.inl ⟨rfl, rfl⟩⟩
  | cons nal rest =>
    rw [← hn]
    have hne : nals ≠ [] := by rw [hn]; simp
    have hemp : nals.isEmpty = false := by rw [hn]; rfl
    simp only [hemp, Bool.false_eq_true, if_false]
    obtain ⟨a, ha, hpa⟩ : ∃ a, a = (if agg = true then push_aggregates data1 nals s
        else (rtp_error_t.RTP_OK, s)) ∧ Pushed s a.2 a.1 := by
      refine ⟨_, rfl, ?_⟩
      by_cases hagg : agg = true
      · rw [if_pos hagg]
        exact push_aggregates_pushed data1 nals s
      · rw [if_neg hagg]
        exact pushed_refl s
    rw [← ha]
    by_cases hok : a.1 = rtp_error_t.RTP_OK
    · rw [if_neg (by simpa using hok)]
      obtain ⟨ret, s1, hrun, hp⟩ := push_singles_pushed c data1 payload_size agg hF nals a.2
      rw [hok] at hpa
      have hp2 := pushed_trans _ _ _ _ hpa hp
      simp only [hrun]
      by_cases hok2 : ret = rtp_error_t.RTP_OK
      · rw [if_neg (by simpa using hok2)]
        rw [hok2] at hp2
        obtain ⟨h1, hr1, -, h3, h4, h5, -⟩ := hp2
        have h5 := h5 rfl
        refine ⟨_, _, rfl, Or.inr (Or.inr ⟨hne, h3, sent_ok _ _ h1, hr1, ?_, h5.1, ?_⟩)⟩
        · simp only []; rw [h4]
        · simp only []; rw [h5.2]
      · rw [if_pos (by simpa using hok2)]
        exact ⟨_, _, rfl, Or.inr (Or.inl ⟨hne, hok2, hp2⟩)⟩
    · rw [if_pos (by simpa using hok)]
      exact ⟨_, _, rfl, Or.inr (Or.inl ⟨hne, hok, hpa⟩)⟩

/-- Claim C23 (send-path rollback): for a non-empty frame whose transaction
initialises and in which at least one NAL unit is located (4-byte scan step,
positive FU fragment size), `push_media_frame` returns; `ops` are the values
returned by its calls of `add_aggregate_packet`, `single_nal_unit` and
`fu_division`. If one of them is an error `e`, the function has called
`clear_aggregation_info` and `deinit_transaction` once each, has not flushed,
and returns `e`. If all of them are `RTP_OK`, it has flushed once without
`deinit_transaction` and returns the result of `flush_queue`. An error of
`enqueue_message` itself is returned unchanged in the same way. -/
theorem push_media_frame_rollback (c : Codec) (payload_size : Nat) (data : List Byte)
    (data_len flags : Nat) (s : send_state) (hc : c.get_start_code_range = 4)
    (hlen64 : data_len < 2 ^ 64) (hlen : data_len ≠ 0)
    (hinit : s.init_result = rtp_error_t.RTP_OK)
    (hF : 1 ≤ size_sub (size_sub payload_size c.get_payload_header_size) c.get_fu_header_size)
    (hfound : ∀ r, locate_nals c payload_size data data_len flags = some r → r.2.1 ≠ []) :
    ∃ ret s1 ops,
      push_media_frame c payload_size (some data) data_len flags s = some (ret, s1) ∧
      s1.returned = s.returned ++ ops ∧
      (∀ e ∈ ops, e ≠ rtp_error_t.RTP_OK →
        ret = e ∧ s1.clear_calls = s.clear_calls + 1 ∧
        s1.deinit_calls = s.deinit_calls + 1 ∧ s1.flush_calls = s.flush_calls) ∧
      ((∀ e ∈ ops, e = rtp_error_t.RTP_OK) →
        ret = s.flush_result ∧ s1.flush_calls = s.flush_calls + 1 ∧
        s1.deinit_calls = s.deinit_calls) ∧
      (∀ e, enqueue_failed s.fqueue s1.fqueue e →
        ret = e ∧ s1.clear_calls = s.clear_calls + 1 ∧
        s1.deinit_calls = s.deinit_calls + 1 ∧ s1.flush_calls = s.flush_calls) := by
  obtain ⟨r, ret, s1, hloc, hrun, hcase⟩ :=
    push_media_frame_pushed c payload_size data data_len flags s hc hlen64 hlen hinit hF
  rcases hcase with ⟨hnil, -⟩ | ⟨-, hne, hs, hret, -, -, hfl, -, hrb⟩
      | ⟨-, hflush, hok, hret, h1, h2, -⟩
  · exact absurd hnil (hfound r hloc)
  · have hrb := hrb hne
    obtain ⟨ops, hops, h | ⟨-, before, hb, hall⟩⟩ := hret
    · exact absurd h.1 hne
    · refine ⟨ret, s1, ops, hrun, hops, ?_, ?_, ?_⟩
      · intro e he hbad
        rw [hb] at he
        rcases List.mem_append.1 he with h | h
        · exact absurd (hall e h) hbad
        · rw [List.mem_singleton] at h
          exact ⟨h.symm, hrb.2, hrb.1, hfl⟩
      · intro hall2
        exact absurd (hall2 ret (by rw [hb]; simp)) hne
      · intro e he
        obtain ⟨-, h | h | h⟩ := hs
        · exact absurd h.1 hne
        · exact ⟨enqueue_failed_unique _ _ _ _ h.2 he, hrb.2, hrb.1, hfl⟩
        · exact (enqueues_ok_not_failed _ _ e h.2.1 he).elim
  · obtain ⟨ops, hops, h | h⟩ := hret
    · refine ⟨ret, s1, ops, hrun, hops, ?_, ?_, ?_⟩
      · intro e he hbad
        exact absurd (h.2 e he) hbad
      · intro _
        exact ⟨hflush, h1, h2⟩
      · intro e he
        exact (enqueues_ok_not_failed _ _ e hok he).elim
    · exact absurd rfl h.1

/-- Claim C23 at the 20-byte buffer with the NAL units `AA` and `BB CC 01 .. 0A`,
a payload size of 9 bytes and a frame queue that refuses the second message. -/
theorem push_media_frame_rollback_witness :
    h265.get_start_code_range = 4 ∧ 20 < 2 ^ 64 ∧ 20 ≠ 0 ∧
    refusing_state.init_result = rtp_error_t.RTP_OK ∧
    1 ≤ size_sub (size_sub 9 h265.get_payload_header_size) h265.get_fu_header_size ∧
    (∀ r, locate_nals h265 9 two_nal_long_buffer 20 0 = some r → r.2.1 ≠ []) ∧
    ∃ ret s1 ops,
      push_media_frame h265 9 (some two_nal_long_buffer) 20 0 refusing_state = some (ret, s1) ∧
      s1.returned = refusing_state.returned ++ ops ∧
      (∀ e ∈ ops, e ≠ rtp_error_t.RTP_OK →
        ret = e ∧ s1.clear_calls = refusing_state.clear_calls + 1 ∧
        s1.deinit_calls = refusing_state.deinit_calls + 1 ∧
        s1.flush_calls = refusing_state.flush_calls) ∧
      ((∀ e ∈ ops, e = rtp_error_t.RTP_OK) →
        ret = refusing_state.flush_result ∧ s1.flush_calls = refusing_state.flush_calls + 1 ∧
        s1.deinit_calls = refusing_state.deinit_calls) ∧
      (∀ e, enqueue_failed refusing_state.fqueue s1.fqueue e →
        ret = e ∧ s1.clear_calls = refusing_state.clear_calls + 1 ∧
        s1.deinit_calls = refusing_state.deinit_calls + 1 ∧
        s1.flush_calls = refusing_state.flush_calls) :=
  have hloc : locate_nals h265 9 two_nal_long_buffer 20 0
      = some (two_nal_long_buffer, [⟨4, 4, 1, true⟩, ⟨8, 3, 12, false⟩], false) := by decide
  have hfound : ∀ r, locate_nals h265 9 two_nal_long_buffer 20 0 = some r → r.2.1 ≠ [] :=
    fun r h => by rw [hloc] at h; cases h; simp
  ⟨rfl, by norm_num, by norm_num, rfl, by decide, hfound,
    push_media_frame_rollback h265 9 two_nal_long_buffer 20 0 refusing_state rfl (by norm_num)
      (by norm_num) rfl (by decide) hfound⟩

/-- The run of the C23 witness evaluated: the single NAL unit `AA` is accepted,
the first fragment of the second NAL unit is refused, `fu_division` returns the
refusal, and the function rolls back and returns it. With a frame queue that
accepts every message the same frame is sent as three messages and the result
of `flush_queue` is returned. -/
theorem push_media_frame_refused :
    push_media_frame h265 9 (some two_nal_long_buffer) 20 0 refusing_state
      = some (rtp_error_t.RTP_GENERIC_ERROR,
          { refusing_state with
            fqueue := { queued := [[[0xAA]]], results := [], has_buffer_vector := true }
            returned := [rtp_error_t.RTP_OK, rtp_error_t.RTP_GENERIC_ERROR]
            deinit_calls := 1, clear_calls := 1 }) ∧
    push_media_frame h265 9 (some two_nal_long_buffer) 20 0 failing_flush_state
      = some (rtp_error_t.RTP_GENERIC_ERROR,
          { failing_flush_state with
            fqueue := { queued := [[[0xAA]], [[0xE3, 0xCC], [0x9D], [1, 2, 3, 4, 5, 6]],
                                   [[0xE3, 0xCC], [0x5D], [7, 8, 9, 10]]],
                        results := [], has_buffer_vector := true }
            returned := [rtp_error_t.RTP_OK, rtp_error_t.RTP_OK]
            flush_calls := 1, clear_calls := 1 }) := by
  decide

/-- When the frame queue hands out no buffer vector, `fu_division` returns
`RTP_GENERIC_ERROR` without an enqueue, and `push_media_frame` rolls back and
returns that error. -/
theorem push_media_frame_without_buffer_vector :
    push_media_frame h265 6 (some sample_nal) 10 RCE_NO_H26X_SCL no_vector_state
      = some (rtp_error_t.RTP_GENERIC_ERROR,
          { no_vector_state with returned := [rtp_error_t.RTP_GENERIC_ERROR],
                                 deinit_calls := 1, clear_calls := 1 }) := by
  decide

/-! ### ZRTP: role election, key derivation, MAC validation, backoff -/

theorem le_value_lt (hvi : List Byte) : ∀ n, le_value hvi n < 256 ^ n := by
  intro n
  induction n with
  | zero => simp [le_value]
  | succ n ih =>
    have := byteAt_lt hvi n
    rw [le_value, pow_succ]
    nlinarith

/-- Two lists of the same length `n` that differ have different bytes at some
index below `n`. -/
theorem exists_byteAt_ne (a b : List Byte) (n : Nat) (ha : a.length = n) (hb : b.length = n)
    (hab : a ≠ b) : ∃ i, i < n ∧ byteAt a i ≠ byteAt b i := by
  by_contra hcon
  apply hab
  apply List.ext_getElem (by rw [ha, hb])
  intro i h1 h2
  have hi : i < n := by rw [← ha]; exact h1
  have : byteAt a i = byteAt b i := by
    by_contra hne
    exact hcon ⟨i, hi, hne⟩
  unfold byteAt at this
  rw [List.getD_eq_getElem _ _ h1, List.getD_eq_getElem _ _ h2] at this
  exact Fin.ext this

/-- The loop of `are_we_initiator` is decided by the highest index below `n`
at which the vectors differ. -/
theorem are_we_initiator_loop_first (a b : List Byte) : ∀ n,
    (∃ i, i < n ∧ byteAt a i ≠ byteAt b i) →
    ∃ i, i < n ∧ byteAt a i ≠ byteAt b i ∧ (∀ j, i < j → j < n → byteAt a j = byteAt b j) ∧
      are_we_initiator_loop a b n = decide (byteAt a i > byteAt b i) := by
  intro n
  induction n with
  | zero => rintro ⟨i, hi, -⟩; omega
  | succ n ih =>
    rintro ⟨i, hi, hne⟩
    rw [are_we_initiator_loop]
    by_cases hgt : byteAt a n > byteAt b n
    · refine ⟨n, by omega, by omega, fun j h1 h2 => by omega, ?_⟩
      rw [if_pos hgt]; simp [hgt]
    · rw [if_neg hgt]
      by_cases hlt : byteAt a n < byteAt b n
      · refine ⟨n, by omega, by omega, fun j h1 h2 => by omega, ?_⟩
        rw [if_pos hlt]; simp [hgt]
      · rw [if_neg hlt]
        have heq : byteAt a n = byteAt b n := by omega
        have hin : i < n := by
          rcases Nat.lt_or_ge i n with h | h
          · exact h
          · have : i = n := by omega
            rw [this] at hne
            exact absurd heq hne
        obtain ⟨k, hk, hkne, hkabove, hkres⟩ := ih ⟨i, hin, hne⟩
        refine ⟨k, by omega, hkne, ?_, hkres⟩
        intro j h1 h2
        rcases Nat.lt_or_ge j n with h | h
        · exact hkabove j h1 h
        · have : j = n := by omega
          rw [this]; exact heq

theorem are_we_initiator_loop_swap (a b : List Byte) : ∀ n,
    (∃ i, i < n ∧ byteAt a i ≠ byteAt b i) →
    are_we_initiator_loop a b n = !are_we_initiator_loop b a n := by
  intro n
  induction n with
  | zero => rintro ⟨i, hi, -⟩; omega
  | succ n ih =>
    rintro ⟨i, hi, hne⟩
    rw [are_we_initiator_loop, are_we_initiator_loop]
    by_cases hgt : byteAt a n > byteAt b n
    · rw [if_pos hgt, if_neg (by omega), if_pos hgt]; rfl
    · rw [if_neg hgt]
      by_cases hlt : byteAt a n < byteAt b n
      · rw [if_pos hlt, if_pos hlt]; rfl
      · rw [if_neg hlt, if_neg hlt, if_neg hgt]
        have heq : byteAt a n = byteAt b n := by omega
        apply ih
        refine ⟨i, ?_, hne⟩
        rcases Nat.lt_or_ge i n with h | h
        · exact h
        · have : i = n := by omega
          rw [this] at hne
          exact absurd heq hne

/-- The loop of `are_we_initiator` compares the little-endian values of the
bytes below `n` when these differ somewhere. -/
theorem are_we_initiator_loop_le (a b : List Byte) : ∀ n,
    (∃ i, i < n ∧ byteAt a i ≠ byteAt b i) →
    (are_we_initiator_loop a b n = true ↔ le_value a n > le_value b n) := by
  intro n
  induction n with
  | zero => rintro ⟨i, hi, -⟩; omega
  | succ n ih =>
    rintro ⟨i, hi, hne⟩
    rw [are_we_initiator_loop, le_value, le_value]
    have ha := le_value_lt a n
    have hb := le_value_lt b n
    have hpos : 0 < 256 ^ n := by positivity
    by_cases hgt : byteAt a n > byteAt b n
    · rw [if_pos hgt]
      simp only [true_iff]
      have : (byteAt b n + 1) * 256 ^ n ≤ byteAt a n * 256 ^ n :=
        Nat.mul_le_mul_right _ hgt
      nlinarith
    · rw [if_neg hgt]
      by_cases hlt : byteAt a n < byteAt b n
      · rw [if_pos hlt]
        have : (byteAt a n + 1) * 256 ^ n ≤ byteAt b n * 256 ^ n :=
          Nat.mul_le_mul_right _ hlt
        constructor
        · intro h; cases h
        · intro h; nlinarith
      · rw [if_neg hlt]
        have heq : byteAt a n = byteAt b n := by omega
        have hin : i < n := by
          rcases Nat.lt_or_ge i n with h | h
          · exact h
          · have : i = n := by omega
            rw [this] at hne
            exact absurd heq hne
        rw [ih ⟨i, hin, hne⟩, heq]
        omega

/-- Claim C26: role election is total and antisymmetric. For 32-byte vectors
`a ≠ b`, `are_we_initiator a b` is the negation of `are_we_initiator b a`, and
there is a highest index `i ≤ 31` at which the vectors differ (they agree at
every index above it) such that `are_we_initiator a b` is true exactly when
`a[i] > b[i]`. -/
theorem are_we_initiator_antisymmetric (a b : List Byte) (ha : a.length = 32)
    (hb : b.length = 32) (hab : a ≠ b) :
    are_we_initiator a b = (!are_we_initiator b a) ∧
    ∃ i, i < 32 ∧ byteAt a i ≠ byteAt b i ∧
      (∀ j, i < j → j < 32 → byteAt a j = byteAt b j) ∧
      are_we_initiator a b = decide (byteAt a i > byteAt b i) ∧
      are_we_initiator b a = decide (byteAt b i > byteAt a i) := by
  have hdiff := exists_byteAt_ne a b 32 ha hb hab
  refine ⟨are_we_initiator_loop_swap a b 32 hdiff, ?_⟩
  obtain ⟨i, hi, hne, habove, hres⟩ := are_we_initiator_loop_first a b 32 hdiff
  refine ⟨i, hi, hne, habove, hres, ?_⟩
  have hswap := are_we_initiator_loop_swap a b 32 hdiff
  unfold are_we_initiator
  rw [hres] at hswap
  have : are_we_initiator_loop b a 32 = !decide (byteAt a i > byteAt b i) := by
    rw [hswap]; simp
  rw [this]
  by_cases h : byteAt a i > byteAt b i
  · simp [h]; omega
  · simp [h]; omega

/-- Claim C26 at the vectors `01 00 .. 00` and `00 .. 00 01`. -/
theorem are_we_initiator_antisymmetric_witness :
    hvi_low_index.length = 32 ∧ hvi_high_index.length = 32 ∧ hvi_low_index ≠ hvi_high_index ∧
    (are_we_initiator hvi_low_index hvi_high_index
        = (!are_we_initiator hvi_high_index hvi_low_index) ∧
      ∃ i, i < 32 ∧ byteAt hvi_low_index i ≠ byteAt hvi_high_index i ∧
        (∀ j, i < j → j < 32 → byteAt hvi_low_index j = byteAt hvi_high_index j) ∧
        are_we_initiator hvi_low_index hvi_high_index
          = decide (byteAt hvi_low_index i > byteAt hvi_high_index i) ∧
        are_we_initiator hvi_high_index hvi_low_index
          = decide (byteAt hvi_high_index i > byteAt hvi_low_index i)) :=
  ⟨by decide, by decide, by decide,
    are_we_initiator_antisymmetric hvi_low_index hvi_high_index (by decide) (by decide)
      (by decide)⟩

/-- Claim C27 as stated fails: `01 00 .. 00` is the larger 256-bit big-endian integer
(and lexicographically greater from index 0), yet `are_we_initiator` returns
false for it against `00 .. 00 01`, and true the other way round. -/
theorem are_we_initiator_not_big_endian :
    be_value hvi_low_index 32 > be_value hvi_high_index 32 ∧
    byteAt hvi_low_index 0 > byteAt hvi_high_index 0 ∧
    are_we_initiator hvi_low_index hvi_high_index = false ∧
    are_we_initiator hvi_high_index hvi_low_index = true := by
  decide

/-- Claim C27 (amended): for 32-byte vectors that differ, `are_we_initiator our_hvi
their_hvi` is true iff `our_hvi` read as a 256-bit little-endian unsigned
integer (index 31 the most significant byte) is the larger one. -/
theorem are_we_initiator_little_endian (our_hvi their_hvi : List Byte)
    (ho : our_hvi.length = 32) (ht : their_hvi.length = 32) (hne : our_hvi ≠ their_hvi) :
    are_we_initiator our_hvi their_hvi = true
      ↔ le_value our_hvi 32 > le_value their_hvi 32 :=
  are_we_initiator_loop_le our_hvi their_hvi 32 (exists_byteAt_ne our_hvi their_hvi 32 ho ht hne)

/-- Claim C27 (amended) at the vectors `00 .. 00 01` and `01 00 .. 00`. -/
theorem are_we_initiator_little_endian_witness :
    hvi_high_index.length = 32 ∧ hvi_low_index.length = 32 ∧ hvi_high_index ≠ hvi_low_index ∧
    (are_we_initiator hvi_high_index hvi_low_index = true
      ↔ le_value hvi_high_index 32 > le_value hvi_low_index 32) :=
  ⟨by decide, by decide, by decide,
    are_we_initiator_little_endian hvi_high_index hvi_low_index (by decide) (by decide)
      (by decide)⟩

theorem bytes_of_value (a b c d : Nat) (ha : a < 256) (hb : b < 256) (hc : c < 256)
    (hd : d < 256) :
    (a + b * 2 ^ 8 + c * 2 ^ 16 + d * 2 ^ 24) % 256 = a ∧
    (a + b * 2 ^ 8 + c * 2 ^ 16 + d * 2 ^ 24) / 2 ^ 8 % 256 = b ∧
    (a + b * 2 ^ 8 + c * 2 ^ 16 + d * 2 ^ 24) / 2 ^ 16 % 256 = c ∧
    (a + b * 2 ^ 8 + c * 2 ^ 16 + d * 2 ^ 24) / 2 ^ 24 % 256 = d := by
  norm_num
  omega

theorem host_bytes32_htonl (little_endian : Bool) (v : Nat) :
    host_bytes32 little_endian (htonl little_endian v) = be32 v := by
  have h0 : byteAt (be32 v) 0 = v / 2 ^ 24 % 256 := rfl
  have h1 : byteAt (be32 v) 1 = v / 2 ^ 16 % 256 := rfl
  have h2 : byteAt (be32 v) 2 = v / 2 ^ 8 % 256 := rfl
  have h3 : byteAt (be32 v) 3 = v % 256 := rfl
  have m0 : v / 2 ^ 24 % 256 < 256 := Nat.mod_lt _ (by norm_num)
  have m1 : v / 2 ^ 16 % 256 < 256 := Nat.mod_lt _ (by norm_num)
  have m2 : v / 2 ^ 8 % 256 < 256 := Nat.mod_lt _ (by norm_num)
  have m3 : v % 256 < 256 := Nat.mod_lt _ (by norm_num)
  unfold htonl host_value32 host_bytes32
  rw [h0, h1, h2, h3]
  cases little_endian
  · obtain ⟨k0, k1, k2, k3⟩ := bytes_of_value _ _ _ _ m3 m2 m1 m0
    simp only [Bool.false_eq_true, if_false]
    show [toByte _, toByte _, toByte _, toByte _] = [toByte _, toByte _, toByte _, toByte _]
    simp only [List.cons.injEq, and_true]
    refine ⟨?_, ?_, ?_, ?_⟩ <;> apply Fin.ext <;> simp only [toByte]
    · exact k3
    · exact k2
    · exact k1
    · exact k0
  · obtain ⟨k0, k1, k2, k3⟩ := bytes_of_value _ _ _ _ m0 m1 m2 m3
    simp only [if_true]
    show [toByte _, toByte _, toByte _, toByte _].reverse
      = [toByte _, toByte _, toByte _, toByte _]
    simp only [List.reverse_cons, List.reverse_nil, List.nil_append, List.cons_append,
      List.cons.injEq, and_true]
    refine ⟨?_, ?_, ?_, ?_⟩ <;> apply Fin.ext <;> simp only [toByte]
    · exact k0
    · exact k1
    · exact k2
    · exact k3

/-- The copy has `n` bytes, whatever the length of the source. -/
theorem memcpy_length (src : List Byte) (n : Nat) : (memcpy src n).length = n := by
  simp [memcpy]

/-- A copy that stays inside the source is its first `n` bytes. -/
theorem memcpy_of_le (src : List Byte) (n : Nat) (h : n ≤ src.length) :
    memcpy src n = src.take n := by
  apply List.ext_getElem
  · simp [memcpy, h]
  · intro i h1 h2
    simp only [memcpy, List.length_map, List.length_range] at h1
    simp [memcpy, List.getD_eq_getElem?_getD,
      List.getElem?_eq_getElem (show i < src.length by omega)]

/-- Unless `key_len` is 256, `derive_key` writes `key_len / 8` bytes. -/
theorem derive_key_length (e : crypto_env) (little_endian : Bool) (session : zrtp_session)
    (label : List Byte) (key_len : Nat) (h : key_len ≠ 256) :
    (derive_key e little_endian session label key_len).length = key_len / 8 := by
  unfold derive_key
  simp only [h, ne_eq, not_false_eq_true, if_true]
  exact memcpy_length _ _

/-- What `derive_key` computes: the HMAC keyed with `s0` over the counter as the
host stores it, the label, the initiator's and the responder's ZID, the total
hash, a zero byte and the big-endian key length; unless `key_len` is 256,
`key_len / 8` bytes copied from the 32-byte array that holds the digest. -/
theorem derive_key_layout (e : crypto_env) (little_endian : Bool) (session : zrtp_session)
    (label : List Byte) (key_len : Nat) (hs0 : session.s0.length = 32)
    (ho : session.o_zid.length = 12) (hr : session.r_zid.length = 12)
    (ht : session.total_hash.length = 32) :
    derive_key e little_endian session label key_len
      = (fun digest => if key_len ≠ 256 then memcpy (digest.take 32) (key_len / 8) else digest)
          (e.hmac_sha256 session.s0
            (host_bytes32 little_endian 1 ++ label
              ++ (if session.role = zrtp_role.INITIATOR then session.o_zid ++ session.r_zid
                  else session.r_zid ++ session.o_zid)
              ++ session.total_hash ++ [0] ++ be32 key_len)) := by
  have e1 : ∀ (l : List Byte) (n : Nat), l.length = n → read_bytes l 0 n = l := by
    intro l n h
    unfold read_bytes
    rw [List.drop_zero, ← h, List.take_length]
  unfold derive_key derive_key_message
  simp only [e1 _ _ hs0, e1 _ _ ho, e1 _ _ hr, e1 _ _ ht, host_bytes32_htonl]
  rfl

set_option maxRecDepth 100000 in
/-- Claim C28 evaluated where it fails: for the label `"SAS"`, `key_len = 256` and an
initiator with ZIDs `11 ..`/`22 ..`, the bytes `derive_key` feeds to the HMAC
are the counter as the host stores it (`01 00 00 00` on a little-endian host),
the label, the two ZIDs, the total hash, then the zero byte and `be32(256)`;
on either byte order they differ from the claimed string
`00 00 00 01 ‖ label ‖ 00 ‖ ZID_I ‖ ZID_R ‖ total_hash ‖ be32(256)`, and with the
keyed digest of `sample_crypto` the key written differs from the claimed one. -/
theorem derive_key_delimiter_misplaced :
    derive_key_message true kdf_session sas_label 256
      = [1, 0, 0, 0] ++ sas_label ++ kdf_session.o_zid ++ kdf_session.r_zid
          ++ kdf_session.total_hash ++ [0] ++ [0, 0, 1, 0] ∧
    derive_key_message false kdf_session sas_label 256
      = [0, 0, 0, 1] ++ sas_label ++ kdf_session.o_zid ++ kdf_session.r_zid
          ++ kdf_session.total_hash ++ [0] ++ [0, 0, 1, 0] ∧
    kdf_message sas_label kdf_session.o_zid kdf_session.r_zid kdf_session.total_hash 256
      = [0, 0, 0, 1] ++ sas_label ++ [0] ++ kdf_session.o_zid ++ kdf_session.r_zid
          ++ kdf_session.total_hash ++ [0, 0, 1, 0] ∧
    (∀ little_endian, derive_key_message little_endian kdf_session sas_label 256
      ≠ kdf_message sas_label kdf_session.o_zid kdf_session.r_zid kdf_session.total_hash 256) ∧
    (∀ little_endian, derive_key sample_crypto little_endian kdf_session sas_label 256
      ≠ (sample_crypto.hmac_sha256 kdf_session.s0
          (kdf_message sas_label kdf_session.o_zid kdf_session.r_zid
            kdf_session.total_hash 256)).take (256 / 8)) := by
  decide

set_option maxRecDepth 100000 in
/-- Claim C29 evaluated where it fails. `validate_session` reads nothing of the
stored Hello but its first 81 bytes, whatever the stored length, and as
initiator it reads nothing of the stored Commit. On a responder's session with
a 104-byte Hello whose MACs cover each message without its last 12 bytes it
returns `RTP_INVALID_VALUE` where the claimed check returns `RTP_OK`; on an
initiator's session with a 93-byte Hello and a wrong Commit MAC it returns
`RTP_OK` where the claimed check returns `RTP_INVALID_VALUE`. -/
theorem validate_session_hello_fixed_length :
    (∀ (e : crypto_env) (session : zrtp_session) (first : Nat) (second : List Byte),
      validate_session e { session with r_msg_hello := (first, second) }
        = validate_session e { session with r_msg_hello := (81, second.take 81) }) ∧
    (∀ (e : crypto_env) (session : zrtp_session) (commit : Nat × List Byte) (mac : List Byte),
      session.role = zrtp_role.INITIATOR →
      validate_session e { session with r_msg_commit := commit,
                                        r_mac := session.r_mac.set 2 mac }
        = validate_session e session) ∧
    validate_session sample_crypto long_hello_session = rtp_error_t.RTP_INVALID_VALUE ∧
    validate_session_spec sample_crypto long_hello_session = rtp_error_t.RTP_OK ∧
    validate_session sample_crypto bad_commit_session = rtp_error_t.RTP_OK ∧
    validate_session_spec sample_crypto bad_commit_session
      = rtp_error_t.RTP_INVALID_VALUE := by
  refine ⟨?_, ?_, by decide, by decide, by decide, by decide⟩
  · intro e session first second
    unfold validate_session
    simp only [verify_hash, read_bytes, List.drop_zero, List.take_take, min_self]
  · intro e session commit mac hrole
    unfold validate_session
    have h3 : (session.r_mac.set 2 mac).getD 3 [] = session.r_mac.getD 3 [] := by
      simp [List.getD_eq_getElem?_getD, List.getElem?_set]
    have h1 : (session.r_mac.set 2 mac).getD 1 [] = session.r_mac.getD 1 [] := by
      simp [List.getD_eq_getElem?_getD, List.getElem?_set]
    simp only [hrole, h3, h1, reduceCtorEq, false_and, if_false]

/-- When nothing is received `begin_session` sets the timeouts 50, 100 and then
200 eighteen times, and `init_session` the timeouts 150, 300, 600 and then
1200 seven times; both return `RTP_TIMEOUT`. -/
theorem zrtp_no_answer :
    begin_session [] = (rtp_error_t.RTP_TIMEOUT, [50, 100] ++ List.replicate 18 200) ∧
    init_session [] [] []
      = (rtp_error_t.RTP_TIMEOUT, zrtp_role.INITIATOR,
          [150, 300, 600] ++ List.replicate 7 1200) := by
  decide

/-- A HelloAck that follows a Hello of version 110 ends `begin_session` after
two Hellos; a Commit with the larger hvi makes `init_session` yield the role of
responder after one Commit. -/
theorem zrtp_answered :
    begin_session [some (zrtp_frame.ZRTP_FT_HELLO 110), some zrtp_frame.ZRTP_FT_HELLO_ACK]
      = (rtp_error_t.RTP_OK, [50, 100]) ∧
    init_session hvi_low_index [] [some (zrtp_frame.ZRTP_FT_COMMIT hvi_high_index)]
      = (rtp_error_t.RTP_OK, zrtp_role.RESPONDER, [150]) := by
  decide

/-! ### Scanner: word classifier, zero detector, index safety, progress -/

theorem and3_eq_zero (A B M : Nat)
    (h : ∀ i, M.testBit i = true → A.testBit i = false ∨ B.testBit i = false) :
    A &&& B &&& M = 0 := by
  apply Nat.eq_of_testBit_eq
  intro i
  rw [Nat.testBit_and, Nat.testBit_and, Nat.zero_testBit]
  by_cases hM : M.testBit i = true
  · rcases h i hM with h1 | h1 <;> simp [h1]
  · simp at hM; simp [hM]

theorem mask32_bits (i : Nat) (h : (0x80808080 : Nat).testBit i = true) :
    i = 7 ∨ i = 15 ∨ i = 23 ∨ i = 31 := by
  by_cases hi : i < 32
  · interval_cases i <;> first | omega | (exfalso; revert h; decide)
  · rw [Nat.testBit_lt_two_pow (lt_of_lt_of_le (by norm_num) (Nat.pow_le_pow_right (by norm_num) (not_lt.mp hi)))] at h
    cases h

theorem mask64_bits (i : Nat) (h : (0x8080808080808080 : Nat).testBit i = true) :
    i = 7 ∨ i = 15 ∨ i = 23 ∨ i = 31 ∨ i = 39 ∨ i = 47 ∨ i = 55 ∨ i = 63 := by
  by_cases hi : i < 64
  · interval_cases i <;> first | omega | (exfalso; revert h; decide)
  · rw [Nat.testBit_lt_two_pow (lt_of_lt_of_le (by norm_num) (Nat.pow_le_pow_right (by norm_num) (not_lt.mp hi)))] at h
    cases h

theorem testBit_false_of (A i : Nat) (h : A / 2 ^ i % 2 = 0) : A.testBit i = false := by
  rw [Nat.testBit_to_div_mod]; simp [h]

/-- The 32-bit zero detector stays silent on a word without a zero byte. -/
theorem haszero32_silent (b0 b1 b2 b3 : Nat) (h0 : b0 < 256) (h1 : b1 < 256) (h2 : b2 < 256)
    (h3 : b3 < 256) (n0 : b0 ≠ 0) (n1 : b1 ≠ 0) (n2 : b2 ≠ 0) (n3 : b3 ≠ 0) :
    haszero32_le (b0 + b1 * 2 ^ 8 + b2 * 2 ^ 16 + b3 * 2 ^ 24) = 0 := by
  unfold haszero32_le
  apply and3_eq_zero
  intro i hi
  rcases mask32_bits i hi with rfl | rfl | rfl | rfl
  · by_cases c : b0 < 128
    · exact Or.inl (testBit_false_of _ _ (by omega))
    · exact Or.inr (testBit_false_of _ _ (by omega))
  · by_cases c : b1 < 128
    · exact Or.inl (testBit_false_of _ _ (by omega))
    · exact Or.inr (testBit_false_of _ _ (by omega))
  · by_cases c : b2 < 128
    · exact Or.inl (testBit_false_of _ _ (by omega))
    · exact Or.inr (testBit_false_of _ _ (by omega))
  · by_cases c : b3 < 128
    · exact Or.inl (testBit_false_of _ _ (by omega))
    · exact Or.inr (testBit_false_of _ _ (by omega))

set_option maxHeartbeats 2000000 in
/-- The 64-bit zero detector stays silent on a chunk without a zero byte. -/
theorem haszero64_silent (b0 b1 b2 b3 b4 b5 b6 b7 : Nat) (h0 : b0 < 256) (h1 : b1 < 256)
    (h2 : b2 < 256) (h3 : b3 < 256) (h4 : b4 < 256) (h5 : b5 < 256) (h6 : b6 < 256)
    (h7 : b7 < 256) (n0 : b0 ≠ 0) (n1 : b1 ≠ 0) (n2 : b2 ≠ 0) (n3 : b3 ≠ 0) (n4 : b4 ≠ 0)
    (n5 : b5 ≠ 0) (n6 : b6 ≠ 0) (n7 : b7 ≠ 0) :
    haszero64_le (b0 + b1 * 2 ^ 8 + b2 * 2 ^ 16 + b3 * 2 ^ 24
      + (b4 + b5 * 2 ^ 8 + b6 * 2 ^ 16 + b7 * 2 ^ 24) * 2 ^ 32) = 0 := by
  unfold haszero64_le
  apply and3_eq_zero
  intro i hi
  rcases mask64_bits i hi with rfl | rfl | rfl | rfl | rfl | rfl | rfl | rfl
  · by_cases c : b0 < 128
    · exact Or.inl (testBit_false_of _ _ (by omega))
    · exact Or.inr (testBit_false_of _ _ (by omega))
  · by_cases c : b1 < 128
    · exact Or.inl (testBit_false_of _ _ (by omega))
    · exact Or.inr (testBit_false_of _ _ (by omega))
  · by_cases c : b2 < 128
    · exact Or.inl (testBit_false_of _ _ (by omega))
    · exact Or.inr (testBit_false_of _ _ (by omega))
  · by_cases c : b3 < 128
    · exact Or.inl (testBit_false_of _ _ (by omega))
    · exact Or.inr (testBit_false_of _ _ (by omega))
  · by_cases c : b4 < 128
    · exact Or.inl (testBit_false_of _ _ (by omega))
    · exact Or.inr (testBit_false_of _ _ (by omega))
  · by_cases c : b5 < 128
    · exact Or.inl (testBit_false_of _ _ (by omega))
    · exact Or.inr (testBit_false_of _ _ (by omega))
  · by_cases c : b6 < 128
    · exact Or.inl (testBit_false_of _ _ (by omega))
    · exact Or.inr (testBit_false_of _ _ (by omega))
  · by_cases c : b7 < 128
    · exact Or.inl (testBit_false_of _ _ (by omega))
    · exact Or.inr (testBit_false_of _ _ (by omega))

/-- The 32-bit detector on a loaded word fires exactly when one of the four
bytes is zero. -/
theorem haszero32_load (d : List Byte) (p : Nat) :
    haszero32_le (load32_le d p) ≠ 0 ↔ ∃ i, i < 4 ∧ byteAt d (p + i) = 0 := by
  constructor
  · intro h
    by_contra hne
    push_neg at hne
    apply h
    unfold load32_le
    exact haszero32_silent _ _ _ _ (byteAt_lt d _) (byteAt_lt d _) (byteAt_lt d _)
      (byteAt_lt d _) (hne 0 (by omega)) (hne 1 (by omega)) (hne 2 (by omega))
      (hne 3 (by omega))
  · rintro ⟨i, hi, hz⟩
    obtain ⟨e0, e1, e2, e3⟩ := load32_bytes d p
    apply haszero32_of_zero _ (load32_le_lt d p)
    interval_cases i
    · exact Or.inl (by rw [e0]; simpa using hz)
    · exact Or.inr (Or.inl (by rw [e1]; exact hz))
    · exact Or.inr (Or.inr (Or.inl (by rw [e2]; exact hz)))
    · exact Or.inr (Or.inr (Or.inr (by rw [e3]; exact hz)))

/-- The 64-bit detector on a loaded chunk fires exactly when one of the eight
bytes is zero. -/
theorem haszero64_load (d : List Byte) (p : Nat) :
    haszero64_le (load64_le d p) ≠ 0 ↔ ∃ i, i < 8 ∧ byteAt d (p + i) = 0 := by
  constructor
  · intro h
    by_contra hne
    push_neg at hne
    apply h
    unfold load64_le load32_le
    have q : ∀ k, k < 4 → byteAt d (p + 4 + k) ≠ 0 := fun k hk => by
      have := hne (4 + k) (by omega)
      rwa [← Nat.add_assoc] at this
    exact haszero64_silent _ _ _ _ _ _ _ _ (byteAt_lt d _) (byteAt_lt d _) (byteAt_lt d _)
      (byteAt_lt d _) (byteAt_lt d _) (byteAt_lt d _) (byteAt_lt d _) (byteAt_lt d _)
      (hne 0 (by omega)) (hne 1 (by omega)) (hne 2 (by omega)) (hne 3 (by omega))
      (q 0 (by omega)) (q 1 (by omega)) (q 2 (by omega)) (q 3 (by omega))
  · rintro ⟨i, hi, hz⟩ h0
    exact byteAt_ne_zero_of_haszero64 d p h0 (p + i) (by omega) (by omega) hz

/-- Every chunk that the skip loop passes over is free of zero bytes, and the
chunk at which it stops holds one. -/
theorem skip_chunks_exact (d : List Byte) :
    ∀ (fuel pos q : Nat), skip_chunks d fuel pos = some q →
      (∀ i, pos + 8 ≤ i → i < q → byteAt d i ≠ 0) ∧ ∃ i, i < 8 ∧ byteAt d (q + i) = 0 := by
  intro fuel
  induction fuel with
  | zero => intro pos q h; simp [skip_chunks] at h
  | succ n ih =>
    intro pos q h
    rw [skip_chunks] at h
    split at h
    · rename_i hz
      cases h
      exact ⟨fun i h1 h2 => by omega, (haszero64_load d _).mp hz⟩
    · rename_i hz
      obtain ⟨hrest, hstop⟩ := ih _ _ h
      refine ⟨fun i h1 h2 => ?_, hstop⟩
      by_cases c : i < pos + 8 + 8
      · exact byteAt_ne_zero_of_haszero64 d (pos + 8) (by simpa using hz) i h1 c
      · exact hrest i (by omega) h2

/-- The bytes of a 32-bit value rebuild it. -/
theorem value32_bytes (v : Nat) :
    v % 2 ^ 32 = v / 2 ^ (8 * 0) % 256 + v / 2 ^ (8 * 1) % 256 * 2 ^ 8
      + v / 2 ^ (8 * 2) % 256 * 2 ^ 16 + v / 2 ^ (8 * 3) % 256 * 2 ^ 24 := by
  norm_num
  omega

/-- The bytes of a 64-bit value rebuild it. -/
theorem value64_bytes (v : Nat) :
    v % 2 ^ 64 = v / 2 ^ (8 * 0) % 256 + v / 2 ^ (8 * 1) % 256 * 2 ^ 8
      + v / 2 ^ (8 * 2) % 256 * 2 ^ 16 + v / 2 ^ (8 * 3) % 256 * 2 ^ 24
      + (v / 2 ^ (8 * 4) % 256 + v / 2 ^ (8 * 5) % 256 * 2 ^ 8
        + v / 2 ^ (8 * 6) % 256 * 2 ^ 16 + v / 2 ^ (8 * 7) % 256 * 2 ^ 24) * 2 ^ 32 := by
  norm_num
  omega

/-- The 32-bit detector on a value fires exactly when one of its four bytes is zero. -/
theorem haszero32_value (v : Nat) :
    haszero32_le (v % 2 ^ 32) ≠ 0 ↔ ∃ k, k < 4 ∧ v / 2 ^ (8 * k) % 256 = 0 := by
  constructor
  · intro h
    by_contra hne
    push_neg at hne
    apply h
    rw [value32_bytes]
    exact haszero32_silent _ _ _ _ (Nat.mod_lt _ (by norm_num)) (Nat.mod_lt _ (by norm_num))
      (Nat.mod_lt _ (by norm_num)) (Nat.mod_lt _ (by norm_num)) (hne 0 (by omega))
      (hne 1 (by omega)) (hne 2 (by omega)) (hne 3 (by omega))
  · rintro ⟨k, hk, hz⟩
    apply haszero32_of_zero _ (Nat.mod_lt _ (by norm_num))
    interval_cases k
    · exact Or.inl (by norm_num at hz ⊢; omega)
    · exact Or.inr (Or.inl (by norm_num at hz ⊢; omega))
    · exact Or.inr (Or.inr (Or.inl (by norm_num at hz ⊢; omega)))
    · exact Or.inr (Or.inr (Or.inr (by norm_num at hz ⊢; omega)))

/-- The 64-bit detector on a value fires exactly when one of its eight bytes is zero. -/
theorem haszero64_value (v : Nat) :
    haszero64_le (v % 2 ^ 64) ≠ 0 ↔ ∃ k, k < 8 ∧ v / 2 ^ (8 * k) % 256 = 0 := by
  constructor
  · intro h
    by_contra hne
    push_neg at hne
    apply h
    rw [value64_bytes]
    exact haszero64_silent _ _ _ _ _ _ _ _ (Nat.mod_lt _ (by norm_num))
      (Nat.mod_lt _ (by norm_num)) (Nat.mod_lt _ (by norm_num)) (Nat.mod_lt _ (by norm_num))
      (Nat.mod_lt _ (by norm_num)) (Nat.mod_lt _ (by norm_num)) (Nat.mod_lt _ (by norm_num))
      (Nat.mod_lt _ (by norm_num)) (hne 0 (by omega)) (hne 1 (by omega)) (hne 2 (by omega))
      (hne 3 (by omega)) (hne 4 (by omega)) (hne 5 (by omega)) (hne 6 (by omega))
      (hne 7 (by omega))
  · rintro ⟨k, hk, hz⟩
    apply haszero64_of_zero _ (Nat.mod_lt _ (by norm_num))
    interval_cases k
    · exact Or.inl (by norm_num at hz ⊢; omega)
    · exact Or.inr (Or.inl (by norm_num at hz ⊢; omega))
    · exact Or.inr (Or.inr (Or.inl (by norm_num at hz ⊢; omega)))
    · exact Or.inr (Or.inr (Or.inr (Or.inl (by norm_num at hz ⊢; omega))))
    · exact Or.inr (Or.inr (Or.inr (Or.inr (Or.inl (by norm_num at hz ⊢; omega)))))
    · exact Or.inr (Or.inr (Or.inr (Or.inr (Or.inr (Or.inl (by norm_num at hz ⊢; omega))))))
    · exact Or.inr (Or.inr (Or.inr (Or.inr (Or.inr (Or.inr (Or.inl
        (by norm_num at hz ⊢; omega)))))))
    · exact Or.inr (Or.inr (Or.inr (Or.inr (Or.inr (Or.inr (Or.inr
        (by norm_num at hz ⊢; omega)))))))

/-- Claim C31 (word classifier): on the word loaded at `pos`, with bytes
`b0 b1 b2 b3` in memory order, `__find_h26x_start` returns 4 with
`additional_byte` false exactly for `00 00 00 01`, 5 exactly for `00 00 01 XX`,
4 with `additional_byte` true exactly for `XX 00 00 01` with `XX` not zero, and
0 in every other case; for `XX 00 00 01` the caller returns `pos + 4` with the
prefix length 3. -/
theorem find_h26x_start_classifier (data : List Byte) (pos : Nat) :
    (__find_h26x_start (load32_le data pos) = (4, false) ↔
      byteAt data pos = 0 ∧ byteAt data (pos + 1) = 0 ∧ byteAt data (pos + 2) = 0
        ∧ byteAt data (pos + 3) = 1) ∧
    (__find_h26x_start (load32_le data pos) = (5, false) ↔
      byteAt data pos = 0 ∧ byteAt data (pos + 1) = 0 ∧ byteAt data (pos + 2) = 1) ∧
    (__find_h26x_start (load32_le data pos) = (4, true) ↔
      byteAt data pos ≠ 0 ∧ byteAt data (pos + 1) = 0 ∧ byteAt data (pos + 2) = 0
        ∧ byteAt data (pos + 3) = 1) ∧
    (__find_h26x_start (load32_le data pos) = (0, false) ↔
      ¬ (byteAt data (pos + 1) = 0 ∧ byteAt data (pos + 2) = 0 ∧ byteAt data (pos + 3) = 1)
        ∧ ¬ (byteAt data pos = 0 ∧ byteAt data (pos + 1) = 0 ∧ byteAt data (pos + 2) = 1)) ∧
    (__find_h26x_start (load32_le data pos)).1 ∈ [0, 4, 5] ∧
    (∀ (c : Codec) (rpos : Nat) (lb : Byte) (s : ScanState),
      byteAt data pos ≠ 0 ∧ byteAt data (pos + 1) = 0 ∧ byteAt data (pos + 2) = 0
        ∧ byteAt data (pos + 3) = 1 →
      examine c data rpos lb s pos true
        = Step.done { data := data.set rpos lb, ret := ((pos + 4 : Nat) : Int),
                      start_len := 3 }) := by
  have hfs := find_start_spec (byteAt data pos) (byteAt data (pos + 1)) (byteAt data (pos + 2))
    (byteAt data (pos + 3)) (byteAt_lt _ _) (byteAt_lt _ _) (byteAt_lt _ _) (byteAt_lt _ _)
  have hv : load32_le data pos = byteAt data pos + byteAt data (pos + 1) * 2 ^ 8
      + byteAt data (pos + 2) * 2 ^ 16 + byteAt data (pos + 3) * 2 ^ 24 := rfl
  rw [← hv] at hfs
  refine ⟨?_, ?_, ?_, ?_, ?_, ?_⟩
  · rw [hfs]; split_ifs <;> simp <;> omega
  · rw [hfs]; split_ifs <;> simp <;> omega
  · rw [hfs]; split_ifs <;> simp <;> omega
  · rw [hfs]; split_ifs <;> simp <;> omega
  · rw [hfs]; split_ifs <;> simp
  · rintro c rpos lb s ⟨n0, z1, z2, o3⟩
    have hz : haszero32_le (load32_le data pos) ≠ 0 :=
      (haszero32_load data pos).mpr ⟨1, by omega, z1⟩
    have hf : __find_h26x_start (load32_le data pos) = (4, true) := by
      rw [hfs]; simp [n0, z1, z2, o3]
    unfold examine
    simp [hz, hf]

/-- Claim C33 (zero-byte detector): `haszero64_le(v)` of a 64-bit value and
`haszero32_le(v)` of a 32-bit value are non-zero exactly when one of the bytes
of `v` is `00`, the same holds for a chunk or word loaded from the buffer, and
the chunks that the scanner skips hold no zero byte: when the chunk at `pos`
is silent and the skip loop stops at `q`, no byte at `pos .. q - 1` is zero
and the chunk at `q` holds a zero byte. -/
theorem haszero_detects_exactly (d : List Byte) :
    (∀ v : Nat, haszero64_le (v % 2 ^ 64) ≠ 0 ↔ ∃ k, k < 8 ∧ v / 2 ^ (8 * k) % 256 = 0) ∧
    (∀ v : Nat, haszero32_le (v % 2 ^ 32) ≠ 0 ↔ ∃ k, k < 4 ∧ v / 2 ^ (8 * k) % 256 = 0) ∧
    (∀ p : Nat, haszero64_le (load64_le d p) ≠ 0 ↔ ∃ i, i < 8 ∧ byteAt d (p + i) = 0) ∧
    (∀ p : Nat, haszero32_le (load32_le d p) ≠ 0 ↔ ∃ i, i < 4 ∧ byteAt d (p + i) = 0) ∧
    (∀ fuel pos q : Nat, haszero64_le (load64_le d pos) = 0 →
      skip_chunks d fuel pos = some q →
      (∀ i, pos ≤ i → i < q → byteAt d i ≠ 0) ∧ ∃ i, i < 8 ∧ byteAt d (q + i) = 0) := by
  refine ⟨haszero64_value, haszero32_value, haszero64_load d, haszero32_load d, ?_⟩
  intro fuel pos q hz hq
  obtain ⟨h1, h2⟩ := skip_chunks_exact d fuel pos q hq
  refine ⟨fun i hi hlt => ?_, h2⟩
  by_cases c : i < pos + 8
  · exact byteAt_ne_zero_of_haszero64 d pos hz i hi c
  · exact h1 i (by omega) hlt

/-- Claim C32 (start code that ends on the first byte of a word) evaluated
where it fails: in `AA 00 00 00 | 01 41 00 AA ..` the previous word ends with
`00 00 00` and the current word begins with `01`, but the current word holds a
zero byte and the scan from offset 0 returns not-found instead of 5 with the
prefix length 4. With `42` in place of that zero byte the scan returns 5 with
the prefix length 4, and with exactly two zero bytes before the `01` it
returns 5 with the prefix length 3. -/
theorem find_h26x_start_code_cross_word_zero :
    find_h26x_start_code h265 cross_word_zero_buffer 16 0 0
      = some ⟨cross_word_zero_buffer, -1, 0⟩ ∧
    load32_le cross_word_zero_buffer 0 / 2 ^ 8 = 0 ∧
    byteAt cross_word_zero_buffer 4 = 1 ∧ byteAt cross_word_zero_buffer 6 = 0 ∧
    find_h26x_start_code h265 cross_word_buffer 16 0 0 = some ⟨cross_word_buffer, 5, 4⟩ ∧
    find_h26x_start_code h265 cross_word_short_buffer 16 0 0
      = some ⟨cross_word_short_buffer, 5, 3⟩ := by
  decide

/-- Claim C38 (index safety of the scanner) evaluated where it fails. On a
buffer of 5 bytes the index `len - (len mod 8) - 1` of the sentinel wraps to
`2 ^ 64 - 1`. On the 24-byte buffer `00 00 01 AA ..` the first scan returns 3,
and the scan from offset 3 loads the chunks at positions 11 and 19; the chunk
at 19 covers the indices 19 .. 26, of which 24, 25 and 26 are not below `len`. -/
theorem find_h26x_start_code_reads_past_len :
    size_sub (size_sub 5 (5 % 8)) 1 = 2 ^ 64 - 1 ∧
    find_h26x_start_code h265 five_bytes 5 0 0
      = scan_loop h265 (five_bytes.set (2 ^ 64 - 1) 0) 5 (2 ^ 64 - 1)
          (five_bytes.getD (2 ^ 64 - 1) 0) (5 + 1)
          { pos := 0, prev_z := false, cur_z := false, prev := 0xffffffff, start_len := 0 } ∧
    start_code_then_payload.length = 24 ∧
    find_h26x_start_code h265 start_code_then_payload 24 0 0
      = some ⟨start_code_then_payload, 3, 3⟩ ∧
    find_h26x_start_code h265 start_code_then_payload 24 3 3
      = some ⟨start_code_then_payload, -1, 3⟩ ∧
    size_sub (size_sub 24 (24 % 8)) 1 = 23 ∧
    haszero64_le (load64_le (start_code_then_payload.set 23 0) 3) = 0 ∧
    skip_chunks_loads (start_code_then_payload.set 23 0) 25 3 = [11, 19] ∧
    skip_chunks (start_code_then_payload.set 23 0) 25 3 = some 19 ∧
    24 ≤ 19 + 7 := by
  decide

theorem scl_sizes_cons (dl B : Nat) (a b : nal_info) (t : List nal_info) (agg : Nat)
    (cnt : Int) :
    scl_sizes dl B (a :: b :: t) agg cnt =
      if (agg + size_sub (size_sub b.offset a.offset) b.prefix_len + 2) % SIZE_MOD ≤ B then
        ({ a with size := size_sub (size_sub b.offset a.offset) b.prefix_len,
                  aggregate := true } ::
            (scl_sizes dl B (b :: t)
              ((agg + size_sub (size_sub b.offset a.offset) b.prefix_len + 2) % SIZE_MOD)
              (cnt + 1)).1,
          (scl_sizes dl B (b :: t)
              ((agg + size_sub (size_sub b.offset a.offset) b.prefix_len + 2) % SIZE_MOD)
              (cnt + 1)).2)
      else
        ({ a with size := size_sub (size_sub b.offset a.offset) b.prefix_len } ::
            (scl_sizes dl B (b :: t) agg cnt).1,
          (scl_sizes dl B (b :: t) agg cnt).2) := by
  conv_lhs => unfold scl_sizes

/-- Offsets and prefix lengths pass through the size loop unchanged. -/
theorem scl_sizes_keeps (dl B : Nat) :
    ∀ (l : List nal_info) (agg : Nat) (cnt : Int),
      (scl_sizes dl B l agg cnt).1.map (fun n => (n.offset, n.prefix_len))
        = l.map (fun n => (n.offset, n.prefix_len)) := by
  intro l
  induction l with
  | nil => intro agg cnt; simp [scl_sizes]
  | cons a rest ih =>
    intro agg cnt
    cases rest with
    | nil => simp only [scl_sizes]; split <;> simp
    | cons b t =>
      simp only [scl_sizes_cons]
      split <;> simp [ih]

theorem chain_hits_bound (dl : Nat) :
    ∀ (rest : List nal_info) (a : nal_info), List.Chain (HitRel dl) a rest →
      ∀ x ∈ rest, x.offset < dl := by
  intro rest
  induction rest with
  | nil => intro a _ x hx; cases hx
  | cons b t ih =>
    intro a h x hx
    rw [List.chain_cons] at h
    rcases List.mem_cons.mp hx with rfl | hx
    · exact h.1.2.2.1
    · exact ih b h.2 x hx

/-- The records of `scl` lie at increasing offsets below `data_len`, each at
least a prefix length after the one before. -/
theorem scl_offsets (c : Codec) (data : List Byte) (data_len packet_size : Nat)
    (hc : c.get_start_code_range = 4) :
    ∃ nals flag, scl c data data_len packet_size [] = some (data, nals, flag) ∧
      List.Chain' (fun a b : nal_info => a.offset + b.prefix_len ≤ b.offset ∧ 3 ≤ b.prefix_len)
        nals ∧
      ∀ x ∈ nals, x.offset < data_len := by
  obtain ⟨r, hr⟩ := find_total c data data_len 0 0 (by omega)
  obtain ⟨hdata, hcase⟩ := find_spec c data data_len 0 0 hc r hr
  have htot := scl_find_total c data_len hc data_len r.data r.ret r.start_len [] (by
    rcases hcase with hneg | ⟨⟨j, hj, -⟩, hlt⟩
    · exact Or.inl (by omega)
    · exact Or.inr ⟨by omega, by omega⟩)
  obtain ⟨⟨d1, out⟩, hout⟩ := htot
  obtain ⟨hd1, hshape⟩ := scl_find_spec c data_len hc _ _ _ _ _ _ _ hout
  rw [hdata] at hd1
  subst hd1
  unfold scl
  rw [hr]
  simp only [hout]
  refine ⟨_, _, rfl, ?_, ?_⟩
  · have hkeep := scl_sizes_keeps data_len (size_sub packet_size c.get_payload_header_size)
      out 0 0
    have hch : List.Chain' (fun a b : Nat × Nat => a.1 + b.2 ≤ b.1 ∧ 3 ≤ b.2)
        (out.map (fun n => (n.offset, n.prefix_len))) := by
      rw [List.chain'_map]
      rcases hshape with ⟨-, hnil⟩ | ⟨hpos, rest, hcons, hchain⟩
      · subst hnil; exact List.chain'_nil
      · rw [List.nil_append] at hcons
        subst hcons
        exact List.Chain'.imp (fun a b h => ⟨h.1, h.2.1⟩) hchain
    rw [← hkeep, List.chain'_map] at hch
    exact hch
  · have hkeep := scl_sizes_keeps data_len (size_sub packet_size c.get_payload_header_size)
      out 0 0
    have hall : ∀ p ∈ out.map (fun n => (n.offset, n.prefix_len)), p.1 < data_len := by
      intro p hp
      obtain ⟨x, hx, rfl⟩ := List.mem_map.mp hp
      rcases hshape with ⟨-, hnil⟩ | ⟨hpos, rest, hcons, hchain⟩
      · subst hnil; cases hx
      · rw [List.nil_append] at hcons
        subst hcons
        rcases List.mem_cons.mp hx with rfl | hx
        · show r.ret.toNat < data_len
          rcases hcase with hneg | ⟨-, hlt⟩
          · omega
          · omega
        · exact chain_hits_bound data_len rest _ hchain x hx
    rw [← hkeep] at hall
    intro x hx
    exact hall _ (List.mem_map.mpr ⟨x, hx, rfl⟩)

/-- A strictly increasing list of numbers below `n` has at most `n` members. -/
theorem increasing_length_le (n : Nat) (l : List Nat) (hs : l.Pairwise (fun a b => a < b))
    (hb : ∀ x ∈ l, x < n) : l.length ≤ n := by
  have hnd : l.Nodup := hs.imp (fun h => Nat.ne_of_lt h)
  have hsub : l ⊆ List.range n := fun x hx => List.mem_range.mpr (hb x hx)
  have := (List.subperm_of_subset hnd hsub).length_le
  simpa using this

/-- Claim C39 (progress of the scanner and of the `scl` loop), for a codec
with a 4-byte scan step and a `size_t` length: `find_h26x_start_code` returns,
and a result `r ≥ 0` with the prefix length `p` has `r > offset` and
`r - p ≥ offset`; `scl` returns with at most `len` records, whose offsets are
strictly increasing and below `len`; and no size computation underflows:
every record starts at least the next prefix length before the next offset
and its size is the plain difference, the last one ending at `len`. -/
theorem scl_scanner_progress (c : Codec) (data : List Byte)
    (len offset start_len packet_size : Nat)
    (hc : c.get_start_code_range = 4) (hlen : len < 2 ^ 64) :
    (∃ r, find_h26x_start_code c data len offset start_len = some r ∧
      (0 ≤ r.ret → (offset : Int) < r.ret ∧ (offset : Int) ≤ r.ret - (r.start_len : Int))) ∧
    (∃ nals flag, scl c data len packet_size [] = some (data, nals, flag) ∧
      nals.length ≤ len ∧
      (nals.map (fun n => n.offset)).Pairwise (fun a b => a < b) ∧
      (∀ x ∈ nals, x.offset < len) ∧
      List.Chain' (fun a b : nal_info => a.offset + b.prefix_len ≤ b.offset ∧
          size_sub (size_sub b.offset a.offset) b.prefix_len
            = b.offset - a.offset - b.prefix_len ∧
          a.size = b.offset - a.offset - b.prefix_len) nals ∧
      (∀ x, nals.getLast? = some x →
        size_sub len x.offset = len - x.offset ∧ x.size = len - x.offset)) := by
  constructor
  · obtain ⟨r, hr⟩ := find_total c data len offset start_len (by omega)
    refine ⟨r, hr, fun h0 => ?_⟩
    obtain ⟨-, hcase⟩ := find_spec c data len offset start_len hc r hr
    rcases hcase with hneg | ⟨⟨j, hj, hoj, -, -, -, h34, h4⟩, -⟩
    · omega
    · rcases h34 with h3 | h4'
      · omega
      · have := (h4.1 h4').1
        omega
  · obtain ⟨nals, flag, hscl, hgap, hbound⟩ := scl_offsets c data len packet_size hc
    obtain ⟨nals1, flag1, hscl1, htile, hlast, -, -⟩ := scl_spec c data len packet_size hc hlen
    rw [hscl] at hscl1
    obtain ⟨rfl, rfl⟩ : nals = nals1 ∧ flag = flag1 := by
      simpa using hscl1
    have hinc : (nals.map (fun n => n.offset)).Pairwise (fun a b => a < b) := by
      have h1 : List.Chain' (fun a b : Nat => a < b) (nals.map (fun n => n.offset)) := by
        rw [List.chain'_map]
        exact List.Chain'.imp (fun a b h => by have := h.1; have := h.2; omega) hgap
      exact List.chain'_iff_pairwise.mp h1
    refine ⟨nals, flag, hscl, ?_, hinc, hbound, ?_, ?_⟩
    · have := increasing_length_le len _ hinc (fun x hx => by
        obtain ⟨n, hn, rfl⟩ := List.mem_map.mp hx
        exact hbound n hn)
      simpa using this
    · refine List.Chain'.imp ?_ (List.Chain'.iff_mem.mp htile)
      rintro a b ⟨-, hb, ht⟩
      have h1 := hbound b hb
      unfold Tile at ht
      have e1 : size_sub b.offset a.offset = b.offset - a.offset :=
        size_sub_eq _ _ (by omega) (by omega)
      have e2 : size_sub (b.offset - a.offset) b.prefix_len
          = b.offset - a.offset - b.prefix_len := size_sub_eq _ _ (by omega) (by omega)
      exact ⟨by omega, by rw [e1, e2], by omega⟩
    · intro x hx
      have h1 := hlast x hx
      have h2 := hbound x (List.mem_of_getLast?_eq_some hx)
      exact ⟨size_sub_eq _ _ hlen (by omega), by omega⟩

/-- Claim C39 on the 20-byte buffer `00 00 00 01 AA 00 00 01 BB CC 01 .. 0A`
with the H.265 hooks. -/
theorem scl_scanner_progress_witness :
    h265.get_start_code_range = 4 ∧ (20 : Nat) < 2 ^ 64 ∧
    (∃ r, find_h26x_start_code h265 two_nal_long_buffer 20 0 0 = some r ∧
      (0 ≤ r.ret → ((0 : Nat) : Int) < r.ret ∧ ((0 : Nat) : Int) ≤ r.ret - (r.start_len : Int))) ∧
    (∃ nals flag, scl h265 two_nal_long_buffer 20 1000 [] = some (two_nal_long_buffer, nals, flag) ∧
      nals.length ≤ 20 ∧
      (nals.map (fun n => n.offset)).Pairwise (fun a b => a < b) ∧
      (∀ x ∈ nals, x.offset < 20) ∧
      List.Chain' (fun a b : nal_info => a.offset + b.prefix_len ≤ b.offset ∧
          size_sub (size_sub b.offset a.offset) b.prefix_len
            = b.offset - a.offset - b.prefix_len ∧
          a.size = b.offset - a.offset - b.prefix_len) nals ∧
      (∀ x, nals.getLast? = some x →
        size_sub 20 x.offset = 20 - x.offset ∧ x.size = 20 - x.offset)) :=
  ⟨rfl, by norm_num, scl_scanner_progress h265 two_nal_long_buffer 20 0 0 1000 rfl (by norm_num)⟩

/-! ### Receive path: reconstruction key and expected count -/

/-- The key of a 16-bit sequence number is the first sequence number plus the
cyclic distance from it. -/
theorem frag_key_cyclic (s q : Nat) (hs : s < 65536) (hq : q < 65536) :
    frag_key s q = s + (q + 65536 - s) % 65536 := by
  unfold frag_key
  split <;> omega

/-- Storing a fragment keeps the map in key order and adds nothing else. -/
theorem fragments_set_sorted (k : Nat) (f : rtp_frame) :
    ∀ (l : List (Nat × rtp_frame)), l.Pairwise (fun a b => a.1 < b.1) →
      (fragments_set k f l).Pairwise (fun a b => a.1 < b.1) ∧
      ∀ p ∈ fragments_set k f l, p = (k, f) ∨ p ∈ l := by
  intro l
  induction l with
  | nil =>
    intro _
    simp [fragments_set]
  | cons e rest ih =>
    intro h
    rw [List.pairwise_cons] at h
    obtain ⟨ih1, ih2⟩ := ih h.2
    unfold fragments_set
    split
    · rename_i hlt
      refine ⟨List.pairwise_cons.mpr ⟨fun x hx => ?_, List.pairwise_cons.mpr h⟩, fun p hp => ?_⟩
      · rcases List.mem_cons.mp hx with rfl | hx
        · exact hlt
        · exact Nat.lt_trans hlt (h.1 x hx)
      · rcases List.mem_cons.mp hp with rfl | hp
        · exact Or.inl rfl
        · exact Or.inr hp
    · split
      · rename_i heq
        refine ⟨List.pairwise_cons.mpr ⟨fun x hx => ?_, h.2⟩, fun p hp => ?_⟩
        · show k < x.1
          rw [heq]; exact h.1 x hx
        · rcases List.mem_cons.mp hp with rfl | hp
          · exact Or.inl rfl
          · exact Or.inr (List.mem_cons_of_mem _ hp)
      · rename_i hnlt hne
        refine ⟨List.pairwise_cons.mpr ⟨fun x hx => ?_, ih1⟩, fun p hp => ?_⟩
        · rcases ih2 x hx with rfl | hx
          · show e.1 < k
            omega
          · exact h.1 x hx
        · rcases List.mem_cons.mp hp with rfl | hp
          · exact Or.inr (List.mem_cons_self _ _)
          · rcases ih2 p hp with rfl | hp
            · exact Or.inl rfl
            · exact Or.inr (List.mem_cons_of_mem _ hp)

/-- Draining the pending list keeps the map in key order. -/
theorem drain_sorted (key : rtp_frame → Nat) :
    ∀ (temp : List rtp_frame) (l : List (Nat × rtp_frame)),
      l.Pairwise (fun a b => a.1 < b.1) →
      (temp.foldl (fun fragments fragment => fragments_set (key fragment) fragment fragments)
        l).Pairwise (fun a b => a.1 < b.1) := by
  intro temp
  induction temp with
  | nil => intro l h; exact h
  | cons g rest ih =>
    intro l h
    rw [List.foldl_cons]
    exact ih _ (fragments_set_sorted _ _ l h).1

/-- Every fragment update keeps the fragment map in key order. -/
theorem fragment_update_sorted (c : Codec) (ty : FRAG_TYPE) (a : rtp_frame) (info : h26x_info)
    (h : info.fragments.Pairwise (fun a b => a.1 < b.1)) :
    (fragment_update c ty a info).fragments.Pairwise (fun a b => a.1 < b.1) := by
  by_cases hty : ty = FRAG_TYPE.FT_START
  · subst hty
    rw [fragment_update_start]
    exact drain_sorted (fun fragment => if a.header.seq > fragment.header.seq
      then 0x10000 + fragment.header.seq else fragment.header.seq) _ _
      (fragments_set_sorted _ _ _ h).1
  · rw [fragment_update_other c ty a info hty]
    split
    · exact (fragments_set_sorted _ _ _ h).1
    · exact h

/-- Claim C34 (wrap-corrected reconstruction key), for 16-bit sequence
numbers: a fragment with sequence number `q` that arrives when the first
sequence number `s` is known is stored under `s + ((q - s) mod 65536)`, and so
is every pending fragment when the start fragment with sequence number `s`
arrives (the start fragment itself under `s`); that key is `q` if `q ≥ s` and
`0x10000 + q` otherwise; keys grow strictly with the cyclic distance from `s`,
different sequence numbers get different keys, and every update leaves the
fragment map, which is iterated in list order, sorted by key. -/
theorem fragment_key_wrap_corrected (c : Codec) (info : h26x_info) (frame : rtp_frame)
    (hq : frame.header.seq < 65536) (hpend : ∀ f ∈ info.temporary, f.header.seq < 65536) :
    (∀ ty, ty ≠ FRAG_TYPE.FT_START → info.s_seq < 65536 →
      (fragment_update c ty frame info).fragments
        = fragments_set (info.s_seq + (frame.header.seq + 65536 - info.s_seq) % 65536) frame
            info.fragments) ∧
    ((fragment_update c FRAG_TYPE.FT_START frame info).fragments
        = info.temporary.foldl (fun fragments fragment =>
            fragments_set
              (frame.header.seq + (fragment.header.seq + 65536 - frame.header.seq) % 65536)
              fragment fragments) (fragments_set frame.header.seq frame info.fragments)) ∧
    (∀ s q, s < 65536 → q < 65536 →
      s + (q + 65536 - s) % 65536 = (if q ≥ s then q else 0x10000 + q) ∧
      frag_key s q = s + (q + 65536 - s) % 65536) ∧
    (∀ s q1 q2, s < 65536 → q1 < 65536 → q2 < 65536 →
      ((q1 + 65536 - s) % 65536 < (q2 + 65536 - s) % 65536 ↔ frag_key s q1 < frag_key s q2) ∧
      (q1 ≠ q2 → frag_key s q1 ≠ frag_key s q2)) ∧
    (info.fragments.Pairwise (fun a b => a.1 < b.1) →
      ∀ ty, (fragment_update c ty frame info).fragments.Pairwise (fun a b => a.1 < b.1)) := by
  have hi := INVALID_SEQ_gt
  refine ⟨?_, ?_, ?_, ?_, ?_⟩
  · intro ty hty hs
    rw [fragment_update_other c ty frame info hty, if_pos (by omega),
      frag_key_cyclic _ _ hs hq]
  · rw [fragment_update_start]
    show List.foldl _ _ _ = List.foldl _ _ _
    apply List.foldl_ext
    intro m g hg
    have hg1 := hpend g hg
    have := frag_key_cyclic frame.header.seq g.header.seq hq hg1
    unfold frag_key at this
    rw [this]
  · intro s q hs hq1
    refine ⟨?_, frag_key_cyclic s q hs hq1⟩
    split <;> omega
  · intro s q1 q2 hs h1 h2
    rw [frag_key_cyclic s q1 hs h1, frag_key_cyclic s q2 hs h2]
    constructor
    · omega
    · omega
  · intro h ty
    exact fragment_update_sorted c ty frame info h

set_option maxRecDepth 100000 in
/-- Claim C34 at the first sequence number 65534: the fragment 0 is stored
under 65536, behind 65535, both on direct insertion and when drained. -/
theorem fragment_key_wrap_corrected_witness :
    (0 : Nat) < 65536 ∧ (∀ f ∈ wrap_pending_info.temporary, f.header.seq < 65536) ∧
    (fragment_update h265 FRAG_TYPE.FT_END
        { header := { timestamp := 9000, seq := 0 }, payload := [] } wrap_pending_info).fragments
      = fragments_set (65534 + (0 + 65536 - 65534) % 65536)
          { header := { timestamp := 9000, seq := 0 }, payload := [] }
          wrap_pending_info.fragments ∧
    (fragments_set (65534 + (0 + 65536 - 65534) % 65536)
          { header := { timestamp := 9000, seq := 0 }, payload := [] }
          wrap_pending_info.fragments).map Prod.fst = [65535, 65536] :=
  ⟨by decide, by decide,
    (fragment_key_wrap_corrected h265 wrap_pending_info
      { header := { timestamp := 9000, seq := 0 }, payload := [] } (by decide)
      (by decide)).1 FRAG_TYPE.FT_END (by decide) (by decide),
    by decide⟩

/-- Claim C35 (expected fragment count): for 16-bit first and last sequence
numbers `s` and `e`, `calculate_expected_fus` returns `((e - s) mod 65536) + 1`,
the number of sequence numbers in the cyclic range `s, s + 1, .., e`: counting
that many from `s` ends on `e` and no earlier step does; the count is 3 for
65534 and 0 and 1 for `s = e`; and the function returns 0 when the first or
the last sequence number is still `INVALID_SEQ`. -/
theorem calculate_expected_fus_cyclic_count (info : h26x_info) :
    (info.s_seq < 65536 → info.e_seq < 65536 →
      calculate_expected_fus info = (info.e_seq + 65536 - info.s_seq) % 65536 + 1 ∧
      (info.s_seq + (calculate_expected_fus info - 1)) % 65536 = info.e_seq ∧
      (∀ i, i + 1 < calculate_expected_fus info → (info.s_seq + i) % 65536 ≠ info.e_seq) ∧
      (info.s_seq = info.e_seq → calculate_expected_fus info = 1)) ∧
    (info.s_seq = INVALID_SEQ ∨ info.e_seq = INVALID_SEQ → calculate_expected_fus info = 0) ∧
    calculate_expected_fus wrap_info = 3 := by
  have hi := INVALID_SEQ_gt
  refine ⟨fun hs he => ?_, fun h => ?_, by decide⟩
  · have key : calculate_expected_fus info = (info.e_seq + 65536 - info.s_seq) % 65536 + 1 := by
      unfold calculate_expected_fus
      rw [if_neg (by omega)]
      by_cases h : info.s_seq ≤ info.e_seq
      · rw [if_neg (by omega)]
        rw [Nat.mod_eq_of_lt (by unfold SIZE_MOD; omega)]
        omega
      · rw [if_pos (by omega), size_sub_eq _ _ (by norm_num) (by omega)]
        rw [Nat.mod_eq_of_lt (by unfold SIZE_MOD; omega)]
        omega
    rw [key]
    refine ⟨rfl, by omega, fun i hi => by omega, fun h => by omega⟩
  · unfold calculate_expected_fus
    rw [if_pos h]

/-! ### Receive path: delivery after a duplicated fragment -/

set_option maxRecDepth 100000 in
/-- Claim C36 (no holes on delivery) evaluated where it fails: the start
fragment 100 arrives twice and then the end fragment 102, the middle fragment
101 never. After the two start fragments the entry counts two packets and holds
one fragment; the end fragment makes the count equal to the expected count 3,
so `packet_handler` returns `RTP_PKT_READY`. The fragment map of the completed
entry holds the keys 100 and 102 and none for 101, the counted size is 5 while
the fragments held carry 3 stripped bytes, and the delivered payload
`26 01 01 02 05 00 00` ends in two bytes that no fragment wrote. -/
theorem packet_handler_ready_with_hole :
    (handle_packets h265 sample_env 0
        (arrivals sample_time 0 [sample_start, sample_start]) (h26x_state.init 0)).map
      (fun r => (r.1.map Prod.fst, frames_find 9000 r.2.frames_))
      = some ([rtp_error_t.RTP_OK, rtp_error_t.RTP_OK], some twice_started_info) ∧
    is_complete (fragment_update h265 FRAG_TYPE.FT_END sample_end twice_started_info) = true ∧
    (fragment_update h265 FRAG_TYPE.FT_END sample_end twice_started_info).s_seq = 100 ∧
    (fragment_update h265 FRAG_TYPE.FT_END sample_end twice_started_info).e_seq = 102 ∧
    (fragment_update h265 FRAG_TYPE.FT_END sample_end twice_started_info).fragments
      = [(100, sample_start), (102, sample_end)] ∧
    (fragment_update h265 FRAG_TYPE.FT_END sample_end twice_started_info).temporary = [] ∧
    (fragment_update h265 FRAG_TYPE.FT_END sample_end twice_started_info).total_size = 5 ∧
    stripped_total h265 [sample_start, sample_end] = 3 ∧
    (handle_packets h265 sample_env 0
        (arrivals sample_time 0 [sample_start, sample_start, sample_end])
        (h26x_state.init 0)).map (fun r => (r.1.map Prod.fst, delivered r.1))
      = some ([rtp_error_t.RTP_OK, rtp_error_t.RTP_OK, rtp_error_t.RTP_PKT_READY],
              [{ header := sample_end.header, payload := [0x26, 0x01, 1, 2, 5, 0, 0] }]) := by
  decide

/-! ### Send path: order of the queued messages -/

/-- Claim C37 as stated is false: in the 32-byte buffer the partitioner finds
the NAL units at offsets 4, 20 and 24 and with a payload size of 16 marks the
second and the third for aggregation; `push_media_frame` queues the units at
offsets 20 and 24 first and the unit at offset 4 last. -/
theorem push_media_frame_aggregates_first :
    (scl h265 large_then_small_buffer 32 16 []).map (fun r => r.2)
      = some ([⟨4, 4, 13, false⟩, ⟨20, 3, 1, true⟩, ⟨24, 3, 8, true⟩], true) ∧
    (push_media_frame h265 16 (some large_then_small_buffer) 32 0 accepting_state).map
        (fun r => (r.1, r.2.fqueue.queued))
      = some (rtp_error_t.RTP_OK,
          [[[0x42]], [[0x44, 9, 10, 11, 12, 13, 14, 15]],
           [[0x40, 1, 2, 3, 4, 5, 6, 7, 8, 9, 10, 11, 12]]]) := by
  decide

/-- What `fu_division` queues for a NAL unit of `data_len` bytes at the head of
a buffer that may go on behind it, when the queue accepts every message. -/
theorem fu_division_queue (c : Codec) (data : List Byte) (data_len payload_size : Nat)
    (q : frame_queue) (hq : q.results = []) (hbv : q.has_buffer_vector = true)
    (hdata : data_len ≤ data.length) (h64 : data_len < 2 ^ 64) (hgt : payload_size < data_len)
    (hF : c.get_payload_header_size + c.get_fu_header_size + 1 ≤ payload_size)
    (hnal : c.get_nal_header_size ≤ c.get_payload_header_size + c.get_fu_header_size) :
    ∃ q1, fu_division c data data_len payload_size q = some (rtp_error_t.RTP_OK, q1) ∧
      q1.results = [] ∧ q1.has_buffer_vector = true ∧
      q1.queued = q.queued ++
        fu_messages (c.fu_payload_header data)
          [toByte ((1 <<< 7) ||| (c.fu_nal_type data).val)] [c.fu_nal_type data]
          [toByte ((1 <<< 6) ||| (c.fu_nal_type data).val)]
          (fu_chunks (payload_size - c.get_payload_header_size - c.get_fu_header_size)
            (data_len - c.get_nal_header_size)
            ((data.drop c.get_nal_header_size).take (data_len - c.get_nal_header_size))) := by
  have e1 : size_sub (size_sub payload_size c.get_payload_header_size) c.get_fu_header_size
      = payload_size - c.get_payload_header_size - c.get_fu_header_size := by
    rw [size_sub_eq payload_size _ (by omega) (by omega)]
    exact size_sub_eq _ _ (by omega) (by omega)
  have e2 : size_sub data_len c.get_nal_header_size = data_len - c.get_nal_header_size :=
    size_sub_eq _ _ h64 (by omega)
  obtain ⟨pos1, left1, b1, q1, hrun, hr, hb, hph, hfl, hmsgs⟩ :=
    divide_loop_spec data (toByte ((1 <<< 7) ||| (c.fu_nal_type data).val)) (c.fu_nal_type data)
      (toByte ((1 <<< 6) ||| (c.fu_nal_type data).val))
      (payload_size - c.get_payload_header_size - c.get_fu_header_size) (by omega)
      (data_len - c.get_nal_header_size + 1) c.get_nal_header_size
      (data_len - c.get_nal_header_size)
      { payload_header := c.fu_payload_header data,
        fu_header := [toByte ((1 <<< 7) ||| (c.fu_nal_type data).val)], payload := [] }
      q hq rfl (by omega) (by omega) (by omega) (by omega)
  refine ⟨{ q1 with queued := q1.queued ++ [[b1.payload_header,
      [toByte ((1 <<< 6) ||| (c.fu_nal_type data).val)], (data.drop pos1).take left1]] },
    ?_, hr, by rw [← hbv]; exact hb, hmsgs⟩
  unfold fu_division
  rw [if_neg (by omega), hbv]
  simp only [Bool.not_true, Bool.false_eq_true, if_false]
  unfold construct_format_header_divide_fus divide_frame_to_fus
  rw [if_neg (by omega)]
  simp only [e1, e2, initialize_fu_headers, List.take_succ_cons, List.take_zero]
  rw [hrun]
  simp only [ne_eq, not_true_eq_false, if_false]
  rw [enqueue_message_ok _ _ hr]
  simp [fu_buffers.message, hfl]

/-- The first loop of `push_media_frame` on a queue that accepts every message:
one message for each record marked for aggregation, in the order of `nals`. -/
theorem push_aggregates_queue (data : List Byte) :
    ∀ (nals : List nal_info) (s : send_state), s.fqueue.results = [] →
      (push_aggregates data nals s).1 = rtp_error_t.RTP_OK ∧
      (push_aggregates data nals s).2.fqueue.results = [] ∧
      (push_aggregates data nals s).2.fqueue.has_buffer_vector = s.fqueue.has_buffer_vector ∧
      (push_aggregates data nals s).2.flush_result = s.flush_result ∧
      (push_aggregates data nals s).2.fqueue.queued = s.fqueue.queued ++
        (nals.filter (fun n => n.aggregate)).map
          (fun n => [(data.drop n.offset).take n.size]) := by
  intro nals
  induction nals with
  | nil => intro s hq; simp [push_aggregates, hq]
  | cons nal rest ih =>
    intro s hq
    rw [push_aggregates]
    by_cases ha : nal.aggregate = true
    · rw [if_pos ha]
      have he : add_aggregate_packet (data.drop nal.offset) nal.size s.fqueue
          = (rtp_error_t.RTP_OK, { s.fqueue with queued := s.fqueue.queued
              ++ [[(data.drop nal.offset).take nal.size]] }) := by
        unfold add_aggregate_packet single_nal_unit
        exact enqueue_message_ok _ _ hq
      simp only [he, ne_eq, not_true_eq_false, if_false]
      obtain ⟨h1, h2, h3, h4, h5⟩ := ih (after_send s { s.fqueue with queued := s.fqueue.queued
        ++ [[(data.drop nal.offset).take nal.size]] } rtp_error_t.RTP_OK) hq
      refine ⟨h1, h2, h3, h4, ?_⟩
      rw [h5]
      simp [after_send, List.filter_cons, ha]
    · rw [if_neg ha]
      obtain ⟨h1, h2, h3, h4, h5⟩ := ih s hq
      refine ⟨h1, h2, h3, h4, ?_⟩
      rw [h5]
      simp [List.filter_cons, ha]

/-- The second loop of `push_media_frame` on a queue that accepts every message
and hands out a buffer vector: the messages of every record that is not sent
as an aggregate member, in the order of `nals`. -/
theorem push_singles_queue (c : Codec) (data : List Byte) (payload_size : Nat)
    (should_aggregate : Bool) (h64 : data.length < 2 ^ 64)
    (hF : c.get_payload_header_size + c.get_fu_header_size + 1 ≤ payload_size)
    (hnal : c.get_nal_header_size ≤ c.get_payload_header_size + c.get_fu_header_size) :
    ∀ (nals : List nal_info) (s : send_state),
      (∀ n ∈ nals, n.offset + n.size ≤ data.length) →
      s.fqueue.results = [] → s.fqueue.has_buffer_vector = true →
      ∃ s1, push_singles c data payload_size should_aggregate nals s
          = some (rtp_error_t.RTP_OK, s1) ∧
        s1.flush_result = s.flush_result ∧
        s1.fqueue.queued = s.fqueue.queued ++
          ((nals.filter (fun n => !n.aggregate || !should_aggregate)).map
            (nal_messages c data payload_size)).flatten := by
  intro nals
  induction nals with
  | nil => intro s _ _ _; exact ⟨s, rfl, rfl, by simp⟩
  | cons nal rest ih =>
    intro s hb hq hbv
    have hb1 := hb nal (List.mem_cons_self _ _)
    have hrest : ∀ n ∈ rest, n.offset + n.size ≤ data.length :=
      fun n hn => hb n (List.mem_cons_of_mem _ hn)
    rw [push_singles]
    by_cases ha : (!nal.aggregate || !should_aggregate) = true
    · rw [if_pos ha]
      have hsent : ∃ q1,
          (if nal.size ≤ payload_size then
            some (single_nal_unit (data.drop nal.offset) nal.size s.fqueue)
          else fu_division c (data.drop nal.offset) nal.size payload_size s.fqueue)
            = some (rtp_error_t.RTP_OK, q1) ∧ q1.results = [] ∧ q1.has_buffer_vector = true ∧
          q1.queued = s.fqueue.queued ++ nal_messages c data payload_size nal := by
        unfold nal_messages
        by_cases hsz : nal.size ≤ payload_size
        · rw [if_pos hsz, if_pos hsz]
          refine ⟨{ s.fqueue with queued := s.fqueue.queued
            ++ [[(data.drop nal.offset).take nal.size]] }, ?_, hq, hbv, rfl⟩
          unfold single_nal_unit
          rw [enqueue_message_ok _ _ hq]
        · rw [if_neg hsz, if_neg hsz]
          exact fu_division_queue c (data.drop nal.offset) nal.size payload_size s.fqueue hq hbv
            (by rw [List.length_drop]; omega) (by omega) (by omega) hF hnal
      obtain ⟨q1, hrun, hq1, hbv1, hqueued⟩ := hsent
      simp only [hrun, ne_eq, not_true_eq_false, if_false]
      obtain ⟨s1, hrun1, hfl, hqd⟩ := ih (after_send s q1 rtp_error_t.RTP_OK) hrest hq1 hbv1
      refine ⟨s1, hrun1, hfl, ?_⟩
      rw [hqd]
      simp only [after_send, hqueued, List.filter_cons, ha, if_true, List.map_cons,
        List.flatten_cons, List.append_assoc]
    · rw [if_neg ha]
      obtain ⟨s1, hrun1, hfl, hqd⟩ := ih s hrest hq hbv
      refine ⟨s1, hrun1, hfl, ?_⟩
      rw [hqd]
      simp [List.filter_cons, ha]

/-- Records that tile the buffer end inside it. -/
theorem tile_bound (dl : Nat) : ∀ (l : List nal_info), List.Chain' Tile l →
    (∀ x, l.getLast? = some x → x.offset + x.size = dl) →
    ∀ n ∈ l, n.offset + n.size ≤ dl := by
  intro l
  induction l with
  | nil => intro _ _ n hn; cases hn
  | cons a rest ih =>
    intro hch hlast n hn
    cases rest with
    | nil =>
      rcases List.mem_cons.mp hn with rfl | hn
      · exact le_of_eq (hlast n rfl)
      · cases hn
    | cons b t =>
      rw [List.chain'_cons] at hch
      have hrec := ih hch.2 (fun x hx => hlast x (by simpa [List.getLast?_cons_cons] using hx))
      rcases List.mem_cons.mp hn with rfl | hn
      · have hb := hrec b (List.mem_cons_self _ _)
        have ht := hch.1
        unfold Tile at ht
        omega
      · exact hrec n hn

/-- The records that `push_media_frame` works on: `locate_nals` returns, leaves
the buffer as it was, and the records lie at increasing offsets and end inside
the buffer. -/
theorem locate_nals_spec (c : Codec) (payload_size : Nat) (data : List Byte)
    (data_len flags : Nat) (hc : c.get_start_code_range = 4) (hlen : data_len < 2 ^ 64) :
    ∃ nals flag, locate_nals c payload_size data data_len flags = some (data, nals, flag) ∧
      (nals.map (fun n => n.offset)).Pairwise (fun a b => a < b) ∧
      ∀ n ∈ nals, n.offset + n.size ≤ data_len := by
  unfold locate_nals
  by_cases hf : flags &&& RCE_NO_H26X_SCL ≠ 0
  · rw [if_pos hf]
    exact ⟨_, _, rfl, by simp, by simp⟩
  · rw [if_neg hf]
    obtain ⟨nals, flag, hscl, hgap, -⟩ := scl_offsets c data data_len payload_size hc
    obtain ⟨nals1, flag1, hscl1, htile, hlast, -, -⟩ :=
      scl_spec c data data_len payload_size hc hlen
    rw [hscl] at hscl1
    obtain ⟨rfl, rfl⟩ : nals = nals1 ∧ flag = flag1 := by
      simpa using hscl1
    refine ⟨nals, flag, hscl, ?_, tile_bound data_len nals htile hlast⟩
    have h1 : List.Chain' (fun a b : Nat => a < b) (nals.map (fun n => n.offset)) := by
      rw [List.chain'_map]
      exact List.Chain'.imp (fun a b h => by have := h.1; have := h.2; omega) hgap
    exact List.chain'_iff_pairwise.mp h1

/-- Claim C37 (send order), amended, for a codec with a 4-byte scan step, a
buffer of `data_len` bytes, a payload size above payload header plus FU header
and a frame queue that accepts every message: `push_media_frame` returns, the
records lie at increasing offsets, and every record is handed to the frame
queue exactly once. When the partitioner reports a possible aggregate, the
queue receives first one message for each record marked for aggregation, in
offset order, and then the messages of the other records, in offset order;
otherwise it receives the messages of all records in offset order. -/
theorem push_media_frame_queue_order (c : Codec) (payload_size : Nat) (data : List Byte)
    (data_len flags : Nat) (s : send_state)
    (hc : c.get_start_code_range = 4) (hdata : data.length = data_len)
    (hlen64 : data_len < 2 ^ 64) (hlen : data_len ≠ 0)
    (hinit : s.init_result = rtp_error_t.RTP_OK)
    (hq : s.fqueue.results = []) (hbv : s.fqueue.has_buffer_vector = true)
    (hF : c.get_payload_header_size + c.get_fu_header_size + 1 ≤ payload_size)
    (hnal : c.get_nal_header_size ≤ c.get_payload_header_size + c.get_fu_header_size) :
    ∃ nals flag ret s1,
      locate_nals c payload_size data data_len flags = some (data, nals, flag) ∧
      push_media_frame c payload_size (some data) data_len flags s = some (ret, s1) ∧
      (nals.map (fun n => n.offset)).Pairwise (fun a b => a < b) ∧
      ((nals.filter (fun n => n.aggregate)).map (fun n => n.offset)).Pairwise
        (fun a b => a < b) ∧
      ((nals.filter (fun n => !n.aggregate)).map (fun n => n.offset)).Pairwise
        (fun a b => a < b) ∧
      (nals.filter (fun n => n.aggregate) ++ nals.filter (fun n => !n.aggregate)).Perm nals ∧
      (nals ≠ [] → ret = s.flush_result ∧
        s1.fqueue.queued = s.fqueue.queued ++
          (if flag = true then
            (nals.filter (fun n => n.aggregate)).map
                (fun n => [(data.drop n.offset).take n.size])
              ++ ((nals.filter (fun n => !n.aggregate)).map
                (nal_messages c data payload_size)).flatten
           else (nals.map (nal_messages c data payload_size)).flatten)) := by
  obtain ⟨nals, flag, hloc, hinc, hbound⟩ :=
    locate_nals_spec c payload_size data data_len flags hc hlen64
  have hb : ∀ n ∈ nals, n.offset + n.size ≤ data.length := by
    rw [hdata]; exact hbound
  have h64 : data.length < 2 ^ 64 := by rw [hdata]; exact hlen64
  suffices h : ∃ ret s1,
      push_media_frame c payload_size (some data) data_len flags s = some (ret, s1) ∧
      (nals ≠ [] → ret = s.flush_result ∧
        s1.fqueue.queued = s.fqueue.queued ++
          (if flag = true then
            (nals.filter (fun n => n.aggregate)).map
                (fun n => [(data.drop n.offset).take n.size])
              ++ ((nals.filter (fun n => !n.aggregate)).map
                (nal_messages c data payload_size)).flatten
           else (nals.map (nal_messages c data payload_size)).flatten)) by
    obtain ⟨ret, s1, h1, h2⟩ := h
    exact ⟨nals, flag, ret, s1, hloc, h1, hinc,
      hinc.sublist ((List.filter_sublist nals).map _),
      hinc.sublist ((List.filter_sublist nals).map _),
      List.filter_append_perm _ nals, h2⟩
  unfold push_media_frame
  simp only [hlen, if_false, hinit, ne_eq, not_true_eq_false, hloc]
  cases hn : nals with
  | nil => exact ⟨_, _, rfl, fun h => absurd rfl h⟩
  | cons nal rest =>
    rw [← hn]
    have hemp : nals.isEmpty = false := by rw [hn]; rfl
    simp only [hemp, Bool.false_eq_true, if_false]
    by_cases hagg : flag = true
    · simp only [hagg, if_true]
      obtain ⟨a1, a2, a3, a4, a5⟩ := push_aggregates_queue data nals s hq
      rw [if_neg (by simpa using a1)]
      obtain ⟨s1, hrun, hfl, hqd⟩ := push_singles_queue c data payload_size true h64 hF hnal
        nals (push_aggregates data nals s).2 hb a2 (by rw [a3]; exact hbv)
      simp only [hrun, ne_eq, not_true_eq_false, if_false]
      refine ⟨_, _, rfl, fun _ => ⟨by rw [hfl, a4], ?_⟩⟩
      simp only [hqd, a5, List.append_assoc, Bool.not_true, Bool.or_false]
    · have hflag : flag = false := by simpa using hagg
      subst hflag
      obtain ⟨s1, hrun, hfl, hqd⟩ := push_singles_queue c data payload_size false h64 hF hnal
        nals s hb hq hbv
      simp only [Bool.false_eq_true, if_false, ne_eq, not_true_eq_false, hrun]
      refine ⟨_, _, rfl, fun _ => ⟨hfl, ?_⟩⟩
      simp only [hqd, Bool.not_false, Bool.or_true, List.filter_true]

/-- Claim C37 amended, at the 32-byte buffer with the NAL units at offsets 4,
20 and 24, a payload size of 16 and the queue that accepts every message. -/
theorem push_media_frame_queue_order_witness :
    h265.get_start_code_range = 4 ∧ large_then_small_buffer.length = 32 ∧
    (32 : Nat) < 2 ^ 64 ∧ (32 : Nat) ≠ 0 ∧
    accepting_state.init_result = rtp_error_t.RTP_OK ∧
    accepting_state.fqueue.results = [] ∧ accepting_state.fqueue.has_buffer_vector = true ∧
    h265.get_payload_header_size + h265.get_fu_header_size + 1 ≤ 16 ∧
    h265.get_nal_header_size ≤ h265.get_payload_header_size + h265.get_fu_header_size ∧
    ∃ nals flag ret s1,
      locate_nals h265 16 large_then_small_buffer 32 0
        = some (large_then_small_buffer, nals, flag) ∧
      push_media_frame h265 16 (some large_then_small_buffer) 32 0 accepting_state
        = some (ret, s1) ∧
      (nals.map (fun n => n.offset)).Pairwise (fun a b => a < b) ∧
      ((nals.filter (fun n => n.aggregate)).map (fun n => n.offset)).Pairwise
        (fun a b => a < b) ∧
      ((nals.filter (fun n => !n.aggregate)).map (fun n => n.offset)).Pairwise
        (fun a b => a < b) ∧
      (nals.filter (fun n => n.aggregate) ++ nals.filter (fun n => !n.aggregate)).Perm nals ∧
      (nals ≠ [] → ret = accepting_state.flush_result ∧
        s1.fqueue.queued = accepting_state.fqueue.queued ++
          (if flag = true then
            (nals.filter (fun n => n.aggregate)).map
                (fun n => [(large_then_small_buffer.drop n.offset).take n.size])
              ++ ((nals.filter (fun n => !n.aggregate)).map
                (nal_messages h265 large_then_small_buffer 16)).flatten
           else (nals.map (nal_messages h265 large_then_small_buffer 16)).flatten)) :=
  ⟨rfl, rfl, by norm_num, by norm_num, rfl, rfl, rfl, by decide, by decide,
    push_media_frame_queue_order h265 16 large_then_small_buffer 32 0 accepting_state rfl rfl
      (by norm_num) (by norm_num) rfl rfl rfl (by decide) (by decide)⟩

/-! ### ZRTP: retransmission after role election -/

/-- Every timeout that the loop of `dh_part2` sets from `rto = 0` on is 0. -/
theorem dh_part2_loop_zero : ∀ (n : Nat) (recvs : List (Option zrtp_frame)) (timeouts : List Nat),
    (∀ t ∈ timeouts, t = 0) → ∀ t ∈ (dh_part2_loop n recvs 0 timeouts).2, t = 0 := by
  intro n
  induction n with
  | zero => intro recvs timeouts h; exact h
  | succ n ih =>
    intro recvs timeouts h
    have h1 : ∀ t ∈ timeouts ++ [0], t = 0 := by
      intro t ht
      rcases List.mem_append.mp ht with ht | ht
      · exact h t ht
      · simpa using ht
    rw [dh_part2_loop]
    split
    · exact h1
    · exact ih _ _ h1

set_option maxRecDepth 100000 in
/-- Claim C40 (uniform backoff after role election) evaluated where it fails:
`dh_part2` starts from `rto = 0`, so with no answer it sets the timeout 0 before
each of its ten sends and returns `RTP_TIMEOUT`, and whatever it receives every
timeout it sets is 0; `dh_part1`, `responder_finalize_session` and
`initiator_finalize_session` set 150, 300, 600 and then 1200. In `dh_part1` a
DHPart2 that does not parse leaves the timeout of the next round at 150. -/
theorem dh_part2_timeout_zero :
    dh_part2 [] [] = (rtp_error_t.RTP_TIMEOUT, List.replicate 10 0) ∧
    (∀ parses recvs, ∀ t ∈ (dh_part2 parses recvs).2, t = 0) ∧
    dh_part1 [] []
      = (rtp_error_t.RTP_TIMEOUT, (List.range 10).map (fun k => min (150 * 2 ^ k) 1200)) ∧
    responder_finalize_session sample_crypto bad_commit_session [] []
      = (rtp_error_t.RTP_TIMEOUT, (List.range 10).map (fun k => min (150 * 2 ^ k) 1200)) ∧
    initiator_finalize_session sample_crypto bad_commit_session [] []
      = (rtp_error_t.RTP_TIMEOUT, (List.range 10).map (fun k => min (150 * 2 ^ k) 1200)) ∧
    (List.range 10).map (fun k => min (150 * 2 ^ k) 1200)
      = [150, 300, 600, 1200, 1200, 1200, 1200, 1200, 1200, 1200] ∧
    dh_part1 [rtp_error_t.RTP_INVALID_VALUE] [some zrtp_frame.ZRTP_FT_DH_PART2]
      = (rtp_error_t.RTP_TIMEOUT, [150, 150, 300, 600, 1200, 1200, 1200, 1200, 1200, 1200]) := by
  refine ⟨by decide, ?_, by decide, by decide, by decide, by decide, by decide⟩
  intro parses recvs
  unfold dh_part2
  split
  · intro t ht; cases ht
  · exact dh_part2_loop_zero 10 recvs [] (fun t ht => by cases ht)

/-! ### Partitioner: the records against the scanner hits -/

/-- How `scl` is put together: the first scan, the list of hits that the loop
`while (offset > -1)` collects from it, and the records that the size loop
makes of the hits. The hits start with the first scan's result when there is
one and are empty otherwise. -/
theorem scl_hits (c : Codec) (data : List Byte) (data_len packet_size : Nat)
    (hc : c.get_start_code_range = 4) :
    ∃ r hits, find_h26x_start_code c data data_len 0 0 = some r ∧
      scl_find c data_len (data_len + 1) r.data r.ret r.start_len [] = some (data, hits) ∧
      scl c data data_len packet_size []
        = some (data,
            (scl_sizes data_len (size_sub packet_size c.get_payload_header_size) hits 0 0).1,
            decide ((scl_sizes data_len (size_sub packet_size c.get_payload_header_size)
              hits 0 0).2.2 ≥ 2)) ∧
      (r.ret > -1 → ∃ rest, hits = ⟨r.ret.toNat, r.start_len, 0, false⟩ :: rest) ∧
      (r.ret ≤ -1 → hits = []) := by
  obtain ⟨r, hr⟩ := find_total c data data_len 0 0 (by omega)
  obtain ⟨hdata, hcase⟩ := find_spec c data data_len 0 0 hc r hr
  have htot := scl_find_total c data_len hc data_len r.data r.ret r.start_len [] (by
    rcases hcase with hneg | ⟨⟨j, hj, -⟩, hlt⟩
    · exact Or.inl (by omega)
    · exact Or.inr ⟨by omega, by omega⟩)
  obtain ⟨⟨d1, out⟩, hout⟩ := htot
  obtain ⟨hd1, hshape⟩ := scl_find_spec c data_len hc _ _ _ _ _ _ _ hout
  rw [hdata] at hd1
  subst hd1
  refine ⟨r, out, hr, hout, ?_, ?_, ?_⟩
  · unfold scl
    rw [hr]
    simp only [hout]
  · intro hpos
    rcases hshape with ⟨hneg, -⟩ | ⟨-, rest, hcons, -⟩
    · omega
    · exact ⟨rest, by simpa using hcons⟩
  · intro hneg
    rcases hshape with ⟨-, hnil⟩ | ⟨hpos, -⟩
    · exact hnil
    · omega

/-- Claim C6 (partitioner size formula): for every buffer (length below `2^64`,
4-byte scan step) `scl` returns the records that its size loop makes of the
hits found by the scanner: one record for each hit, with the hit's offset and
prefix length (the first hit is the result of the first scan). In these
records every non-final record `a` followed by `b` satisfies
`a.offset + a.size + b.prefix_len = b.offset`, and the final record `x`
satisfies `x.offset + x.size = data_len`. -/
theorem scl_sizes_tile_buffer (c : Codec) (data : List Byte) (data_len packet_size : Nat)
    (hc : c.get_start_code_range = 4) (hlen : data_len < 2 ^ 64) :
    ∃ r hits nals flag,
      find_h26x_start_code c data data_len 0 0 = some r ∧
      scl_find c data_len (data_len + 1) r.data r.ret r.start_len [] = some (data, hits) ∧
      (r.ret > -1 → ∃ rest, hits = ⟨r.ret.toNat, r.start_len, 0, false⟩ :: rest) ∧
      scl c data data_len packet_size [] = some (data, nals, flag) ∧
      nals = (scl_sizes data_len (size_sub packet_size c.get_payload_header_size) hits 0 0).1 ∧
      nals.length = hits.length ∧
      nals.map (fun n => (n.offset, n.prefix_len))
        = hits.map (fun n => (n.offset, n.prefix_len)) ∧
      (∀ (i : Nat) (a b : nal_info), nals[i]? = some a → nals[i + 1]? = some b →
        a.offset + a.size + b.prefix_len = b.offset) ∧
      (∀ x, nals.getLast? = some x → x.offset + x.size = data_len) := by
  obtain ⟨r, hits, hr, hh, hs, hfirst, -⟩ := scl_hits c data data_len packet_size hc
  obtain ⟨nals, flag, h, hch, hlast, -, -⟩ := scl_spec c data data_len packet_size hc hlen
  have hkeep := scl_sizes_keeps data_len (size_sub packet_size c.get_payload_header_size)
    hits 0 0
  rw [h] at hs
  obtain ⟨hn, -⟩ : nals = (scl_sizes data_len (size_sub packet_size c.get_payload_header_size)
      hits 0 0).1 ∧ flag = decide ((scl_sizes data_len
        (size_sub packet_size c.get_payload_header_size) hits 0 0).2.2 ≥ 2) := by
    simpa using hs
  refine ⟨r, hits, nals, flag, hr, hh, hfirst, h, hn, ?_, ?_,
    chain_pairs_getElem Tile nals hch, hlast⟩
  · have := congrArg List.length hkeep
    rw [hn]
    simpa using this
  · rw [hn]; exact hkeep

set_option maxRecDepth 100000 in
/-- Claim C6 at the 20-byte buffer with the NAL units `AA` and `BB CC 01 .. 0A`:
the scanner hits are at 4 (prefix 4) and 8 (prefix 3), and the records are
`(4, 4, 1)` and `(8, 3, 12)`, with `4 + 1 + 3 = 8` and `8 + 12 = 20`. -/
theorem scl_sizes_tile_buffer_witness :
    h265.get_start_code_range = 4 ∧ 20 < 2 ^ 64 ∧
    find_h26x_start_code h265 two_nal_long_buffer 20 0 0 = some ⟨two_nal_long_buffer, 4, 4⟩ ∧
    scl_find h265 20 (20 + 1) two_nal_long_buffer 4 4 []
      = some (two_nal_long_buffer, [⟨4, 4, 0, false⟩, ⟨8, 3, 0, false⟩]) ∧
    scl h265 two_nal_long_buffer 20 1400 []
      = some (two_nal_long_buffer, [⟨4, 4, 1, true⟩, ⟨8, 3, 12, true⟩], true) ∧
    ∃ r hits nals flag,
      find_h26x_start_code h265 two_nal_long_buffer 20 0 0 = some r ∧
      scl_find h265 20 (20 + 1) r.data r.ret r.start_len [] = some (two_nal_long_buffer, hits) ∧
      (r.ret > -1 → ∃ rest, hits = ⟨r.ret.toNat, r.start_len, 0, false⟩ :: rest) ∧
      scl h265 two_nal_long_buffer 20 1400 [] = some (two_nal_long_buffer, nals, flag) ∧
      nals = (scl_sizes 20 (size_sub 1400 h265.get_payload_header_size) hits 0 0).1 ∧
      nals.length = hits.length ∧
      nals.map (fun n => (n.offset, n.prefix_len))
        = hits.map (fun n => (n.offset, n.prefix_len)) ∧
      (∀ (i : Nat) (a b : nal_info), nals[i]? = some a → nals[i + 1]? = some b →
        a.offset + a.size + b.prefix_len = b.offset) ∧
      (∀ x, nals.getLast? = some x → x.offset + x.size = 20) :=
  ⟨rfl, by norm_num, by decide, by decide, by decide,
    scl_sizes_tile_buffer h265 two_nal_long_buffer 20 1400 rfl (by norm_num)⟩

/-- The greedy marking record by record: a record is marked exactly when the
running total of the marked records before it, plus its size and 2, fits. -/
theorem greedy_marks_each (B : Nat) : ∀ (l : List nal_info) (T : Nat),
    l.map (fun n => n.aggregate) = greedy_marks B (l.map (fun n => n.size)) T →
    ∀ (i : Nat) (x : nal_info), l[i]? = some x →
      (x.aggregate = true ↔ T + marked_total (l.take i) + x.size + 2 ≤ B) := by
  intro l
  induction l with
  | nil => intro T _ i x hx; simp at hx
  | cons a rest ih =>
    intro T hm i x hx
    rw [List.map_cons, List.map_cons, greedy_marks] at hm
    by_cases hfit : T + a.size + 2 ≤ B
    · rw [if_pos hfit] at hm
      have ha : a.aggregate = true := (List.cons.inj hm).1
      have hrest := (List.cons.inj hm).2
      cases i with
      | zero =>
        simp only [List.getElem?_cons_zero, Option.some.injEq] at hx
        subst hx
        simp [marked_total, ha, hfit]
      | succ j =>
        simp only [List.getElem?_cons_succ] at hx
        have := ih (T + a.size + 2) hrest j x hx
        rw [this]
        have e : marked_total ((a :: rest).take (j + 1))
            = a.size + 2 + marked_total (rest.take j) := by
          simp [marked_total, List.filter_cons, ha]
        rw [e]
        omega
    · rw [if_neg hfit] at hm
      have ha : a.aggregate = false := (List.cons.inj hm).1
      have hrest := (List.cons.inj hm).2
      cases i with
      | zero =>
        simp only [List.getElem?_cons_zero, Option.some.injEq] at hx
        subst hx
        simp [marked_total, ha]
        omega
      | succ j =>
        simp only [List.getElem?_cons_succ] at hx
        have := ih T hrest j x hx
        rw [this]
        have e : marked_total ((a :: rest).take (j + 1)) = marked_total (rest.take j) := by
          simp [marked_total, List.filter_cons, ha]
        rw [e]

/-- Claim C7 (greedy aggregation eligibility): `scl` returns one record for
each scanner hit, and with the budget
`B = packet_size - get_payload_header_size()` the `aggregate` bits of these
records are exactly the greedy marking of the record sizes (running total `T`
from 0; a record is marked iff `T + size + 2 ≤ B`, and then `T` grows by
`size + 2`), so that record `i` is marked iff the sum of `size + 2` over the
marked records before it, plus its own `size + 2`, is at most `B`; the returned flag is true iff at least two records are marked, and
the sum of `size + 2` over the marked records does not exceed `B`. -/
theorem scl_greedy_aggregation (c : Codec) (data : List Byte) (data_len packet_size : Nat)
    (hc : c.get_start_code_range = 4) (hlen : data_len < 2 ^ 64)
    (hps : c.get_payload_header_size ≤ packet_size) (hps64 : packet_size < 2 ^ 64) :
    ∃ r hits nals flag,
      find_h26x_start_code c data data_len 0 0 = some r ∧
      scl_find c data_len (data_len + 1) r.data r.ret r.start_len [] = some (data, hits) ∧
      (r.ret > -1 → ∃ rest, hits = ⟨r.ret.toNat, r.start_len, 0, false⟩ :: rest) ∧
      scl c data data_len packet_size [] = some (data, nals, flag) ∧
      nals = (scl_sizes data_len (size_sub packet_size c.get_payload_header_size) hits 0 0).1 ∧
      nals.length = hits.length ∧
      nals.map (fun n => (n.offset, n.prefix_len))
        = hits.map (fun n => (n.offset, n.prefix_len)) ∧
      nals.map (fun n => n.aggregate) =
        greedy_marks (packet_size - c.get_payload_header_size) (nals.map (fun n => n.size)) 0 ∧
      (∀ (i : Nat) (x : nal_info), nals[i]? = some x →
        (x.aggregate = true ↔
          marked_total (nals.take i) + x.size + 2 ≤ packet_size - c.get_payload_header_size)) ∧
      (flag = true ↔ 2 ≤ (nals.filter (fun n => n.aggregate)).length) ∧
      marked_total nals ≤ packet_size - c.get_payload_header_size := by
  obtain ⟨r, hits, hr, hh, hs, hfirst, -⟩ := scl_hits c data data_len packet_size hc
  obtain ⟨nals, flag, h, -, -, hgr, hflag⟩ := scl_spec c data data_len packet_size hc hlen
  have hkeep := scl_sizes_keeps data_len (size_sub packet_size c.get_payload_header_size)
    hits 0 0
  rw [h] at hs
  obtain ⟨hn, -⟩ : nals = (scl_sizes data_len (size_sub packet_size c.get_payload_header_size)
      hits 0 0).1 ∧ flag = decide ((scl_sizes data_len
        (size_sub packet_size c.get_payload_header_size) hits 0 0).2.2 ≥ 2) := by
    simpa using hs
  rw [size_sub_eq packet_size _ hps64 hps] at hgr
  refine ⟨r, hits, nals, flag, hr, hh, hfirst, h, hn, ?_, ?_, hgr, ?_, hflag, ?_⟩
  · have := congrArg List.length hkeep
    rw [hn]
    simpa using this
  · rw [hn]; exact hkeep
  · intro i x hx
    have := greedy_marks_each _ nals 0 hgr i x hx
    rw [this]
    omega
  · have := greedy_marks_total _ nals 0 (Nat.zero_le _) hgr
    omega

set_option maxRecDepth 100000 in
/-- Claim C7 at the 20-byte buffer with the NAL units `AA` and `BB CC 01 .. 0A`
and a payload size of 9 bytes (budget 7): the 1-byte unit is marked
(`0 + 1 + 2 ≤ 7`), the 12-byte unit is not (`3 + 12 + 2 > 7`), and the flag is
false; with a payload size of 1400 both are marked and the flag is true. -/
theorem scl_greedy_aggregation_witness :
    h265.get_start_code_range = 4 ∧ 20 < 2 ^ 64 ∧ h265.get_payload_header_size ≤ 9 ∧
    9 < 2 ^ 64 ∧
    scl h265 two_nal_long_buffer 20 9 []
      = some (two_nal_long_buffer, [⟨4, 4, 1, true⟩, ⟨8, 3, 12, false⟩], false) ∧
    greedy_marks (9 - h265.get_payload_header_size) [1, 12] 0 = [true, false] ∧
    scl h265 two_nal_long_buffer 20 1400 []
      = some (two_nal_long_buffer, [⟨4, 4, 1, true⟩, ⟨8, 3, 12, true⟩], true) ∧
    ∃ r hits nals flag,
      find_h26x_start_code h265 two_nal_long_buffer 20 0 0 = some r ∧
      scl_find h265 20 (20 + 1) r.data r.ret r.start_len [] = some (two_nal_long_buffer, hits) ∧
      (r.ret > -1 → ∃ rest, hits = ⟨r.ret.toNat, r.start_len, 0, false⟩ :: rest) ∧
      scl h265 two_nal_long_buffer 20 9 [] = some (two_nal_long_buffer, nals, flag) ∧
      nals = (scl_sizes 20 (size_sub 9 h265.get_payload_header_size) hits 0 0).1 ∧
      nals.length = hits.length ∧
      nals.map (fun n => (n.offset, n.prefix_len))
        = hits.map (fun n => (n.offset, n.prefix_len)) ∧
      nals.map (fun n => n.aggregate) =
        greedy_marks (9 - h265.get_payload_header_size) (nals.map (fun n => n.size)) 0 ∧
      (∀ (i : Nat) (x : nal_info), nals[i]? = some x →
        (x.aggregate = true ↔
          marked_total (nals.take i) + x.size + 2 ≤ 9 - h265.get_payload_header_size)) ∧
      (flag = true ↔ 2 ≤ (nals.filter (fun n => n.aggregate)).length) ∧
      marked_total nals ≤ 9 - h265.get_payload_header_size :=
  ⟨rfl, by norm_num, by decide, by norm_num, by decide, by decide, by decide,
    scl_greedy_aggregation h265 two_nal_long_buffer 20 9 rfl (by norm_num) (by decide)
      (by norm_num)⟩

end H26x
